import Mathlib

/-!
Wagerr betting settlement: peerless payouts, undo and bet keys.

A shallow embedding of `src/betting/bet_v3.cpp` and of the key codec of
`src/betting/bet_db.h`.

* `uint32_t` values are natural numbers reduced with `u32`; `CAmount` / `int64_t`
  values are integers.  The products and sums of amounts (`betAmount * odds`, the two
  running sums, the fee pool, `fee * 4000`) and the start-time test are reduced with `i64`
  (two's complement wrap-around); block heights and chain parameters are small and are
  combined as plain integers.  Signed division is `Int.tdiv` (truncation toward zero).
* Byte streams are lists of natural numbers below 256.
* The bets table is the list of its `(key, record)` entries in iterator order, each entry
  being what `BytesToDbType` yields for `it->Key()` and `it->Value()`; `Seek` and `Update`
  compare keys through `DbTypeToBytes`, as the table does.
* Chain parameters and the functions whose bodies live in other translation units
  (`GetBetOdds`, `GetBetPotentialOdds`, `GetPLResults`, ...) are fields of `Env`.
-/

namespace Wagerr

/-! ## Machine integers and constants -/

/-- Conversion to `uint32_t` of a non-negative value: reduction modulo `2^32`. -/
def u32 (n : Nat) : Nat := n % 4294967296

/-- Conversion of a signed value to `uint32_t`. -/
def u32OfInt (x : Int) : Nat := (x % 4294967296).toNat

/-- Value of a 64-bit two's complement word: the representative of `x` modulo `2^64`
in `[-2^63, 2^63)`.  Used for every `int64_t` result and for the cast `(int64_t)`. -/
def i64 (x : Int) : Int :=
  (x + 9223372036854775808) % 18446744073709551616 - 9223372036854775808

/-- Modelled from the spec: the macro `BET_ODDSDIVISOR` of `betting/bet_common.h`,
the odds divisor D = 10000. -/
def BET_ODDSDIVISOR : Nat := 10000

/-- Modelled from the spec: the constant `COIN` of `amount.h`, 1 coin = 10^8 atoms. -/
def COIN : Int := 100000000

/-! ## Records of `bet_db.h` -/

/-- Modelled from the spec: the type `COutPoint` of `primitives/transaction.h`, the
transaction output `(hash, index)` that funds a bet. -/
structure COutPoint where
  hash : Nat
  n : Nat
deriving DecidableEq, Repr

/-- Modelled from the spec: the default-constructed `COutPoint()`, the zero outpoint used
for reward records: null hash and the null index. -/
def COutPoint.null : COutPoint := ⟨0, 4294967295⟩

/-- Modelled from the spec: `operator<` of `COutPoint`, hash first, then index. -/
def COutPoint.lt (a b : COutPoint) : Bool :=
  decide (a.hash < b.hash) || (decide (a.hash = b.hash) && decide (a.n < b.n))

/-- The struct `PeerlessBetKey`. -/
structure PeerlessBetKey where
  blockHeight : Nat
  outPoint : COutPoint
deriving DecidableEq, Repr

/-- The default constructor `PeerlessBetKey()`: height 0 and `COutPoint()`. -/
def PeerlessBetKey.default : PeerlessBetKey := ⟨0, COutPoint.null⟩

/-- Lexicographic order on bet keys, block height first, then outpoint, as
`CPayoutInfoDB::CompareTo` orders the key part. -/
def PeerlessBetKey.lt (a b : PeerlessBetKey) : Bool :=
  decide (a.blockHeight < b.blockHeight) ||
    (decide (a.blockHeight = b.blockHeight) && COutPoint.lt a.outPoint b.outPoint)

/-- The class `CPeerlessLegDB`: event id and outcome (the `OutcomeType` discriminant). -/
structure CPeerlessLegDB where
  nEventId : Nat
  nOutcome : Nat
deriving DecidableEq, Repr

/-- The class `CPeerlessBaseEventDB` with its default member initialisers. -/
structure CPeerlessBaseEventDB where
  nEventId : Nat := 0
  nStartTime : Nat := 0
  nSport : Nat := 0
  nTournament : Nat := 0
  nStage : Nat := 0
  nHomeTeam : Nat := 0
  nAwayTeam : Nat := 0
  nHomeOdds : Nat := 0
  nAwayOdds : Nat := 0
  nDrawOdds : Nat := 0
  nSpreadPoints : Int := 0
  nSpreadHomeOdds : Nat := 0
  nSpreadAwayOdds : Nat := 0
  nTotalPoints : Nat := 0
  nTotalOverOdds : Nat := 0
  nTotalUnderOdds : Nat := 0
  nEventCreationHeight : Int := 0
  fLegacyInitialHomeFavorite : Bool := true
deriving DecidableEq, Repr

/-- The class `CPeerlessResultDB`. -/
structure CPeerlessResultDB where
  nEventId : Nat
  nResultType : Nat
  nHomeScore : Nat
  nAwayScore : Nat
deriving DecidableEq, Repr

/-- The enum `BetResultType`. -/
inductive BetResultType where
  | betResultUnknown
  | betResultWin
  | betResultLose
  | betResultRefund
  | betResultPartialWin
  | betResultPartialLose
deriving DecidableEq, Repr

/-- The enum `PayoutType`. -/
inductive PayoutType where
  | bettingPayout
  | bettingRefund
  | bettingReward
  | chainGamesPayout
  | chainGamesRefund
  | chainGamesReward
  | quickGamesPayout
  | quickGamesRefund
  | quickGamesReward
deriving DecidableEq, Repr

/-- A destination (`CTxDestination`), kept as an uninterpreted number. -/
abbrev CTxDestination := Nat

/-- A script (`CScript`), kept as its bytes. -/
abbrev CScript := List Nat

/-- The class `CPeerlessBetDB`; `completed` is its private flag. -/
structure CPeerlessBetDB where
  betAmount : Int
  playerAddress : CTxDestination
  legs : List CPeerlessLegDB
  lockedEvents : List CPeerlessBaseEventDB
  betTime : Int
  resultType : BetResultType := BetResultType.betResultUnknown
  payout : Int := 0
  payoutHeight : Nat := 0
  completed : Bool := false
deriving DecidableEq, Repr

/-- The class `CPayoutInfoDB`. -/
structure CPayoutInfoDB where
  betKey : PeerlessBetKey
  payoutType : PayoutType
deriving DecidableEq, Repr

/-- The class `CBetOut` as the payout engine builds it: value, script, stake and event id
(0 when the constructor is called without one). -/
structure CBetOut where
  nValue : Int
  scriptPubKey : CScript
  nBetValue : Int
  nEventId : Nat := 0
deriving DecidableEq, Repr

/-- The class `CChainGamesEventDB`. -/
structure CChainGamesEventDB where
  nEventId : Nat
  nEntryFee : Nat
deriving DecidableEq, Repr

/-- The class `CChainGamesBetDB`; `completed` is its private flag. -/
structure CChainGamesBetDB where
  nEventId : Nat
  betAmount : Int
  playerAddress : CTxDestination
  betTime : Int
  payout : Int := 0
  payoutHeight : Nat := 0
  completed : Bool := false
deriving DecidableEq, Repr

/-- The class `CChainGamesResultDB`. -/
structure CChainGamesResultDB where
  nEventId : Nat
deriving DecidableEq, Repr

/-! ## Key codec -/

/-- Modelled from the spec: `htonl` on the little-endian host the node runs on, the
byte swap of a 32-bit word; followed by `ser_writedata32` it yields the big-endian key
bytes of section 4.1. -/
def htonl (x : Nat) : Nat :=
  (x % 256) * 16777216 + (x / 256 % 256) * 65536 + (x / 65536 % 256) * 256 + x / 16777216 % 256

/-- Modelled from the spec: `ntohl`, the same byte swap. -/
def ntohl (x : Nat) : Nat := htonl x

/-- Modelled from the spec: `ser_writedata32` of `serialize.h`, which appends the four
bytes of a 32-bit word to the stream, least significant byte first. -/
def ser_writedata32 (s : List Nat) (obj : Nat) : List Nat :=
  s ++ [obj % 256, obj / 256 % 256, obj / 65536 % 256, obj / 16777216 % 256]

/-- Modelled from the spec: `ser_readdata32` of `serialize.h`, which takes four bytes off
the stream, least significant byte first; `none` when the stream is too short. -/
def ser_readdata32 : List Nat → Option (Nat × List Nat)
  | a :: b :: c :: d :: rest => some (a + 256 * b + 65536 * c + 16777216 * d, rest)
  | _ => none

/-- The method `PeerlessBetKey::Serialize`: the block height, byte-swapped, and nothing
else. -/
def PeerlessBetKey.Serialize (s : List Nat) (k : PeerlessBetKey) : List Nat :=
  ser_writedata32 s (htonl k.blockHeight)

/-- The method `PeerlessBetKey::Unserialize`, run on the object `k`: the block height is
read, the other member keeps the value it had. -/
def PeerlessBetKey.Unserialize (s : List Nat) (k : PeerlessBetKey) :
    Option (PeerlessBetKey × List Nat) :=
  match ser_readdata32 s with
  | some (be_val, rest) => some ({ k with blockHeight := ntohl be_val }, rest)
  | none => none

/-- The function `CBettingDB::DbTypeToBytes` at `PeerlessBetKey`. -/
def DbTypeToBytes (value : PeerlessBetKey) : List Nat :=
  PeerlessBetKey.Serialize [] value

/-- The function `CBettingDB::BytesToDbType` at `PeerlessBetKey`, writing into `value`;
`none` when a read runs past the end or the final `assert(stream.size() == 0)` fails. -/
def BytesToDbType (bytes : List Nat) (value : PeerlessBetKey) : Option PeerlessBetKey :=
  match PeerlessBetKey.Unserialize bytes value with
  | some (v, rest) => if rest.isEmpty then some v else none
  | none => none

/-- Bytewise lexicographic order on encoded keys, the order of the table iterator. -/
def bytesLt : List Nat → List Nat → Bool
  | [], [] => false
  | [], _ :: _ => true
  | _ :: _, [] => false
  | a :: as, b :: bs => decide (a < b) || (decide (a = b) && bytesLt as bs)

/-! ## Environment of the payout engine -/

/-- The tables of `CBettingsView` that the payout engine uses.  `bets` and
`chainGamesLottoBets` list their entries in iterator order; `results` and
`chainGamesLottoEvents` list the stored records. -/
structure CBettingsView where
  bets : List (PeerlessBetKey × CPeerlessBetDB)
  results : List CPeerlessResultDB
  chainGamesLottoEvents : List CChainGamesEventDB := []
  chainGamesLottoBets : List (PeerlessBetKey × CChainGamesBetDB) := []
deriving DecidableEq, Repr

/-- Chain parameters (`Params().GetConsensus()`) and the functions of other translation
units that `bet_v3.cpp` calls.  The parameters are integers; `GetBetOdds` and
`GetBetPotentialOdds` return `uint32_t` values and are reduced with `u32` where they are
called.  `mapProofOfStake h` and `GetBlockHash h` are the proof-of-stake hash recorded
for the block at height `h` of the active chain and that block's hash, as 256-bit
numbers. -/
structure Env where
  WagerrProtocolV3StartHeight : Int
  BetBlocksIndexTimespanV2 : Int
  BetBlocksIndexTimespanV3 : Int
  BetPlaceTimeoutBlocks : Int
  MinBetPayoutRange : Int
  MaxBetPayoutRange : Int
  eventClosed : Nat
  chainActiveHeight : Int
  GetPLResults : Int → List CPeerlessResultDB
  GetBetOdds : CPeerlessLegDB → CPeerlessBaseEventDB → CPeerlessResultDB → Bool → Nat × Nat
  GetBetPotentialOdds : CPeerlessLegDB → CPeerlessBaseEventDB → Nat
  CalculatePayoutBurnAmounts : Int → Nat → Int × Int
  GetPLRewardPayoutsV2 : Int → List CBetOut × List CPayoutInfoDB
  GetFeePayoutScripts : Nat → Option (CScript × CScript)
  GetScriptForDestination : CTxDestination → CScript
  GetCGLottoEventResults : Int → List CChainGamesResultDB
  mapProofOfStake : Int → Nat
  GetBlockHash : Int → Nat

/-- The call `results->Read(ResultKey{eventId}, res)`: the stored result of an event. -/
def CBettingsView.ReadResult (view : CBettingsView) (eventId : Nat) :
    Option CPeerlessResultDB :=
  view.results.find? (fun r => r.nEventId == eventId)

/-- The iterator positioned by `it->Seek(DbTypeToBytes(start))`: the entries whose
encoded key is not below the encoded start key. -/
def Seek {α : Type} (start : PeerlessBetKey) (bets : List (PeerlessBetKey × α)) :
    List (PeerlessBetKey × α) :=
  bets.dropWhile (fun e => bytesLt (DbTypeToBytes e.1) (DbTypeToBytes start))

/-- The call `bets->Update(key, value)`: the value stored under the encoded key is
replaced; nothing happens when the encoded key is absent. -/
def Update {α : Type} (bets : List (PeerlessBetKey × α)) (key : PeerlessBetKey)
    (value : α) : List (PeerlessBetKey × α) :=
  bets.map (fun e => if DbTypeToBytes e.1 = DbTypeToBytes key then (e.1, value) else e)

/-- The closing loop `for (auto pair : vEntriesToUpdate) bets->Update(pair.first, pair.second)`. -/
def UpdateAll {α : Type} (bets : List (PeerlessBetKey × α))
    (vEntriesToUpdate : List (PeerlessBetKey × α)) : List (PeerlessBetKey × α) :=
  vEntriesToUpdate.foldl (fun b pair => Update b pair.1 pair.2) bets

/-! ## `GetPLRewardPayoutsV3` and `GetBetSearchStartHeight` -/

/-- The function `GetPLRewardPayoutsV3`: appends the developer and the operator reward
to the two vectors. -/
def GetPLRewardPayoutsV3 (env : Env) (nNewBlockHeight : Nat) (fee : Int)
    (vExpectedPayouts : List CBetOut) (vPayoutsInfo : List CPayoutInfoDB) :
    List CBetOut × List CPayoutInfoDB :=
  let zeroKey : PeerlessBetKey := ⟨nNewBlockHeight, COutPoint.null⟩
  match env.GetFeePayoutScripts nNewBlockHeight with
  | none => (vExpectedPayouts, vPayoutsInfo)
  | some (payoutScriptDev, payoutScriptOMNO) =>
    let nOMNOReward : Int := Int.tdiv (i64 (fee * 4000)) BET_ODDSDIVISOR
    let nDevReward : Int := Int.tdiv (i64 (fee * 1000)) BET_ODDSDIVISOR
    let afterDev : List CBetOut × List CPayoutInfoDB :=
      if nDevReward > 0 then
        (vExpectedPayouts ++ [⟨nDevReward, payoutScriptDev, 0, 0⟩],
         vPayoutsInfo ++ [⟨zeroKey, PayoutType.bettingReward⟩])
      else (vExpectedPayouts, vPayoutsInfo)
    if nOMNOReward > 0 then
      (afterDev.1 ++ [⟨nOMNOReward, payoutScriptOMNO, 0, 0⟩],
       afterDev.2 ++ [⟨zeroKey, PayoutType.bettingReward⟩])
    else afterDev

/-- The function `GetBetSearchStartHeight`; the result is converted to `uint32_t`. -/
def GetBetSearchStartHeight (env : Env) (nHeight : Int) : Nat :=
  if nHeight ≥ env.WagerrProtocolV3StartHeight then
    u32OfInt (if nHeight ≥ env.BetBlocksIndexTimespanV3
      then nHeight - env.BetBlocksIndexTimespanV3 else env.WagerrProtocolV3StartHeight)
  else
    u32OfInt (if nHeight ≥ env.BetBlocksIndexTimespanV2
      then nHeight - env.BetBlocksIndexTimespanV2 else 0)

/-! ## `GetPLBetPayoutsV3` -/

/-- The three locals `legHalfLose`, `legHalfWin`, `legRefund` of the bet loop. -/
structure LegFlags where
  legHalfLose : Bool := false
  legHalfWin : Bool := false
  legRefund : Bool := false
deriving DecidableEq, Repr

/-- The chain `if (odds.first == 0) {} else if (== refundOdds) ... else if (< potential)`
that sets one of the three flags from a leg's onchain odds. -/
def markLeg (first potential : Nat) (fl : LegFlags) : LegFlags :=
  if first = 0 then fl
  else if first = BET_ODDSDIVISOR then { fl with legRefund := true }
  else if first = BET_ODDSDIVISOR / 2 then { fl with legHalfLose := true }
  else if first < potential then { fl with legHalfWin := true }
  else fl

/-- The test `lockedEvent.nStartTime > 0 && betTime > ((int64_t)nStartTime - timeout)`. -/
def placedTooLate (env : Env) (lockedEvent : CPeerlessBaseEventDB) (betTime : Int) : Bool :=
  decide (lockedEvent.nStartTime > 0) &&
    decide (betTime > i64 (i64 (lockedEvent.nStartTime : Int) - env.BetPlaceTimeoutBlocks))

/-- The pair `betOdds` of one parlay leg: the refund pair when the bet was placed too
late, else what `GetBetOdds` returns. -/
def legOdds (env : Env) (fWagerrProtocolV3 : Bool) (betTime : Int) (leg : CPeerlessLegDB)
    (lockedEvent : CPeerlessBaseEventDB) (res : CPeerlessResultDB) : Nat × Nat :=
  if placedTooLate env lockedEvent betTime then
    (if fWagerrProtocolV3 then (BET_ODDSDIVISOR, BET_ODDSDIVISOR) else (0, 0))
  else
    (u32 (env.GetBetOdds leg lockedEvent res fWagerrProtocolV3).1,
     u32 (env.GetBetOdds leg lockedEvent res fWagerrProtocolV3).2)

/-- The locals of the parlay leg loop. -/
structure ParlayState where
  completedBet : Bool
  firstOddMultiply : Bool
  finalOdds : Nat × Nat
  flags : LegFlags
deriving DecidableEq, Repr

/-- One step of `// multiply odds`: the first leg's odds are taken as they are, a later
leg multiplies both components, divides by the divisor and converts to `uint32_t`. -/
def multiplyOdds (firstOddMultiply : Bool) (finalOdds betOdds : Nat × Nat) : Nat × Nat :=
  if firstOddMultiply then betOdds
  else (u32 (finalOdds.1 * betOdds.1 / BET_ODDSDIVISOR),
        u32 (finalOdds.2 * betOdds.2 / BET_ODDSDIVISOR))

/-- The loop `for (idx = 0; idx < legs.size(); idx++)` of a parlay, from leg `idx` on:
a leg without stored result clears `completedBet` and leaves the loop. -/
def parlayLegs (env : Env) (view : CBettingsView) (fWagerrProtocolV3 : Bool)
    (uniBet : CPeerlessBetDB) : List CPeerlessLegDB → Nat → ParlayState → ParlayState
  | [], _, st => st
  | leg :: rest, idx, st =>
    let lockedEvent := uniBet.lockedEvents.getD idx {}
    match view.ReadResult leg.nEventId with
    | some res =>
      let betOdds := legOdds env fWagerrProtocolV3 uniBet.betTime leg lockedEvent res
      parlayLegs env view fWagerrProtocolV3 uniBet rest (idx + 1)
        { completedBet := st.completedBet
          firstOddMultiply := false
          finalOdds := multiplyOdds st.firstOddMultiply st.finalOdds betOdds
          flags := markLeg betOdds.1 (u32 (env.GetBetPotentialOdds leg lockedEvent)) st.flags }
    | none => { st with completedBet := false }

/-- What the loop body records for a bet it completes: the key, the record written back,
the final odds after the bet-size clamp, the two payouts and the appended output with its
payout-info record (both empty when the payout is not positive). -/
structure HandledBet where
  key : PeerlessBetKey
  bet : CPeerlessBetDB
  finalOdds : Nat × Nat
  effectivePayout : Int
  grossPayout : Int
  outs : List CBetOut
  infos : List CPayoutInfoDB
deriving DecidableEq, Repr

/-- The classification of a bet whose payout is positive (the inner `if` chain). -/
def classifyPaid (effectivePayout betAmount : Int) (finalOddsFirst legCount : Nat)
    (fl : LegFlags) : BetResultType :=
  if effectivePayout < betAmount then BetResultType.betResultPartialLose
  else if finalOddsFirst = BET_ODDSDIVISOR then BetResultType.betResultRefund
  else if (legCount = 1 ∧ fl.legHalfWin = true) ∨
      (legCount > 1 ∧ (fl.legHalfWin = true ∨ fl.legHalfLose = true ∨ fl.legRefund = true)) then
    BetResultType.betResultPartialWin
  else BetResultType.betResultWin

/-- The bet-size clamp `if (betAmount < Min * COIN || betAmount > Max * COIN)`: the final
odds become the refund pair (v3) or `{0, 0}` (before v3). -/
def clampOdds (env : Env) (fWagerrProtocolV3 : Bool) (betAmount : Int) (odds : Nat × Nat) :
    Nat × Nat :=
  if betAmount < env.MinBetPayoutRange * COIN ∨ betAmount > env.MaxBetPayoutRange * COIN then
    (if fWagerrProtocolV3 then (BET_ODDSDIVISOR, BET_ODDSDIVISOR) else (0, 0))
  else odds

/-- The amount `betAmount * odds / BET_ODDSDIVISOR` in `int64_t` arithmetic. -/
def payoutAmount (betAmount : Int) (odds : Nat) : Int :=
  Int.tdiv (i64 (betAmount * (odds : Int))) BET_ODDSDIVISOR

/-- The local `effectivePayout`: from `CalculatePayoutBurnAmounts` before v3, from the
effective odds from v3 on. -/
def effectivePayoutOf (env : Env) (fWagerrProtocolV3 : Bool) (betAmount : Int)
    (finalOdds : Nat × Nat) : Int :=
  if fWagerrProtocolV3 then payoutAmount betAmount finalOdds.2
  else (env.CalculatePayoutBurnAmounts betAmount finalOdds.1).1

/-- The local `grossPayout`: computed from the onchain odds from v3 on, not computed
(0 here) before v3. -/
def grossPayoutOf (fWagerrProtocolV3 : Bool) (betAmount : Int) (finalOdds : Nat × Nat) : Int :=
  if fWagerrProtocolV3 then payoutAmount betAmount finalOdds.1 else 0

/-- The block `if (completedBet) { ... }`: bet-size clamp, payouts, output, result type,
completion mark. -/
def settleBet (env : Env) (fWagerrProtocolV3 : Bool) (nNewBlockHeight : Int)
    (uniBetKey : PeerlessBetKey) (uniBet : CPeerlessBetDB) (odds : Nat × Nat)
    (fl : LegFlags) : HandledBet :=
  let finalOdds := clampOdds env fWagerrProtocolV3 uniBet.betAmount odds
  let effectivePayout := effectivePayoutOf env fWagerrProtocolV3 uniBet.betAmount finalOdds
  let grossPayout := grossPayoutOf fWagerrProtocolV3 uniBet.betAmount finalOdds
  if effectivePayout > 0 then
    { key := uniBetKey
      bet := { uniBet with
        resultType := classifyPaid effectivePayout uniBet.betAmount finalOdds.1
          uniBet.legs.length fl
        payoutHeight := u32OfInt nNewBlockHeight
        payout := effectivePayout
        completed := true }
      finalOdds := finalOdds
      effectivePayout := effectivePayout
      grossPayout := grossPayout
      outs := [⟨effectivePayout, env.GetScriptForDestination uniBet.playerAddress,
        uniBet.betAmount, 0⟩]
      infos := [⟨uniBetKey, if finalOdds.2 ≤ BET_ODDSDIVISOR then PayoutType.bettingRefund
        else PayoutType.bettingPayout⟩] }
  else
    { key := uniBetKey
      bet := { uniBet with
        resultType := BetResultType.betResultLose
        payout := effectivePayout
        completed := true }
      finalOdds := finalOdds
      effectivePayout := effectivePayout
      grossPayout := grossPayout
      outs := []
      infos := [] }

/-- The final odds of a single bet on the event of `result`: the refund pair when the bet
was placed too late, `{0, 0}` for an event older than the v2 window before v3, else what
`GetBetOdds` returns. -/
def singleOdds (env : Env) (fWagerrProtocolV3 : Bool) (nLastBlockHeight : Int)
    (betTime : Int) (singleBet : CPeerlessLegDB) (lockedEvent : CPeerlessBaseEventDB)
    (result : CPeerlessResultDB) : Nat × Nat :=
  if placedTooLate env lockedEvent betTime then
    (if fWagerrProtocolV3 then (BET_ODDSDIVISOR, BET_ODDSDIVISOR) else (0, 0))
  else if (!fWagerrProtocolV3) && decide (nLastBlockHeight -
      lockedEvent.nEventCreationHeight > env.BetBlocksIndexTimespanV2) then (0, 0)
  else
    (u32 (env.GetBetOdds singleBet lockedEvent result fWagerrProtocolV3).1,
     u32 (env.GetBetOdds singleBet lockedEvent result fWagerrProtocolV3).2)

/-- The locals of the parlay leg loop when it is entered. -/
def parlayStart : ParlayState :=
  { completedBet := true, firstOddMultiply := true, finalOdds := (0, 0), flags := {} }

/-- The body of the loop over the bets iterator for one `result`: `none` when the entry
is skipped or not completed, else what `settleBet` records. -/
def handleBet (env : Env) (view : CBettingsView) (nNewBlockHeight : Int)
    (result : CPeerlessResultDB) (uniBetKey : PeerlessBetKey) (uniBet : CPeerlessBetDB) :
    Option HandledBet :=
  let nLastBlockHeight : Int := nNewBlockHeight - 1
  let fWagerrProtocolV3 : Bool := decide (nLastBlockHeight ≥ env.WagerrProtocolV3StartHeight)
  if fWagerrProtocolV3 && uniBet.completed then none
  else
    match uniBet.legs with
    | [] => none
    | [singleBet] =>
      let lockedEvent := uniBet.lockedEvents.getD 0 {}
      if singleBet.nEventId = result.nEventId then
        let finalOdds := singleOdds env fWagerrProtocolV3 nLastBlockHeight uniBet.betTime
          singleBet lockedEvent result
        some (settleBet env fWagerrProtocolV3 nNewBlockHeight uniBetKey uniBet finalOdds
          (markLeg finalOdds.1 (u32 (env.GetBetPotentialOdds singleBet lockedEvent)) {}))
      else none
    | leg0 :: leg1 :: more =>
      if (leg0 :: leg1 :: more).any (fun leg => leg.nEventId == result.nEventId) then
        let st := parlayLegs env view fWagerrProtocolV3 uniBet (leg0 :: leg1 :: more) 0
          parlayStart
        if st.completedBet then
          some (settleBet env fWagerrProtocolV3 nNewBlockHeight uniBetKey uniBet
            st.finalOdds st.flags)
        else none
      else none

/-- The locals that `GetPLBetPayoutsV3` carries across its loops: the view, the two
output vectors, the two sums, and the list of handled bets in the order the
`Bet ... is handled!` log lines are written. -/
structure PLState where
  view : CBettingsView
  vExpectedPayouts : List CBetOut
  vPayoutsInfo : List CPayoutInfoDB
  effectivePayoutsSum : Int
  grossPayoutsSum : Int
  handled : List HandledBet
deriving DecidableEq, Repr

/-- One iteration of the loop over the bets iterator; `vEntriesToUpdate` is threaded
next to the state. -/
def betStep (env : Env) (nNewBlockHeight : Int) (result : CPeerlessResultDB)
    (acc : PLState × List (PeerlessBetKey × CPeerlessBetDB))
    (entry : PeerlessBetKey × CPeerlessBetDB) :
    PLState × List (PeerlessBetKey × CPeerlessBetDB) :=
  match handleBet env acc.1.view nNewBlockHeight result entry.1 entry.2 with
  | none => acc
  | some h =>
    let fWagerrProtocolV3 : Bool :=
      decide (nNewBlockHeight - 1 ≥ env.WagerrProtocolV3StartHeight)
    ({ view := acc.1.view
       vExpectedPayouts := acc.1.vExpectedPayouts ++ h.outs
       vPayoutsInfo := acc.1.vPayoutsInfo ++ h.infos
       effectivePayoutsSum :=
         if fWagerrProtocolV3 then i64 (acc.1.effectivePayoutsSum + h.effectivePayout)
         else acc.1.effectivePayoutsSum
       grossPayoutsSum :=
         if fWagerrProtocolV3 then i64 (acc.1.grossPayoutsSum + h.grossPayout)
         else acc.1.grossPayoutsSum
       handled := acc.1.handled ++ [h] },
     acc.2 ++ [(h.key, h.bet)])

/-- The body of `for (auto result : results)`: closed events are skipped; the bets from
the search start height on are scanned; the collected entries are written back. -/
def resultStep (env : Env) (nNewBlockHeight : Int) (st : PLState)
    (result : CPeerlessResultDB) : PLState :=
  if result.nResultType = env.eventClosed then st
  else
    let startHeight := GetBetSearchStartHeight env (nNewBlockHeight - 1)
    let scanned := (Seek ⟨u32 startHeight, COutPoint.null⟩ st.view.bets).foldl
      (betStep env nNewBlockHeight result) (st, [])
    { scanned.1 with
      view := { scanned.1.view with bets := UpdateAll scanned.1.view.bets scanned.2 } }

/-- The loops of `GetPLBetPayoutsV3` up to the reward call, started with the two vectors
as the caller passes them. -/
def plLoops (env : Env) (view : CBettingsView) (nNewBlockHeight : Int)
    (vExpectedPayouts : List CBetOut) (vPayoutsInfo : List CPayoutInfoDB) : PLState :=
  (env.GetPLResults (nNewBlockHeight - 1)).foldl (resultStep env nNewBlockHeight)
    { view := view, vExpectedPayouts := vExpectedPayouts, vPayoutsInfo := vPayoutsInfo,
      effectivePayoutsSum := 0, grossPayoutsSum := 0, handled := [] }

/-- The fee pool `grossPayoutsSum - effectivePayoutsSum` handed to
`GetPLRewardPayoutsV3`. -/
def feePool (st : PLState) : Int := i64 (st.grossPayoutsSum - st.effectivePayoutsSum)

/-- The function `GetPLBetPayoutsV3`: the view after the call and the two vectors. -/
def GetPLBetPayoutsV3 (env : Env) (view : CBettingsView) (nNewBlockHeight : Int)
    (vExpectedPayouts : List CBetOut) (vPayoutsInfo : List CPayoutInfoDB) :
    CBettingsView × List CBetOut × List CPayoutInfoDB :=
  let st := plLoops env view nNewBlockHeight vExpectedPayouts vPayoutsInfo
  if nNewBlockHeight - 1 ≥ env.WagerrProtocolV3StartHeight then
    let r := GetPLRewardPayoutsV3 env (u32OfInt nNewBlockHeight) (feePool st)
      st.vExpectedPayouts st.vPayoutsInfo
    (st.view, r.1, r.2)
  else
    (st.view, st.vExpectedPayouts ++ (env.GetPLRewardPayoutsV2 nNewBlockHeight).1,
      st.vPayoutsInfo ++ (env.GetPLRewardPayoutsV2 nNewBlockHeight).2)

/-! ## `UndoPLBetPayouts` -/

/-- The test `needUndo` of `UndoPLBetPayouts` for a completed bet and one result. -/
def needUndo (view : CBettingsView) (result : CPeerlessResultDB) (uniBet : CPeerlessBetDB) :
    Bool :=
  match uniBet.legs with
  | [] => false
  | [singleBet] => decide (singleBet.nEventId = result.nEventId)
  | leg0 :: leg1 :: more =>
    (leg0 :: leg1 :: more).any (fun leg => leg.nEventId == result.nEventId) &&
      (leg0 :: leg1 :: more).all (fun leg => (view.ReadResult leg.nEventId).isSome)

/-- One iteration of the undo loop over the bets iterator: a completed bet that needs
undo is queued with `completed = false`, `resultType = unknown`, `payout = 0`. -/
def undoStep (view : CBettingsView) (result : CPeerlessResultDB)
    (vEntriesToUpdate : List (PeerlessBetKey × CPeerlessBetDB))
    (entry : PeerlessBetKey × CPeerlessBetDB) : List (PeerlessBetKey × CPeerlessBetDB) :=
  if !entry.2.completed then vEntriesToUpdate
  else if needUndo view result entry.2 then
    vEntriesToUpdate ++ [(entry.1, { entry.2 with
      completed := false
      resultType := BetResultType.betResultUnknown
      payout := 0 })]
  else vEntriesToUpdate

/-- The body of `for (auto result : results)` in `UndoPLBetPayouts`. -/
def undoResultStep (env : Env) (view : CBettingsView) (result : CPeerlessResultDB) :
    CBettingsView :=
  if result.nResultType = env.eventClosed then view
  else
    let startHeight := GetBetSearchStartHeight env env.chainActiveHeight
    let vEntriesToUpdate := (Seek ⟨startHeight, COutPoint.null⟩ view.bets).foldl
      (undoStep view result) []
    { view with bets := UpdateAll view.bets vEntriesToUpdate }

/-- The function `UndoPLBetPayouts`: the view after the call (the function returns
`true` on every path). -/
def UndoPLBetPayouts (env : Env) (view : CBettingsView) (height : Int) : CBettingsView :=
  (env.GetPLResults (height - 1)).foldl (undoResultStep env) view

/-- The protocol flag `fWagerrProtocolV3` of a payout call for `nNewBlockHeight`. -/
def isV3 (env : Env) (nNewBlockHeight : Int) : Bool :=
  decide (nNewBlockHeight - 1 ≥ env.WagerrProtocolV3StartHeight)

/-! ## The classification rule in the words of the specification -/

/-- The partial classification as section 4.4 words it, rules applied in order:
`P = 0` gives lose; `P = A` within one atom and onchain odds `D` gives refund; `P < A`
gives partialLose; `P > A` with a half-win single leg, or with a half-win, half-lose or
refunded parlay leg, gives partialWin; otherwise win. -/
def specClassification (P A : Int) (onchainOdds legCount : Nat) (fl : LegFlags) :
    BetResultType :=
  if P = 0 then BetResultType.betResultLose
  else if (A - 1 ≤ P ∧ P ≤ A + 1) ∧ onchainOdds = 10000 then BetResultType.betResultRefund
  else if P < A then BetResultType.betResultPartialLose
  else if P > A ∧ ((legCount = 1 ∧ fl.legHalfWin = true) ∨
      (legCount > 1 ∧ (fl.legHalfWin = true ∨ fl.legHalfLose = true ∨ fl.legRefund = true))) then
    BetResultType.betResultPartialWin
  else BetResultType.betResultWin

/-- The odds of the parlay leg at position `idx`, as the leg loop computes them from the
stored result of the leg's event (`(0, 0)` stands for a leg without stored result). -/
def parlayLegOdds (env : Env) (view : CBettingsView) (fWagerrProtocolV3 : Bool)
    (uniBet : CPeerlessBetDB) (idx : Nat) (leg : CPeerlessLegDB) : Nat × Nat :=
  match view.ReadResult leg.nEventId with
  | some res => legOdds env fWagerrProtocolV3 uniBet.betTime leg
      (uniBet.lockedEvents.getD idx {}) res
  | none => (0, 0)

/-- The odds of the legs `legs`, which stand at positions `idx`, `idx + 1`, ... of the
bet, in leg order. -/
def parlayOddsList (env : Env) (view : CBettingsView) (fWagerrProtocolV3 : Bool)
    (uniBet : CPeerlessBetDB) : List CPeerlessLegDB → Nat → List (Nat × Nat)
  | [], _ => []
  | leg :: rest, idx => parlayLegOdds env view fWagerrProtocolV3 uniBet idx leg ::
      parlayOddsList env view fWagerrProtocolV3 uniBet rest (idx + 1)

/-- One multiplication of the parlay combination in the words of the specification:
`acc * legOdds / 10000`, rounded down, each component kept to 32 bits. -/
def foldStep (acc o : Nat × Nat) : Nat × Nat :=
  ((acc.1 * o.1 / 10000) % 4294967296, (acc.2 * o.2 / 10000) % 4294967296)

/-! ## Concrete scenarios -/

/-- A chain with v3 active from height 100, search windows 50 and 200, place timeout 120,
payout range 25..10000 coins; one result (event 100, home 2 - away 1) posted at height
600.  `GetBetOdds` gives a home moneyline leg (outcome 1) the locked home odds as onchain
odds and, as effective odds, the same with 6% taken off the part above the divisor, when
home wins; it gives `(0, 0)` otherwise. -/
def exEnv : Env where
  WagerrProtocolV3StartHeight := 100
  BetBlocksIndexTimespanV2 := 50
  BetBlocksIndexTimespanV3 := 200
  BetPlaceTimeoutBlocks := 120
  MinBetPayoutRange := 25
  MaxBetPayoutRange := 10000
  eventClosed := 6
  chainActiveHeight := 600
  GetPLResults := fun h => if h = 600 then [⟨100, 1, 2, 1⟩] else []
  GetBetOdds := fun leg ev res _ =>
    if leg.nOutcome = 1 ∧ res.nAwayScore < res.nHomeScore then
      (ev.nHomeOdds, (ev.nHomeOdds - 10000) * 9400 / 10000 + 10000)
    else (0, 0)
  GetBetPotentialOdds := fun leg ev => if leg.nOutcome = 1 then ev.nHomeOdds else ev.nAwayOdds
  CalculatePayoutBurnAmounts := fun _ _ => (0, 0)
  GetPLRewardPayoutsV2 := fun _ => ([], [])
  GetFeePayoutScripts := fun _ => some ([1], [2])
  GetScriptForDestination := fun a => [a]
  GetCGLottoEventResults := fun h => if h = 600 then [⟨7⟩] else []
  mapProofOfStake := fun _ => 12345
  GetBlockHash := fun _ => 777

/-- The result of event 100 posted at height 600: standard result, home 2, away 1. -/
def exResult : CPeerlessResultDB := ⟨100, 1, 2, 1⟩

/-- Event 100 as locked in the bets: start time 1000000, home odds 25958 (effective odds
25000). -/
def exEvent : CPeerlessBaseEventDB :=
  { nEventId := 100, nStartTime := 1000000, nHomeOdds := 25958, nAwayOdds := 20000,
    nDrawOdds := 35000, nEventCreationHeight := 450 }

/-- A single bet of 100 coins on home for event 100, placed well before the start. -/
def exBet : CPeerlessBetDB :=
  { betAmount := 10000000000, playerAddress := 7, legs := [⟨100, 1⟩],
    lockedEvents := [exEvent], betTime := 900000 }

/-- The key of `exBet`: block 500 and the funding outpoint. -/
def exKey : PeerlessBetKey := ⟨500, ⟨11, 0⟩⟩

/-- A store holding `exBet` and the result of event 100. -/
def exView : CBettingsView :=
  { bets := [(exKey, exBet)], results := [exResult] }

/-- The loop state at the start of a payout call on `exView` with empty vectors. -/
def exState : PLState :=
  { view := exView, vExpectedPayouts := [], vPayoutsInfo := [],
    effectivePayoutsSum := 0, grossPayoutsSum := 0, handled := [] }

/-- What the loop body records for `exBet`: final odds (25958, 25000), payout 250 coins,
one output and one payout-info record. -/
def exHandled : HandledBet :=
  { key := exKey
    bet := { exBet with
      resultType := BetResultType.betResultWin
      payout := 25000000000
      payoutHeight := 601
      completed := true }
    finalOdds := (25958, 25000)
    effectivePayout := 25000000000
    grossPayout := 25958000000
    outs := [⟨25000000000, [7], 10000000000, 0⟩]
    infos := [⟨exKey, PayoutType.bettingPayout⟩] }

/-! ## Invariant of the two sums -/

/-- The two running sums are the 64-bit sums of the payouts of the handled bets. -/
def SumInv (st : PLState) : Prop :=
  st.effectivePayoutsSum = i64 (st.handled.map (fun h => h.effectivePayout)).sum ∧
  st.grossPayoutsSum = i64 (st.handled.map (fun h => h.grossPayout)).sum

/-! ## A parlay whose payout equals the stake -/

/-- The chain of `exEnv` with odds looked up by event: the leg on event 100 is a full win
at onchain odds 20639 (effective 20000, potential 20639), the leg on event 101 is a
half-lose at odds 5000 (potential 19000). -/
def c3Env : Env :=
  { exEnv with
    GetBetOdds := fun leg _ _ _ => if leg.nEventId = 100 then (20639, 20000) else (5000, 5000)
    GetBetPotentialOdds := fun leg _ => if leg.nEventId = 100 then 20639 else 19000 }

/-- A two-leg parlay of 100 coins on events 100 and 101, placed before both starts. -/
def c3Bet : CPeerlessBetDB :=
  { betAmount := 10000000000, playerAddress := 7, legs := [⟨100, 1⟩, ⟨101, 4⟩],
    lockedEvents := [exEvent, { exEvent with nEventId := 101 }], betTime := 900000 }

/-- A store with the parlay and the results of both events. -/
def c3View : CBettingsView :=
  { bets := [(exKey, c3Bet)], results := [exResult, ⟨101, 1, 1, 1⟩] }

/-- The parlay `c3Bet` with a stake of 1 coin, below the payout range of 25 coins. -/
def c4Bet : CPeerlessBetDB := { c3Bet with betAmount := 100000000 }

/-! ## Bets at the edges -/

/-- The single bet `exBet` with a stake of -1 atom. -/
def c8Bet : CPeerlessBetDB := { exBet with betAmount := -1 }

/-- The single bet `exBet` on an event locked with start time 0, placed at time 1000. -/
def c9Bet : CPeerlessBetDB :=
  { exBet with lockedEvents := [{ exEvent with nStartTime := 0 }], betTime := 1000 }

/-- The single bet `exBet` placed 30 seconds before the start of the event. -/
def lateBet : CPeerlessBetDB := { exBet with betTime := 999970 }

/-- The single bet `exBet` with a stake of 1 coin, below the payout range. -/
def smallBet : CPeerlessBetDB := { exBet with betAmount := 100000000 }

/-- The record written for a v3 refund of the whole stake at `nNewBlockHeight`. -/
def refundRecord (env : Env) (nNewBlockHeight : Int) (key : PeerlessBetKey)
    (bet : CPeerlessBetDB) : HandledBet :=
  { key := key
    bet := { bet with
      resultType := BetResultType.betResultRefund
      payoutHeight := u32OfInt nNewBlockHeight
      payout := bet.betAmount
      completed := true }
    finalOdds := (10000, 10000)
    effectivePayout := bet.betAmount
    grossPayout := bet.betAmount
    outs := [⟨bet.betAmount, env.GetScriptForDestination bet.playerAddress, bet.betAmount, 0⟩]
    infos := [⟨key, PayoutType.bettingRefund⟩] }

/-! ## Three-leg parlays -/

/-- The chain of `exEnv` with odds looked up by event: full wins at odds 10005 on events
100 and 101 and at odds 15000 on event 102 (onchain, effective and potential alike). -/
def c12Env : Env :=
  { exEnv with
    GetBetOdds := fun leg _ _ _ =>
      if leg.nEventId = 102 then (15000, 15000) else (10005, 10005)
    GetBetPotentialOdds := fun leg _ => if leg.nEventId = 102 then 15000 else 10005 }

/-- A three-leg parlay of 100 coins on events 100, 101, 102, in this order. -/
def c12Bet : CPeerlessBetDB :=
  { betAmount := 10000000000, playerAddress := 7,
    legs := [⟨100, 1⟩, ⟨101, 1⟩, ⟨102, 1⟩],
    lockedEvents := [exEvent, { exEvent with nEventId := 101 }, { exEvent with nEventId := 102 }],
    betTime := 900000 }

/-- The parlay `c12Bet` with its second and third leg exchanged, each leg keeping its
locked event. -/
def c12BetPerm : CPeerlessBetDB :=
  { c12Bet with
    legs := [⟨100, 1⟩, ⟨102, 1⟩, ⟨101, 1⟩]
    lockedEvents := [exEvent, { exEvent with nEventId := 102 }, { exEvent with nEventId := 101 }] }

/-- A store with the results of events 100, 101 and 102. -/
def c12View : CBettingsView :=
  { bets := [(exKey, c12Bet)], results := [exResult, ⟨101, 1, 1, 0⟩, ⟨102, 1, 1, 0⟩] }

/-! ## Folds of leg odds -/

/-- The left fold of `foldStep` over a list of leg odds, started from the first element
(`(0, 0)` for the empty list). -/
def foldOdds : List (Nat × Nat) → Nat × Nat
  | [] => (0, 0)
  | o :: rest => rest.foldl foldStep o

/-- One multiplication `acc * legOdds / 10000`, rounded down, without the 32-bit
truncation. -/
def exactStep (acc o : Nat × Nat) : Nat × Nat :=
  (acc.1 * o.1 / 10000, acc.2 * o.2 / 10000)

/-- The left fold of `exactStep` over a list of leg odds, started from the first element. -/
def foldOddsExact : List (Nat × Nat) → Nat × Nat
  | [] => (0, 0)
  | o :: rest => rest.foldl exactStep o

/-- The chain of `exEnv` with odds looked up by event: full wins at (20000, 19400) on
event 100 and (15000, 14700) on event 101, a push at (10000, 10000) on event 102. -/
def c13Env : Env :=
  { exEnv with
    GetBetOdds := fun leg _ _ _ =>
      if leg.nEventId = 100 then (20000, 19400)
      else if leg.nEventId = 101 then (15000, 14700) else (10000, 10000)
    GetBetPotentialOdds := fun leg _ =>
      if leg.nEventId = 100 then 20000 else if leg.nEventId = 101 then 15000 else 18000 }

/-- The chain of `exEnv` with odds looked up by event: full wins at odds 10000000 on event
100 and 4294973 on event 101, a push at (10000, 10000) on event 102. -/
def c13BigEnv : Env :=
  { exEnv with
    GetBetOdds := fun leg _ _ _ =>
      if leg.nEventId = 100 then (10000000, 10000000)
      else if leg.nEventId = 101 then (4294973, 4294973) else (10000, 10000)
    GetBetPotentialOdds := fun leg _ =>
      if leg.nEventId = 100 then 10000000 else if leg.nEventId = 101 then 4294973 else 18000 }

/-! ## `GetCGLottoBetPayoutsV3` -/

/-- The call `chainGamesLottoEvents->Read(EventKey{eventId}, cgEvent)`. -/
def CBettingsView.ReadCGEvent (view : CBettingsView) (eventId : Nat) :
    Option CChainGamesEventDB :=
  view.chainGamesLottoEvents.find? (fun e => e.nEventId == eventId)

/-- The loop over the chain-games bets iterator for one `result`: an entry that is
completed, is on another event or has a stake other than the entrance fee is skipped; the
others are the candidates, each marked completed, in iterator order. -/
def cgCandidates (entranceFee : Int) (result : CChainGamesResultDB)
    (es : List (PeerlessBetKey × CChainGamesBetDB)) : List (PeerlessBetKey × CChainGamesBetDB) :=
  es.filterMap (fun e =>
    if e.2.completed = true ∨ e.2.nEventId ≠ result.nEventId ∨ e.2.betAmount ≠ entranceFee
    then none
    else some (e.1, { e.2 with completed := true }))

/-- The assignment `candidates[winnerNr].second.payout = winnerPayout`. -/
def setWinnerPayout : List (PeerlessBetKey × CChainGamesBetDB) → Nat → Int →
    List (PeerlessBetKey × CChainGamesBetDB)
  | [], _, _ => []
  | c :: cs, 0, p => (c.1, { c.2 with payout := p }) :: cs
  | c :: cs, n + 1, p => c :: setWinnerPayout cs n p

/-- The hash that picks the winner: the proof-of-stake hash recorded for the last block,
or that block's hash when the former is zero. -/
def cgHash (env : Env) (nLastBlockHeight : Int) : Nat :=
  if env.mapProofOfStake nLastBlockHeight = 0 then env.GetBlockHash nLastBlockHeight
  else env.mapProofOfStake nLastBlockHeight

/-- The local `winnerNr`: the remainder `hash - hash / noOfBets * noOfBets`, low 64 bits. -/
def cgWinnerNr (hash noOfBets : Nat) : Nat :=
  (hash - hash / noOfBets * noOfBets) % 18446744073709551616

/-- The local `totalPot`: 0 for a zero hash, else `noOfBets * entranceFee`. -/
def cgTotalPot (hash noOfBets : Nat) (entranceFee : Int) : Int :=
  if hash = 0 then 0 else i64 ((noOfBets : Int) * entranceFee)

/-- The local `winnerPayout = totalPot / 10 * 8`. -/
def cgWinnerPayout (totalPot : Int) : Int := i64 (Int.tdiv totalPot 10 * 8)

/-- The local `fee = totalPot / 50`. -/
def cgFee (totalPot : Int) : Int := Int.tdiv totalPot 50

/-- The locals that `GetCGLottoBetPayoutsV3` carries across its loop over the results. -/
structure CGState where
  vExpectedPayouts : List CBetOut
  vPayoutsInfo : List CPayoutInfoDB
  vEntriesToUpdate : List (PeerlessBetKey × CChainGamesBetDB)
deriving DecidableEq, Repr

/-- The candidates of `result` in the view, for the entrance fee of its event. -/
def cgCandidatesOf (env : Env) (view : CBettingsView) (nNewBlockHeight : Int)
    (cgEvent : CChainGamesEventDB) (result : CChainGamesResultDB) :
    List (PeerlessBetKey × CChainGamesBetDB) :=
  cgCandidates ((cgEvent.nEntryFee : Int) * COIN) result
    (Seek ⟨u32 (GetBetSearchStartHeight env (nNewBlockHeight - 1)), COutPoint.null⟩
      view.chainGamesLottoBets)

/-- The body of `for (auto result : results)` in `GetCGLottoBetPayoutsV3`: a result
without event is skipped; one candidate is refunded; two or more candidates give a winner
output and an operator output and are queued for the write-back (nothing is appended or
queued when the payout is positive and the fee scripts are not found). -/
def cgResultStep (env : Env) (view : CBettingsView) (nNewBlockHeight : Int) (st : CGState)
    (result : CChainGamesResultDB) : CGState :=
  match view.ReadCGEvent result.nEventId with
  | none => st
  | some cgEvent =>
    let entranceFee : Int := (cgEvent.nEntryFee : Int) * COIN
    let candidates := cgCandidatesOf env view nNewBlockHeight cgEvent result
    match candidates with
    | [] => st
    | [c] =>
      if entranceFee > 0 then
        { st with
          vPayoutsInfo := st.vPayoutsInfo ++ [⟨c.1, PayoutType.chainGamesRefund⟩]
          vExpectedPayouts := st.vExpectedPayouts ++
            [⟨entranceFee, env.GetScriptForDestination c.2.playerAddress, entranceFee,
              result.nEventId⟩] }
      else st
    | c0 :: c1 :: cs =>
      let noOfBets := (c0 :: c1 :: cs).length
      let hashProofOfStake := cgHash env (nNewBlockHeight - 1)
      let winnerNr := cgWinnerNr hashProofOfStake noOfBets
      let winner := (c0 :: c1 :: cs).getD winnerNr c0
      let totalPot := cgTotalPot hashProofOfStake noOfBets entranceFee
      let winnerPayout := cgWinnerPayout totalPot
      let fee := cgFee totalPot
      let updated := setWinnerPayout (c0 :: c1 :: cs) winnerNr winnerPayout
      if winnerPayout > 0 then
        match env.GetFeePayoutScripts (u32OfInt nNewBlockHeight) with
        | none => st
        | some (_, payoutScriptOMNO) =>
          { vPayoutsInfo := st.vPayoutsInfo ++
              [⟨winner.1, PayoutType.chainGamesPayout⟩,
               ⟨⟨u32OfInt nNewBlockHeight, COutPoint.null⟩, PayoutType.chainGamesReward⟩]
            vExpectedPayouts := st.vExpectedPayouts ++
              [⟨winnerPayout, env.GetScriptForDestination winner.2.playerAddress, entranceFee,
                result.nEventId⟩,
               ⟨fee, payoutScriptOMNO, 0, 0⟩]
            vEntriesToUpdate := st.vEntriesToUpdate ++ updated }
      else { st with vEntriesToUpdate := st.vEntriesToUpdate ++ updated }

/-- The loop of `GetCGLottoBetPayoutsV3` over the results posted in the last block. -/
def cgLoops (env : Env) (view : CBettingsView) (nNewBlockHeight : Int)
    (vExpectedPayouts : List CBetOut) (vPayoutsInfo : List CPayoutInfoDB) : CGState :=
  (env.GetCGLottoEventResults (nNewBlockHeight - 1)).foldl
    (cgResultStep env view nNewBlockHeight)
    { vExpectedPayouts := vExpectedPayouts, vPayoutsInfo := vPayoutsInfo,
      vEntriesToUpdate := [] }

/-- The function `GetCGLottoBetPayoutsV3`: the view after the closing write-back and the
two vectors. -/
def GetCGLottoBetPayoutsV3 (env : Env) (view : CBettingsView) (nNewBlockHeight : Int)
    (vExpectedPayouts : List CBetOut) (vPayoutsInfo : List CPayoutInfoDB) :
    CBettingsView × List CBetOut × List CPayoutInfoDB :=
  let st := cgLoops env view nNewBlockHeight vExpectedPayouts vPayoutsInfo
  ({ view with
      chainGamesLottoBets := UpdateAll view.chainGamesLottoBets st.vEntriesToUpdate },
    st.vExpectedPayouts, st.vPayoutsInfo)

/-! ## A chain-games lottery -/

/-- Chain-games event 7 with an entry fee of 10 coins. -/
def cgEvent7 : CChainGamesEventDB := ⟨7, 10⟩

/-- The entries A (block 200, address 21) and B (block 201, address 22) of event 7, each
with the stake of 10 coins. -/
def cgBetA : CChainGamesBetDB :=
  { nEventId := 7, betAmount := 1000000000, playerAddress := 21, betTime := 900000 }

/-- The entry B of event 7. -/
def cgBetB : CChainGamesBetDB :=
  { nEventId := 7, betAmount := 1000000000, playerAddress := 22, betTime := 900100 }

/-- A store with event 7 and its two entries. -/
def cgView : CBettingsView :=
  { bets := [], results := [], chainGamesLottoEvents := [cgEvent7],
    chainGamesLottoBets := [(⟨410, ⟨31, 0⟩⟩, cgBetA), (⟨411, ⟨32, 0⟩⟩, cgBetB)] }

/-- A store with event 7 and the single entry A. -/
def cgViewOne : CBettingsView :=
  { cgView with chainGamesLottoBets := [(⟨410, ⟨31, 0⟩⟩, cgBetA)] }

/-- The chain of `exEnv` where the fee payout scripts are not found. -/
def noScriptEnv : Env := { exEnv with GetFeePayoutScripts := fun _ => none }

/-- The loop state of a chain-games payout call with empty vectors. -/
def cgStart : CGState := { vExpectedPayouts := [], vPayoutsInfo := [], vEntriesToUpdate := [] }

/-- A chain with two chain-games results, for events 7 and 8, posted at height 600. -/
def cg2Env : Env := { exEnv with GetCGLottoEventResults := fun _ => [⟨7⟩, ⟨8⟩] }

/-- A store with events 7 (fee 10 coins) and 8 (fee 5 coins), two entries each. -/
def cg2View : CBettingsView :=
  { bets := [], results := [], chainGamesLottoEvents := [cgEvent7, ⟨8, 5⟩],
    chainGamesLottoBets :=
      [(⟨410, ⟨31, 0⟩⟩, cgBetA), (⟨411, ⟨32, 0⟩⟩, cgBetB),
       (⟨412, ⟨33, 0⟩⟩, { cgBetA with nEventId := 8, betAmount := 500000000 }),
       (⟨413, ⟨34, 0⟩⟩, { cgBetB with nEventId := 8, betAmount := 500000000 })] }

/-- The shapes of the block of payout kinds that one chain-games result appends: nothing,
one refund, or one payout followed by one reward. -/
def cgBlockKinds (b : List (CBetOut × CPayoutInfoDB)) : Prop :=
  b.map (fun p => p.2.payoutType) = [] ∨
  b.map (fun p => p.2.payoutType) = [PayoutType.chainGamesRefund] ∨
  b.map (fun p => p.2.payoutType) = [PayoutType.chainGamesPayout, PayoutType.chainGamesReward]

/-! ## The write-back seen entry by entry -/

/-- What the write-back loop leaves at the place of the entry `e`: each queued pair whose
encoded key equals that of `e` replaces the value, in queue order. -/
def finalOf {α : Type} (queue : List (PeerlessBetKey × α)) (e : PeerlessBetKey × α) :
    PeerlessBetKey × α :=
  queue.foldl (fun x q => if DbTypeToBytes x.1 = DbTypeToBytes q.1 then (x.1, q.2) else x) e

/-- The record queued for the candidate `c` of a lottery whose winner has the key
`winnerKey`: the winner's record with the payout `p`, any other record as it is. -/
def cgQueuedEntry (winnerKey : PeerlessBetKey) (p : Int)
    (c : PeerlessBetKey × CChainGamesBetDB) : PeerlessBetKey × CChainGamesBetDB :=
  if c.1 = winnerKey then (c.1, { c.2 with payout := p }) else c

/-- The entries that the body for `result` adds to `vEntriesToUpdate`. -/
def cgQueueOf (env : Env) (view : CBettingsView) (nNewBlockHeight : Int)
    (result : CChainGamesResultDB) : List (PeerlessBetKey × CChainGamesBetDB) :=
  (cgResultStep env view nNewBlockHeight cgStart result).vEntriesToUpdate

/-! ## The bets handled by one scan -/

/-- The bets that a scan over the entries `es` handles for `result`, in iterator order. -/
def scanHandled (env : Env) (view : CBettingsView) (nNewBlockHeight : Int)
    (result : CPeerlessResultDB) (es : List (PeerlessBetKey × CPeerlessBetDB)) :
    List HandledBet :=
  es.filterMap (fun e => handleBet env view nNewBlockHeight result e.1 e.2)

/-- The bets that the body of the results loop handles for `result` in the state `st`:
none for a closed event, else those of the scan from the search start height on. -/
def scanOf (env : Env) (nNewBlockHeight : Int) (st : PLState) (result : CPeerlessResultDB) :
    List HandledBet :=
  if result.nResultType = env.eventClosed then []
  else scanHandled env st.view nNewBlockHeight result
    (Seek ⟨u32 (GetBetSearchStartHeight env (nNewBlockHeight - 1)), COutPoint.null⟩
      st.view.bets)

/-! ## Two results in one block -/

/-- The chain of `exEnv` with two results posted at height 600: event 100, then event 101,
both won by the home side. -/
def c17Env : Env :=
  { exEnv with GetPLResults := fun h => if h = 600 then [⟨100, 1, 2, 1⟩, ⟨101, 1, 2, 1⟩] else [] }

/-- A single bet like `exBet` on event 101. -/
def c17Bet : CPeerlessBetDB :=
  { exBet with legs := [⟨101, 1⟩], lockedEvents := [{ exEvent with nEventId := 101 }] }

/-- A store in key order: the bet on event 101 keyed at block 450, then the bet on event
100 keyed at block 500. -/
def c17View : CBettingsView :=
  { bets := [(⟨450, ⟨10, 0⟩⟩, c17Bet), (exKey, exBet)],
    results := [⟨100, 1, 2, 1⟩, ⟨101, 1, 2, 1⟩] }

/-! ## A bet at the lower edge of the search window -/

/-- A store holding `exBet` under a key of block 400 and the result of event 100. -/
def c19View : CBettingsView :=
  { bets := [(⟨400, ⟨11, 0⟩⟩, exBet)], results := [exResult] }

/-- A store holding `exBet` twice, under a key of block 399 and under a key of block 500,
and the result of event 100. -/
def c19Sorted : CBettingsView :=
  { bets := [(⟨399, ⟨12, 0⟩⟩, exBet), (exKey, exBet)], results := [exResult] }

/-! ## What one payout call maintains -/

/-- The state `st` of the results loop of a call on the store `view0`, after the results
`done`: the results table and the keys of the bets table are those of `view0`; the entry
of every handled bet is completed; no key is handled twice; every handled bet is an entry
of `view0` that was not completed; the completed entries of `view0` are in place and not
handled; an entry that is still not completed is an entry of `view0` and is handled by no
result of `done`. -/
def CallInv (env : Env) (view0 : CBettingsView) (nNewBlockHeight : Int)
    (done : List CPeerlessResultDB) (st : PLState) : Prop :=
  st.view.results = view0.results ∧
  st.view.bets.map (fun e => e.1) = view0.bets.map (fun e => e.1) ∧
  (∀ h ∈ st.handled, ∀ e ∈ st.view.bets, e.1 = h.key → e.2.completed = true) ∧
  (st.handled.map (fun h => h.key)).Nodup ∧
  (∀ h ∈ st.handled, ∃ e ∈ view0.bets, e.1 = h.key ∧ e.2.completed = false) ∧
  (∀ e ∈ view0.bets, e.2.completed = true →
    e ∈ st.view.bets ∧ ∀ h ∈ st.handled, h.key ≠ e.1) ∧
  (∀ e ∈ st.view.bets, e.2.completed = false → e ∈ view0.bets) ∧
  (∀ r ∈ done, r.nResultType ≠ env.eventClosed →
    ∀ e ∈ Seek ⟨u32 (GetBetSearchStartHeight env (nNewBlockHeight - 1)), COutPoint.null⟩
        st.view.bets,
      e.2.completed = false → handleBet env st.view nNewBlockHeight r e.1 e.2 = none)

/-- The chain of `c12Env` with the results of events 100, 101 and 102 posted at height
600. -/
def c20Env : Env :=
  { c12Env with
    GetPLResults := fun h =>
      if h = 600 then [exResult, ⟨101, 1, 1, 0⟩, ⟨102, 1, 1, 0⟩] else [] }

/-! ## A bet paid on either side of the v3 activation -/

/-- The chain of `exEnv` with the v3 activation at height 550: the bets keyed at block 500
and the events created at height 450 are older than the activation. -/
def c21Env : Env := { exEnv with WagerrProtocolV3StartHeight := 550 }

/-- A handled bet without what names the payout height and the key: the `payoutHeight` of
the record, the `key` and the key of the payout-info records. -/
def stripHeightAndKey (h : HandledBet) : HandledBet :=
  { h with
    key := PeerlessBetKey.default
    bet := { h.bet with payoutHeight := 0 }
    infos := h.infos.map (fun i => { i with betKey := PeerlessBetKey.default }) }

/-! ## Value codecs of `bet_db.h` -/

/-- Modelled from the spec: `ser_writedata8` of `serialize.h`, which appends one byte to
the stream. -/
def ser_writedata8 (s : List Nat) (obj : Nat) : List Nat := s ++ [obj % 256]

/-- Modelled from the spec: `ser_readdata8` of `serialize.h`, which takes one byte off the
stream; `none` when the stream is empty. -/
def ser_readdata8 : List Nat → Option (Nat × List Nat)
  | a :: rest => some (a, rest)
  | [] => none

/-- The method `CPeerlessLegDB::Serialize`: the outcome as one byte, and nothing else. -/
def CPeerlessLegDB.Serialize (s : List Nat) (leg : CPeerlessLegDB) : List Nat :=
  ser_writedata8 s (leg.nOutcome % 256)

/-- The method `CPeerlessLegDB::Unserialize`, run on the object `leg`: the outcome is
read, the event id keeps the value it had. -/
def CPeerlessLegDB.Unserialize (s : List Nat) (leg : CPeerlessLegDB) :
    Option (CPeerlessLegDB × List Nat) :=
  match ser_readdata8 s with
  | some (outcome, rest) => some ({ leg with nOutcome := outcome }, rest)
  | none => none

/-! ## The keys `EventKey` and `MappingKey` -/

/-- The struct `EventKey`. -/
structure EventKey where
  eventId : Nat
deriving DecidableEq, Repr

/-- The struct `MappingKey`; `nMType` is the discriminant of the enum `MappingType`. -/
structure MappingKey where
  nMType : Nat
  nId : Nat
deriving DecidableEq, Repr

/-- The method `EventKey::Serialize`. -/
def EventKey.Serialize (s : List Nat) (k : EventKey) : List Nat :=
  ser_writedata32 s (htonl k.eventId)

/-- The method `EventKey::Unserialize`. -/
def EventKey.Unserialize (s : List Nat) (_k : EventKey) : Option (EventKey × List Nat) :=
  match ser_readdata32 s with
  | some (be_val, rest) => some (⟨ntohl be_val⟩, rest)
  | none => none

/-- The method `MappingKey::Serialize`: the type, cast to `uint32_t`, then the id. -/
def MappingKey.Serialize (s : List Nat) (k : MappingKey) : List Nat :=
  ser_writedata32 (ser_writedata32 s (htonl (u32 k.nMType))) (htonl k.nId)

/-- The method `MappingKey::Unserialize`. -/
def MappingKey.Unserialize (s : List Nat) (_k : MappingKey) :
    Option (MappingKey × List Nat) :=
  match ser_readdata32 s with
  | some (be_type, rest) =>
    match ser_readdata32 rest with
    | some (be_id, rest2) => some (⟨ntohl be_type, ntohl be_id⟩, rest2)
    | none => none
  | none => none

/-- The four bytes of a 32-bit word, most significant byte first. -/
def bigEndian32 (x : Nat) : List Nat :=
  [x / 16777216 % 256, x / 65536 % 256, x / 256 % 256, x % 256]

/-! ## Event records -/

/-- Modelled from the spec: `ser_writedata64` of `serialize.h`, which appends the eight
bytes of a 64-bit word to the stream, least significant byte first. -/
def ser_writedata64 (s : List Nat) (obj : Nat) : List Nat :=
  s ++ [obj % 256, obj / 256 % 256, obj / 65536 % 256, obj / 16777216 % 256,
    obj / 4294967296 % 256, obj / 1099511627776 % 256, obj / 281474976710656 % 256,
    obj / 72057594037927936 % 256]

/-- Modelled from the spec: `ser_readdata64` of `serialize.h`, which takes eight bytes off
the stream, least significant byte first; `none` when the stream is too short. -/
def ser_readdata64 : List Nat → Option (Nat × List Nat)
  | a :: b :: c :: d :: e :: f :: g :: h :: rest =>
    some (a + 256 * b + 65536 * c + 16777216 * d + 4294967296 * e + 1099511627776 * f +
      281474976710656 * g + 72057594037927936 * h, rest)
  | _ => none

/-- Conversion of a `uint32_t` value to `int`: two's complement. -/
def i32 (x : Nat) : Int := if x < 2147483648 then (x : Int) else (x : Int) - 4294967296

/-- Modelled from the spec: `Serialize(Stream&, bool)` of `serialize.h`, one byte, 1 for
true and 0 for false. -/
def SerializeBool (s : List Nat) (a : Bool) : List Nat :=
  ser_writedata8 s (if a then 1 else 0)

/-- Modelled from the spec: `Unserialize(Stream&, bool&)` of `serialize.h`: one byte is
read and converted to `bool`. -/
def UnserializeBool (s : List Nat) : Option (Bool × List Nat) :=
  match ser_readdata8 s with
  | some (f, rest) => some (decide (f ≠ 0), rest)
  | none => none

/-- The method `CPeerlessBaseEventDB::Serialize` that `SERIALIZE_METHODS` defines: the
fields in the order of the `READWRITE` lines, then the legacy flag when the creation
height is below the v3 activation height. -/
def CPeerlessBaseEventDB.Serialize (env : Env) (s : List Nat) (obj : CPeerlessBaseEventDB) :
    List Nat :=
  let s := ser_writedata32 s obj.nEventId
  let s := ser_writedata64 s obj.nStartTime
  let s := ser_writedata32 s obj.nSport
  let s := ser_writedata32 s obj.nTournament
  let s := ser_writedata32 s obj.nStage
  let s := ser_writedata32 s obj.nHomeTeam
  let s := ser_writedata32 s obj.nAwayTeam
  let s := ser_writedata32 s obj.nHomeOdds
  let s := ser_writedata32 s obj.nAwayOdds
  let s := ser_writedata32 s obj.nDrawOdds
  let s := ser_writedata32 s (u32OfInt obj.nSpreadPoints)
  let s := ser_writedata32 s obj.nSpreadHomeOdds
  let s := ser_writedata32 s obj.nSpreadAwayOdds
  let s := ser_writedata32 s obj.nTotalPoints
  let s := ser_writedata32 s obj.nTotalOverOdds
  let s := ser_writedata32 s obj.nTotalUnderOdds
  let s := ser_writedata32 s (u32OfInt obj.nEventCreationHeight)
  if obj.nEventCreationHeight < env.WagerrProtocolV3StartHeight then
    SerializeBool s obj.fLegacyInitialHomeFavorite
  else s

/-- The sequencing of the reads of an `Unserialize` method: the continuation gets the
value read and the rest of the stream; a read past the end of the stream (`none`, the
exception of the stream) ends the decoding. -/
@[noinline] def readThen {α β : Type} (r : Option (α × List Nat))
    (k : α → List Nat → Option β) : Option β :=
  match r with
  | some (a, s) => k a s
  | none => none

/-- The method `CPeerlessBaseEventDB::Unserialize`, run on the object `obj`: the fields
are read in the same order; the legacy flag is read when the creation height just read
is below the v3 activation height and keeps its value otherwise. -/
def CPeerlessBaseEventDB.Unserialize (env : Env) (s : List Nat)
    (obj : CPeerlessBaseEventDB) : Option (CPeerlessBaseEventDB × List Nat) :=
  readThen (ser_readdata32 s) fun nEventId s =>
  readThen (ser_readdata64 s) fun nStartTime s =>
  readThen (ser_readdata32 s) fun nSport s =>
  readThen (ser_readdata32 s) fun nTournament s =>
  readThen (ser_readdata32 s) fun nStage s =>
  readThen (ser_readdata32 s) fun nHomeTeam s =>
  readThen (ser_readdata32 s) fun nAwayTeam s =>
  readThen (ser_readdata32 s) fun nHomeOdds s =>
  readThen (ser_readdata32 s) fun nAwayOdds s =>
  readThen (ser_readdata32 s) fun nDrawOdds s =>
  readThen (ser_readdata32 s) fun nSpreadPoints s =>
  readThen (ser_readdata32 s) fun nSpreadHomeOdds s =>
  readThen (ser_readdata32 s) fun nSpreadAwayOdds s =>
  readThen (ser_readdata32 s) fun nTotalPoints s =>
  readThen (ser_readdata32 s) fun nTotalOverOdds s =>
  readThen (ser_readdata32 s) fun nTotalUnderOdds s =>
  readThen (ser_readdata32 s) fun nEventCreationHeight s =>
  if i32 nEventCreationHeight < env.WagerrProtocolV3StartHeight then
    readThen (UnserializeBool s) fun fLegacyInitialHomeFavorite s =>
    some (
      { nEventId := nEventId, nStartTime := nStartTime, nSport := nSport,
        nTournament := nTournament, nStage := nStage, nHomeTeam := nHomeTeam,
        nAwayTeam := nAwayTeam, nHomeOdds := nHomeOdds, nAwayOdds := nAwayOdds,
        nDrawOdds := nDrawOdds, nSpreadPoints := i32 nSpreadPoints,
        nSpreadHomeOdds := nSpreadHomeOdds, nSpreadAwayOdds := nSpreadAwayOdds,
        nTotalPoints := nTotalPoints, nTotalOverOdds := nTotalOverOdds,
        nTotalUnderOdds := nTotalUnderOdds,
        nEventCreationHeight := i32 nEventCreationHeight,
        fLegacyInitialHomeFavorite := fLegacyInitialHomeFavorite }, s)
  else
    some (
      { nEventId := nEventId, nStartTime := nStartTime, nSport := nSport,
        nTournament := nTournament, nStage := nStage, nHomeTeam := nHomeTeam,
        nAwayTeam := nAwayTeam, nHomeOdds := nHomeOdds, nAwayOdds := nAwayOdds,
        nDrawOdds := nDrawOdds, nSpreadPoints := i32 nSpreadPoints,
        nSpreadHomeOdds := nSpreadHomeOdds, nSpreadAwayOdds := nSpreadAwayOdds,
        nTotalPoints := nTotalPoints, nTotalOverOdds := nTotalOverOdds,
        nTotalUnderOdds := nTotalUnderOdds,
        nEventCreationHeight := i32 nEventCreationHeight,
        fLegacyInitialHomeFavorite := obj.fLegacyInitialHomeFavorite }, s)

/-- The values that the members of a `CPeerlessBaseEventDB` object can hold. -/
@[reducible] def CPeerlessBaseEventDB.inRange (e : CPeerlessBaseEventDB) : Prop :=
  e.nEventId < 4294967296 ∧ e.nStartTime < 18446744073709551616 ∧
  e.nSport < 4294967296 ∧ e.nTournament < 4294967296 ∧ e.nStage < 4294967296 ∧
  e.nHomeTeam < 4294967296 ∧ e.nAwayTeam < 4294967296 ∧ e.nHomeOdds < 4294967296 ∧
  e.nAwayOdds < 4294967296 ∧ e.nDrawOdds < 4294967296 ∧
  (-2147483648 ≤ e.nSpreadPoints ∧ e.nSpreadPoints < 2147483648) ∧
  e.nSpreadHomeOdds < 4294967296 ∧ e.nSpreadAwayOdds < 4294967296 ∧
  e.nTotalPoints < 4294967296 ∧ e.nTotalOverOdds < 4294967296 ∧
  e.nTotalUnderOdds < 4294967296 ∧
  (-2147483648 ≤ e.nEventCreationHeight ∧ e.nEventCreationHeight < 2147483648)

/-- The four bytes of a 32-bit word, least significant byte first. -/
def littleEndian32 (x : Nat) : List Nat :=
  [x % 256, x / 256 % 256, x / 65536 % 256, x / 16777216 % 256]

/-- The eight bytes of a 64-bit word, least significant byte first. -/
def littleEndian64 (x : Nat) : List Nat :=
  [x % 256, x / 256 % 256, x / 65536 % 256, x / 16777216 % 256,
    x / 4294967296 % 256, x / 1099511627776 % 256, x / 281474976710656 % 256,
    x / 72057594037927936 % 256]

/-- The class `CPeerlessExtendedEventDB`: the base event with the nine potential
liabilities and the nine bet counters. -/
structure CPeerlessExtendedEventDB extends CPeerlessBaseEventDB where
  nMoneyLineHomePotentialLiability : Nat := 0
  nMoneyLineAwayPotentialLiability : Nat := 0
  nMoneyLineDrawPotentialLiability : Nat := 0
  nSpreadHomePotentialLiability : Nat := 0
  nSpreadAwayPotentialLiability : Nat := 0
  nSpreadPushPotentialLiability : Nat := 0
  nTotalOverPotentialLiability : Nat := 0
  nTotalUnderPotentialLiability : Nat := 0
  nTotalPushPotentialLiability : Nat := 0
  nMoneyLineHomeBets : Nat := 0
  nMoneyLineAwayBets : Nat := 0
  nMoneyLineDrawBets : Nat := 0
  nSpreadHomeBets : Nat := 0
  nSpreadAwayBets : Nat := 0
  nSpreadPushBets : Nat := 0
  nTotalOverBets : Nat := 0
  nTotalUnderBets : Nat := 0
  nTotalPushBets : Nat := 0
deriving DecidableEq, Repr

/-- The method `CPeerlessExtendedEventDB::Serialize` that `SERIALIZE_METHODS` defines: the
fields in the order of the `READWRITE` lines, then the legacy flag when the creation
height is below the v3 activation height. -/
def CPeerlessExtendedEventDB.Serialize (env : Env) (s : List Nat)
    (obj : CPeerlessExtendedEventDB) : List Nat :=
  let s := ser_writedata32 s obj.nEventId
  let s := ser_writedata64 s obj.nStartTime
  let s := ser_writedata32 s obj.nSport
  let s := ser_writedata32 s obj.nTournament
  let s := ser_writedata32 s obj.nStage
  let s := ser_writedata32 s obj.nHomeTeam
  let s := ser_writedata32 s obj.nAwayTeam
  let s := ser_writedata32 s obj.nHomeOdds
  let s := ser_writedata32 s obj.nAwayOdds
  let s := ser_writedata32 s obj.nDrawOdds
  let s := ser_writedata32 s (u32OfInt obj.nSpreadPoints)
  let s := ser_writedata32 s obj.nSpreadHomeOdds
  let s := ser_writedata32 s obj.nSpreadAwayOdds
  let s := ser_writedata32 s obj.nTotalPoints
  let s := ser_writedata32 s obj.nTotalOverOdds
  let s := ser_writedata32 s obj.nTotalUnderOdds
  let s := ser_writedata32 s obj.nMoneyLineHomePotentialLiability
  let s := ser_writedata32 s obj.nMoneyLineAwayPotentialLiability
  let s := ser_writedata32 s obj.nMoneyLineDrawPotentialLiability
  let s := ser_writedata32 s obj.nSpreadHomePotentialLiability
  let s := ser_writedata32 s obj.nSpreadAwayPotentialLiability
  let s := ser_writedata32 s obj.nSpreadPushPotentialLiability
  let s := ser_writedata32 s obj.nTotalOverPotentialLiability
  let s := ser_writedata32 s obj.nTotalUnderPotentialLiability
  let s := ser_writedata32 s obj.nTotalPushPotentialLiability
  let s := ser_writedata32 s obj.nMoneyLineHomeBets
  let s := ser_writedata32 s obj.nMoneyLineAwayBets
  let s := ser_writedata32 s obj.nMoneyLineDrawBets
  let s := ser_writedata32 s obj.nSpreadHomeBets
  let s := ser_writedata32 s obj.nSpreadAwayBets
  let s := ser_writedata32 s obj.nSpreadPushBets
  let s := ser_writedata32 s obj.nTotalOverBets
  let s := ser_writedata32 s obj.nTotalUnderBets
  let s := ser_writedata32 s obj.nTotalPushBets
  let s := ser_writedata32 s (u32OfInt obj.nEventCreationHeight)
  if obj.nEventCreationHeight < env.WagerrProtocolV3StartHeight then
    SerializeBool s obj.fLegacyInitialHomeFavorite
  else s

/-- The method `CPeerlessExtendedEventDB::Unserialize`, run on the object `obj`: the
fields are read in the same order; the legacy flag is read when the creation height just
read is below the v3 activation height and keeps its value otherwise. -/
def CPeerlessExtendedEventDB.Unserialize (env : Env) (s : List Nat)
    (obj : CPeerlessExtendedEventDB) : Option (CPeerlessExtendedEventDB × List Nat) :=
  readThen (ser_readdata32 s) fun nEventId s =>
  readThen (ser_readdata64 s) fun nStartTime s =>
  readThen (ser_readdata32 s) fun nSport s =>
  readThen (ser_readdata32 s) fun nTournament s =>
  readThen (ser_readdata32 s) fun nStage s =>
  readThen (ser_readdata32 s) fun nHomeTeam s =>
  readThen (ser_readdata32 s) fun nAwayTeam s =>
  readThen (ser_readdata32 s) fun nHomeOdds s =>
  readThen (ser_readdata32 s) fun nAwayOdds s =>
  readThen (ser_readdata32 s) fun nDrawOdds s =>
  readThen (ser_readdata32 s) fun nSpreadPoints s =>
  readThen (ser_readdata32 s) fun nSpreadHomeOdds s =>
  readThen (ser_readdata32 s) fun nSpreadAwayOdds s =>
  readThen (ser_readdata32 s) fun nTotalPoints s =>
  readThen (ser_readdata32 s) fun nTotalOverOdds s =>
  readThen (ser_readdata32 s) fun nTotalUnderOdds s =>
  readThen (ser_readdata32 s) fun nMoneyLineHomePotentialLiability s =>
  readThen (ser_readdata32 s) fun nMoneyLineAwayPotentialLiability s =>
  readThen (ser_readdata32 s) fun nMoneyLineDrawPotentialLiability s =>
  readThen (ser_readdata32 s) fun nSpreadHomePotentialLiability s =>
  readThen (ser_readdata32 s) fun nSpreadAwayPotentialLiability s =>
  readThen (ser_readdata32 s) fun nSpreadPushPotentialLiability s =>
  readThen (ser_readdata32 s) fun nTotalOverPotentialLiability s =>
  readThen (ser_readdata32 s) fun nTotalUnderPotentialLiability s =>
  readThen (ser_readdata32 s) fun nTotalPushPotentialLiability s =>
  readThen (ser_readdata32 s) fun nMoneyLineHomeBets s =>
  readThen (ser_readdata32 s) fun nMoneyLineAwayBets s =>
  readThen (ser_readdata32 s) fun nMoneyLineDrawBets s =>
  readThen (ser_readdata32 s) fun nSpreadHomeBets s =>
  readThen (ser_readdata32 s) fun nSpreadAwayBets s =>
  readThen (ser_readdata32 s) fun nSpreadPushBets s =>
  readThen (ser_readdata32 s) fun nTotalOverBets s =>
  readThen (ser_readdata32 s) fun nTotalUnderBets s =>
  readThen (ser_readdata32 s) fun nTotalPushBets s =>
  readThen (ser_readdata32 s) fun nEventCreationHeight s =>
  if i32 nEventCreationHeight < env.WagerrProtocolV3StartHeight then
    readThen (UnserializeBool s) fun fLegacyInitialHomeFavorite s =>
    some (
      { nEventId := nEventId, nStartTime := nStartTime, nSport := nSport,
        nTournament := nTournament, nStage := nStage, nHomeTeam := nHomeTeam,
        nAwayTeam := nAwayTeam, nHomeOdds := nHomeOdds, nAwayOdds := nAwayOdds,
        nDrawOdds := nDrawOdds, nSpreadPoints := i32 nSpreadPoints,
        nSpreadHomeOdds := nSpreadHomeOdds, nSpreadAwayOdds := nSpreadAwayOdds,
        nTotalPoints := nTotalPoints, nTotalOverOdds := nTotalOverOdds,
        nTotalUnderOdds := nTotalUnderOdds,
        nMoneyLineHomePotentialLiability := nMoneyLineHomePotentialLiability,
        nMoneyLineAwayPotentialLiability := nMoneyLineAwayPotentialLiability,
        nMoneyLineDrawPotentialLiability := nMoneyLineDrawPotentialLiability,
        nSpreadHomePotentialLiability := nSpreadHomePotentialLiability,
        nSpreadAwayPotentialLiability := nSpreadAwayPotentialLiability,
        nSpreadPushPotentialLiability := nSpreadPushPotentialLiability,
        nTotalOverPotentialLiability := nTotalOverPotentialLiability,
        nTotalUnderPotentialLiability := nTotalUnderPotentialLiability,
        nTotalPushPotentialLiability := nTotalPushPotentialLiability,
        nMoneyLineHomeBets := nMoneyLineHomeBets,
        nMoneyLineAwayBets := nMoneyLineAwayBets,
        nMoneyLineDrawBets := nMoneyLineDrawBets, nSpreadHomeBets := nSpreadHomeBets,
        nSpreadAwayBets := nSpreadAwayBets, nSpreadPushBets := nSpreadPushBets,
        nTotalOverBets := nTotalOverBets, nTotalUnderBets := nTotalUnderBets,
        nTotalPushBets := nTotalPushBets,
        nEventCreationHeight := i32 nEventCreationHeight,
        fLegacyInitialHomeFavorite := fLegacyInitialHomeFavorite }, s)
  else
    some (
      { nEventId := nEventId, nStartTime := nStartTime, nSport := nSport,
        nTournament := nTournament, nStage := nStage, nHomeTeam := nHomeTeam,
        nAwayTeam := nAwayTeam, nHomeOdds := nHomeOdds, nAwayOdds := nAwayOdds,
        nDrawOdds := nDrawOdds, nSpreadPoints := i32 nSpreadPoints,
        nSpreadHomeOdds := nSpreadHomeOdds, nSpreadAwayOdds := nSpreadAwayOdds,
        nTotalPoints := nTotalPoints, nTotalOverOdds := nTotalOverOdds,
        nTotalUnderOdds := nTotalUnderOdds,
        nMoneyLineHomePotentialLiability := nMoneyLineHomePotentialLiability,
        nMoneyLineAwayPotentialLiability := nMoneyLineAwayPotentialLiability,
        nMoneyLineDrawPotentialLiability := nMoneyLineDrawPotentialLiability,
        nSpreadHomePotentialLiability := nSpreadHomePotentialLiability,
        nSpreadAwayPotentialLiability := nSpreadAwayPotentialLiability,
        nSpreadPushPotentialLiability := nSpreadPushPotentialLiability,
        nTotalOverPotentialLiability := nTotalOverPotentialLiability,
        nTotalUnderPotentialLiability := nTotalUnderPotentialLiability,
        nTotalPushPotentialLiability := nTotalPushPotentialLiability,
        nMoneyLineHomeBets := nMoneyLineHomeBets,
        nMoneyLineAwayBets := nMoneyLineAwayBets,
        nMoneyLineDrawBets := nMoneyLineDrawBets, nSpreadHomeBets := nSpreadHomeBets,
        nSpreadAwayBets := nSpreadAwayBets, nSpreadPushBets := nSpreadPushBets,
        nTotalOverBets := nTotalOverBets, nTotalUnderBets := nTotalUnderBets,
        nTotalPushBets := nTotalPushBets,
        nEventCreationHeight := i32 nEventCreationHeight,
        fLegacyInitialHomeFavorite := obj.fLegacyInitialHomeFavorite }, s)

/-- The values that the members of a `CPeerlessExtendedEventDB` object can hold. -/
@[reducible] def CPeerlessExtendedEventDB.inRange (e : CPeerlessExtendedEventDB) : Prop :=
  e.toCPeerlessBaseEventDB.inRange ∧
  e.nMoneyLineHomePotentialLiability < 4294967296 ∧
  e.nMoneyLineAwayPotentialLiability < 4294967296 ∧
  e.nMoneyLineDrawPotentialLiability < 4294967296 ∧
  e.nSpreadHomePotentialLiability < 4294967296 ∧
  e.nSpreadAwayPotentialLiability < 4294967296 ∧
  e.nSpreadPushPotentialLiability < 4294967296 ∧
  e.nTotalOverPotentialLiability < 4294967296 ∧
  e.nTotalUnderPotentialLiability < 4294967296 ∧
  e.nTotalPushPotentialLiability < 4294967296 ∧
  e.nMoneyLineHomeBets < 4294967296 ∧
  e.nMoneyLineAwayBets < 4294967296 ∧
  e.nMoneyLineDrawBets < 4294967296 ∧
  e.nSpreadHomeBets < 4294967296 ∧
  e.nSpreadAwayBets < 4294967296 ∧
  e.nSpreadPushBets < 4294967296 ∧
  e.nTotalOverBets < 4294967296 ∧
  e.nTotalUnderBets < 4294967296 ∧
  e.nTotalPushBets < 4294967296

/-- The function `CBettingDB::DbTypeToBytes` for a record type with the `Serialize` method
`ser`: the bytes of a fresh stream after `stream << value`. -/
def CBettingDB.DbTypeToBytes {α : Type} (ser : List Nat → α → List Nat) (value : α) :
    List Nat :=
  ser [] value

/-- The function `CBettingDB::BytesToDbType` for a record type with the `Unserialize`
method `unser`, writing into `value`; `none` when a read runs past the end of the stream
or when the final `assert(stream.size() == 0)` fails. -/
def CBettingDB.BytesToDbType {α : Type} (unser : List Nat → α → Option (α × List Nat))
    (bytes : List Nat) (value : α) : Option α :=
  match unser bytes value with
  | some (v, rest) => if rest.isEmpty then some v else none
  | none => none

/-- The bytes that the unconditional `READWRITE` lines of `CPeerlessBaseEventDB` write:
every field but the legacy flag, little-endian, the creation height last. -/
def CPeerlessBaseEventDB.fieldBytes (e : CPeerlessBaseEventDB) : List Nat :=
  littleEndian32 e.nEventId ++
    (littleEndian64 e.nStartTime ++
    (littleEndian32 e.nSport ++
    (littleEndian32 e.nTournament ++
    (littleEndian32 e.nStage ++
    (littleEndian32 e.nHomeTeam ++
    (littleEndian32 e.nAwayTeam ++
    (littleEndian32 e.nHomeOdds ++
    (littleEndian32 e.nAwayOdds ++
    (littleEndian32 e.nDrawOdds ++
    (littleEndian32 (u32OfInt e.nSpreadPoints) ++
    (littleEndian32 e.nSpreadHomeOdds ++
    (littleEndian32 e.nSpreadAwayOdds ++
    (littleEndian32 e.nTotalPoints ++
    (littleEndian32 e.nTotalOverOdds ++
    (littleEndian32 e.nTotalUnderOdds ++
    (littleEndian32 (u32OfInt e.nEventCreationHeight)))))))))))))))))

/-- The bytes that the unconditional `READWRITE` lines of `CPeerlessExtendedEventDB` write:
every field but the legacy flag, little-endian, the creation height last. -/
def CPeerlessExtendedEventDB.fieldBytes (e : CPeerlessExtendedEventDB) : List Nat :=
  littleEndian32 e.nEventId ++
    (littleEndian64 e.nStartTime ++
    (littleEndian32 e.nSport ++
    (littleEndian32 e.nTournament ++
    (littleEndian32 e.nStage ++
    (littleEndian32 e.nHomeTeam ++
    (littleEndian32 e.nAwayTeam ++
    (littleEndian32 e.nHomeOdds ++
    (littleEndian32 e.nAwayOdds ++
    (littleEndian32 e.nDrawOdds ++
    (littleEndian32 (u32OfInt e.nSpreadPoints) ++
    (littleEndian32 e.nSpreadHomeOdds ++
    (littleEndian32 e.nSpreadAwayOdds ++
    (littleEndian32 e.nTotalPoints ++
    (littleEndian32 e.nTotalOverOdds ++
    (littleEndian32 e.nTotalUnderOdds ++
    (littleEndian32 e.nMoneyLineHomePotentialLiability ++
    (littleEndian32 e.nMoneyLineAwayPotentialLiability ++
    (littleEndian32 e.nMoneyLineDrawPotentialLiability ++
    (littleEndian32 e.nSpreadHomePotentialLiability ++
    (littleEndian32 e.nSpreadAwayPotentialLiability ++
    (littleEndian32 e.nSpreadPushPotentialLiability ++
    (littleEndian32 e.nTotalOverPotentialLiability ++
    (littleEndian32 e.nTotalUnderPotentialLiability ++
    (littleEndian32 e.nTotalPushPotentialLiability ++
    (littleEndian32 e.nMoneyLineHomeBets ++
    (littleEndian32 e.nMoneyLineAwayBets ++
    (littleEndian32 e.nMoneyLineDrawBets ++
    (littleEndian32 e.nSpreadHomeBets ++
    (littleEndian32 e.nSpreadAwayBets ++
    (littleEndian32 e.nSpreadPushBets ++
    (littleEndian32 e.nTotalOverBets ++
    (littleEndian32 e.nTotalUnderBets ++
    (littleEndian32 e.nTotalPushBets ++
    (littleEndian32 (u32OfInt e.nEventCreationHeight)))))))))))))))))))))))))))))))))))

/-- A base event created at height 50, before the v3 activation of `exEnv` (height 100),
with the legacy flag cleared. -/
def legacyEvent : CPeerlessBaseEventDB :=
  { exEvent with nEventCreationHeight := 50, fLegacyInitialHomeFavorite := false }

/-- An extended event created at height 450, after the v3 activation of `exEnv`, with two
bets on home and the legacy flag cleared. -/
def v3Event : CPeerlessExtendedEventDB :=
  { toCPeerlessBaseEventDB := { exEvent with fLegacyInitialHomeFavorite := false },
    nMoneyLineHomePotentialLiability := 300, nMoneyLineHomeBets := 2 }

/-- An extended event created at height 50, before the v3 activation of `exEnv`, with the
legacy flag cleared. -/
def legacyExtendedEvent : CPeerlessExtendedEventDB :=
  { toCPeerlessBaseEventDB := legacyEvent, nSpreadHomePotentialLiability := 7,
    nTotalPushBets := 4000000000 }

/-! ## Field events and undo entries -/

/-- The struct `ContenderInfo`. -/
structure ContenderInfo where
  nInputOdds : Nat := 0
  nOutrightOdds : Nat := 0
  nOutrightBets : Nat := 0
  nOutrightPotentialLiability : Nat := 0
  nPlaceOdds : Nat := 0
  nPlaceBets : Nat := 0
  nPlacePotentialLiability : Nat := 0
  nShowOdds : Nat := 0
  nShowBets : Nat := 0
  nShowPotentialLiability : Nat := 0
  nModifier : Nat := 0
deriving DecidableEq, Repr

/-- The class `CFieldEventDB`; `contenders` lists the entries of the `std::map` in key
order. -/
structure CFieldEventDB where
  nEventId : Nat := 0
  nStartTime : Nat := 0
  nGroupType : Nat := 0
  nMarketType : Nat := 0
  nSport : Nat := 0
  nTournament : Nat := 0
  nStage : Nat := 0
  nMarginPercent : Nat := 0
  contenders : List (Nat × ContenderInfo) := []
deriving DecidableEq, Repr

/-- The method `ContenderInfo::Serialize` that `SERIALIZE_METHODS` defines. -/
def ContenderInfo.Serialize (s : List Nat) (obj : ContenderInfo) : List Nat :=
  let s := ser_writedata32 s obj.nInputOdds
  let s := ser_writedata32 s obj.nOutrightOdds
  let s := ser_writedata32 s obj.nOutrightBets
  let s := ser_writedata32 s obj.nOutrightPotentialLiability
  let s := ser_writedata32 s obj.nPlaceOdds
  let s := ser_writedata32 s obj.nPlaceBets
  let s := ser_writedata32 s obj.nPlacePotentialLiability
  let s := ser_writedata32 s obj.nShowOdds
  let s := ser_writedata32 s obj.nShowBets
  let s := ser_writedata32 s obj.nShowPotentialLiability
  let s := ser_writedata32 s obj.nModifier
  s

/-- The method `ContenderInfo::Unserialize`. -/
def ContenderInfo.Unserialize (s : List Nat) : Option (ContenderInfo × List Nat) :=
  readThen (ser_readdata32 s) fun nInputOdds s =>
  readThen (ser_readdata32 s) fun nOutrightOdds s =>
  readThen (ser_readdata32 s) fun nOutrightBets s =>
  readThen (ser_readdata32 s) fun nOutrightPotentialLiability s =>
  readThen (ser_readdata32 s) fun nPlaceOdds s =>
  readThen (ser_readdata32 s) fun nPlaceBets s =>
  readThen (ser_readdata32 s) fun nPlacePotentialLiability s =>
  readThen (ser_readdata32 s) fun nShowOdds s =>
  readThen (ser_readdata32 s) fun nShowBets s =>
  readThen (ser_readdata32 s) fun nShowPotentialLiability s =>
  readThen (ser_readdata32 s) fun nModifier s =>
  some (
    { nInputOdds := nInputOdds, nOutrightOdds := nOutrightOdds,
      nOutrightBets := nOutrightBets,
      nOutrightPotentialLiability := nOutrightPotentialLiability,
      nPlaceOdds := nPlaceOdds, nPlaceBets := nPlaceBets,
      nPlacePotentialLiability := nPlacePotentialLiability, nShowOdds := nShowOdds,
      nShowBets := nShowBets, nShowPotentialLiability := nShowPotentialLiability,
      nModifier := nModifier }, s)

/-- Modelled from the spec: `ser_writedata16` of `serialize.h`, two bytes, least
significant byte first. -/
def ser_writedata16 (s : List Nat) (obj : Nat) : List Nat :=
  s ++ [obj % 256, obj / 256 % 256]

/-- Modelled from the spec: `ser_readdata16` of `serialize.h`. -/
def ser_readdata16 : List Nat → Option (Nat × List Nat)
  | a :: b :: rest => some (a + 256 * b, rest)
  | _ => none

/-- Modelled from the spec: `WriteCompactSize` of `serialize.h`, the length prefix of a
container: one byte below 253, else a marker byte and 2, 4 or 8 bytes. -/
def WriteCompactSize (s : List Nat) (nSize : Nat) : List Nat :=
  if nSize < 253 then ser_writedata8 s nSize
  else if nSize ≤ 65535 then ser_writedata16 (ser_writedata8 s 253) nSize
  else if nSize ≤ 4294967295 then ser_writedata32 (ser_writedata8 s 254) nSize
  else ser_writedata64 (ser_writedata8 s 255) nSize

/-- Modelled from the spec: `ReadCompactSize` of `serialize.h`; `none` for a read past the
end, for a non-canonical size and for a size above `MAX_SIZE = 0x02000000`. -/
def ReadCompactSize (s : List Nat) : Option (Nat × List Nat) :=
  readThen (ser_readdata8 s) fun chSize s =>
  readThen
    (if chSize < 253 then some (chSize, s)
     else if chSize = 253 then
       readThen (ser_readdata16 s) fun n s => if n < 253 then none else some (n, s)
     else if chSize = 254 then
       readThen (ser_readdata32 s) fun n s => if n < 65536 then none else some (n, s)
     else
       readThen (ser_readdata64 s) fun n s => if n < 4294967296 then none else some (n, s))
    fun nSizeRet s => if nSizeRet > 33554432 then none else some (nSizeRet, s)

/-- Modelled from the spec: `Serialize` of `std::map` in `serialize.h`: the compact size,
then each entry, key first, in key order. -/
def SerializeContenders (s : List Nat) (m : List (Nat × ContenderInfo)) : List Nat :=
  m.foldl (fun s entry => ContenderInfo.Serialize (ser_writedata32 s entry.1) entry.2)
    (WriteCompactSize s m.length)

/-- Modelled from the spec: `std::map::insert`: the entry is put at its place in key
order; nothing changes when the key is present. -/
def mapInsert (m : List (Nat × ContenderInfo)) (key : Nat) (info : ContenderInfo) :
    List (Nat × ContenderInfo) :=
  match m with
  | [] => [(key, info)]
  | e :: rest =>
    if key = e.1 then e :: rest
    else if key < e.1 then (key, info) :: e :: rest
    else e :: mapInsert rest key info

/-- The loop of the `Unserialize` of `std::map`: `nSize` entries are read and inserted. -/
def readContenders : Nat → List Nat → List (Nat × ContenderInfo) →
    Option (List (Nat × ContenderInfo) × List Nat)
  | 0, s, m => some (m, s)
  | n + 1, s, m =>
    readThen (ser_readdata32 s) fun key s =>
    readThen (ContenderInfo.Unserialize s) fun info s =>
    readContenders n s (mapInsert m key info)

/-- Modelled from the spec: `Unserialize` of `std::map` in `serialize.h`: the map is
cleared, the compact size is read, then that many entries. -/
def UnserializeContenders (s : List Nat) : Option (List (Nat × ContenderInfo) × List Nat) :=
  readThen (ReadCompactSize s) fun nSize s => readContenders nSize s []

/-- The method `CFieldEventDB::Serialize` that `SERIALIZE_METHODS` defines. -/
def CFieldEventDB.Serialize (s : List Nat) (obj : CFieldEventDB) : List Nat :=
  let s := ser_writedata32 s obj.nEventId
  let s := ser_writedata64 s obj.nStartTime
  let s := ser_writedata8 s obj.nGroupType
  let s := ser_writedata8 s obj.nMarketType
  let s := ser_writedata32 s obj.nSport
  let s := ser_writedata32 s obj.nTournament
  let s := ser_writedata32 s obj.nStage
  let s := ser_writedata32 s obj.nMarginPercent
  SerializeContenders s obj.contenders

/-- The method `CFieldEventDB::Unserialize`. -/
def CFieldEventDB.Unserialize (s : List Nat) : Option (CFieldEventDB × List Nat) :=
  readThen (ser_readdata32 s) fun nEventId s =>
  readThen (ser_readdata64 s) fun nStartTime s =>
  readThen (ser_readdata8 s) fun nGroupType s =>
  readThen (ser_readdata8 s) fun nMarketType s =>
  readThen (ser_readdata32 s) fun nSport s =>
  readThen (ser_readdata32 s) fun nTournament s =>
  readThen (ser_readdata32 s) fun nStage s =>
  readThen (ser_readdata32 s) fun nMarginPercent s =>
  readThen (UnserializeContenders s) fun contenders s =>
  some (
    { nEventId := nEventId, nStartTime := nStartTime, nGroupType := nGroupType,
      nMarketType := nMarketType, nSport := nSport, nTournament := nTournament,
      nStage := nStage, nMarginPercent := nMarginPercent, contenders := contenders }, s)

/-- The type `BettingUndoVariant`, a `boost::variant` of the two event classes. -/
inductive BettingUndoVariant where
  | peerlessEvent (event : CPeerlessExtendedEventDB)
  | fieldEvent (event : CFieldEventDB)
deriving DecidableEq, Repr

/-- The call `undoVariant.which()`: the index of the held type, which is the value of the
enumerator `UndoPeerlessEvent = 0` or `UndoFieldEvent = 1`. -/
def BettingUndoVariant.which : BettingUndoVariant → Int
  | BettingUndoVariant.peerlessEvent _ => 0
  | BettingUndoVariant.fieldEvent _ => 1

/-- The class `CBettingUndoDB`; a default-constructed variant holds a default-constructed
value of its first type. -/
structure CBettingUndoDB where
  height : Nat := 0
  undoVariant : BettingUndoVariant := BettingUndoVariant.peerlessEvent {}
deriving DecidableEq, Repr

/-- The method `CBettingUndoDB::Serialize`, the write branch of `SerializationOp`: the
height, the `int undoType = undoVariant.which()`, then the held event.  The case
`UndoFieldEvent` has no `break` and runs into `default`, where an exception object is
built and not thrown: nothing more is written. -/
def CBettingUndoDB.Serialize (env : Env) (s : List Nat) (obj : CBettingUndoDB) : List Nat :=
  let s := ser_writedata32 s obj.height
  let undoType : Int := obj.undoVariant.which
  let s := ser_writedata32 s (u32OfInt undoType)
  match obj.undoVariant with
  | BettingUndoVariant.peerlessEvent event => CPeerlessExtendedEventDB.Serialize env s event
  | BettingUndoVariant.fieldEvent event => CFieldEventDB.Serialize s event

/-- The method `CBettingUndoDB::Unserialize`, the read branch of `SerializationOp`, run on
the object `obj`: the height and the `int undoType` are read; for 0 an extended event and
for 1 a field event is read into a fresh object and assigned to the variant; in the
`default` case an exception object is built and not thrown, and the variant keeps its
value. -/
def CBettingUndoDB.Unserialize (env : Env) (s : List Nat) (obj : CBettingUndoDB) :
    Option (CBettingUndoDB × List Nat) :=
  readThen (ser_readdata32 s) fun height s =>
  readThen (ser_readdata32 s) fun undoType s =>
  if i32 undoType = 0 then
    readThen (CPeerlessExtendedEventDB.Unserialize env s {}) fun event s =>
    some ({ height := height, undoVariant := BettingUndoVariant.peerlessEvent event }, s)
  else if i32 undoType = 1 then
    readThen (CFieldEventDB.Unserialize s) fun event s =>
    some ({ height := height, undoVariant := BettingUndoVariant.fieldEvent event }, s)
  else some ({ height := height, undoVariant := obj.undoVariant }, s)

/-- The values that the members of a `ContenderInfo` object can hold. -/
@[reducible] def ContenderInfo.inRange (c : ContenderInfo) : Prop :=
  c.nInputOdds < 4294967296 ∧
  c.nOutrightOdds < 4294967296 ∧
  c.nOutrightBets < 4294967296 ∧
  c.nOutrightPotentialLiability < 4294967296 ∧
  c.nPlaceOdds < 4294967296 ∧
  c.nPlaceBets < 4294967296 ∧
  c.nPlacePotentialLiability < 4294967296 ∧
  c.nShowOdds < 4294967296 ∧
  c.nShowBets < 4294967296 ∧
  c.nShowPotentialLiability < 4294967296 ∧
  c.nModifier < 4294967296

/-- The values that a `CFieldEventDB` object can hold: members in the range of their
types, the contenders in strictly ascending key order as a `std::map` lists them, and no
more of them than `MAX_SIZE`. -/
@[reducible] def CFieldEventDB.inRange (e : CFieldEventDB) : Prop :=
  e.nEventId < 4294967296 ∧ e.nStartTime < 18446744073709551616 ∧
  e.nGroupType < 256 ∧ e.nMarketType < 256 ∧ e.nSport < 4294967296 ∧
  e.nTournament < 4294967296 ∧ e.nStage < 4294967296 ∧ e.nMarginPercent < 4294967296 ∧
  (∀ entry ∈ e.contenders, entry.1 < 4294967296 ∧ entry.2.inRange) ∧
  (e.contenders.map (fun entry => entry.1)).Pairwise (fun a b => a < b) ∧
  e.contenders.length ≤ 33554432

/-- The bytes of the entries of a contenders map: for each entry the key, then the
contender record. -/
def contenderBytes (m : List (Nat × ContenderInfo)) : List Nat :=
  m.flatMap (fun entry => littleEndian32 entry.1 ++ ContenderInfo.Serialize [] entry.2)

/-- The values that a `CBettingUndoDB` object can hold. -/
@[reducible] def CBettingUndoDB.inRange (u : CBettingUndoDB) : Prop :=
  u.height < 4294967296 ∧
  match u.undoVariant with
  | BettingUndoVariant.peerlessEvent event => event.inRange
  | BettingUndoVariant.fieldEvent event => event.inRange

/-- A field event with two contenders. -/
def exFieldEvent : CFieldEventDB :=
  { nEventId := 9, nStartTime := 1000000, nGroupType := 1, nMarketType := 2, nSport := 3,
    nMarginPercent := 600,
    contenders := [(1, { nInputOdds := 20000, nOutrightOdds := 18500 }),
      (2, { nInputOdds := 30000, nModifier := 5 })] }

/-- The undo entry of height 7 that holds the field event `exFieldEvent`. -/
def exFieldUndo : CBettingUndoDB :=
  { height := 7, undoVariant := BettingUndoVariant.fieldEvent exFieldEvent }

/-- The undo entry of height 7 that holds the extended event `legacyExtendedEvent`. -/
def exPeerlessUndo : CBettingUndoDB :=
  { height := 7, undoVariant := BettingUndoVariant.peerlessEvent legacyExtendedEvent }

/-! ## The table operations of `CBettingDB` -/

/-- Modelled from the spec: the key-value table behind a `CBettingDB` (the class
`CFlushableStorageKV` of `flushablestorage/flushablestorage.h`): the stored pairs of key
bytes and value bytes, in ascending key order. -/
abbrev CStorageKV := List (List Nat × List Nat)

/-- Modelled from the spec: `CFlushableStorageKV::Exists`. -/
def CStorageKV.Exists (db : CStorageKV) (key : List Nat) : Bool :=
  db.any (fun e => decide (e.1 = key))

/-- Modelled from the spec: `CFlushableStorageKV::Read`: the value stored under the key,
`none` when there is none. -/
def CStorageKV.Read (db : CStorageKV) (key : List Nat) : Option (List Nat) :=
  (db.find? (fun e => decide (e.1 = key))).map (fun e => e.2)

/-- The table with `value` stored under `key`: the value of a present key is replaced, an
absent key is inserted at its place in byte order. -/
def insertKV : CStorageKV → List Nat → List Nat → CStorageKV
  | [], key, value => [(key, value)]
  | e :: rest, key, value =>
    if e.1 = key then (key, value) :: rest
    else if bytesLt key e.1 then (key, value) :: e :: rest
    else e :: insertKV rest key value

/-- Modelled from the spec: `CFlushableStorageKV::Write`: the value is stored under the
key, whether the key was present or not; the call reports success. -/
def CStorageKV.Write (db : CStorageKV) (key value : List Nat) : Bool × CStorageKV :=
  (true, insertKV db key value)

/-- Modelled from the spec: `CFlushableStorageKV::Erase`: the key is removed; the call
reports success. -/
def CStorageKV.Erase (db : CStorageKV) (key : List Nat) : Bool × CStorageKV :=
  (true, db.filter (fun e => decide (e.1 ≠ key)))

/-- The method `CBettingDB::Exists` for a key type with the `Serialize` method `serK`. -/
def CBettingDB.Exists {κ : Type} (serK : List Nat → κ → List Nat) (db : CStorageKV)
    (key : κ) : Bool :=
  CStorageKV.Exists db (CBettingDB.DbTypeToBytes serK key)

/-- The method `CBettingDB::Write`: the returned flag and the table after the call. -/
def CBettingDB.Write {κ ν : Type} (serK : List Nat → κ → List Nat)
    (serV : List Nat → ν → List Nat) (db : CStorageKV) (key : κ) (value : ν) :
    Bool × CStorageKV :=
  let vKey := CBettingDB.DbTypeToBytes serK key
  let vValue := CBettingDB.DbTypeToBytes serV value
  if CStorageKV.Exists db vKey then (false, db)
  else CStorageKV.Write db vKey vValue

/-- The method `CBettingDB::Update`: the returned flag and the table after the call. -/
def CBettingDB.Update {κ ν : Type} (serK : List Nat → κ → List Nat)
    (serV : List Nat → ν → List Nat) (db : CStorageKV) (key : κ) (value : ν) :
    Bool × CStorageKV :=
  let vKey := CBettingDB.DbTypeToBytes serK key
  let vValue := CBettingDB.DbTypeToBytes serV value
  if !CStorageKV.Exists db vKey then (false, db)
  else CStorageKV.Write db vKey vValue

/-- The method `CBettingDB::Erase`: the returned flag and the table after the call. -/
def CBettingDB.Erase {κ : Type} (serK : List Nat → κ → List Nat) (db : CStorageKV)
    (key : κ) : Bool × CStorageKV :=
  let vKey := CBettingDB.DbTypeToBytes serK key
  if !CStorageKV.Exists db vKey then (false, db)
  else CStorageKV.Erase db vKey

/-- The method `CBettingDB::Read`, run with the output object `value`: the returned flag
and the output object after the call; `none` when `BytesToDbType` raises (a read past the
end of the stored bytes, or its final assertion). -/
def CBettingDB.Read {κ ν : Type} (serK : List Nat → κ → List Nat)
    (unserV : List Nat → ν → Option (ν × List Nat)) (db : CStorageKV) (key : κ)
    (value : ν) : Option (Bool × ν) :=
  let vKey := CBettingDB.DbTypeToBytes serK key
  match CStorageKV.Read db vKey with
  | some vValue =>
    match CBettingDB.BytesToDbType unserV vValue value with
    | some v => some (true, v)
    | none => none
  | none => some (false, value)

/-! ## Quick games: `GetQuickGamesBetPayouts` -/

/-- The class `CQuickGamesBetDB`; `gameType` is the number of the `QuickGamesType`
enumerator, `vBetInfo` the bytes of the bet, `completed` the private flag. -/
structure CQuickGamesBetDB where
  gameType : Nat
  vBetInfo : List Nat
  betAmount : Int
  playerAddress : CTxDestination
  betTime : Int
  resultType : BetResultType := BetResultType.betResultUnknown
  payout : Int := 0
  completed : Bool := false
deriving DecidableEq, Repr

/-- The members of the class `CQuickGamesView` (`quickgames/qgview.h`) that the payout
engine reads: the handler, which maps the bet bytes and the proof-of-stake hash to
`uint32_t` odds, the special address (a string, kept as its bytes) and the three
`uint32_t` permille values.  The values are reduced with `u32` where they are used. -/
structure CQuickGamesView where
  handler : List Nat → Nat → Nat
  specialAddress : List Nat
  nFeePermille : Nat
  nOMNORewardPermille : Nat
  nDevRewardPermille : Nat

/-- The environment of the quick-games payouts: that of the payout engine with the chain
parameters `QuickGamesEndHeight()` and `QuickGamesArr()` and the functions
`GetFeePayoutAddresses` (the developer and the operator address, as bytes, or nothing
when it returns false) and `DecodeDestination`. -/
structure QuickGamesEnv extends Env where
  QuickGamesEndHeight : Int
  QuickGamesArr : List CQuickGamesView
  GetFeePayoutAddresses : Int → Option (List Nat × List Nat)
  DecodeDestination : List Nat → CTxDestination

/-- The local `winningsPermille = qgBet.betAmount * odds`. -/
def qgWinningsPermille (betAmount : Int) (odds : Nat) : Int :=
  i64 (betAmount * (odds : Int))

/-- The local `feePermille`: `betAmount * (odds - BET_ODDSDIVISOR) / 1000 * nFeePermille`
when the winnings are positive, else 0.  The difference `odds - BET_ODDSDIVISOR` is
unsigned 32-bit, the products are `int64_t`. -/
def qgFeePermille (gameView : CQuickGamesView) (betAmount : Int) (odds : Nat) : Int :=
  if qgWinningsPermille betAmount odds > 0 then
    i64 (Int.tdiv (i64 (betAmount * (u32OfInt ((odds : Int) - (BET_ODDSDIVISOR : Int)) : Int)))
        1000 * (u32 gameView.nFeePermille : Int))
  else 0

/-- The local `payout`: `(winningsPermille - feePermille) / BET_ODDSDIVISOR` when the
winnings are positive, else 0. -/
def qgPayout (gameView : CQuickGamesView) (betAmount : Int) (odds : Nat) : Int :=
  if qgWinningsPermille betAmount odds > 0 then
    Int.tdiv (i64 (qgWinningsPermille betAmount odds - qgFeePermille gameView betAmount odds))
      (BET_ODDSDIVISOR : Int)
  else 0

/-- The rewards `feePermille / 1000 * permille / BET_ODDSDIVISOR` of the developer and of
the operator. -/
def qgReward (feePermille : Int) (permille : Nat) : Int :=
  Int.tdiv (i64 (Int.tdiv feePermille 1000 * (u32 permille : Int))) (BET_ODDSDIVISOR : Int)

/-- The statements `if (m.find(key) == m.end()) m[key] = v; else m[key] += v;` on the
`std::map<std::string, CAmount>`, kept as the list of its entries in key order. -/
def addReward (m : List (List Nat × Int)) (key : List Nat) (v : Int) :
    List (List Nat × Int) :=
  match m with
  | [] => [(key, v)]
  | e :: rest =>
    if key = e.1 then (e.1, i64 (e.2 + v)) :: rest
    else if bytesLt key e.1 then (key, v) :: e :: rest
    else e :: addReward rest key v

/-- The locals that `GetQuickGamesBetPayouts` carries through its loop. -/
structure QGState where
  vExpectedPayouts : List CBetOut
  vPayoutsInfo : List CPayoutInfoDB
  mExpectedRewards : List (List Nat × Int)
  vEntriesToUpdate : List (PeerlessBetKey × CQuickGamesBetDB)
deriving DecidableEq, Repr

/-- The odds that the game handler returns for the bet on the block at height
`nNewBlockHeight - 1`, as `uint32_t`. -/
def qgOdds (env : QuickGamesEnv) (nNewBlockHeight : Int) (gameView : CQuickGamesView)
    (qgBet : CQuickGamesBetDB) : Nat :=
  u32 (gameView.handler qgBet.vBetInfo (env.mapProofOfStake (nNewBlockHeight - 1)))

/-- The record that the loop body queues for the write-back. -/
def qgSettled (qgBet : CQuickGamesBetDB) (resultType : BetResultType) (payout : Int) :
    CQuickGamesBetDB :=
  { qgBet with resultType := resultType, completed := true, payout := payout }

/-- The body of the loop over the quick-games bets of the block, after the test of the
key's height: a completed bet and a bet with an invalid game index are skipped; a bet
with a positive payout is skipped when the fee payout addresses are not found, else it
gives an output, a payout record and the two rewards; every other bet is a losing bet.
The handled bet is queued for the write-back. -/
def qgBetStep (env : QuickGamesEnv) (nNewBlockHeight : Int) (st : QGState)
    (entry : PeerlessBetKey × CQuickGamesBetDB) : QGState :=
  let qgKey := entry.1
  let qgBet := entry.2
  if qgBet.completed then st
  else
    match env.QuickGamesArr[qgBet.gameType]? with
    | none => st
    | some gameView =>
      let odds := qgOdds env nNewBlockHeight gameView qgBet
      let feePermille := qgFeePermille gameView qgBet.betAmount odds
      let payout := qgPayout gameView qgBet.betAmount odds
      if payout > 0 then
        match env.GetFeePayoutAddresses nNewBlockHeight with
        | none => st
        | some (_, OMNOPayoutAddr) =>
          { vExpectedPayouts := st.vExpectedPayouts ++
              [⟨payout, env.GetScriptForDestination qgBet.playerAddress, qgBet.betAmount, 0⟩]
            vPayoutsInfo := st.vPayoutsInfo ++
              [⟨qgKey, if odds = BET_ODDSDIVISOR then PayoutType.quickGamesRefund
                else PayoutType.quickGamesPayout⟩]
            mExpectedRewards :=
              addReward
                (addReward st.mExpectedRewards gameView.specialAddress
                  (qgReward feePermille gameView.nDevRewardPermille))
                OMNOPayoutAddr (qgReward feePermille gameView.nOMNORewardPermille)
            vEntriesToUpdate := st.vEntriesToUpdate ++
              [(qgKey, qgSettled qgBet
                (if odds = BET_ODDSDIVISOR then BetResultType.betResultRefund
                  else BetResultType.betResultWin) payout)] }
      else
        { st with
          vEntriesToUpdate := st.vEntriesToUpdate ++
            [(qgKey, qgSettled qgBet BetResultType.betResultLose payout)] }

/-- The entries that the loop of `GetQuickGamesBetPayouts` visits: from the seek position
`(blockHeight, COutPoint())` up to the first key of another height, where the loop
breaks. -/
def qgVisited (nNewBlockHeight : Int)
    (quickGamesBets : List (PeerlessBetKey × CQuickGamesBetDB)) :
    List (PeerlessBetKey × CQuickGamesBetDB) :=
  (Seek ⟨u32OfInt (nNewBlockHeight - 1), COutPoint.null⟩ quickGamesBets).takeWhile
    (fun e => decide (e.1.blockHeight = u32OfInt (nNewBlockHeight - 1)))

/-- The loop of `GetQuickGamesBetPayouts` over the bets of the block. -/
def qgLoop (env : QuickGamesEnv) (quickGamesBets : List (PeerlessBetKey × CQuickGamesBetDB))
    (nNewBlockHeight : Int) (vExpectedPayouts : List CBetOut)
    (vPayoutsInfo : List CPayoutInfoDB) : QGState :=
  (qgVisited nNewBlockHeight quickGamesBets).foldl (qgBetStep env nNewBlockHeight)
    { vExpectedPayouts := vExpectedPayouts, vPayoutsInfo := vPayoutsInfo,
      mExpectedRewards := [], vEntriesToUpdate := [] }

/-- The function `GetQuickGamesBetPayouts` on the table `quickGamesBets` of the view: the
table after the closing write-back and the two vectors, the reward outputs appended in
the key order of the rewards map. -/
def GetQuickGamesBetPayouts (env : QuickGamesEnv)
    (quickGamesBets : List (PeerlessBetKey × CQuickGamesBetDB)) (nNewBlockHeight : Int)
    (vExpectedPayouts : List CBetOut) (vPayoutsInfo : List CPayoutInfoDB) :
    List (PeerlessBetKey × CQuickGamesBetDB) × List CBetOut × List CPayoutInfoDB :=
  if nNewBlockHeight - 1 ≥ env.QuickGamesEndHeight then
    (quickGamesBets, vExpectedPayouts, vPayoutsInfo)
  else
    let st := qgLoop env quickGamesBets nNewBlockHeight vExpectedPayouts vPayoutsInfo
    (UpdateAll quickGamesBets st.vEntriesToUpdate,
      st.vExpectedPayouts ++ st.mExpectedRewards.map (fun reward =>
        (⟨reward.2, env.GetScriptForDestination (env.DecodeDestination reward.1), 0, 0⟩ :
          CBetOut)),
      st.vPayoutsInfo ++ st.mExpectedRewards.map (fun _ =>
        (⟨⟨u32OfInt nNewBlockHeight, COutPoint.null⟩, PayoutType.quickGamesReward⟩ :
          CPayoutInfoDB)))

/-- The payout of a quick-games bet as section 4.6 words it: the fee is
`a * (o - D) / D * p / 1000` and the payout `(a * o - fee * D) / D`, integer division at
each step. -/
def specQGPayout (a o p : Int) : Int :=
  Int.tdiv (a * o - Int.tdiv (Int.tdiv (a * (o - 10000)) 10000 * p) 1000 * 10000) 10000

/-! ## A quick game -/

/-- A game with fee permille 10 whose handler gives the odds 23500 to the bet bytes `[1]`,
the refund odds 10000 to `[2]` and 0 to every other bet; the developer gets 240 permille
of the fee at the address `[68]`, the operator 760 permille. -/
def exGame : CQuickGamesView :=
  { handler := fun info _ => if info = [1] then 23500 else if info = [2] then 10000 else 0
    specialAddress := [68]
    nFeePermille := 10
    nOMNORewardPermille := 760
    nDevRewardPermille := 240 }

/-- The chain of `exEnv` with quick games until height 100000, the game `exGame` at
index 0, and the fee payout addresses `[68]` and `[79]`. -/
def exQGEnv : QuickGamesEnv :=
  { exEnv with
    QuickGamesEndHeight := 100000
    QuickGamesArr := [exGame]
    GetFeePayoutAddresses := fun _ => some ([68], [79])
    DecodeDestination := fun s => s.headD 0 }

/-- The chain of `exQGEnv` where the fee payout addresses are not found. -/
def noAddrQGEnv : QuickGamesEnv :=
  { exQGEnv with GetFeePayoutAddresses := fun _ => none }

/-- A winning bet of 1.23456789 coins of address 41 on the game 0. -/
def qgWinBet : CQuickGamesBetDB :=
  { gameType := 0, vBetInfo := [1], betAmount := 123456789, playerAddress := 41,
    betTime := 990000 }

/-- A losing bet of one coin of address 42 on the game 0. -/
def qgLoseBet : CQuickGamesBetDB :=
  { gameType := 0, vBetInfo := [0], betAmount := 100000000, playerAddress := 42,
    betTime := 990001 }

/-- A refunded bet of one coin of address 43 on the game 0. -/
def qgRefundBet : CQuickGamesBetDB :=
  { gameType := 0, vBetInfo := [2], betAmount := 100000000, playerAddress := 43,
    betTime := 990002 }

/-- The quick-games table with the refunded bet at height 598, the winning bet at height
599 and the losing bet at height 600. -/
def qgTable : List (PeerlessBetKey × CQuickGamesBetDB) :=
  [(⟨598, ⟨53, 0⟩⟩, qgRefundBet), (⟨599, ⟨51, 0⟩⟩, qgWinBet), (⟨600, ⟨52, 0⟩⟩, qgLoseBet)]

/-! ## `UndoQGBetPayouts` -/

/-- The record that the loop of `UndoPLBetPayouts` queues: `SetUncompleted()`,
`resultType = betResultUnknown`, `payout = 0`; the other members are kept. -/
def plUndone (uniBet : CPeerlessBetDB) : CPeerlessBetDB :=
  { uniBet with
    completed := false
    resultType := BetResultType.betResultUnknown
    payout := 0 }

/-- The record that the loop of `UndoQGBetPayouts` queues: `SetUncompleted()`,
`resultType = betResultUnknown`, `payout = 0`; the other members are kept. -/
def qgUndone (qgBet : CQuickGamesBetDB) : CQuickGamesBetDB :=
  { qgBet with
    completed := false
    resultType := BetResultType.betResultUnknown
    payout := 0 }

/-- One iteration of the loop of `UndoQGBetPayouts`: a bet that is not completed is
skipped, a completed bet is queued with the three members reset.  The loop has no test of
the key's height. -/
def undoQGStep (vEntriesToUpdate : List (PeerlessBetKey × CQuickGamesBetDB))
    (entry : PeerlessBetKey × CQuickGamesBetDB) : List (PeerlessBetKey × CQuickGamesBetDB) :=
  if !entry.2.completed then vEntriesToUpdate
  else vEntriesToUpdate ++ [(entry.1, qgUndone entry.2)]

/-- The function `UndoQGBetPayouts` on the table `quickGamesBets` of the view: the table
after the closing write-back (the function returns `true` on every path).  The loop runs
from the seek position `(blockHeight, COutPoint())` to the end of the table. -/
def UndoQGBetPayouts (quickGamesBets : List (PeerlessBetKey × CQuickGamesBetDB))
    (height : Int) : List (PeerlessBetKey × CQuickGamesBetDB) :=
  let blockHeight := u32OfInt height
  let vEntriesToUpdate :=
    (Seek ⟨blockHeight, COutPoint.null⟩ quickGamesBets).foldl undoQGStep []
  UpdateAll quickGamesBets vEntriesToUpdate

/-- The quick-games table `qgTable` after the payout calls for the heights 600 and 601:
the bets keyed at 599 and at 600 are completed. -/
def qgPaidTable : List (PeerlessBetKey × CQuickGamesBetDB) :=
  (GetQuickGamesBetPayouts exQGEnv (GetQuickGamesBetPayouts exQGEnv qgTable 600 [] []).1
    601 [] []).1

/-! ## `CPayoutInfoDB::CompareTo` -/

/-- The method `CPayoutInfoDB::CompareTo`.  `ltOut` is `operator<` of `COutPoint` and
`code` gives the value of a `PayoutType` enumerator, both declared outside the betting
sources; the cast `(uint8_t)` reduces the value modulo 256, and `operator!=` of two
outpoints is the inequality of their members. -/
def CPayoutInfoDB.CompareTo (ltOut : COutPoint → COutPoint → Bool) (code : PayoutType → Nat)
    (self rhs : CPayoutInfoDB) : Int :=
  if self.betKey.blockHeight < rhs.betKey.blockHeight then -1
  else if self.betKey.blockHeight > rhs.betKey.blockHeight then 1
  else if ltOut self.betKey.outPoint rhs.betKey.outPoint then -1
  else if self.betKey.outPoint ≠ rhs.betKey.outPoint then 1
  else if code self.payoutType % 256 < code rhs.payoutType % 256 then -1
  else if code self.payoutType % 256 > code rhs.payoutType % 256 then 1
  else 0

/-- The operator `==` of `CPayoutInfoDB`: `CompareTo(rhs) == 0`. -/
def CPayoutInfoDB.operatorEq (ltOut : COutPoint → COutPoint → Bool)
    (code : PayoutType → Nat) (self rhs : CPayoutInfoDB) : Bool :=
  decide (CPayoutInfoDB.CompareTo ltOut code self rhs = 0)

/-- The operator `!=` of `CPayoutInfoDB`: `CompareTo(rhs) != 0`. -/
def CPayoutInfoDB.operatorNe (ltOut : COutPoint → COutPoint → Bool)
    (code : PayoutType → Nat) (self rhs : CPayoutInfoDB) : Bool :=
  decide (CPayoutInfoDB.CompareTo ltOut code self rhs ≠ 0)

/-- The operator `<=` of `CPayoutInfoDB`: `CompareTo(rhs) <= 0`. -/
def CPayoutInfoDB.operatorLe (ltOut : COutPoint → COutPoint → Bool)
    (code : PayoutType → Nat) (self rhs : CPayoutInfoDB) : Bool :=
  decide (CPayoutInfoDB.CompareTo ltOut code self rhs ≤ 0)

/-- The operator `>=` of `CPayoutInfoDB`: `CompareTo(rhs) >= 0`. -/
def CPayoutInfoDB.operatorGe (ltOut : COutPoint → COutPoint → Bool)
    (code : PayoutType → Nat) (self rhs : CPayoutInfoDB) : Bool :=
  decide (CPayoutInfoDB.CompareTo ltOut code self rhs ≥ 0)

/-- The operator `<` of `CPayoutInfoDB`: `CompareTo(rhs) < 0`. -/
def CPayoutInfoDB.operatorLt (ltOut : COutPoint → COutPoint → Bool)
    (code : PayoutType → Nat) (self rhs : CPayoutInfoDB) : Bool :=
  decide (CPayoutInfoDB.CompareTo ltOut code self rhs < 0)

/-- The operator `>` of `CPayoutInfoDB`: `CompareTo(rhs) > 0`. -/
def CPayoutInfoDB.operatorGt (ltOut : COutPoint → COutPoint → Bool)
    (code : PayoutType → Nat) (self rhs : CPayoutInfoDB) : Bool :=
  decide (CPayoutInfoDB.CompareTo ltOut code self rhs > 0)

/-- A numbering of the `PayoutType` enumerators in declaration order, from 1. -/
def exPayoutCode : PayoutType → Nat
  | PayoutType.bettingPayout => 1
  | PayoutType.bettingRefund => 2
  | PayoutType.bettingReward => 3
  | PayoutType.chainGamesPayout => 4
  | PayoutType.chainGamesRefund => 5
  | PayoutType.chainGamesReward => 6
  | PayoutType.quickGamesPayout => 7
  | PayoutType.quickGamesRefund => 8
  | PayoutType.quickGamesReward => 9

/-- The relation between an entry `e` of the bets table before `UndoPLBetPayouts` and the
entry `e'` at its place afterwards, as the undo is meant to act: the key, the stake, the
player address, the legs, the locked events and the bet time are the same, and either the
entry is unchanged or it was completed and now is not completed, with the result type
unknown and the payout 0. -/
@[reducible] def plUndoRel (e e' : PeerlessBetKey × CPeerlessBetDB) : Prop :=
  e'.1 = e.1 ∧ e'.2.betAmount = e.2.betAmount ∧ e'.2.playerAddress = e.2.playerAddress ∧
  e'.2.legs = e.2.legs ∧ e'.2.lockedEvents = e.2.lockedEvents ∧ e'.2.betTime = e.2.betTime ∧
  (e' = e ∨
    (e.2.completed = true ∧ e'.2.completed = false ∧
      e'.2.resultType = BetResultType.betResultUnknown ∧ e'.2.payout = 0))

/-- The same relation for the quick-games table and `UndoQGBetPayouts`: the key, the game
type, the bet bytes, the stake, the player address and the bet time are the same, and
either the entry is unchanged or it was completed and now is not completed, with the
result type unknown and the payout 0. -/
@[reducible] def qgUndoRel (e e' : PeerlessBetKey × CQuickGamesBetDB) : Prop :=
  e'.1 = e.1 ∧ e'.2.gameType = e.2.gameType ∧ e'.2.vBetInfo = e.2.vBetInfo ∧
  e'.2.betAmount = e.2.betAmount ∧ e'.2.playerAddress = e.2.playerAddress ∧
  e'.2.betTime = e.2.betTime ∧
  (e' = e ∨
    (e.2.completed = true ∧ e'.2.completed = false ∧
      e'.2.resultType = BetResultType.betResultUnknown ∧ e'.2.payout = 0))

/-- The store `exView` after the payout call for height 601: its bet is completed. -/
def exPaidView : CBettingsView := (GetPLBetPayoutsV3 exEnv exView 601 [] []).1

/-- A store with the parlay `c3Bet` on events 100 and 101 and the result of event 100
only: the second leg is unresolved. -/
def c32View : CBettingsView :=
  { bets := [(exKey, c3Bet)], results := [exResult] }

/-! ## Outputs and their payout records -/

/-- What it means that the payout-info record `p.2` describes the output `p.1`: either
the record is a reward record (kind `rewardKind`, zero-outpoint key of the payout height)
and the output carries no stake, or the record is not a reward record and its key is the
key of a bet, listed in `stakes` with its player address and stake, to whose player the
output goes and whose stake the output carries. -/
@[reducible] def describesOutput (GetScript : CTxDestination → CScript)
    (zeroKey : PeerlessBetKey) (rewardKind : PayoutType)
    (stakes : List (PeerlessBetKey × CTxDestination × Int))
    (p : CBetOut × CPayoutInfoDB) : Prop :=
  (p.2.payoutType = rewardKind ∧ p.2.betKey = zeroKey ∧ p.1.nBetValue = 0) ∨
  (p.2.payoutType ≠ rewardKind ∧
    ∃ s ∈ stakes, s.1 = p.2.betKey ∧ p.1.scriptPubKey = GetScript s.2.1 ∧
      p.1.nBetValue = s.2.2)

/-! # Lemmas and theorems -/

/-! ## Arithmetic lemmas -/

theorem i64_of_range (x : Int) (hlo : -9223372036854775808 ≤ x)
    (hhi : x < 9223372036854775808) : i64 x = x := by
  unfold i64; omega

theorem i64_add_left (a b : Int) : i64 (i64 a + b) = i64 (a + b) := by
  unfold i64; omega

theorem i64_sub_both (a b : Int) : i64 (i64 a - i64 b) = i64 (a - b) := by
  unfold i64; omega

theorem i64_idem (a : Int) : i64 (i64 a) = i64 a := by
  unfold i64; omega

/-! ## The block that settles a completed bet -/

theorem settleBet_pos (env : Env) (f : Bool) (H : Int) (k : PeerlessBetKey)
    (b : CPeerlessBetDB) (o : Nat × Nat) (fl : LegFlags)
    (hp : effectivePayoutOf env f b.betAmount (clampOdds env f b.betAmount o) > 0) :
    settleBet env f H k b o fl =
      { key := k
        bet := { b with
          resultType := classifyPaid
            (effectivePayoutOf env f b.betAmount (clampOdds env f b.betAmount o)) b.betAmount
            (clampOdds env f b.betAmount o).1 b.legs.length fl
          payoutHeight := u32OfInt H
          payout := effectivePayoutOf env f b.betAmount (clampOdds env f b.betAmount o)
          completed := true }
        finalOdds := clampOdds env f b.betAmount o
        effectivePayout := effectivePayoutOf env f b.betAmount (clampOdds env f b.betAmount o)
        grossPayout := grossPayoutOf f b.betAmount (clampOdds env f b.betAmount o)
        outs := [⟨effectivePayoutOf env f b.betAmount (clampOdds env f b.betAmount o),
          env.GetScriptForDestination b.playerAddress, b.betAmount, 0⟩]
        infos := [⟨k, if (clampOdds env f b.betAmount o).2 ≤ BET_ODDSDIVISOR
          then PayoutType.bettingRefund else PayoutType.bettingPayout⟩] } := by
  unfold settleBet
  simp only [hp, if_true]

theorem settleBet_nonpos (env : Env) (f : Bool) (H : Int) (k : PeerlessBetKey)
    (b : CPeerlessBetDB) (o : Nat × Nat) (fl : LegFlags)
    (hp : ¬ effectivePayoutOf env f b.betAmount (clampOdds env f b.betAmount o) > 0) :
    settleBet env f H k b o fl =
      { key := k
        bet := { b with
          resultType := BetResultType.betResultLose
          payout := effectivePayoutOf env f b.betAmount (clampOdds env f b.betAmount o)
          completed := true }
        finalOdds := clampOdds env f b.betAmount o
        effectivePayout := effectivePayoutOf env f b.betAmount (clampOdds env f b.betAmount o)
        grossPayout := grossPayoutOf f b.betAmount (clampOdds env f b.betAmount o)
        outs := []
        infos := [] } := by
  unfold settleBet
  simp only [hp, if_false]

theorem settleBet_key (env : Env) (f : Bool) (H : Int) (k : PeerlessBetKey)
    (b : CPeerlessBetDB) (o : Nat × Nat) (fl : LegFlags) :
    (settleBet env f H k b o fl).key = k := by
  by_cases hp : effectivePayoutOf env f b.betAmount (clampOdds env f b.betAmount o) > 0
  · rw [settleBet_pos env f H k b o fl hp]
  · rw [settleBet_nonpos env f H k b o fl hp]

theorem settleBet_static (env : Env) (f : Bool) (H : Int) (k : PeerlessBetKey)
    (b : CPeerlessBetDB) (o : Nat × Nat) (fl : LegFlags) :
    (settleBet env f H k b o fl).bet.betAmount = b.betAmount ∧
    (settleBet env f H k b o fl).bet.playerAddress = b.playerAddress ∧
    (settleBet env f H k b o fl).bet.legs = b.legs ∧
    (settleBet env f H k b o fl).bet.lockedEvents = b.lockedEvents ∧
    (settleBet env f H k b o fl).bet.betTime = b.betTime ∧
    (settleBet env f H k b o fl).bet.completed = true := by
  by_cases hp : effectivePayoutOf env f b.betAmount (clampOdds env f b.betAmount o) > 0
  · rw [settleBet_pos env f H k b o fl hp]; simp
  · rw [settleBet_nonpos env f H k b o fl hp]; simp

theorem settleBet_finalOdds (env : Env) (f : Bool) (H : Int) (k : PeerlessBetKey)
    (b : CPeerlessBetDB) (o : Nat × Nat) (fl : LegFlags) :
    (settleBet env f H k b o fl).finalOdds = clampOdds env f b.betAmount o := by
  by_cases hp : effectivePayoutOf env f b.betAmount (clampOdds env f b.betAmount o) > 0
  · rw [settleBet_pos env f H k b o fl hp]
  · rw [settleBet_nonpos env f H k b o fl hp]

theorem settleBet_payouts (env : Env) (f : Bool) (H : Int) (k : PeerlessBetKey)
    (b : CPeerlessBetDB) (o : Nat × Nat) (fl : LegFlags) :
    (settleBet env f H k b o fl).effectivePayout =
      effectivePayoutOf env f b.betAmount (clampOdds env f b.betAmount o) ∧
    (settleBet env f H k b o fl).grossPayout =
      grossPayoutOf f b.betAmount (clampOdds env f b.betAmount o) ∧
    (settleBet env f H k b o fl).bet.payout =
      effectivePayoutOf env f b.betAmount (clampOdds env f b.betAmount o) := by
  by_cases hp : effectivePayoutOf env f b.betAmount (clampOdds env f b.betAmount o) > 0
  · rw [settleBet_pos env f H k b o fl hp]; simp
  · rw [settleBet_nonpos env f H k b o fl hp]; simp

/-! ## The loop body -/

theorem handleBet_some (env : Env) (view : CBettingsView) (H : Int)
    (result : CPeerlessResultDB) (k : PeerlessBetKey) (b : CPeerlessBetDB) (h : HandledBet)
    (hh : handleBet env view H result k b = some h) :
    (isV3 env H && b.completed) = false ∧
    ((∃ leg, b.legs = [leg] ∧ leg.nEventId = result.nEventId ∧
        h = settleBet env (isV3 env H) H k b
          (singleOdds env (isV3 env H) (H - 1) b.betTime leg (b.lockedEvents.getD 0 {}) result)
          (markLeg (singleOdds env (isV3 env H) (H - 1) b.betTime leg
              (b.lockedEvents.getD 0 {}) result).1
            (u32 (env.GetBetPotentialOdds leg (b.lockedEvents.getD 0 {}))) {})) ∨
     (∃ leg0 leg1 more, b.legs = leg0 :: leg1 :: more ∧
        (leg0 :: leg1 :: more).any (fun leg => leg.nEventId == result.nEventId) = true ∧
        (parlayLegs env view (isV3 env H) b b.legs 0 parlayStart).completedBet = true ∧
        h = settleBet env (isV3 env H) H k b
          (parlayLegs env view (isV3 env H) b b.legs 0 parlayStart).finalOdds
          (parlayLegs env view (isV3 env H) b b.legs 0 parlayStart).flags)) := by
  unfold handleBet at hh
  simp only [show decide (H - 1 ≥ env.WagerrProtocolV3StartHeight) = isV3 env H from rfl] at hh
  by_cases hc : (isV3 env H && b.completed) = true
  · rw [if_pos hc] at hh; cases hh
  · rw [if_neg hc] at hh
    refine ⟨by simpa using hc, ?_⟩
    cases hl : b.legs with
    | nil => rw [hl] at hh; cases hh
    | cons l0 rest =>
      cases rest with
      | nil =>
        rw [hl] at hh
        simp only [] at hh
        left
        refine ⟨l0, rfl, ?_⟩
        by_cases he : l0.nEventId = result.nEventId
        · rw [if_pos he] at hh
          exact ⟨he, (Option.some.inj hh).symm⟩
        · rw [if_neg he] at hh; cases hh
      | cons l1 more =>
        rw [hl] at hh
        simp only [] at hh
        right
        refine ⟨l0, l1, more, rfl, ?_⟩
        by_cases ha : (l0 :: l1 :: more).any (fun leg => leg.nEventId == result.nEventId) = true
        · rw [if_pos ha] at hh
          by_cases hcb : (parlayLegs env view (isV3 env H) b (l0 :: l1 :: more) 0
              parlayStart).completedBet = true
          · rw [if_pos hcb] at hh
            exact ⟨ha, hcb, (Option.some.inj hh).symm⟩
          · rw [if_neg hcb] at hh; cases hh
        · rw [if_neg ha] at hh; cases hh

theorem handleBet_settle (env : Env) (view : CBettingsView) (H : Int)
    (result : CPeerlessResultDB) (k : PeerlessBetKey) (b : CPeerlessBetDB) (h : HandledBet)
    (hh : handleBet env view H result k b = some h) :
    ∃ o fl, h = settleBet env (isV3 env H) H k b o fl := by
  rcases (handleBet_some env view H result k b h hh).2 with ⟨_, _, _, hs⟩ | ⟨_, _, _, _, _, _, hs⟩
  · exact ⟨_, _, hs⟩
  · exact ⟨_, _, hs⟩

/-! ## Invariants of the loops -/

theorem betStep_view (env : Env) (H : Int) (result : CPeerlessResultDB)
    (acc : PLState × List (PeerlessBetKey × CPeerlessBetDB))
    (e : PeerlessBetKey × CPeerlessBetDB) :
    (betStep env H result acc e).1.view = acc.1.view := by
  unfold betStep
  cases handleBet env acc.1.view H result e.1 e.2 <;> rfl

theorem scan_view (env : Env) (H : Int) (result : CPeerlessResultDB)
    (es : List (PeerlessBetKey × CPeerlessBetDB)) :
    ∀ acc : PLState × List (PeerlessBetKey × CPeerlessBetDB),
      (es.foldl (betStep env H result) acc).1.view = acc.1.view := by
  induction es with
  | nil => intro acc; rfl
  | cons e es ih =>
    intro acc
    rw [List.foldl_cons, ih, betStep_view]

theorem betStep_handled (env : Env) (H : Int) (result : CPeerlessResultDB)
    (Q : HandledBet → Prop)
    (acc : PLState × List (PeerlessBetKey × CPeerlessBetDB))
    (e : PeerlessBetKey × CPeerlessBetDB)
    (hacc : ∀ h ∈ acc.1.handled, Q h)
    (hQ : ∀ h, handleBet env acc.1.view H result e.1 e.2 = some h → Q h) :
    ∀ h ∈ (betStep env H result acc e).1.handled, Q h := by
  unfold betStep
  cases hb : handleBet env acc.1.view H result e.1 e.2 with
  | none => exact hacc
  | some h0 =>
    intro h hm
    simp only [List.mem_append, List.mem_singleton] at hm
    rcases hm with hm | hm
    · exact hacc h hm
    · rw [hm]; exact hQ h0 hb

theorem scan_handled (env : Env) (H : Int) (result : CPeerlessResultDB)
    (Q : HandledBet → Prop) (es : List (PeerlessBetKey × CPeerlessBetDB)) :
    ∀ acc : PLState × List (PeerlessBetKey × CPeerlessBetDB),
      (∀ h ∈ acc.1.handled, Q h) →
      (∀ k b h, handleBet env acc.1.view H result k b = some h → Q h) →
      ∀ h ∈ (es.foldl (betStep env H result) acc).1.handled, Q h := by
  induction es with
  | nil => intro acc hacc _; exact hacc
  | cons e es ih =>
    intro acc hacc hQ
    rw [List.foldl_cons]
    apply ih
    · exact betStep_handled env H result Q acc e hacc (hQ e.1 e.2)
    · rw [betStep_view]; exact hQ

theorem resultStep_results (env : Env) (H : Int) (st : PLState) (result : CPeerlessResultDB) :
    (resultStep env H st result).view.results = st.view.results := by
  unfold resultStep
  by_cases hc : result.nResultType = env.eventClosed
  · rw [if_pos hc]
  · rw [if_neg hc]
    simp only []
    rw [scan_view]

theorem resultStep_handled (env : Env) (H : Int) (st : PLState) (result : CPeerlessResultDB)
    (Q : HandledBet → Prop) (hst : ∀ h ∈ st.handled, Q h)
    (hQ : ∀ k b h, handleBet env st.view H result k b = some h → Q h) :
    ∀ h ∈ (resultStep env H st result).handled, Q h := by
  unfold resultStep
  by_cases hc : result.nResultType = env.eventClosed
  · rw [if_pos hc]; exact hst
  · rw [if_neg hc]
    exact scan_handled env H result Q _ (st, []) hst hQ

theorem results_loop_handled (env : Env) (H : Int) (rs : List CPeerlessResultDB)
    (results0 : List CPeerlessResultDB) (Q : HandledBet → Prop)
    (hQ : ∀ view result k b h, view.results = results0 →
      handleBet env view H result k b = some h → Q h) :
    ∀ st : PLState, st.view.results = results0 → (∀ h ∈ st.handled, Q h) →
      ∀ h ∈ (rs.foldl (resultStep env H) st).handled, Q h := by
  induction rs with
  | nil => intro st _ hst; exact hst
  | cons r rs ih =>
    intro st hres hst
    rw [List.foldl_cons]
    apply ih
    · rw [resultStep_results]; exact hres
    · exact resultStep_handled env H st r Q hst (fun k b h hh => hQ st.view r k b h hres hh)

/-- Every bet handled by one call went through the loop body: a property that the loop
body guarantees for every result, key and record holds for every handled bet. -/
theorem plLoops_handled (env : Env) (view : CBettingsView) (H : Int)
    (vE : List CBetOut) (vI : List CPayoutInfoDB) (Q : HandledBet → Prop)
    (hQ : ∀ view1 result k b h, view1.results = view.results →
      handleBet env view1 H result k b = some h → Q h) :
    ∀ h ∈ (plLoops env view H vE vI).handled, Q h := by
  unfold plLoops
  apply results_loop_handled env H _ view.results Q hQ
  · rfl
  · intro h hm; cases hm

theorem betStep_some (env : Env) (H : Int) (result : CPeerlessResultDB)
    (acc : PLState × List (PeerlessBetKey × CPeerlessBetDB))
    (e : PeerlessBetKey × CPeerlessBetDB) (h : HandledBet)
    (hh : handleBet env acc.1.view H result e.1 e.2 = some h) :
    (betStep env H result acc e).1.vExpectedPayouts = acc.1.vExpectedPayouts ++ h.outs ∧
    (betStep env H result acc e).1.vPayoutsInfo = acc.1.vPayoutsInfo ++ h.infos ∧
    (betStep env H result acc e).1.handled = acc.1.handled ++ [h] ∧
    (betStep env H result acc e).2 = acc.2 ++ [(h.key, h.bet)] := by
  unfold betStep
  rw [hh]
  exact ⟨rfl, rfl, rfl, rfl⟩

/-! ## The two sums -/

theorem betStep_sumInv (env : Env) (H : Int) (result : CPeerlessResultDB)
    (acc : PLState × List (PeerlessBetKey × CPeerlessBetDB))
    (e : PeerlessBetKey × CPeerlessBetDB) (hv3 : isV3 env H = true)
    (hacc : SumInv acc.1) : SumInv (betStep env H result acc e).1 := by
  unfold betStep
  cases hb : handleBet env acc.1.view H result e.1 e.2 with
  | none => exact hacc
  | some h0 =>
    have hv : decide (H - 1 ≥ env.WagerrProtocolV3StartHeight) = true := hv3
    unfold SumInv at hacc ⊢
    simp only [hv, if_true, List.map_append, List.sum_append, List.map_cons, List.map_nil,
      List.sum_cons, List.sum_nil, add_zero]
    rw [hacc.1, hacc.2, i64_add_left, i64_add_left]
    exact ⟨rfl, rfl⟩

theorem scan_sumInv (env : Env) (H : Int) (result : CPeerlessResultDB)
    (hv3 : isV3 env H = true) (es : List (PeerlessBetKey × CPeerlessBetDB)) :
    ∀ acc : PLState × List (PeerlessBetKey × CPeerlessBetDB),
      SumInv acc.1 → SumInv (es.foldl (betStep env H result) acc).1 := by
  induction es with
  | nil => intro acc hacc; exact hacc
  | cons e es ih =>
    intro acc hacc
    rw [List.foldl_cons]
    exact ih _ (betStep_sumInv env H result acc e hv3 hacc)

theorem resultStep_sumInv (env : Env) (H : Int) (st : PLState) (result : CPeerlessResultDB)
    (hv3 : isV3 env H = true) (hst : SumInv st) : SumInv (resultStep env H st result) := by
  unfold resultStep
  by_cases hc : result.nResultType = env.eventClosed
  · rw [if_pos hc]; exact hst
  · rw [if_neg hc]
    exact scan_sumInv env H result hv3 _ (st, []) hst

theorem results_loop_sumInv (env : Env) (H : Int) (hv3 : isV3 env H = true)
    (rs : List CPeerlessResultDB) :
    ∀ st : PLState, SumInv st → SumInv (rs.foldl (resultStep env H) st) := by
  induction rs with
  | nil => intro st hst; exact hst
  | cons r rs ih =>
    intro st hst
    rw [List.foldl_cons]
    exact ih _ (resultStep_sumInv env H st r hv3 hst)

theorem plLoops_sumInv (env : Env) (view : CBettingsView) (H : Int)
    (vE : List CBetOut) (vI : List CPayoutInfoDB) (hv3 : isV3 env H = true) :
    SumInv (plLoops env view H vE vI) := by
  unfold plLoops
  apply results_loop_sumInv env H hv3
  have hz : i64 0 = 0 := by decide
  exact ⟨hz.symm, hz.symm⟩

/-- In a v3 call every handled bet carries the two payouts computed from its stake and
its final odds. -/
theorem plLoops_payouts (env : Env) (view : CBettingsView) (H : Int)
    (vE : List CBetOut) (vI : List CPayoutInfoDB) (hv3 : isV3 env H = true) :
    ∀ h ∈ (plLoops env view H vE vI).handled,
      h.effectivePayout = payoutAmount h.bet.betAmount h.finalOdds.2 ∧
      h.grossPayout = payoutAmount h.bet.betAmount h.finalOdds.1 ∧
      h.bet.payout = h.effectivePayout ∧
      ∃ o, h.finalOdds = clampOdds env true h.bet.betAmount o := by
  apply plLoops_handled
  intro view1 result k b h _ hh
  obtain ⟨o, fl, hs⟩ := handleBet_settle env view1 H result k b h hh
  rw [hv3] at hs
  have hp := settleBet_payouts env true H k b o fl
  have hf := settleBet_finalOdds env true H k b o fl
  have hst := settleBet_static env true H k b o fl
  rw [← hs] at hp hf hst
  rw [hp.1, hp.2.1, hp.2.2, hst.1, hf]
  exact ⟨rfl, rfl, rfl, o, rfl⟩

/-! ## Reward outputs -/

theorem GetPLRewardPayoutsV3_spec (env : Env) (n : Nat) (fee : Int)
    (e : List CBetOut) (i : List CPayoutInfoDB) (h0 : 0 ≤ fee)
    (hfit : fee * 4000 < 9223372036854775808) :
    GetPLRewardPayoutsV3 env n fee e i =
      match env.GetFeePayoutScripts n with
      | none => (e, i)
      | some (dev, omno) =>
        (e ++ (if 0 < fee / 10 then [⟨fee / 10, dev, 0, 0⟩] else []) ++
            (if 0 < fee * 4 / 10 then [⟨fee * 4 / 10, omno, 0, 0⟩] else []),
         i ++ (if 0 < fee / 10
              then [⟨⟨n, COutPoint.null⟩, PayoutType.bettingReward⟩] else []) ++
            (if 0 < fee * 4 / 10
              then [⟨⟨n, COutPoint.null⟩, PayoutType.bettingReward⟩] else [])) := by
  unfold GetPLRewardPayoutsV3
  cases hs : env.GetFeePayoutScripts n with
  | none => rfl
  | some p =>
    obtain ⟨dev, omno⟩ := p
    have h4 : Int.tdiv (i64 (fee * 4000)) (BET_ODDSDIVISOR : Nat) = fee * 4 / 10 := by
      rw [i64_of_range _ (by omega) hfit]
      rw [Int.tdiv_eq_ediv (by omega) (by decide)]
      unfold BET_ODDSDIVISOR
      omega
    have h1 : Int.tdiv (i64 (fee * 1000)) (BET_ODDSDIVISOR : Nat) = fee / 10 := by
      rw [i64_of_range _ (by omega) (by omega)]
      rw [Int.tdiv_eq_ediv (by omega) (by decide)]
      unfold BET_ODDSDIVISOR
      omega
    simp only [h4, h1]
    by_cases hd : 0 < fee / 10 <;> by_cases ho : 0 < fee * 4 / 10 <;>
      simp [hd, ho]

/-! ## Payout amounts -/

theorem payoutAmount_floor (A : Int) (o : Nat)
    (hlo : -9223372036854775808 ≤ A * (o : Int)) (hhi : A * (o : Int) < 9223372036854775808)
    (hs : 0 ≤ A ∨ o = 10000) : payoutAmount A o = A * (o : Int) / 10000 := by
  unfold payoutAmount BET_ODDSDIVISOR
  rw [i64_of_range _ hlo hhi]
  rcases hs with hA | ho
  · exact Int.tdiv_eq_ediv (Int.mul_nonneg hA (Int.ofNat_nonneg o)) (by decide)
  · subst ho
    exact Int.tdiv_eq_ediv_of_dvd (Dvd.intro_left A rfl)

theorem payoutAmount_refund (A : Int) (hlo : -9223372036854775808 ≤ A * 10000)
    (hhi : A * 10000 < 9223372036854775808) : payoutAmount A 10000 = A := by
  rw [payoutAmount_floor A 10000 hlo hhi (Or.inr rfl)]
  exact Int.mul_ediv_cancel A (by decide)

theorem clampOdds_neg (env : Env) (A : Int) (o : Nat × Nat)
    (hMin : 0 ≤ env.MinBetPayoutRange) (hA : A < 0) :
    clampOdds env true A o = (10000, 10000) := by
  unfold clampOdds
  have h1 : A < env.MinBetPayoutRange * COIN := by
    have : 0 ≤ env.MinBetPayoutRange * COIN := Int.mul_nonneg hMin (by decide)
    omega
  rw [if_pos (Or.inl h1)]
  rfl

theorem clampOdds_out (env : Env) (A : Int) (o : Nat × Nat)
    (hout : A < env.MinBetPayoutRange * COIN ∨ A > env.MaxBetPayoutRange * COIN) :
    clampOdds env true A o = (10000, 10000) := by
  unfold clampOdds
  rw [if_pos hout]
  rfl

theorem clampOdds_in (env : Env) (f : Bool) (A : Int) (o : Nat × Nat)
    (hin : ¬ (A < env.MinBetPayoutRange * COIN ∨ A > env.MaxBetPayoutRange * COIN)) :
    clampOdds env f A o = o := by
  unfold clampOdds
  rw [if_neg hin]

/-- A stake that is negative is clamped, so the sign condition of `payoutAmount_floor`
holds for both components of the clamped odds as soon as the lower payout bound is not
negative. -/
theorem clamp_sign (env : Env) (A : Int) (o : Nat × Nat) (hMin : 0 ≤ env.MinBetPayoutRange) :
    (0 ≤ A ∨ (clampOdds env true A o).1 = 10000) ∧
    (0 ≤ A ∨ (clampOdds env true A o).2 = 10000) := by
  by_cases hA : 0 ≤ A
  · exact ⟨Or.inl hA, Or.inl hA⟩
  · rw [clampOdds_neg env A o hMin (by omega)]
    exact ⟨Or.inr rfl, Or.inr rfl⟩

/-! ## Claims -/

/-- C1: in a payout call at a v3 height, when the loop body completes a bet with stake A
and final odds (onchain, effective) after the bet-size clamp, the effective payout is
floor(A * effective / 10000); when it is positive the iteration appends exactly one output
(that value, the script of the player's address, stake A) and exactly one payout-info
record carrying the bet's key, of kind bettingPayout when the effective odds exceed 10000
and bettingRefund otherwise; when it is not positive the iteration appends nothing.  The
lower payout bound is not negative and A * effective fits a signed 64-bit word. -/
theorem C1_bet_payout_appended (env : Env) (H : Int) (result : CPeerlessResultDB)
    (acc : PLState × List (PeerlessBetKey × CPeerlessBetDB))
    (key : PeerlessBetKey) (bet : CPeerlessBetDB) (h : HandledBet)
    (hv3 : isV3 env H = true) (hMin : 0 ≤ env.MinBetPayoutRange)
    (hh : handleBet env acc.1.view H result key bet = some h)
    (hlo : -9223372036854775808 ≤ bet.betAmount * (h.finalOdds.2 : Int))
    (hhi : bet.betAmount * (h.finalOdds.2 : Int) < 9223372036854775808) :
    h.effectivePayout = bet.betAmount * (h.finalOdds.2 : Int) / 10000 ∧
    (h.effectivePayout > 0 →
      (betStep env H result acc (key, bet)).1.vExpectedPayouts =
        acc.1.vExpectedPayouts ++
          [⟨h.effectivePayout, env.GetScriptForDestination bet.playerAddress,
            bet.betAmount, 0⟩] ∧
      (betStep env H result acc (key, bet)).1.vPayoutsInfo =
        acc.1.vPayoutsInfo ++
          [⟨key, if h.finalOdds.2 > 10000 then PayoutType.bettingPayout
            else PayoutType.bettingRefund⟩]) ∧
    (h.effectivePayout ≤ 0 →
      (betStep env H result acc (key, bet)).1.vExpectedPayouts = acc.1.vExpectedPayouts ∧
      (betStep env H result acc (key, bet)).1.vPayoutsInfo = acc.1.vPayoutsInfo) := by
  obtain ⟨o, fl, hs⟩ := handleBet_settle env acc.1.view H result key bet h hh
  rw [hv3] at hs
  have hfo : h.finalOdds = clampOdds env true bet.betAmount o := by
    rw [hs]; exact settleBet_finalOdds env true H key bet o fl
  have hpay : h.effectivePayout = payoutAmount bet.betAmount h.finalOdds.2 := by
    rw [hfo, hs]; exact (settleBet_payouts env true H key bet o fl).1
  have hsign : 0 ≤ bet.betAmount ∨ h.finalOdds.2 = 10000 := by
    rw [hfo]; exact (clamp_sign env bet.betAmount o hMin).2
  have hstep := betStep_some env H result acc (key, bet) h hh
  refine ⟨by rw [hpay]; exact payoutAmount_floor _ _ hlo hhi hsign, ?_, ?_⟩
  · intro hp
    have hp2 : effectivePayoutOf env true bet.betAmount (clampOdds env true bet.betAmount o) > 0 := by
      rw [← (settleBet_payouts env true H key bet o fl).1, ← hs]; exact hp
    have hform := settleBet_pos env true H key bet o fl hp2
    rw [← hs] at hform
    rw [hstep.1, hstep.2.1]
    have he : h.effectivePayout =
        effectivePayoutOf env true bet.betAmount (clampOdds env true bet.betAmount o) := by
      rw [hs]; exact (settleBet_payouts env true H key bet o fl).1
    rw [he, hfo]
    rw [hform]
    refine ⟨rfl, ?_⟩
    simp only [BET_ODDSDIVISOR]
    by_cases hle : (clampOdds env true bet.betAmount o).2 ≤ 10000
    · rw [if_pos hle, if_neg (by omega)]
    · rw [if_neg hle, if_pos (by omega)]
  · intro hp
    have hp2 : ¬ effectivePayoutOf env true bet.betAmount (clampOdds env true bet.betAmount o) > 0 := by
      rw [← (settleBet_payouts env true H key bet o fl).1, ← hs]; omega
    have hform := settleBet_nonpos env true H key bet o fl hp2
    rw [← hs] at hform
    rw [hstep.1, hstep.2.1, hform]
    simp

/-- C1, witness: the 100-coin bet of the scenario, final odds (25958, 25000), yields the
single output of 250 coins and a bettingPayout record under the bet's key. -/
theorem C1_bet_payout_appended_witness :
    handleBet exEnv exView 601 exResult exKey exBet = some exHandled ∧
    exHandled.finalOdds.2 = 25000 ∧
    (betStep exEnv 601 exResult (exState, []) (exKey, exBet)).1.vExpectedPayouts =
      [⟨25000000000, [7], 10000000000, 0⟩] ∧
    (betStep exEnv 601 exResult (exState, []) (exKey, exBet)).1.vPayoutsInfo =
      [⟨exKey, PayoutType.bettingPayout⟩] :=
  ⟨by decide, by decide,
    ((C1_bet_payout_appended exEnv 601 exResult (exState, []) exKey exBet exHandled
      (by decide) (by decide) (by decide) (by decide) (by decide)).2.1 (by decide)).1,
    ((C1_bet_payout_appended exEnv 601 exResult (exState, []) exKey exBet exHandled
      (by decide) (by decide) (by decide) (by decide) (by decide)).2.1 (by decide)).2⟩

/-- C2: in a v3 payout call the fee pool handed to the reward function is the sum of
floor(A * onchain / 10000) minus the sum of floor(A * effective / 10000) over the bets the
call completed; the vectors returned are those of the loops extended by
`GetPLRewardPayoutsV3`; and for a fee pool fee >= 0 that function appends, when the fee
scripts are found, the developer output floor(fee / 10) if positive and then the operator
output floor(fee * 4 / 10) if positive, each with stake 0 and a bettingReward record keyed
(new height, null outpoint), and nothing else (nothing at all when the scripts are not
found).  The products and the difference of the sums fit a signed 64-bit word and the
lower payout bound is not negative. -/
theorem C2_fee_pool_and_rewards (env : Env) (view : CBettingsView) (H : Int)
    (vE : List CBetOut) (vI : List CPayoutInfoDB)
    (hv3 : isV3 env H = true) (hMin : 0 ≤ env.MinBetPayoutRange)
    (hfit : ∀ h ∈ (plLoops env view H vE vI).handled,
      -9223372036854775808 ≤ h.bet.betAmount * (h.finalOdds.1 : Int) ∧
      h.bet.betAmount * (h.finalOdds.1 : Int) < 9223372036854775808 ∧
      -9223372036854775808 ≤ h.bet.betAmount * (h.finalOdds.2 : Int) ∧
      h.bet.betAmount * (h.finalOdds.2 : Int) < 9223372036854775808)
    (hlo : -9223372036854775808 ≤
      ((plLoops env view H vE vI).handled.map
          (fun h => h.bet.betAmount * (h.finalOdds.1 : Int) / 10000)).sum -
        ((plLoops env view H vE vI).handled.map
          (fun h => h.bet.betAmount * (h.finalOdds.2 : Int) / 10000)).sum)
    (hhi : ((plLoops env view H vE vI).handled.map
          (fun h => h.bet.betAmount * (h.finalOdds.1 : Int) / 10000)).sum -
        ((plLoops env view H vE vI).handled.map
          (fun h => h.bet.betAmount * (h.finalOdds.2 : Int) / 10000)).sum
        < 9223372036854775808) :
    feePool (plLoops env view H vE vI) =
      ((plLoops env view H vE vI).handled.map
          (fun h => h.bet.betAmount * (h.finalOdds.1 : Int) / 10000)).sum -
        ((plLoops env view H vE vI).handled.map
          (fun h => h.bet.betAmount * (h.finalOdds.2 : Int) / 10000)).sum ∧
    (GetPLBetPayoutsV3 env view H vE vI).2 =
      GetPLRewardPayoutsV3 env (u32OfInt H) (feePool (plLoops env view H vE vI))
        (plLoops env view H vE vI).vExpectedPayouts (plLoops env view H vE vI).vPayoutsInfo ∧
    (∀ (n : Nat) (fee : Int) (e : List CBetOut) (i : List CPayoutInfoDB),
      0 ≤ fee → fee * 4000 < 9223372036854775808 →
      GetPLRewardPayoutsV3 env n fee e i =
        match env.GetFeePayoutScripts n with
        | none => (e, i)
        | some (dev, omno) =>
          (e ++ (if 0 < fee / 10 then [⟨fee / 10, dev, 0, 0⟩] else []) ++
              (if 0 < fee * 4 / 10 then [⟨fee * 4 / 10, omno, 0, 0⟩] else []),
           i ++ (if 0 < fee / 10
                then [⟨⟨n, COutPoint.null⟩, PayoutType.bettingReward⟩] else []) ++
              (if 0 < fee * 4 / 10
                then [⟨⟨n, COutPoint.null⟩, PayoutType.bettingReward⟩] else []))) := by
  have hinv := plLoops_sumInv env view H vE vI hv3
  have hp := plLoops_payouts env view H vE vI hv3
  have hG : (plLoops env view H vE vI).handled.map (fun h => h.grossPayout) =
      (plLoops env view H vE vI).handled.map
        (fun h => h.bet.betAmount * (h.finalOdds.1 : Int) / 10000) := by
    apply List.map_congr_left
    intro h hm
    obtain ⟨_, hg, _, o, ho⟩ := hp h hm
    have hf := hfit h hm
    rw [hg]
    apply payoutAmount_floor _ _ hf.1 hf.2.1
    rw [ho]
    exact (clamp_sign env h.bet.betAmount o hMin).1
  have hE : (plLoops env view H vE vI).handled.map (fun h => h.effectivePayout) =
      (plLoops env view H vE vI).handled.map
        (fun h => h.bet.betAmount * (h.finalOdds.2 : Int) / 10000) := by
    apply List.map_congr_left
    intro h hm
    obtain ⟨he, _, _, o, ho⟩ := hp h hm
    have hf := hfit h hm
    rw [he]
    apply payoutAmount_floor _ _ hf.2.2.1 hf.2.2.2
    rw [ho]
    exact (clamp_sign env h.bet.betAmount o hMin).2
  refine ⟨?_, ?_, ?_⟩
  · unfold feePool
    rw [hinv.1, hinv.2, i64_sub_both, hG, hE]
    exact i64_of_range _ hlo hhi
  · unfold GetPLBetPayoutsV3
    have hv : H - 1 ≥ env.WagerrProtocolV3StartHeight := of_decide_eq_true hv3
    simp only [hv, if_true]
  · intro n fee e i h0 hf
    exact GetPLRewardPayoutsV3_spec env n fee e i h0 hf

/-- C2, witness: in the scenario the fee pool is 259.58 - 250 = 9.58 coins and the call
returns the bet output followed by the developer output (0.958 coins) and the operator
output (3.832 coins). -/
theorem C2_fee_pool_and_rewards_witness :
    isV3 exEnv 601 = true ∧
    feePool (plLoops exEnv exView 601 [] []) = 958000000 ∧
    (GetPLBetPayoutsV3 exEnv exView 601 [] []).2 =
      ([⟨25000000000, [7], 10000000000, 0⟩, ⟨95800000, [1], 0, 0⟩, ⟨383200000, [2], 0, 0⟩],
       [⟨exKey, PayoutType.bettingPayout⟩, ⟨⟨601, COutPoint.null⟩, PayoutType.bettingReward⟩,
        ⟨⟨601, COutPoint.null⟩, PayoutType.bettingReward⟩]) :=
  ⟨by decide,
    (C2_fee_pool_and_rewards exEnv exView 601 [] [] (by decide) (by decide) (by decide)
      (by decide) (by decide)).1,
    by decide⟩

theorem settleBet_resultType (env : Env) (f : Bool) (H : Int) (k : PeerlessBetKey)
    (b : CPeerlessBetDB) (o : Nat × Nat) (fl : LegFlags) :
    (settleBet env f H k b o fl).bet.resultType =
      if (settleBet env f H k b o fl).effectivePayout > 0 then
        classifyPaid (settleBet env f H k b o fl).effectivePayout b.betAmount
          (settleBet env f H k b o fl).finalOdds.1 b.legs.length fl
      else BetResultType.betResultLose := by
  by_cases hp : effectivePayoutOf env f b.betAmount (clampOdds env f b.betAmount o) > 0
  · rw [settleBet_pos env f H k b o fl hp]
    simp only [hp, if_true]
  · rw [settleBet_nonpos env f H k b o fl hp]
    simp only [hp, if_false]

/-- C3, counterexample: the two-leg parlay with final odds (10319, 10000) has payout equal
to the stake; the record is stored as partialWin, while the rules as the claim words them
give win (rule 4 asks for P > A). -/
theorem C3_counterexample :
    (handleBet c3Env c3View 601 exResult exKey c3Bet).map
        (fun h => (h.effectivePayout, h.finalOdds, h.bet.resultType)) =
      some (10000000000, (10319, 10000), BetResultType.betResultPartialWin) ∧
    (parlayLegs c3Env c3View true c3Bet c3Bet.legs 0 parlayStart).flags =
      { legHalfLose := true, legHalfWin := false, legRefund := false } ∧
    specClassification 10000000000 c3Bet.betAmount 10319 c3Bet.legs.length
        { legHalfLose := true, legHalfWin := false, legRefund := false } =
      BetResultType.betResultWin := by
  decide

/-- C3, amended: for every bet the loop body completes, with effective payout P, stake A,
final onchain odds o and the leg flags fl as the leg loop (or the single-leg test) left
them, the stored resultType is: lose when P <= 0; otherwise partialLose when P < A;
otherwise refund when o = 10000; otherwise partialWin when the bet has one leg and it was
a half-win, or has several legs and one was a half-win, half-lose or refund; otherwise
win. -/
theorem C3_result_type (env : Env) (view : CBettingsView) (H : Int)
    (result : CPeerlessResultDB) (key : PeerlessBetKey) (bet : CPeerlessBetDB)
    (h : HandledBet) (hh : handleBet env view H result key bet = some h) :
    ∃ fl : LegFlags,
      ((∃ leg, bet.legs = [leg] ∧
          fl = markLeg (singleOdds env (isV3 env H) (H - 1) bet.betTime leg
              (bet.lockedEvents.getD 0 {}) result).1
            (u32 (env.GetBetPotentialOdds leg (bet.lockedEvents.getD 0 {}))) {}) ∨
        (1 < bet.legs.length ∧
          fl = (parlayLegs env view (isV3 env H) bet bet.legs 0 parlayStart).flags)) ∧
      (h.effectivePayout ≤ 0 → h.bet.resultType = BetResultType.betResultLose) ∧
      (0 < h.effectivePayout → h.effectivePayout < bet.betAmount →
        h.bet.resultType = BetResultType.betResultPartialLose) ∧
      (0 < h.effectivePayout → bet.betAmount ≤ h.effectivePayout → h.finalOdds.1 = 10000 →
        h.bet.resultType = BetResultType.betResultRefund) ∧
      (0 < h.effectivePayout → bet.betAmount ≤ h.effectivePayout → h.finalOdds.1 ≠ 10000 →
        ((bet.legs.length = 1 ∧ fl.legHalfWin = true) ∨
          (bet.legs.length > 1 ∧
            (fl.legHalfWin = true ∨ fl.legHalfLose = true ∨ fl.legRefund = true))) →
        h.bet.resultType = BetResultType.betResultPartialWin) ∧
      (0 < h.effectivePayout → bet.betAmount ≤ h.effectivePayout → h.finalOdds.1 ≠ 10000 →
        ¬ ((bet.legs.length = 1 ∧ fl.legHalfWin = true) ∨
          (bet.legs.length > 1 ∧
            (fl.legHalfWin = true ∨ fl.legHalfLose = true ∨ fl.legRefund = true))) →
        h.bet.resultType = BetResultType.betResultWin) := by
  have key_fact : ∃ o fl, h = settleBet env (isV3 env H) H key bet o fl ∧
      ((∃ leg, bet.legs = [leg] ∧
          fl = markLeg (singleOdds env (isV3 env H) (H - 1) bet.betTime leg
              (bet.lockedEvents.getD 0 {}) result).1
            (u32 (env.GetBetPotentialOdds leg (bet.lockedEvents.getD 0 {}))) {}) ∨
        (1 < bet.legs.length ∧
          fl = (parlayLegs env view (isV3 env H) bet bet.legs 0 parlayStart).flags)) := by
    rcases (handleBet_some env view H result key bet h hh).2 with
      ⟨leg, hl, _, hs⟩ | ⟨l0, l1, more, hl, _, _, hs⟩
    · exact ⟨_, _, hs, Or.inl ⟨leg, hl, rfl⟩⟩
    · refine ⟨_, _, hs, Or.inr ⟨?_, rfl⟩⟩
      rw [hl]; simp
  obtain ⟨o, fl, hs, hfl⟩ := key_fact
  have hrt := settleBet_resultType env (isV3 env H) H key bet o fl
  rw [← hs] at hrt
  refine ⟨fl, hfl, ?_, ?_, ?_, ?_, ?_⟩
  · intro hp
    rw [hrt, if_neg (by omega)]
  · intro hp hlt
    rw [hrt, if_pos hp]
    unfold classifyPaid
    rw [if_pos hlt]
  · intro hp hge ho
    rw [hrt, if_pos hp]
    unfold classifyPaid
    rw [if_neg (by omega), if_pos (by rw [ho]; rfl)]
  · intro hp hge ho hflags
    rw [hrt, if_pos hp]
    unfold classifyPaid
    rw [if_neg (by omega), if_neg (by unfold BET_ODDSDIVISOR; exact ho), if_pos hflags]
  · intro hp hge ho hflags
    rw [hrt, if_pos hp]
    unfold classifyPaid
    rw [if_neg (by omega), if_neg (by unfold BET_ODDSDIVISOR; exact ho), if_neg hflags]

/-- C3, amended, witness: the parlay of the counterexample (payout equal to the stake,
onchain odds 10319, one half-lose leg) is stored as partialWin by the fourth rule. -/
theorem C3_result_type_witness :
    handleBet c3Env c3View 601 exResult exKey c3Bet =
      some (settleBet c3Env true 601 exKey c3Bet (10319, 10000)
        { legHalfLose := true, legHalfWin := false, legRefund := false }) ∧
    (settleBet c3Env true 601 exKey c3Bet (10319, 10000)
      { legHalfLose := true, legHalfWin := false, legRefund := false }).bet.resultType =
        BetResultType.betResultPartialWin := by
  refine ⟨by decide, ?_⟩
  obtain ⟨fl, hfl, _, _, _, h4, _⟩ := C3_result_type c3Env c3View 601 exResult exKey c3Bet
    (settleBet c3Env true 601 exKey c3Bet (10319, 10000)
      { legHalfLose := true, legHalfWin := false, legRefund := false }) (by decide)
  have hflv : fl = { legHalfLose := true, legHalfWin := false, legRefund := false } := by
    rcases hfl with ⟨leg, hl, _⟩ | ⟨_, hf⟩
    · simp [c3Bet] at hl
    · rw [hf]; decide
  exact h4 (by decide) (by decide) (by decide)
    (Or.inr ⟨by decide, Or.inr (Or.inl (by rw [hflv]))⟩)

/-! ## The parlay leg loop -/

theorem parlayLegs_resolved (env : Env) (view : CBettingsView) (f : Bool)
    (bet : CPeerlessBetDB) (legs : List CPeerlessLegDB) :
    ∀ (idx : Nat) (st : ParlayState),
      (∀ leg ∈ legs, (view.ReadResult leg.nEventId).isSome = true) →
      st.firstOddMultiply = false →
      (parlayLegs env view f bet legs idx st).completedBet = st.completedBet ∧
      (parlayLegs env view f bet legs idx st).finalOdds =
        (parlayOddsList env view f bet legs idx).foldl foldStep st.finalOdds := by
  induction legs with
  | nil => intro idx st _ _; exact ⟨rfl, rfl⟩
  | cons leg rest ih =>
    intro idx st hres hfirst
    have hl : (view.ReadResult leg.nEventId).isSome = true := hres leg (List.mem_cons_self _ _)
    obtain ⟨res, hr⟩ := Option.isSome_iff_exists.mp hl
    have ih2 := ih (idx + 1)
      { completedBet := st.completedBet
        firstOddMultiply := false
        finalOdds := multiplyOdds st.firstOddMultiply st.finalOdds
          (legOdds env f bet.betTime leg (bet.lockedEvents.getD idx {}) res)
        flags := markLeg (legOdds env f bet.betTime leg (bet.lockedEvents.getD idx {}) res).1
          (u32 (env.GetBetPotentialOdds leg (bet.lockedEvents.getD idx {}))) st.flags }
      (fun l hm => hres l (List.mem_cons_of_mem _ hm)) rfl
    have hstep : parlayLegs env view f bet (leg :: rest) idx st =
        parlayLegs env view f bet rest (idx + 1)
          { completedBet := st.completedBet
            firstOddMultiply := false
            finalOdds := multiplyOdds st.firstOddMultiply st.finalOdds
              (legOdds env f bet.betTime leg (bet.lockedEvents.getD idx {}) res)
            flags := markLeg
              (legOdds env f bet.betTime leg (bet.lockedEvents.getD idx {}) res).1
              (u32 (env.GetBetPotentialOdds leg (bet.lockedEvents.getD idx {}))) st.flags } := by
      rw [parlayLegs]
      simp only [hr]
    have hodds : parlayOddsList env view f bet (leg :: rest) idx =
        legOdds env f bet.betTime leg (bet.lockedEvents.getD idx {}) res ::
          parlayOddsList env view f bet rest (idx + 1) := by
      rw [parlayOddsList, parlayLegOdds]
      simp only [hr]
    rw [hstep, hodds, List.foldl_cons]
    refine ⟨ih2.1, ?_⟩
    rw [ih2.2, hfirst]
    rfl

theorem parlayLegs_start (env : Env) (view : CBettingsView) (f : Bool)
    (bet : CPeerlessBetDB) (l0 : CPeerlessLegDB) (rest : List CPeerlessLegDB)
    (hres : ∀ leg ∈ l0 :: rest, (view.ReadResult leg.nEventId).isSome = true) :
    (parlayLegs env view f bet (l0 :: rest) 0 parlayStart).completedBet = true ∧
    (parlayLegs env view f bet (l0 :: rest) 0 parlayStart).finalOdds =
      (parlayOddsList env view f bet rest 1).foldl foldStep
        (parlayLegOdds env view f bet 0 l0) := by
  have hl : (view.ReadResult l0.nEventId).isSome = true := hres l0 (List.mem_cons_self _ _)
  obtain ⟨res, hr⟩ := Option.isSome_iff_exists.mp hl
  have hstep : parlayLegs env view f bet (l0 :: rest) 0 parlayStart =
      parlayLegs env view f bet rest (0 + 1)
        { completedBet := true
          firstOddMultiply := false
          finalOdds := legOdds env f bet.betTime l0 (bet.lockedEvents.getD 0 {}) res
          flags := markLeg (legOdds env f bet.betTime l0 (bet.lockedEvents.getD 0 {}) res).1
            (u32 (env.GetBetPotentialOdds l0 (bet.lockedEvents.getD 0 {}))) {} } := by
    rw [parlayLegs]
    simp only [hr]
    rfl
  have h0 : parlayLegOdds env view f bet 0 l0 =
      legOdds env f bet.betTime l0 (bet.lockedEvents.getD 0 {}) res := by
    rw [parlayLegOdds]
    simp only [hr]
  have hrest := parlayLegs_resolved env view f bet rest (0 + 1)
    { completedBet := true
      firstOddMultiply := false
      finalOdds := legOdds env f bet.betTime l0 (bet.lockedEvents.getD 0 {}) res
      flags := markLeg (legOdds env f bet.betTime l0 (bet.lockedEvents.getD 0 {}) res).1
        (u32 (env.GetBetPotentialOdds l0 (bet.lockedEvents.getD 0 {}))) {} }
    (fun l hm => hres l (List.mem_cons_of_mem _ hm)) rfl
  rw [hstep, h0]
  exact ⟨hrest.1, hrest.2⟩

theorem handleBet_parlay (env : Env) (view : CBettingsView) (H : Int)
    (result : CPeerlessResultDB) (key : PeerlessBetKey) (bet : CPeerlessBetDB)
    (l0 l1 : CPeerlessLegDB) (more : List CPeerlessLegDB)
    (hlegs : bet.legs = l0 :: l1 :: more)
    (hskip : (isV3 env H && bet.completed) = false)
    (hfound : bet.legs.any (fun leg => leg.nEventId == result.nEventId) = true)
    (hdone : (parlayLegs env view (isV3 env H) bet bet.legs 0 parlayStart).completedBet = true) :
    handleBet env view H result key bet =
      some (settleBet env (isV3 env H) H key bet
        (parlayLegs env view (isV3 env H) bet bet.legs 0 parlayStart).finalOdds
        (parlayLegs env view (isV3 env H) bet bet.legs 0 parlayStart).flags) := by
  unfold handleBet
  simp only [show decide (H - 1 ≥ env.WagerrProtocolV3StartHeight) = isV3 env H from rfl]
  rw [if_neg (by rw [hskip]; decide)]
  rw [hlegs] at hfound hdone ⊢
  simp only []
  rw [if_pos hfound, if_pos hdone]

/-- The bet-size clamp comes after the leg loop: for a two-leg parlay with both legs
resolved and a stake of 1 coin, below the payout range, the handled bet has final odds
(10000, 10000), while the leg loop ended with the fold (10319, 10000). -/
theorem clamp_overrides_parlay_odds :
    c4Bet.legs.all (fun leg => (c3View.ReadResult leg.nEventId).isSome) = true ∧
    (handleBet c3Env c3View 601 exResult exKey c4Bet).map (fun h => h.finalOdds) =
      some (10000, 10000) ∧
    (parlayOddsList c3Env c3View true c4Bet [⟨101, 4⟩] 1).foldl foldStep
      (parlayLegOdds c3Env c3View true c4Bet 0 ⟨100, 1⟩) = (10319, 10000) := by
  decide

/-- C4: for every parlay bet with n >= 2 legs all of which have a stored result, the final
odds computed by the leg loop of `GetPLBetPayoutsV3` equal the left fold over the legs, in
leg order, of acc -> floor(acc * legOdds / 10000), started from the first leg's odds,
separately for the onchain and the effective component, each step truncated to 32 bits;
and when the bet is handled (not skipped as completed, one leg on the result's event) with
a stake inside the payout range, the handled bet carries exactly these final odds. -/
theorem C4_parlay_final_odds (env : Env) (view : CBettingsView) (H : Int)
    (result : CPeerlessResultDB) (key : PeerlessBetKey) (bet : CPeerlessBetDB)
    (l0 l1 : CPeerlessLegDB) (more : List CPeerlessLegDB)
    (hlegs : bet.legs = l0 :: l1 :: more)
    (hres : ∀ leg ∈ bet.legs, (view.ReadResult leg.nEventId).isSome = true) :
    (parlayLegs env view (isV3 env H) bet bet.legs 0 parlayStart).finalOdds =
      (parlayOddsList env view (isV3 env H) bet (l1 :: more) 1).foldl foldStep
        (parlayLegOdds env view (isV3 env H) bet 0 l0) ∧
    ((isV3 env H && bet.completed) = false →
      bet.legs.any (fun leg => leg.nEventId == result.nEventId) = true →
      env.MinBetPayoutRange * COIN ≤ bet.betAmount →
      bet.betAmount ≤ env.MaxBetPayoutRange * COIN →
      ∃ h, handleBet env view H result key bet = some h ∧
        h.finalOdds = (parlayOddsList env view (isV3 env H) bet (l1 :: more) 1).foldl foldStep
          (parlayLegOdds env view (isV3 env H) bet 0 l0)) := by
  have hst := parlayLegs_start env view (isV3 env H) bet l0 (l1 :: more)
    (by rw [← hlegs]; exact hres)
  rw [← hlegs] at hst
  refine ⟨hst.2, ?_⟩
  intro hskip hfound hmin hmax
  refine ⟨_, handleBet_parlay env view H result key bet l0 l1 more hlegs hskip hfound hst.1, ?_⟩
  rw [settleBet_finalOdds, clampOdds_in env _ _ _ (by omega)]
  exact hst.2

/-- C4, witness: the 100-coin parlay on events 100 and 101 ends the leg loop with
the fold (10319, 10000) and is handled with these final odds. -/
theorem C4_parlay_final_odds_witness :
    (parlayLegs c3Env c3View (isV3 c3Env 601) c3Bet c3Bet.legs 0 parlayStart).finalOdds =
      (10319, 10000) ∧
    ∃ h, handleBet c3Env c3View 601 exResult exKey c3Bet = some h ∧
      h.finalOdds = (10319, 10000) :=
  ⟨(C4_parlay_final_odds c3Env c3View 601 exResult exKey c3Bet ⟨100, 1⟩ ⟨101, 4⟩ [] rfl
      (by decide)).1,
   (C4_parlay_final_odds c3Env c3View 601 exResult exKey c3Bet ⟨100, 1⟩ ⟨101, 4⟩ [] rfl
      (by decide)).2 (by decide) (by decide) (by decide) (by decide)⟩

/-! ## Undo and the key codec -/

/-- C5, the code at the failing input: the payout call at height 601 on the scenario store
followed by the undo for height 601 leaves the bet with payoutHeight 601, while the record
in the store before the call had payoutHeight 0; the store is not restored. -/
theorem C5_undo_keeps_payoutHeight :
    exView.bets = [(exKey, exBet)] ∧ exBet.payoutHeight = 0 ∧
    (UndoPLBetPayouts exEnv (GetPLBetPayoutsV3 exEnv exView 601 [] []).1 601).bets =
      [(exKey, { exBet with payoutHeight := 601 })] ∧
    (UndoPLBetPayouts exEnv (GetPLBetPayoutsV3 exEnv exView 601 [] []).1 601).bets ≠
      exView.bets := by
  decide

theorem htonl_bytes (a b c d : Nat) (ha : a < 256) (hb : b < 256) (hc : c < 256)
    (hd : d < 256) :
    htonl (a + 256 * b + 65536 * c + 16777216 * d) =
      d + 256 * c + 65536 * b + 16777216 * a := by
  unfold htonl
  omega

theorem word_bytes (x : Nat) (hx : x < 4294967296) :
    x = x % 256 + 256 * (x / 256 % 256) + 65536 * (x / 65536 % 256) +
      16777216 * (x / 16777216 % 256) := by
  omega

theorem ntohl_htonl (x : Nat) (hx : x < 4294967296) : ntohl (htonl x) = x := by
  have h1 := htonl_bytes (x % 256) (x / 256 % 256) (x / 65536 % 256) (x / 16777216 % 256)
    (Nat.mod_lt _ (by decide)) (Nat.mod_lt _ (by decide)) (Nat.mod_lt _ (by decide))
    (Nat.mod_lt _ (by decide))
  rw [← word_bytes x hx] at h1
  have h2 := htonl_bytes (x / 16777216 % 256) (x / 65536 % 256) (x / 256 % 256) (x % 256)
    (Nat.mod_lt _ (by decide)) (Nat.mod_lt _ (by decide)) (Nat.mod_lt _ (by decide))
    (Nat.mod_lt _ (by decide))
  unfold ntohl
  rw [h1, h2]
  exact (word_bytes x hx).symm

theorem read_write_word (y : Nat) (hy : y < 4294967296) :
    ser_readdata32 (ser_writedata32 [] y) = some (y, []) := by
  unfold ser_writedata32
  simp only [List.nil_append, ser_readdata32]
  rw [← word_bytes y hy]

theorem htonl_lt (x : Nat) : htonl x < 4294967296 := by
  unfold htonl
  omega

/-- What the key codec does: the block height (below `2^32`) comes back, the outpoint of
the decoded key is the one the target object held before the call. -/
theorem BytesToDbType_DbTypeToBytes (k v : PeerlessBetKey) (hk : k.blockHeight < 4294967296) :
    BytesToDbType (DbTypeToBytes k) v = some ⟨k.blockHeight, v.outPoint⟩ := by
  unfold BytesToDbType DbTypeToBytes PeerlessBetKey.Serialize PeerlessBetKey.Unserialize
  rw [read_write_word _ (htonl_lt _)]
  simp only [ntohl_htonl _ hk, List.isEmpty_nil, if_true]

/-- C6, the code at the failing input: the key (500, outpoint (11, 0)) is encoded and
decoded into a default-constructed key; the block height comes back, the outpoint comes
back as the null outpoint, not as (11, 0). -/
theorem C6_key_decode_drops_outpoint :
    BytesToDbType (DbTypeToBytes exKey) PeerlessBetKey.default =
      some ⟨500, COutPoint.null⟩ ∧
    BytesToDbType (DbTypeToBytes exKey) PeerlessBetKey.default ≠ some exKey := by
  decide

/-- C7, the code at the failing input: the keys (500, (11, 0)) and (500, (12, 0)) are
distinct and ordered, yet their encodings are the same four bytes, so the first is not
bytewise smaller than the second. -/
theorem C7_same_height_keys_collide :
    PeerlessBetKey.lt ⟨500, ⟨11, 0⟩⟩ ⟨500, ⟨12, 0⟩⟩ = true ∧
    DbTypeToBytes ⟨500, ⟨11, 0⟩⟩ = [0, 0, 1, 244] ∧
    DbTypeToBytes ⟨500, ⟨12, 0⟩⟩ = [0, 0, 1, 244] ∧
    bytesLt (DbTypeToBytes ⟨500, ⟨11, 0⟩⟩) (DbTypeToBytes ⟨500, ⟨12, 0⟩⟩) = false := by
  decide

/-! ## Refunds -/

theorem settleBet_refund (env : Env) (H : Int) (k : PeerlessBetKey) (b : CPeerlessBetDB)
    (o : Nat × Nat) (fl : LegFlags)
    (hc : clampOdds env true b.betAmount o = (10000, 10000))
    (hpos : 0 < b.betAmount) (hfit : b.betAmount * 10000 < 9223372036854775808) :
    settleBet env true H k b o fl = refundRecord env H k b := by
  have hpay : payoutAmount b.betAmount 10000 = b.betAmount :=
    payoutAmount_refund b.betAmount (by omega) hfit
  have he : effectivePayoutOf env true b.betAmount (clampOdds env true b.betAmount o) =
      b.betAmount := by
    rw [hc]; unfold effectivePayoutOf; simp only [if_true]; exact hpay
  have hg : grossPayoutOf true b.betAmount (clampOdds env true b.betAmount o) =
      b.betAmount := by
    rw [hc]; unfold grossPayoutOf; simp only [if_true]; exact hpay
  rw [settleBet_pos env true H k b o fl (by rw [he]; exact hpos)]
  rw [he, hg, hc]
  unfold refundRecord classifyPaid BET_ODDSDIVISOR
  simp

theorem late_arith (s : Nat) (t b : Int) (hs : 0 < s) (ht : t < 9223372036854775808)
    (hlt : (s : Int) - t < b) :
    i64 (i64 (s : Int) - t) < b := by
  unfold i64
  omega

theorem handleBet_single (env : Env) (view : CBettingsView) (H : Int)
    (result : CPeerlessResultDB) (key : PeerlessBetKey) (bet : CPeerlessBetDB)
    (leg : CPeerlessLegDB) (hlegs : bet.legs = [leg])
    (hskip : (isV3 env H && bet.completed) = false)
    (hev : leg.nEventId = result.nEventId) :
    handleBet env view H result key bet =
      some (settleBet env (isV3 env H) H key bet
        (singleOdds env (isV3 env H) (H - 1) bet.betTime leg (bet.lockedEvents.getD 0 {}) result)
        (markLeg (singleOdds env (isV3 env H) (H - 1) bet.betTime leg
            (bet.lockedEvents.getD 0 {}) result).1
          (u32 (env.GetBetPotentialOdds leg (bet.lockedEvents.getD 0 {}))) {})) := by
  unfold handleBet
  simp only [show decide (H - 1 ≥ env.WagerrProtocolV3StartHeight) = isV3 env H from rfl]
  rw [if_neg (by rw [hskip]; decide)]
  rw [hlegs]
  simp only []
  rw [if_pos hev]

/-- C8, counterexample: a bet with stake -1 atom is clamped to the refund odds, its
payout -1 is not positive, no output is made, and -1 is recorded as the payout. -/
theorem C8_counterexample :
    (handleBet exEnv exView 601 exResult exKey c8Bet).map
        (fun h => (h.finalOdds, h.outs, h.bet.payout)) =
      some ((10000, 10000), [], -1) := by
  decide

/-- C8, amended: for every store, every payout height and every bet handled by one call,
every payout output produced for it has a value > 0 (any stake, any leg odds); and at a
v3 height the payout recorded on the bet record is >= 0 when the stake is >= 0 and stake
times effective odds fits a signed 64-bit word. -/
theorem C8_payout_not_negative (env : Env) (view : CBettingsView) (H : Int)
    (vE : List CBetOut) (vI : List CPayoutInfoDB) (h : HandledBet)
    (hm : h ∈ (plLoops env view H vE vI).handled) :
    (∀ out ∈ h.outs, 0 < out.nValue) ∧
    (isV3 env H = true → 0 ≤ h.bet.betAmount →
      h.bet.betAmount * (h.finalOdds.2 : Int) < 9223372036854775808 → 0 ≤ h.bet.payout) := by
  revert h
  apply plLoops_handled
  intro view1 result k b h _ hh
  obtain ⟨o, fl, hs⟩ := handleBet_settle env view1 H result k b h hh
  constructor
  · by_cases hp : effectivePayoutOf env (isV3 env H) b.betAmount
        (clampOdds env (isV3 env H) b.betAmount o) > 0
    · rw [hs, settleBet_pos env _ H k b o fl hp]
      intro out hout
      simp only [List.mem_singleton] at hout
      rw [hout]
      exact hp
    · rw [hs, settleBet_nonpos env _ H k b o fl hp]
      intro out hout
      cases hout
  · intro hv3 hA hfit
    rw [hv3] at hs
    have hp := settleBet_payouts env true H k b o fl
    have hf := settleBet_finalOdds env true H k b o fl
    have hst := settleBet_static env true H k b o fl
    rw [← hs] at hp hf hst
    rw [hst.1] at hA hfit
    rw [hp.2.2]
    rw [hf] at hfit
    unfold effectivePayoutOf
    simp only [if_true]
    rw [payoutAmount_floor _ _ (by
      have := Int.mul_nonneg hA (Int.ofNat_nonneg (clampOdds env true b.betAmount o).2)
      omega) hfit (Or.inl hA)]
    exact Int.ediv_nonneg (Int.mul_nonneg hA (Int.ofNat_nonneg _)) (by decide)

/-- C8, amended, witness: the bet handled in the scenario has one output of 250 coins and
the recorded payout 250 coins. -/
theorem C8_payout_not_negative_witness :
    exHandled ∈ (plLoops exEnv exView 601 [] []).handled ∧
    (∀ out ∈ exHandled.outs, 0 < out.nValue) ∧ 0 ≤ exHandled.bet.payout :=
  ⟨by decide,
    (C8_payout_not_negative exEnv exView 601 [] [] exHandled (by decide)).1,
    (C8_payout_not_negative exEnv exView 601 [] [] exHandled (by decide)).2
      (by decide) (by decide) (by decide)⟩

/-- C9, counterexample: a single bet of 100 coins whose locked event has start time 0,
placed at time 1000 (later than 0 - 120): the refund branch is not taken, the final odds
are those of `GetBetOdds`, the payout is 250 coins and the bet is stored as a win. -/
theorem C9_counterexample :
    c9Bet.betTime > ((c9Bet.lockedEvents.getD 0 {}).nStartTime : Int) -
      exEnv.BetPlaceTimeoutBlocks ∧
    (handleBet exEnv exView 601 exResult exKey c9Bet).map
        (fun h => (h.finalOdds, h.effectivePayout, h.infos, h.bet.resultType)) =
      some ((25958, 25000), 25000000000, [⟨exKey, PayoutType.bettingPayout⟩],
        BetResultType.betResultWin) := by
  decide

/-- C9, amended: for every single-leg bet on the result's event handled at a v3 height
whose locked event has a start time > 0 and whose betTime is greater than that start time
minus the place timeout, with a positive stake (times 10000 within 64 bits; the timeout is
a 64-bit value), the bet is handled, the final odds are (10000, 10000), the payout equals
the stake, one output of the stake is made with payout-info kind bettingRefund, and the
bet is stored completed with resultType refund. -/
theorem C9_late_single_bet_refunded (env : Env) (view : CBettingsView) (H : Int)
    (result : CPeerlessResultDB) (key : PeerlessBetKey) (bet : CPeerlessBetDB)
    (leg : CPeerlessLegDB)
    (hv3 : isV3 env H = true) (hnc : bet.completed = false)
    (hlegs : bet.legs = [leg]) (hev : leg.nEventId = result.nEventId)
    (hstart : 0 < (bet.lockedEvents.getD 0 {}).nStartTime)
    (hlate : bet.betTime >
      ((bet.lockedEvents.getD 0 {}).nStartTime : Int) - env.BetPlaceTimeoutBlocks)
    (hto : env.BetPlaceTimeoutBlocks < 9223372036854775808)
    (hpos : 0 < bet.betAmount) (hfit : bet.betAmount * 10000 < 9223372036854775808) :
    ∃ h, handleBet env view H result key bet = some h ∧
      h.finalOdds = (10000, 10000) ∧
      h.effectivePayout = bet.betAmount ∧
      h.outs = [⟨bet.betAmount, env.GetScriptForDestination bet.playerAddress,
        bet.betAmount, 0⟩] ∧
      h.infos = [⟨key, PayoutType.bettingRefund⟩] ∧
      h.bet.resultType = BetResultType.betResultRefund ∧
      h.bet.payout = bet.betAmount ∧
      h.bet.completed = true := by
  have hsk : (isV3 env H && bet.completed) = false := by rw [hnc]; simp
  have hh := handleBet_single env view H result key bet leg hlegs hsk hev
  have hl : placedTooLate env (bet.lockedEvents.getD 0 {}) bet.betTime = true := by
    unfold placedTooLate
    have h2 := late_arith _ _ _ hstart hto hlate
    simp only [gt_iff_lt, Bool.and_eq_true, decide_eq_true_eq]
    exact ⟨hstart, h2⟩
  have hso : singleOdds env (isV3 env H) (H - 1) bet.betTime leg
      (bet.lockedEvents.getD 0 {}) result = (10000, 10000) := by
    unfold singleOdds
    rw [if_pos hl, hv3]
    rfl
  rw [hso, hv3] at hh
  have hc : clampOdds env true bet.betAmount (10000, 10000) = (10000, 10000) := by
    unfold clampOdds
    split <;> rfl
  rw [settleBet_refund env H key bet _ _ hc hpos hfit] at hh
  exact ⟨_, hh, rfl, rfl, rfl, rfl, rfl, rfl, rfl⟩

/-- C9, amended, witness: betTime = startTime - 30 with timeout 120 and a stake of 100
coins pays 100 coins back. -/
theorem C9_late_single_bet_refunded_witness :
    lateBet.betTime = ((lateBet.lockedEvents.getD 0 {}).nStartTime : Int) - 30 ∧
    exEnv.BetPlaceTimeoutBlocks = 120 ∧
    ∃ h, handleBet exEnv exView 601 exResult exKey lateBet = some h ∧
      h.finalOdds = (10000, 10000) ∧
      h.effectivePayout = 10000000000 ∧
      h.outs = [⟨10000000000, [7], 10000000000, 0⟩] ∧
      h.infos = [⟨exKey, PayoutType.bettingRefund⟩] ∧
      h.bet.resultType = BetResultType.betResultRefund ∧
      h.bet.payout = 10000000000 ∧
      h.bet.completed = true :=
  ⟨by decide, by decide,
    C9_late_single_bet_refunded exEnv exView 601 exResult exKey lateBet ⟨100, 1⟩
      (by decide) (by decide) rfl (by decide) (by decide) (by decide) (by decide)
      (by decide) (by decide)⟩

/-- C10: for every bet (single or parlay) that the loop body completes at a v3 height
with a positive stake A outside [MinBetPayoutRange, MaxBetPayoutRange] * 10^8 (A * 10000
within 64 bits), whatever the odds of its legs: the final onchain and effective odds are
both 10000, the iteration appends exactly one output of value A (with a bettingRefund
record under the bet's key), and the bet is stored with resultType refund and payout A. -/
theorem C10_out_of_range_refunded (env : Env) (H : Int) (result : CPeerlessResultDB)
    (acc : PLState × List (PeerlessBetKey × CPeerlessBetDB))
    (key : PeerlessBetKey) (bet : CPeerlessBetDB) (h : HandledBet)
    (hv3 : isV3 env H = true)
    (hh : handleBet env acc.1.view H result key bet = some h)
    (hpos : 0 < bet.betAmount)
    (hout : bet.betAmount < env.MinBetPayoutRange * COIN ∨
      bet.betAmount > env.MaxBetPayoutRange * COIN)
    (hfit : bet.betAmount * 10000 < 9223372036854775808) :
    h.finalOdds = (10000, 10000) ∧
    (betStep env H result acc (key, bet)).1.vExpectedPayouts =
      acc.1.vExpectedPayouts ++
        [⟨bet.betAmount, env.GetScriptForDestination bet.playerAddress, bet.betAmount, 0⟩] ∧
    (betStep env H result acc (key, bet)).1.vPayoutsInfo =
      acc.1.vPayoutsInfo ++ [⟨key, PayoutType.bettingRefund⟩] ∧
    (betStep env H result acc (key, bet)).2 = acc.2 ++ [(key, h.bet)] ∧
    h.bet.resultType = BetResultType.betResultRefund ∧
    h.bet.payout = bet.betAmount ∧
    h.bet.completed = true := by
  obtain ⟨o, fl, hs⟩ := handleBet_settle env acc.1.view H result key bet h hh
  rw [hv3, settleBet_refund env H key bet o fl (clampOdds_out env _ o hout) hpos hfit] at hs
  have hstep := betStep_some env H result acc (key, bet) h hh
  rw [hstep.1, hstep.2.1, hstep.2.2.2, hs]
  exact ⟨rfl, rfl, rfl, rfl, rfl, rfl, rfl⟩

/-- C10, witness: the 1-coin bet, below the range of 25 coins, on the winning home side
gets exactly its stake back and is stored as a refund. -/
theorem C10_out_of_range_refunded_witness :
    handleBet exEnv exView 601 exResult exKey smallBet =
      some (refundRecord exEnv 601 exKey smallBet) ∧
    (refundRecord exEnv 601 exKey smallBet).finalOdds = (10000, 10000) ∧
    (betStep exEnv 601 exResult (exState, []) (exKey, smallBet)).1.vExpectedPayouts =
      [⟨100000000, [7], 100000000, 0⟩] ∧
    (refundRecord exEnv 601 exKey smallBet).bet.resultType = BetResultType.betResultRefund ∧
    (refundRecord exEnv 601 exKey smallBet).bet.payout = 100000000 :=
  ⟨by decide,
    (C10_out_of_range_refunded exEnv 601 exResult (exState, []) exKey smallBet
      (refundRecord exEnv 601 exKey smallBet) (by decide) (by decide) (by decide)
      (by decide) (by decide)).1,
    (C10_out_of_range_refunded exEnv 601 exResult (exState, []) exKey smallBet
      (refundRecord exEnv 601 exKey smallBet) (by decide) (by decide) (by decide)
      (by decide) (by decide)).2.1,
    (C10_out_of_range_refunded exEnv 601 exResult (exState, []) exKey smallBet
      (refundRecord exEnv 601 exKey smallBet) (by decide) (by decide) (by decide)
      (by decide) (by decide)).2.2.2.2.1,
    (C10_out_of_range_refunded exEnv 601 exResult (exState, []) exKey smallBet
      (refundRecord exEnv 601 exKey smallBet) (by decide) (by decide) (by decide)
      (by decide) (by decide)).2.2.2.2.2.1⟩

/-! ## The leg flags -/

/-- The flags of a single bet in terms of its onchain odds: refund at the divisor,
half-lose at half the divisor, half-win for any other non-zero odds below the potential
odds. -/
theorem markLeg_single (first potential : Nat) :
    ((markLeg first potential {}).legRefund = true ↔ first = 10000) ∧
    ((markLeg first potential {}).legHalfLose = true ↔ first = 5000) ∧
    ((markLeg first potential {}).legHalfWin = true ↔
      (first ≠ 0 ∧ first ≠ 10000 ∧ first ≠ 5000 ∧ first < potential)) := by
  unfold markLeg BET_ODDSDIVISOR
  by_cases h0 : first = 0
  · subst h0; simp
  · by_cases h1 : first = 10000
    · subst h1; simp
    · by_cases h2 : first = 5000
      · subst h2; simp
      · by_cases h3 : first < potential
        · simp [h0, h1, h2, h3]
        · simp [h0, h1, h2, h3]

/-! ## A parlay with a losing leg -/

theorem foldStep_zero_left (o : Nat × Nat) : foldStep (0, 0) o = (0, 0) := by
  unfold foldStep
  simp

theorem foldStep_zero_right (acc : Nat × Nat) : foldStep acc (0, 0) = (0, 0) := by
  unfold foldStep
  simp

theorem foldl_foldStep_zero (l : List (Nat × Nat)) : l.foldl foldStep (0, 0) = (0, 0) := by
  induction l with
  | nil => rfl
  | cons o l ih => rw [List.foldl_cons, foldStep_zero_left, ih]

theorem foldl_foldStep_mem_zero (l : List (Nat × Nat)) :
    ∀ acc : Nat × Nat, (0, 0) ∈ l → l.foldl foldStep acc = (0, 0) := by
  induction l with
  | nil => intro acc hm; cases hm
  | cons o l ih =>
    intro acc hm
    rw [List.foldl_cons]
    rcases List.mem_cons.mp hm with h0 | hl
    · rw [← h0, foldStep_zero_right, foldl_foldStep_zero]
    · exact ih _ hl

theorem payoutAmount_zero (A : Int) : payoutAmount A 0 = 0 := by
  unfold payoutAmount
  simp only [Nat.cast_zero, mul_zero]
  decide

/-- The record written for a lost bet: no output, payout 0. -/
theorem settleBet_lose (env : Env) (H : Int) (k : PeerlessBetKey) (b : CPeerlessBetDB)
    (o : Nat × Nat) (fl : LegFlags)
    (hc : clampOdds env true b.betAmount o = (0, 0)) :
    settleBet env true H k b o fl =
      { key := k
        bet := { b with
          resultType := BetResultType.betResultLose
          payout := 0
          completed := true }
        finalOdds := (0, 0)
        effectivePayout := 0
        grossPayout := 0
        outs := []
        infos := [] } := by
  have he : effectivePayoutOf env true b.betAmount (clampOdds env true b.betAmount o) = 0 := by
    rw [hc]; unfold effectivePayoutOf; simp only [if_true]; exact payoutAmount_zero _
  have hg : grossPayoutOf true b.betAmount (clampOdds env true b.betAmount o) = 0 := by
    rw [hc]; unfold grossPayoutOf; simp only [if_true]; exact payoutAmount_zero _
  rw [settleBet_nonpos env true H k b o fl (by rw [he]; decide), he, hg, hc]

/-- C11: for every v3 parlay (not yet completed, one leg on the result's event) whose legs
all have a stored result and whose stake is inside the payout range, if some leg has odds
(0, 0), at whatever position, then the bet is handled with final odds (0, 0) and effective
payout 0, no output and no payout-info record are made, and the record is written back
completed with resultType lose and payout 0. -/
theorem C11_losing_leg_loses_parlay (env : Env) (view : CBettingsView) (H : Int)
    (result : CPeerlessResultDB) (key : PeerlessBetKey) (bet : CPeerlessBetDB)
    (l0 l1 : CPeerlessLegDB) (more : List CPeerlessLegDB)
    (hv3 : isV3 env H = true) (hnc : bet.completed = false)
    (hlegs : bet.legs = l0 :: l1 :: more)
    (hres : ∀ leg ∈ bet.legs, (view.ReadResult leg.nEventId).isSome = true)
    (hfound : bet.legs.any (fun leg => leg.nEventId == result.nEventId) = true)
    (hmin : env.MinBetPayoutRange * COIN ≤ bet.betAmount)
    (hmax : bet.betAmount ≤ env.MaxBetPayoutRange * COIN)
    (hzero : (0, 0) ∈ parlayOddsList env view true bet bet.legs 0) :
    ∃ h, handleBet env view H result key bet = some h ∧
      h.finalOdds = (0, 0) ∧ h.effectivePayout = 0 ∧ h.outs = [] ∧ h.infos = [] ∧
      h.bet.resultType = BetResultType.betResultLose ∧ h.bet.payout = 0 ∧
      h.bet.completed = true := by
  have hsk : (isV3 env H && bet.completed) = false := by rw [hnc]; simp
  have hst := parlayLegs_start env view (isV3 env H) bet l0 (l1 :: more)
    (by rw [← hlegs]; exact hres)
  rw [← hlegs] at hst
  have hh := handleBet_parlay env view H result key bet l0 l1 more hlegs hsk hfound hst.1
  have hfold : (parlayLegs env view (isV3 env H) bet bet.legs 0 parlayStart).finalOdds =
      (0, 0) := by
    rw [hst.2, hv3]
    rw [hlegs] at hzero
    unfold parlayOddsList at hzero
    rcases List.mem_cons.mp hzero with h0 | hl
    · rw [← h0, foldl_foldStep_zero]
    · exact foldl_foldStep_mem_zero _ _ hl
  rw [hfold, hv3] at hh
  have hc : clampOdds env true bet.betAmount (0, 0) = (0, 0) :=
    clampOdds_in env true _ _ (by omega)
  rw [settleBet_lose env H key bet _ _ hc] at hh
  exact ⟨_, hh, rfl, rfl, rfl, rfl, rfl, rfl, rfl⟩

/-- C11, witness: the two-leg parlay on events 100 (won) and 101 (lost, odds (0, 0)) is
handled with final odds (0, 0), no output, resultType lose and payout 0. -/
theorem C11_losing_leg_loses_parlay_witness :
    (0, 0) ∈ parlayOddsList exEnv c3View true c3Bet c3Bet.legs 0 ∧
    ∃ h, handleBet exEnv c3View 601 exResult exKey c3Bet = some h ∧
      h.finalOdds = (0, 0) ∧ h.effectivePayout = 0 ∧ h.outs = [] ∧ h.infos = [] ∧
      h.bet.resultType = BetResultType.betResultLose ∧ h.bet.payout = 0 ∧
      h.bet.completed = true :=
  ⟨by decide,
    C11_losing_leg_loses_parlay exEnv c3View 601 exResult exKey c3Bet ⟨100, 1⟩ ⟨101, 4⟩ []
      (by decide) (by decide) rfl (by decide) (by decide) (by decide) (by decide)
      (by decide)⟩

/-! ## Leg order -/

theorem foldStep_comm (a b : Nat × Nat) : foldStep a b = foldStep b a := by
  unfold foldStep
  rw [Nat.mul_comm a.1 b.1, Nat.mul_comm a.2 b.2]

theorem parlayOddsList_congr (env : Env) (view : CBettingsView) (f : Bool)
    (b1 b2 : CPeerlessBetDB) (hbt : b1.betTime = b2.betTime) (legs : List CPeerlessLegDB) :
    ∀ idx : Nat,
      (∀ i, idx ≤ i → b1.lockedEvents.getD i {} = b2.lockedEvents.getD i {}) →
      parlayOddsList env view f b1 legs idx = parlayOddsList env view f b2 legs idx := by
  induction legs with
  | nil => intro idx _; rfl
  | cons leg rest ih =>
    intro idx hev
    unfold parlayOddsList
    rw [ih (idx + 1) (fun i hi => hev i (by omega))]
    unfold parlayLegOdds
    rw [hbt, hev idx (Nat.le_refl _)]

/-- C12, counterexample: the three legs with odds 10005, 10005 and 15000 give final odds
(15015, 15015) in the order 100, 101, 102 and (15014, 15014) in the order 100, 102, 101,
each leg keeping its locked event and its result. -/
theorem C12_counterexample :
    (c12Bet.legs.zip c12Bet.lockedEvents).Perm
      (c12BetPerm.legs.zip c12BetPerm.lockedEvents) ∧
    (handleBet c12Env c12View 601 exResult exKey c12Bet).map (fun h => h.finalOdds) =
      some (15015, 15015) ∧
    (handleBet c12Env c12View 601 exResult exKey c12BetPerm).map (fun h => h.finalOdds) =
      some (15014, 15014) := by
  decide

theorem settleBet_finalOdds_map (env : Env) (f : Bool) (H : Int) (k : PeerlessBetKey)
    (b : CPeerlessBetDB) (o : Nat × Nat) (fl : LegFlags) :
    (some (settleBet env f H k b o fl)).map (fun h => h.finalOdds) =
      some (clampOdds env f b.betAmount o) := by
  rw [Option.map_some', settleBet_finalOdds]

/-- The final odds of a handled parlay, or `none` when the entry is not handled, when
all legs have a stored result. -/
theorem handleBet_parlay_odds (env : Env) (view : CBettingsView) (H : Int)
    (result : CPeerlessResultDB) (key : PeerlessBetKey) (bet : CPeerlessBetDB)
    (l0 l1 : CPeerlessLegDB) (more : List CPeerlessLegDB)
    (hlegs : bet.legs = l0 :: l1 :: more)
    (hres : ∀ leg ∈ bet.legs, (view.ReadResult leg.nEventId).isSome = true) :
    (handleBet env view H result key bet).map (fun h => h.finalOdds) =
      if (isV3 env H && bet.completed) = true then none
      else if bet.legs.any (fun leg => leg.nEventId == result.nEventId) = true then
        some (clampOdds env (isV3 env H) bet.betAmount
          ((parlayOddsList env view (isV3 env H) bet (l1 :: more) 1).foldl foldStep
            (parlayLegOdds env view (isV3 env H) bet 0 l0)))
      else none := by
  have hst := parlayLegs_start env view (isV3 env H) bet l0 (l1 :: more)
    (by rw [← hlegs]; exact hres)
  rw [← hlegs] at hst
  by_cases hc : (isV3 env H && bet.completed) = true
  · rw [if_pos hc]
    unfold handleBet
    simp only [show decide (H - 1 ≥ env.WagerrProtocolV3StartHeight) = isV3 env H from rfl]
    rw [if_pos hc]
    rfl
  · rw [if_neg hc]
    have hsk : (isV3 env H && bet.completed) = false := by simpa using hc
    by_cases hf : bet.legs.any (fun leg => leg.nEventId == result.nEventId) = true
    · rw [if_pos hf, handleBet_parlay env view H result key bet l0 l1 more hlegs hsk hf hst.1,
        settleBet_finalOdds_map, hst.2]
    · rw [if_neg hf]
      unfold handleBet
      simp only [show decide (H - 1 ≥ env.WagerrProtocolV3StartHeight) = isV3 env H from rfl]
      rw [if_neg hc]
      rw [hlegs] at hf ⊢
      simp only []
      rw [if_neg hf]
      rfl

/-- C12, amended: for every parlay whose legs all have a stored result, exchanging the first
two legs (each keeping its locked event and its result) leaves the final onchain and
effective odds unchanged, both as the leg loop computes them and as the handled bet
carries them; for a two-leg parlay this covers every leg order. -/
theorem C12_first_two_legs_exchange (env : Env) (view : CBettingsView) (H : Int)
    (result : CPeerlessResultDB) (key : PeerlessBetKey) (bet : CPeerlessBetDB)
    (l0 l1 : CPeerlessLegDB) (more : List CPeerlessLegDB)
    (e0 e1 : CPeerlessBaseEventDB) (evs : List CPeerlessBaseEventDB)
    (hlegs : bet.legs = l0 :: l1 :: more) (hev : bet.lockedEvents = e0 :: e1 :: evs)
    (hres : ∀ leg ∈ bet.legs, (view.ReadResult leg.nEventId).isSome = true) :
    (parlayLegs env view (isV3 env H)
        { bet with legs := l1 :: l0 :: more, lockedEvents := e1 :: e0 :: evs }
        (l1 :: l0 :: more) 0 parlayStart).finalOdds =
      (parlayLegs env view (isV3 env H) bet bet.legs 0 parlayStart).finalOdds ∧
    (handleBet env view H result key
        { bet with legs := l1 :: l0 :: more, lockedEvents := e1 :: e0 :: evs }).map
        (fun h => h.finalOdds) =
      (handleBet env view H result key bet).map (fun h => h.finalOdds) := by
  have hres1 : ∀ leg ∈ l1 :: l0 :: more, (view.ReadResult leg.nEventId).isSome = true := by
    intro leg hm
    apply hres leg
    rw [hlegs]
    simp only [List.mem_cons] at hm ⊢
    tauto
  have hfold :
      (parlayOddsList env view (isV3 env H)
          { bet with legs := l1 :: l0 :: more, lockedEvents := e1 :: e0 :: evs }
          (l0 :: more) 1).foldl foldStep
        (parlayLegOdds env view (isV3 env H)
          { bet with legs := l1 :: l0 :: more, lockedEvents := e1 :: e0 :: evs } 0 l1) =
      (parlayOddsList env view (isV3 env H) bet (l1 :: more) 1).foldl foldStep
        (parlayLegOdds env view (isV3 env H) bet 0 l0) := by
    have htail : parlayOddsList env view (isV3 env H)
          { bet with legs := l1 :: l0 :: more, lockedEvents := e1 :: e0 :: evs } more 2 =
        parlayOddsList env view (isV3 env H) bet more 2 := by
      refine parlayOddsList_congr env view (isV3 env H)
        { bet with legs := l1 :: l0 :: more, lockedEvents := e1 :: e0 :: evs } bet rfl more 2 ?_
      intro i hi
      obtain ⟨j, rfl⟩ : ∃ j, i = j + 2 := ⟨i - 2, by omega⟩
      rw [hev]
      rfl
    have h00 : parlayLegOdds env view (isV3 env H)
          { bet with legs := l1 :: l0 :: more, lockedEvents := e1 :: e0 :: evs } 0 l1 =
        parlayLegOdds env view (isV3 env H) bet 1 l1 := by
      unfold parlayLegOdds
      rw [hev]
      rfl
    have h11 : parlayLegOdds env view (isV3 env H)
          { bet with legs := l1 :: l0 :: more, lockedEvents := e1 :: e0 :: evs } 1 l0 =
        parlayLegOdds env view (isV3 env H) bet 0 l0 := by
      unfold parlayLegOdds
      rw [hev]
      rfl
    simp only [parlayOddsList, List.foldl_cons]
    rw [htail, h00, h11, foldStep_comm]
  constructor
  · have h1 := parlayLegs_start env view (isV3 env H)
      { bet with legs := l1 :: l0 :: more, lockedEvents := e1 :: e0 :: evs } l1 (l0 :: more) hres1
    have h2 := parlayLegs_start env view (isV3 env H) bet l0 (l1 :: more)
      (by rw [← hlegs]; exact hres)
    rw [hlegs, h1.2, h2.2]
    exact hfold
  · rw [handleBet_parlay_odds env view H result key
        { bet with legs := l1 :: l0 :: more, lockedEvents := e1 :: e0 :: evs } l1 l0 more rfl hres1,
      handleBet_parlay_odds env view H result key bet l0 l1 more hlegs hres, hfold]
    have hany : (l1 :: l0 :: more).any (fun leg => leg.nEventId == result.nEventId) =
        bet.legs.any (fun leg => leg.nEventId == result.nEventId) := by
      rw [hlegs]
      simp only [List.any_cons]
      rw [← Bool.or_assoc, ← Bool.or_assoc, Bool.or_comm (l1.nEventId == result.nEventId)]
    simp only [hany]

/-- C12, amended, witness: the two-leg parlay on events 100 and 101 is handled with final
odds (10319, 10000) in both leg orders. -/
theorem C12_first_two_legs_exchange_witness :
    (handleBet c3Env c3View 601 exResult exKey
        { c3Bet with
          legs := [⟨101, 4⟩, ⟨100, 1⟩]
          lockedEvents := [{ exEvent with nEventId := 101 }, exEvent] }).map
        (fun h => h.finalOdds) = some (10319, 10000) ∧
    (handleBet c3Env c3View 601 exResult exKey c3Bet).map (fun h => h.finalOdds) =
      some (10319, 10000) :=
  ⟨((C12_first_two_legs_exchange c3Env c3View 601 exResult exKey c3Bet ⟨100, 1⟩ ⟨101, 4⟩ []
      exEvent { exEvent with nEventId := 101 } [] rfl rfl (by decide)).2).trans (by decide),
    by decide⟩

/-! ## A parlay with a push leg -/

theorem parlayLegs_cons_some (env : Env) (view : CBettingsView) (f : Bool)
    (bet : CPeerlessBetDB) (leg : CPeerlessLegDB) (rest : List CPeerlessLegDB) (idx : Nat)
    (st : ParlayState) (res : CPeerlessResultDB)
    (hr : view.ReadResult leg.nEventId = some res) :
    parlayLegs env view f bet (leg :: rest) idx st =
      parlayLegs env view f bet rest (idx + 1)
        { completedBet := st.completedBet
          firstOddMultiply := false
          finalOdds := multiplyOdds st.firstOddMultiply st.finalOdds
            (legOdds env f bet.betTime leg (bet.lockedEvents.getD idx {}) res)
          flags := markLeg
            (legOdds env f bet.betTime leg (bet.lockedEvents.getD idx {}) res).1
            (u32 (env.GetBetPotentialOdds leg (bet.lockedEvents.getD idx {}))) st.flags } := by
  rw [parlayLegs]
  simp only [hr]

theorem parlayLegOdds_some (env : Env) (view : CBettingsView) (f : Bool)
    (bet : CPeerlessBetDB) (leg : CPeerlessLegDB) (idx : Nat) (res : CPeerlessResultDB)
    (hr : view.ReadResult leg.nEventId = some res) :
    parlayLegOdds env view f bet idx leg =
      legOdds env f bet.betTime leg (bet.lockedEvents.getD idx {}) res := by
  rw [parlayLegOdds]
  simp only [hr]

theorem markLeg_refund_mono (first potential : Nat) (fl : LegFlags)
    (h : fl.legRefund = true) : (markLeg first potential fl).legRefund = true := by
  unfold markLeg
  split
  · exact h
  · split
    · rfl
    · split
      · exact h
      · split
        · exact h
        · exact h

theorem markLeg_refund_set (potential : Nat) (fl : LegFlags) :
    (markLeg 10000 potential fl).legRefund = true := by
  unfold markLeg BET_ODDSDIVISOR
  simp

/-- A leg with onchain odds 10000 leaves the refund flag set at the end of the leg loop. -/
theorem parlayLegs_refund_flag (env : Env) (view : CBettingsView) (f : Bool)
    (bet : CPeerlessBetDB) (legs : List CPeerlessLegDB) :
    ∀ (idx : Nat) (st : ParlayState),
      (∀ leg ∈ legs, (view.ReadResult leg.nEventId).isSome = true) →
      (st.flags.legRefund = true ∨
        ∃ o ∈ parlayOddsList env view f bet legs idx, o.1 = 10000) →
      (parlayLegs env view f bet legs idx st).flags.legRefund = true := by
  induction legs with
  | nil =>
    intro idx st _ h
    rcases h with h | ⟨o, ho, _⟩
    · exact h
    · cases ho
  | cons leg rest ih =>
    intro idx st hres h
    have hl : (view.ReadResult leg.nEventId).isSome = true := hres leg (List.mem_cons_self _ _)
    obtain ⟨res, hr⟩ := Option.isSome_iff_exists.mp hl
    rw [parlayLegs_cons_some env view f bet leg rest idx st res hr]
    apply ih (idx + 1) _ (fun l hm => hres l (List.mem_cons_of_mem _ hm))
    rcases h with h | ⟨o, ho, h1⟩
    · left
      exact markLeg_refund_mono _ _ _ h
    · unfold parlayOddsList at ho
      rcases List.mem_cons.mp ho with h0 | hrest
      · left
        rw [parlayLegOdds_some env view f bet leg idx res hr] at h0
        show (markLeg _ _ st.flags).legRefund = true
        rw [← h0, h1]
        exact markLeg_refund_set _ _
      · right
        exact ⟨o, hrest, h1⟩

theorem legOdds_lt (env : Env) (f : Bool) (betTime : Int) (leg : CPeerlessLegDB)
    (ev : CPeerlessBaseEventDB) (res : CPeerlessResultDB) :
    (legOdds env f betTime leg ev res).1 < 4294967296 ∧
    (legOdds env f betTime leg ev res).2 < 4294967296 := by
  unfold legOdds u32 BET_ODDSDIVISOR
  split
  · split <;> exact ⟨by decide, by decide⟩
  · exact ⟨Nat.mod_lt _ (by decide), Nat.mod_lt _ (by decide)⟩

theorem parlayOddsList_lt (env : Env) (view : CBettingsView) (f : Bool)
    (bet : CPeerlessBetDB) (legs : List CPeerlessLegDB) :
    ∀ idx : Nat, ∀ o ∈ parlayOddsList env view f bet legs idx,
      o.1 < 4294967296 ∧ o.2 < 4294967296 := by
  induction legs with
  | nil => intro idx o ho; cases ho
  | cons leg rest ih =>
    intro idx o ho
    unfold parlayOddsList at ho
    rcases List.mem_cons.mp ho with h0 | hrest
    · rw [h0]
      unfold parlayLegOdds
      split
      · exact legOdds_lt _ _ _ _ _ _
      · exact ⟨by decide, by decide⟩
    · exact ih (idx + 1) o hrest

theorem foldStep_push_right (acc : Nat × Nat) (h1 : acc.1 < 4294967296)
    (h2 : acc.2 < 4294967296) : foldStep acc (10000, 10000) = acc := by
  unfold foldStep
  simp only []
  rw [Nat.mul_div_cancel _ (by decide), Nat.mul_div_cancel _ (by decide),
    Nat.mod_eq_of_lt h1, Nat.mod_eq_of_lt h2]

theorem foldStep_push_left (o : Nat × Nat) (h1 : o.1 < 4294967296)
    (h2 : o.2 < 4294967296) : foldStep (10000, 10000) o = o := by
  rw [foldStep_comm]
  exact foldStep_push_right o h1 h2

theorem foldStep_lt (acc o : Nat × Nat) :
    (foldStep acc o).1 < 4294967296 ∧ (foldStep acc o).2 < 4294967296 := by
  unfold foldStep
  exact ⟨Nat.mod_lt _ (by decide), Nat.mod_lt _ (by decide)⟩

theorem foldl_foldStep_lt (l : List (Nat × Nat)) :
    ∀ acc : Nat × Nat, acc.1 < 4294967296 ∧ acc.2 < 4294967296 →
      (l.foldl foldStep acc).1 < 4294967296 ∧ (l.foldl foldStep acc).2 < 4294967296 := by
  induction l with
  | nil => intro acc h; exact h
  | cons o l ih =>
    intro acc _
    rw [List.foldl_cons]
    exact ih _ (foldStep_lt acc o)

/-- A push leg among bounded leg odds contributes a factor 10000 / 10000: the fold is that
of the other legs. -/
theorem foldOdds_push (pre post : List (Nat × Nat))
    (hb : ∀ o ∈ pre ++ post, o.1 < 4294967296 ∧ o.2 < 4294967296)
    (hne : pre ++ post ≠ []) :
    foldOdds (pre ++ (10000, 10000) :: post) = foldOdds (pre ++ post) := by
  cases pre with
  | nil =>
    cases post with
    | nil => exact absurd rfl hne
    | cons o post =>
      have ho := hb o (by simp)
      simp only [List.nil_append, foldOdds, List.foldl_cons]
      rw [foldStep_push_left o ho.1 ho.2]
  | cons p pre =>
    have hp := hb p (by simp)
    simp only [List.cons_append, foldOdds, List.foldl_append, List.foldl_cons]
    have hacc := foldl_foldStep_lt pre p hp
    rw [foldStep_push_right _ hacc.1 hacc.2]

theorem exactStep_mono (acc o : Nat × Nat) (h : 10000 < o.1 ∧ 10000 < o.2) :
    acc.1 ≤ (exactStep acc o).1 ∧ acc.2 ≤ (exactStep acc o).2 := by
  unfold exactStep
  simp only []
  constructor
  · rw [Nat.le_div_iff_mul_le (by decide)]
    exact Nat.mul_le_mul_left _ (by omega)
  · rw [Nat.le_div_iff_mul_le (by decide)]
    exact Nat.mul_le_mul_left _ (by omega)

theorem foldl_exactStep_mono (l : List (Nat × Nat)) :
    ∀ acc : Nat × Nat, (∀ o ∈ l, 10000 < o.1 ∧ 10000 < o.2) →
      acc.1 ≤ (l.foldl exactStep acc).1 ∧ acc.2 ≤ (l.foldl exactStep acc).2 := by
  induction l with
  | nil => intro acc _; exact ⟨Nat.le_refl _, Nat.le_refl _⟩
  | cons o l ih =>
    intro acc hw
    rw [List.foldl_cons]
    have h1 := exactStep_mono acc o (hw o (List.mem_cons_self _ _))
    have h2 := ih (exactStep acc o) (fun x hx => hw x (List.mem_cons_of_mem _ hx))
    exact ⟨Nat.le_trans h1.1 h2.1, Nat.le_trans h1.2 h2.2⟩

theorem foldl_foldStep_exact (l : List (Nat × Nat)) :
    ∀ acc : Nat × Nat, (∀ o ∈ l, 10000 < o.1 ∧ 10000 < o.2) →
      (l.foldl exactStep acc).1 < 4294967296 → (l.foldl exactStep acc).2 < 4294967296 →
      l.foldl foldStep acc = l.foldl exactStep acc := by
  induction l with
  | nil => intro acc _ _ _; rfl
  | cons o l ih =>
    intro acc hw h1 h2
    rw [List.foldl_cons] at h1 h2
    have hm := foldl_exactStep_mono l (exactStep acc o)
      (fun x hx => hw x (List.mem_cons_of_mem _ hx))
    have hs : foldStep acc o = exactStep acc o := by
      unfold foldStep
      rw [Nat.mod_eq_of_lt (show acc.1 * o.1 / 10000 < 4294967296 from
          Nat.lt_of_le_of_lt hm.1 h1),
        Nat.mod_eq_of_lt (show acc.2 * o.2 / 10000 < 4294967296 from
          Nat.lt_of_le_of_lt hm.2 h2)]
      rfl
    rw [List.foldl_cons, List.foldl_cons, hs]
    exact ih _ (fun x hx => hw x (List.mem_cons_of_mem _ hx)) h1 h2

/-- When no multiplication exceeds 32 bits, the fold of winning odds is the untruncated
one, and both its components exceed 10000. -/
theorem foldOdds_wins (l : List (Nat × Nat)) (hne : l ≠ [])
    (hw : ∀ o ∈ l, 10000 < o.1 ∧ 10000 < o.2)
    (h1 : (foldOddsExact l).1 < 4294967296) (h2 : (foldOddsExact l).2 < 4294967296) :
    foldOdds l = foldOddsExact l ∧ 10000 < (foldOdds l).1 ∧ 10000 < (foldOdds l).2 := by
  cases l with
  | nil => exact absurd rfl hne
  | cons o l =>
    have he : foldOdds (o :: l) = foldOddsExact (o :: l) :=
      foldl_foldStep_exact l o (fun x hx => hw x (List.mem_cons_of_mem _ hx)) h1 h2
    have hm := foldl_exactStep_mono l o (fun x hx => hw x (List.mem_cons_of_mem _ hx))
    have ho := hw o (List.mem_cons_self _ _)
    rw [he]
    exact ⟨rfl, Nat.lt_of_lt_of_le ho.1 hm.1, Nat.lt_of_lt_of_le ho.2 hm.2⟩

theorem parlayOddsList_length (env : Env) (view : CBettingsView) (f : Bool)
    (bet : CPeerlessBetDB) (legs : List CPeerlessLegDB) :
    ∀ idx : Nat, (parlayOddsList env view f bet legs idx).length = legs.length := by
  induction legs with
  | nil => intro idx; rfl
  | cons leg rest ih =>
    intro idx
    unfold parlayOddsList
    rw [List.length_cons, List.length_cons, ih]

/-- C13, counterexample: a 100-coin parlay with a push leg and two full wins at odds
10000000 and 4294973: the product 4294973000 is truncated to 32 bits, the final odds are
(5704, 5704), the payout 57.04 coins is below the stake and the bet is stored as
partialLose. -/
theorem C13_counterexample :
    parlayOddsList c13BigEnv c12View true c12Bet c12Bet.legs 0 =
      [(10000000, 10000000), (4294973, 4294973), (10000, 10000)] ∧
    (handleBet c13BigEnv c12View 601 exResult exKey c12Bet).map
        (fun h => (h.finalOdds, h.effectivePayout, h.bet.resultType)) =
      some ((5704, 5704), 5704000000, BetResultType.betResultPartialLose) ∧
    c12Bet.betAmount = 10000000000 := by
  decide

/-- C13, amended: for every v3 parlay (not yet completed, one leg on the result's event)
with a positive stake inside the payout range whose legs all have a stored result, where
one leg is a push or refund (odds (10000, 10000)) and every other leg has onchain and
effective odds above 10000, and where no multiplication of the winning odds exceeds 32 bits
(and stake times effective odds fits 64 bits): the bet is handled, its final odds are the
fold of the winning legs' odds, the payout is at least the stake, one output of that value
is made, and the bet is stored with resultType partialWin. -/
theorem C13_push_leg_partial_win (env : Env) (view : CBettingsView) (H : Int)
    (result : CPeerlessResultDB) (key : PeerlessBetKey) (bet : CPeerlessBetDB)
    (l0 l1 : CPeerlessLegDB) (more : List CPeerlessLegDB) (pre post : List (Nat × Nat))
    (hv3 : isV3 env H = true) (hnc : bet.completed = false)
    (hlegs : bet.legs = l0 :: l1 :: more)
    (hres : ∀ leg ∈ bet.legs, (view.ReadResult leg.nEventId).isSome = true)
    (hfound : bet.legs.any (fun leg => leg.nEventId == result.nEventId) = true)
    (hmin : env.MinBetPayoutRange * COIN ≤ bet.betAmount)
    (hmax : bet.betAmount ≤ env.MaxBetPayoutRange * COIN)
    (hpos : 0 < bet.betAmount)
    (hodds : parlayOddsList env view true bet bet.legs 0 = pre ++ (10000, 10000) :: post)
    (hwin : ∀ o ∈ pre ++ post, 10000 < o.1 ∧ 10000 < o.2)
    (h32a : (foldOddsExact (pre ++ post)).1 < 4294967296)
    (h32b : (foldOddsExact (pre ++ post)).2 < 4294967296)
    (h64 : bet.betAmount * ((foldOdds (pre ++ post)).2 : Int) < 9223372036854775808) :
    ∃ h, handleBet env view H result key bet = some h ∧
      h.finalOdds = foldOdds (pre ++ post) ∧
      bet.betAmount ≤ h.effectivePayout ∧
      h.outs = [⟨h.effectivePayout, env.GetScriptForDestination bet.playerAddress,
        bet.betAmount, 0⟩] ∧
      h.bet.resultType = BetResultType.betResultPartialWin ∧
      h.bet.payout = h.effectivePayout := by
  have hsk : (isV3 env H && bet.completed) = false := by rw [hnc]; simp
  have hst := parlayLegs_start env view (isV3 env H) bet l0 (l1 :: more)
    (by rw [← hlegs]; exact hres)
  rw [← hlegs] at hst
  have hh := handleBet_parlay env view H result key bet l0 l1 more hlegs hsk hfound hst.1
  rw [hv3] at hst hh
  -- the winning odds are bounded and not empty
  have hb : ∀ o ∈ pre ++ post, o.1 < 4294967296 ∧ o.2 < 4294967296 := by
    intro o ho
    apply parlayOddsList_lt env view true bet bet.legs 0 o
    rw [hodds]
    simp only [List.mem_append, List.mem_cons] at ho ⊢
    tauto
  have hne : pre ++ post ≠ [] := by
    intro he
    have hl := parlayOddsList_length env view true bet bet.legs 0
    rw [hodds, hlegs] at hl
    simp only [List.append_eq_nil] at he
    rw [he.1, he.2] at hl
    simp at hl
  -- the final odds
  have hfin : (parlayLegs env view true bet bet.legs 0 parlayStart).finalOdds =
      foldOdds (pre ++ post) := by
    rw [hst.2, ← foldOdds_push pre post hb hne, ← hodds, hlegs]
    rfl
  obtain ⟨_, hw1, hw2⟩ := foldOdds_wins (pre ++ post) hne hwin h32a h32b
  have hfl : (parlayLegs env view true bet bet.legs 0 parlayStart).flags.legRefund = true := by
    apply parlayLegs_refund_flag env view true bet bet.legs 0 parlayStart hres
    right
    exact ⟨(10000, 10000), by rw [hodds]; simp, rfl⟩
  rw [hfin] at hh
  have hc : clampOdds env true bet.betAmount (foldOdds (pre ++ post)) =
      foldOdds (pre ++ post) := clampOdds_in env true _ _ (by omega)
  have hpay : effectivePayoutOf env true bet.betAmount
      (clampOdds env true bet.betAmount (foldOdds (pre ++ post))) =
      bet.betAmount * ((foldOdds (pre ++ post)).2 : Int) / 10000 := by
    rw [hc]
    unfold effectivePayoutOf
    simp only [if_true]
    exact payoutAmount_floor _ _ (by
      have := Int.mul_nonneg (Int.le_of_lt hpos) (Int.ofNat_nonneg (foldOdds (pre ++ post)).2)
      omega) h64 (Or.inl (Int.le_of_lt hpos))
  have hge : bet.betAmount ≤ bet.betAmount * ((foldOdds (pre ++ post)).2 : Int) / 10000 := by
    apply Int.le_ediv_of_mul_le (by decide)
    apply Int.mul_le_mul_of_nonneg_left _ (Int.le_of_lt hpos)
    have : (10000 : Int) < ((foldOdds (pre ++ post)).2 : Int) := by exact_mod_cast hw2
    omega
  have hp : effectivePayoutOf env true bet.betAmount
      (clampOdds env true bet.betAmount (foldOdds (pre ++ post))) > 0 := by
    rw [hpay]; omega
  rw [settleBet_pos env true H key bet _ _ hp] at hh
  refine ⟨_, hh, ?_, ?_, ?_, ?_, rfl⟩
  · exact hc
  · show bet.betAmount ≤ effectivePayoutOf env true bet.betAmount _
    rw [hpay]; exact hge
  · rfl
  · show classifyPaid _ _ _ _ _ = BetResultType.betResultPartialWin
    rw [hpay, hc]
    unfold classifyPaid BET_ODDSDIVISOR
    rw [if_neg (by omega), if_neg (by omega), if_pos]
    right
    refine ⟨by rw [hlegs]; simp, Or.inr (Or.inr hfl)⟩

/-- C13, amended, witness: three legs, two moneyline wins at (20000, 19400) and
(15000, 14700) and one push: final odds (30000, 28518), payout 285.18 coins on a stake of
100 coins, stored as partialWin. -/
theorem C13_push_leg_partial_win_witness :
    ∃ h, handleBet c13Env c12View 601 exResult exKey c12Bet = some h ∧
      h.finalOdds = (30000, 28518) ∧
      c12Bet.betAmount ≤ h.effectivePayout ∧
      h.outs = [⟨h.effectivePayout, c13Env.GetScriptForDestination c12Bet.playerAddress,
        c12Bet.betAmount, 0⟩] ∧
      h.bet.resultType = BetResultType.betResultPartialWin ∧
      h.bet.payout = h.effectivePayout :=
  C13_push_leg_partial_win c13Env c12View 601 exResult exKey c12Bet ⟨100, 1⟩ ⟨101, 1⟩
    [⟨102, 1⟩] [(20000, 19400), (15000, 14700)] [] (by decide) (by decide) rfl (by decide)
    (by decide) (by decide) (by decide) (by decide) (by decide) (by decide) (by decide)
    (by decide) (by decide)

/-! ## The chain-games lottery -/

theorem cgWinnerNr_mod (hash N : Nat) (hN : 0 < N) (hN64 : N < 18446744073709551616) :
    cgWinnerNr hash N = hash % N ∧ hash % N < N := by
  have hlt : hash % N < N := Nat.mod_lt _ hN
  unfold cgWinnerNr
  have hsub : hash - hash / N * N = hash % N := by
    have := Nat.div_add_mod hash N
    rw [Nat.mul_comm] at this
    omega
  rw [hsub, Nat.mod_eq_of_lt (by omega)]
  exact ⟨rfl, hlt⟩

/-- The amounts of a lottery with `N >= 2` entries at a fee of `f >= 1` coins and a
non-zero hash, when the pot fits 64 bits. -/
theorem cg_amounts (hash N f : Nat) (hN : 2 ≤ N) (hf : 0 < f) (hh : hash ≠ 0)
    (hfit : (N : Int) * (f : Int) * COIN < 9223372036854775808) :
    cgTotalPot hash N ((f : Int) * COIN) = (N : Int) * (f : Int) * COIN ∧
    cgWinnerPayout ((N : Int) * (f : Int) * COIN) = (N : Int) * (f : Int) * COIN / 10 * 8 ∧
    0 < (N : Int) * (f : Int) * COIN / 10 * 8 ∧
    cgFee ((N : Int) * (f : Int) * COIN) = (N : Int) * (f : Int) * COIN / 50 := by
  have hT : (2 : Int) ≤ (N : Int) * (f : Int) := by
    have h1 : (2 : Int) ≤ (N : Int) := by exact_mod_cast hN
    have h2 : (1 : Int) ≤ (f : Int) := by exact_mod_cast hf
    nlinarith
  have hassoc : (N : Int) * ((f : Int) * COIN) = (N : Int) * (f : Int) * COIN := by ring
  generalize (N : Int) * (f : Int) = T at hT hfit hassoc ⊢
  unfold COIN at hfit hassoc ⊢
  refine ⟨?_, ?_, ?_, ?_⟩
  · unfold cgTotalPot
    rw [if_neg hh, hassoc]
    exact i64_of_range _ (by omega) hfit
  · unfold cgWinnerPayout
    rw [Int.tdiv_eq_ediv (by omega) (by decide)]
    exact i64_of_range _ (by omega) (by omega)
  · omega
  · unfold cgFee
    exact Int.tdiv_eq_ediv (by omega) (by decide)

/-- C14, counterexample: two entries at a fee of 10 coins and hash 12345 (odd), on a chain
where the fee payout scripts are not found: the result appends no output and no payout-info
record. -/
theorem C14_counterexample :
    noScriptEnv.GetFeePayoutScripts (u32OfInt 601) = none ∧
    cgView.ReadCGEvent 7 = some cgEvent7 ∧
    (cgCandidatesOf noScriptEnv cgView 601 cgEvent7 ⟨7⟩).length = 2 ∧
    cgHash noScriptEnv 600 = 12345 ∧
    cgResultStep noScriptEnv cgView 601 cgStart ⟨7⟩ = cgStart := by
  decide

/-- C14, amended: for every chain-games result whose event has an entry fee f >= 1 and
N >= 2 candidate bets, with a non-zero hash h (the proof-of-stake hash of the previous
block, or that block's hash when the former is zero), and N * f * 10^8 fitting 64 bits:
the winner is the candidate at index h mod N in iteration order and this index is < N;
when the fee payout scripts are found, the result appends exactly the winner output of
value (N * f * 10^8) / 10 * 8 (kind chainGamesPayout, the winner's bet key) followed by the
operator output of value (N * f * 10^8) / 50 (kind chainGamesReward, zero-outpoint key);
when the fee payout scripts are not found, the result appends nothing: no output, no
payout-info record, and nothing is queued for the write-back. -/
theorem C14_lotto_winner_and_fee (env : Env) (view : CBettingsView) (H : Int) (st : CGState)
    (result : CChainGamesResultDB) (cgEvent : CChainGamesEventDB)
    (c0 c1 : PeerlessBetKey × CChainGamesBetDB) (cs : List (PeerlessBetKey × CChainGamesBetDB))
    (hev : view.ReadCGEvent result.nEventId = some cgEvent)
    (hc : cgCandidatesOf env view H cgEvent result = c0 :: c1 :: cs)
    (hN64 : (c0 :: c1 :: cs).length < 18446744073709551616)
    (hhash : cgHash env (H - 1) ≠ 0)
    (hfee : 0 < cgEvent.nEntryFee)
    (hfit : ((c0 :: c1 :: cs).length : Int) * (cgEvent.nEntryFee : Int) * COIN <
      9223372036854775808) :
    cgHash env (H - 1) % (c0 :: c1 :: cs).length < (c0 :: c1 :: cs).length ∧
    cgWinnerNr (cgHash env (H - 1)) (c0 :: c1 :: cs).length =
      cgHash env (H - 1) % (c0 :: c1 :: cs).length ∧
    (∀ dev omno : CScript, env.GetFeePayoutScripts (u32OfInt H) = some (dev, omno) →
      (cgResultStep env view H st result).vExpectedPayouts =
        st.vExpectedPayouts ++
          [⟨((c0 :: c1 :: cs).length : Int) * (cgEvent.nEntryFee : Int) * COIN / 10 * 8,
            env.GetScriptForDestination
              ((c0 :: c1 :: cs).getD (cgHash env (H - 1) % (c0 :: c1 :: cs).length)
                c0).2.playerAddress,
            (cgEvent.nEntryFee : Int) * COIN, result.nEventId⟩,
           ⟨((c0 :: c1 :: cs).length : Int) * (cgEvent.nEntryFee : Int) * COIN / 50, omno, 0,
            0⟩] ∧
      (cgResultStep env view H st result).vPayoutsInfo =
        st.vPayoutsInfo ++
          [⟨((c0 :: c1 :: cs).getD (cgHash env (H - 1) % (c0 :: c1 :: cs).length) c0).1,
            PayoutType.chainGamesPayout⟩,
           ⟨⟨u32OfInt H, COutPoint.null⟩, PayoutType.chainGamesReward⟩]) ∧
    (env.GetFeePayoutScripts (u32OfInt H) = none →
      cgResultStep env view H st result = st ∧
      (cgResultStep env view H st result).vExpectedPayouts = st.vExpectedPayouts ∧
      (cgResultStep env view H st result).vPayoutsInfo = st.vPayoutsInfo ∧
      (cgResultStep env view H st result).vEntriesToUpdate = st.vEntriesToUpdate) := by
  have hw := cgWinnerNr_mod (cgHash env (H - 1)) (c0 :: c1 :: cs).length
    (by simp) hN64
  have ha := cg_amounts (cgHash env (H - 1)) (c0 :: c1 :: cs).length cgEvent.nEntryFee
    (by simp) hfee hhash hfit
  refine ⟨hw.2, hw.1, ?_, ?_⟩
  · intro dev omno hs
    unfold cgResultStep
    simp only [hev, hc]
    rw [ha.1, ha.2.1, ha.2.2.2, hw.1, if_pos ha.2.2.1]
    simp only [hs]
    refine ⟨?_, ?_⟩ <;> first | rfl | trivial
  · intro hs
    have hst : cgResultStep env view H st result = st := by
      unfold cgResultStep
      simp only [hev, hc]
      rw [ha.1, ha.2.1, if_pos ha.2.2.1]
      simp only [hs]
    rw [hst]
    exact ⟨rfl, rfl, rfl, rfl⟩

/-- C14, amended, witness: N = 2, f = 10, hash 12345 (h mod 2 = 1) pays 16 coins to the
second entrant and 0.4 coins to the operator; on the chain where the fee payout scripts
are not found the same result appends nothing. -/
theorem C14_lotto_winner_and_fee_witness :
    cgHash exEnv (601 - 1) % 2 = 1 ∧
    (cgResultStep exEnv cgView 601 cgStart ⟨7⟩).vExpectedPayouts =
      [⟨1600000000, [22], 1000000000, 7⟩, ⟨40000000, [2], 0, 0⟩] ∧
    (cgResultStep exEnv cgView 601 cgStart ⟨7⟩).vPayoutsInfo =
      [⟨⟨411, ⟨32, 0⟩⟩, PayoutType.chainGamesPayout⟩,
       ⟨⟨601, COutPoint.null⟩, PayoutType.chainGamesReward⟩] ∧
    cgResultStep noScriptEnv cgView 601 cgStart ⟨7⟩ = cgStart :=
  ⟨by decide,
    ((C14_lotto_winner_and_fee exEnv cgView 601 cgStart ⟨7⟩ cgEvent7
      (⟨410, ⟨31, 0⟩⟩, { cgBetA with completed := true })
      (⟨411, ⟨32, 0⟩⟩, { cgBetB with completed := true }) []
      (by decide) (by decide) (by decide) (by decide) (by decide) (by decide)).2.2.1
      [1] [2] (by decide)).1,
    ((C14_lotto_winner_and_fee exEnv cgView 601 cgStart ⟨7⟩ cgEvent7
      (⟨410, ⟨31, 0⟩⟩, { cgBetA with completed := true })
      (⟨411, ⟨32, 0⟩⟩, { cgBetB with completed := true }) []
      (by decide) (by decide) (by decide) (by decide) (by decide) (by decide)).2.2.1
      [1] [2] (by decide)).2,
    ((C14_lotto_winner_and_fee noScriptEnv cgView 601 cgStart ⟨7⟩ cgEvent7
      (⟨410, ⟨31, 0⟩⟩, { cgBetA with completed := true })
      (⟨411, ⟨32, 0⟩⟩, { cgBetB with completed := true }) []
      (by decide) (by decide) (by decide) (by decide) (by decide) (by decide)).2.2.2
      (by decide)).1⟩

theorem mem_of_mem_Seek {α : Type} (start : PeerlessBetKey) (bets : List (PeerlessBetKey × α))
    (e : PeerlessBetKey × α) (h : e ∈ Seek start bets) : e ∈ bets :=
  (List.dropWhile_sublist _).subset h

/-- A candidate comes from an entry of the scanned range that is not completed, is on the
result's event and has the entrance fee as stake; only its completion mark differs. -/
theorem cgCandidates_mem (entranceFee : Int) (result : CChainGamesResultDB)
    (es : List (PeerlessBetKey × CChainGamesBetDB)) (c : PeerlessBetKey × CChainGamesBetDB)
    (hc : c ∈ cgCandidates entranceFee result es) :
    ∃ e ∈ es, c = (e.1, { e.2 with completed := true }) ∧ e.2.completed = false ∧
      e.2.nEventId = result.nEventId ∧ e.2.betAmount = entranceFee := by
  unfold cgCandidates at hc
  obtain ⟨e, he, hf⟩ := List.mem_filterMap.mp hc
  by_cases hcond : e.2.completed = true ∨ e.2.nEventId ≠ result.nEventId ∨
      e.2.betAmount ≠ entranceFee
  · rw [if_pos hcond] at hf; cases hf
  · rw [if_neg hcond] at hf
    simp only [not_or, not_not, Bool.not_eq_true] at hcond
    exact ⟨e, he, (Option.some.inj hf).symm, hcond.1, hcond.2.1, hcond.2.2⟩

/-- C15: for every chain-games result with exactly one candidate bet (an entry of the bets
table that is not completed, is on the result's event and has the stake entryFee * 10^8,
which is positive), the result appends exactly one output, of value entryFee * 10^8 to
that bet's player, with a chainGamesRefund record under the bet's key, and no reward
output (nothing is queued for the write-back either); a result with no candidate, or
without event, appends nothing. -/
theorem C15_single_entrant_refunded (env : Env) (view : CBettingsView) (H : Int)
    (st : CGState) (result : CChainGamesResultDB) (cgEvent : CChainGamesEventDB)
    (c : PeerlessBetKey × CChainGamesBetDB)
    (hev : view.ReadCGEvent result.nEventId = some cgEvent)
    (hc : cgCandidatesOf env view H cgEvent result = [c])
    (hfee : 0 < cgEvent.nEntryFee) :
    (∃ e ∈ view.chainGamesLottoBets, e.1 = c.1 ∧ e.2.playerAddress = c.2.playerAddress ∧
      e.2.completed = false ∧ e.2.nEventId = result.nEventId ∧
      e.2.betAmount = (cgEvent.nEntryFee : Int) * COIN) ∧
    (cgResultStep env view H st result).vExpectedPayouts =
      st.vExpectedPayouts ++
        [⟨(cgEvent.nEntryFee : Int) * COIN, env.GetScriptForDestination c.2.playerAddress,
          (cgEvent.nEntryFee : Int) * COIN, result.nEventId⟩] ∧
    (cgResultStep env view H st result).vPayoutsInfo =
      st.vPayoutsInfo ++ [⟨c.1, PayoutType.chainGamesRefund⟩] ∧
    (cgResultStep env view H st result).vEntriesToUpdate = st.vEntriesToUpdate ∧
    (∀ other : CChainGamesResultDB,
      (∀ ev, view.ReadCGEvent other.nEventId = some ev →
        cgCandidatesOf env view H ev other = []) →
      cgResultStep env view H st other = st) := by
  have hpos : (cgEvent.nEntryFee : Int) * COIN > 0 := by
    have h1 : (1 : Int) ≤ (cgEvent.nEntryFee : Int) := by exact_mod_cast hfee
    unfold COIN
    omega
  refine ⟨?_, ?_, ?_, ?_, ?_⟩
  · have hm : c ∈ cgCandidatesOf env view H cgEvent result := by rw [hc]; simp
    unfold cgCandidatesOf at hm
    obtain ⟨e, he, hce, h1, h2, h3⟩ := cgCandidates_mem _ _ _ _ hm
    refine ⟨e, mem_of_mem_Seek _ _ _ he, ?_, ?_, h1, h2, h3⟩
    · rw [hce]
    · rw [hce]
  · unfold cgResultStep
    simp only [hev, hc, if_pos hpos]
  · unfold cgResultStep
    simp only [hev, hc, if_pos hpos]
  · unfold cgResultStep
    simp only [hev, hc, if_pos hpos]
  · intro other hother
    unfold cgResultStep
    cases hr : view.ReadCGEvent other.nEventId with
    | none => rfl
    | some ev =>
      simp only [hother ev hr]

/-- C15, witness: the single entry A of event 7 gets its 10 coins back under its own key;
on a store without entries the result appends nothing. -/
theorem C15_single_entrant_refunded_witness :
    (cgResultStep exEnv cgViewOne 601 cgStart ⟨7⟩).vExpectedPayouts =
      [⟨1000000000, [21], 1000000000, 7⟩] ∧
    (cgResultStep exEnv cgViewOne 601 cgStart ⟨7⟩).vPayoutsInfo =
      [⟨⟨410, ⟨31, 0⟩⟩, PayoutType.chainGamesRefund⟩] ∧
    cgResultStep exEnv cgViewOne 601 cgStart ⟨8⟩ = cgStart :=
  ⟨(C15_single_entrant_refunded exEnv cgViewOne 601 cgStart ⟨7⟩ cgEvent7
      (⟨410, ⟨31, 0⟩⟩, { cgBetA with completed := true })
      (by decide) (by decide) (by decide)).2.1,
    (C15_single_entrant_refunded exEnv cgViewOne 601 cgStart ⟨7⟩ cgEvent7
      (⟨410, ⟨31, 0⟩⟩, { cgBetA with completed := true })
      (by decide) (by decide) (by decide)).2.2.1,
    (C15_single_entrant_refunded exEnv cgViewOne 601 cgStart ⟨7⟩ cgEvent7
      (⟨410, ⟨31, 0⟩⟩, { cgBetA with completed := true })
      (by decide) (by decide) (by decide)).2.2.2.2 ⟨8⟩ (by decide)⟩

/-! ## Order of the chain-games outputs -/

theorem cgResultStep_block (env : Env) (view : CBettingsView) (H : Int) (st : CGState)
    (result : CChainGamesResultDB) :
    ∃ b : List (CBetOut × CPayoutInfoDB),
      (cgResultStep env view H st result).vExpectedPayouts =
        st.vExpectedPayouts ++ b.map (fun p => p.1) ∧
      (cgResultStep env view H st result).vPayoutsInfo =
        st.vPayoutsInfo ++ b.map (fun p => p.2) ∧
      cgBlockKinds b := by
  cases hr : view.ReadCGEvent result.nEventId with
  | none =>
    refine ⟨[], ?_, ?_, Or.inl rfl⟩ <;> simp [cgResultStep, hr]
  | some cgEvent =>
    cases hc : cgCandidatesOf env view H cgEvent result with
    | nil =>
      refine ⟨[], ?_, ?_, Or.inl rfl⟩ <;> simp [cgResultStep, hr, hc]
    | cons c0 rest =>
      cases rest with
      | nil =>
        by_cases hp : (cgEvent.nEntryFee : Int) * COIN > 0
        · refine ⟨[(⟨(cgEvent.nEntryFee : Int) * COIN,
              env.GetScriptForDestination c0.2.playerAddress, (cgEvent.nEntryFee : Int) * COIN,
              result.nEventId⟩, ⟨c0.1, PayoutType.chainGamesRefund⟩)],
            ?_, ?_, Or.inr (Or.inl rfl)⟩ <;> simp only [cgResultStep, hr, hc, if_pos hp] <;> rfl
        · refine ⟨[], ?_, ?_, Or.inl rfl⟩ <;>
            simp only [cgResultStep, hr, hc, if_neg hp, List.map_nil, List.append_nil]
      | cons c1 cs =>
        by_cases hp : cgWinnerPayout (cgTotalPot (cgHash env (H - 1)) (c0 :: c1 :: cs).length
            ((cgEvent.nEntryFee : Int) * COIN)) > 0
        · cases hs : env.GetFeePayoutScripts (u32OfInt H) with
          | none =>
            refine ⟨[], ?_, ?_, Or.inl rfl⟩ <;>
              simp only [cgResultStep, hr, hc, if_pos hp, hs, List.map_nil, List.append_nil]
          | some p =>
            obtain ⟨dev, omno⟩ := p
            refine ⟨[(⟨cgWinnerPayout (cgTotalPot (cgHash env (H - 1)) (c0 :: c1 :: cs).length
                  ((cgEvent.nEntryFee : Int) * COIN)),
                env.GetScriptForDestination
                  ((c0 :: c1 :: cs).getD
                    (cgWinnerNr (cgHash env (H - 1)) (c0 :: c1 :: cs).length) c0).2.playerAddress,
                (cgEvent.nEntryFee : Int) * COIN, result.nEventId⟩,
                ⟨((c0 :: c1 :: cs).getD
                    (cgWinnerNr (cgHash env (H - 1)) (c0 :: c1 :: cs).length) c0).1,
                  PayoutType.chainGamesPayout⟩),
              (⟨cgFee (cgTotalPot (cgHash env (H - 1)) (c0 :: c1 :: cs).length
                  ((cgEvent.nEntryFee : Int) * COIN)), omno, 0, 0⟩,
                ⟨⟨u32OfInt H, COutPoint.null⟩, PayoutType.chainGamesReward⟩)],
              ?_, ?_, Or.inr (Or.inr rfl)⟩ <;>
              simp only [cgResultStep, hr, hc, if_pos hp, hs] <;> rfl
        · refine ⟨[], ?_, ?_, Or.inl rfl⟩ <;>
            simp only [cgResultStep, hr, hc, if_neg hp, List.map_nil, List.append_nil]

theorem cg_fold_blocks (env : Env) (view : CBettingsView) (H : Int)
    (rs : List CChainGamesResultDB) :
    ∀ st : CGState, ∃ blocks : List (List (CBetOut × CPayoutInfoDB)),
      blocks.length = rs.length ∧
      (rs.foldl (cgResultStep env view H) st).vExpectedPayouts =
        st.vExpectedPayouts ++ blocks.flatten.map (fun p => p.1) ∧
      (rs.foldl (cgResultStep env view H) st).vPayoutsInfo =
        st.vPayoutsInfo ++ blocks.flatten.map (fun p => p.2) ∧
      ∀ b ∈ blocks, cgBlockKinds b := by
  induction rs with
  | nil => intro st; exact ⟨[], rfl, by simp, by simp, by simp⟩
  | cons r rs ih =>
    intro st
    obtain ⟨b, hb1, hb2, hb3⟩ := cgResultStep_block env view H st r
    obtain ⟨blocks, hl, h1, h2, h3⟩ := ih (cgResultStep env view H st r)
    refine ⟨b :: blocks, by simp [hl], ?_, ?_, ?_⟩
    · rw [List.foldl_cons, h1, hb1]; simp
    · rw [List.foldl_cons, h2, hb2]; simp
    · intro x hx
      rcases List.mem_cons.mp hx with hx | hx
      · rw [hx]; exact hb3
      · exact h3 x hx

/-- C18, counterexample: with two results that each have two entrants, the vector is
payout, reward, payout, reward: the payout of the second result comes after the reward of
the first. -/
theorem C18_counterexample :
    (GetCGLottoBetPayoutsV3 cg2Env cg2View 601 [] []).2.2.map (fun i => i.payoutType) =
      [PayoutType.chainGamesPayout, PayoutType.chainGamesReward,
       PayoutType.chainGamesPayout, PayoutType.chainGamesReward] := by
  decide

/-- C18, amended: in the vectors produced by one call of `GetCGLottoBetPayoutsV3`, for any
number of chain-games results posted in the previous block, the appended entries are the
concatenation, in result order, of one block per result, and each block is empty, one
refund, or one payout followed by one reward: within the block of each result the payout
output precedes the reward output. -/
theorem C18_lotto_blocks (env : Env) (view : CBettingsView) (H : Int)
    (vE : List CBetOut) (vI : List CPayoutInfoDB) :
    ∃ blocks : List (List (CBetOut × CPayoutInfoDB)),
      blocks.length = (env.GetCGLottoEventResults (H - 1)).length ∧
      (GetCGLottoBetPayoutsV3 env view H vE vI).2.1 =
        vE ++ blocks.flatten.map (fun p => p.1) ∧
      (GetCGLottoBetPayoutsV3 env view H vE vI).2.2 =
        vI ++ blocks.flatten.map (fun p => p.2) ∧
      ∀ b ∈ blocks,
        b.map (fun p => p.2.payoutType) = [] ∨
        b.map (fun p => p.2.payoutType) = [PayoutType.chainGamesRefund] ∨
        b.map (fun p => p.2.payoutType) =
          [PayoutType.chainGamesPayout, PayoutType.chainGamesReward] := by
  obtain ⟨blocks, hl, h1, h2, h3⟩ := cg_fold_blocks env view H
    (env.GetCGLottoEventResults (H - 1))
    { vExpectedPayouts := vE, vPayoutsInfo := vI, vEntriesToUpdate := [] }
  exact ⟨blocks, hl, h1, h2, h3⟩

/-! ## The write-back loop -/

theorem finalOf_key {α : Type} (queue : List (PeerlessBetKey × α)) :
    ∀ e : PeerlessBetKey × α, (finalOf queue e).1 = e.1 := by
  induction queue with
  | nil => intro e; rfl
  | cons q queue ih =>
    intro e
    unfold finalOf
    rw [List.foldl_cons]
    have h := ih (if DbTypeToBytes e.1 = DbTypeToBytes q.1 then (e.1, q.2) else e)
    unfold finalOf at h
    rw [h]
    split <;> rfl

theorem UpdateAll_eq_map {α : Type} (queue : List (PeerlessBetKey × α)) :
    ∀ bets : List (PeerlessBetKey × α), UpdateAll bets queue = bets.map (finalOf queue) := by
  induction queue with
  | nil =>
    intro bets
    unfold UpdateAll finalOf
    simp
  | cons q queue ih =>
    intro bets
    have h := ih (Update bets q.1 q.2)
    unfold UpdateAll at h ⊢
    rw [List.foldl_cons, h]
    unfold Update
    rw [List.map_map]
    apply List.map_congr_left
    intro e _
    unfold finalOf
    simp only [Function.comp, List.foldl_cons]

/-- The entry is either kept, when no queued key has its encoding, or carries the value of
a queued pair with its encoded key. -/
theorem finalOf_cases {α : Type} (queue : List (PeerlessBetKey × α)) :
    ∀ e : PeerlessBetKey × α,
      ((∀ q ∈ queue, DbTypeToBytes q.1 ≠ DbTypeToBytes e.1) ∧ finalOf queue e = e) ∨
      (∃ q ∈ queue, DbTypeToBytes q.1 = DbTypeToBytes e.1 ∧ finalOf queue e = (e.1, q.2)) := by
  induction queue with
  | nil => intro e; left; exact ⟨by simp, rfl⟩
  | cons q queue ih =>
    intro e
    have hunf : finalOf (q :: queue) e =
        finalOf queue (if DbTypeToBytes e.1 = DbTypeToBytes q.1 then (e.1, q.2) else e) := by
      unfold finalOf
      rw [List.foldl_cons]
    by_cases hm : DbTypeToBytes e.1 = DbTypeToBytes q.1
    · rw [if_pos hm] at hunf
      right
      rcases ih (e.1, q.2) with ⟨_, hk⟩ | ⟨q2, hq2, hm2, hk⟩
      · exact ⟨q, List.mem_cons_self _ _, hm.symm, by rw [hunf, hk]⟩
      · exact ⟨q2, List.mem_cons_of_mem _ hq2, hm2, by rw [hunf, hk]⟩
    · rw [if_neg hm] at hunf
      rcases ih e with ⟨hno, hk⟩ | ⟨q2, hq2, hm2, hk⟩
      · left
        refine ⟨?_, by rw [hunf, hk]⟩
        intro x hx
        rcases List.mem_cons.mp hx with hx | hx
        · rw [hx]; exact fun h => hm h.symm
        · exact hno x hx
      · right
        exact ⟨q2, List.mem_cons_of_mem _ hq2, hm2, by rw [hunf, hk]⟩

theorem finalOf_unmatched {α : Type} (queue : List (PeerlessBetKey × α))
    (e : PeerlessBetKey × α)
    (h : ∀ q ∈ queue, DbTypeToBytes q.1 ≠ DbTypeToBytes e.1) : finalOf queue e = e := by
  rcases finalOf_cases queue e with ⟨_, hk⟩ | ⟨q, hq, hm, _⟩
  · exact hk
  · exact absurd hm (h q hq)

theorem finalOf_const {α : Type} (queue : List (PeerlessBetKey × α))
    (e : PeerlessBetKey × α) (v : α)
    (hex : ∃ q ∈ queue, DbTypeToBytes q.1 = DbTypeToBytes e.1)
    (hall : ∀ q ∈ queue, DbTypeToBytes q.1 = DbTypeToBytes e.1 → q.2 = v) :
    finalOf queue e = (e.1, v) := by
  rcases finalOf_cases queue e with ⟨hno, _⟩ | ⟨q, hq, hm, hk⟩
  · obtain ⟨q, hq, hm⟩ := hex
    exact absurd hm (hno q hq)
  · rw [hk, hall q hq hm]

theorem Seek_map {α : Type} (start : PeerlessBetKey) (bets : List (PeerlessBetKey × α))
    (g : PeerlessBetKey × α → PeerlessBetKey × α) (hg : ∀ e, (g e).1 = e.1) :
    Seek start (bets.map g) = (Seek start bets).map g := by
  unfold Seek
  rw [List.dropWhile_map]
  have hp : (fun e : PeerlessBetKey × α => bytesLt (DbTypeToBytes e.1) (DbTypeToBytes start)) ∘ g
      = fun e : PeerlessBetKey × α => bytesLt (DbTypeToBytes e.1) (DbTypeToBytes start) := by
    funext e
    simp only [Function.comp, hg]
  rw [hp]

theorem UpdateAll_keys {α : Type} (bets queue : List (PeerlessBetKey × α)) :
    (UpdateAll bets queue).map (fun e => e.1) = bets.map (fun e => e.1) := by
  rw [UpdateAll_eq_map, List.map_map]
  apply List.map_congr_left
  intro e _
  exact finalOf_key queue e

/-- Two keys below `2^32` with the same encoding have the same block height. -/
theorem DbTypeToBytes_height (a b : PeerlessBetKey) (ha : a.blockHeight < 4294967296)
    (hb : b.blockHeight < 4294967296) (h : DbTypeToBytes a = DbTypeToBytes b) :
    a.blockHeight = b.blockHeight := by
  have h1 := BytesToDbType_DbTypeToBytes a PeerlessBetKey.default ha
  have h2 := BytesToDbType_DbTypeToBytes b PeerlessBetKey.default hb
  rw [h, h2] at h1
  exact (congrArg PeerlessBetKey.blockHeight (Option.some.inj h1)).symm

/-! ## The chain-games write-back -/

theorem filterMap_keys_sublist {α β γ : Type} (f : α → Option β) (g : β → γ) (k : α → γ)
    (h : ∀ a b, f a = some b → g b = k a) (l : List α) :
    ((l.filterMap f).map g).Sublist (l.map k) := by
  induction l with
  | nil => exact List.Sublist.slnil
  | cons a l ih =>
    cases hf : f a with
    | none =>
      rw [List.filterMap_cons_none hf, List.map_cons]
      exact List.Sublist.cons _ ih
    | some b =>
      rw [List.filterMap_cons_some hf, List.map_cons, List.map_cons, h a b hf]
      exact List.Sublist.cons₂ _ ih

theorem Seek_keys_sublist {α : Type} (start : PeerlessBetKey)
    (bets : List (PeerlessBetKey × α)) :
    ((Seek start bets).map (fun e => e.1)).Sublist (bets.map (fun e => e.1)) :=
  List.Sublist.map _ (List.dropWhile_sublist _)

theorem nodup_keys_of_encoded {α : Type} (bets : List (PeerlessBetKey × α))
    (h : (bets.map (fun e => DbTypeToBytes e.1)).Nodup) : (bets.map (fun e => e.1)).Nodup := by
  have h2 : (bets.map (fun e => e.1)).map DbTypeToBytes = bets.map (fun e => DbTypeToBytes e.1) := by
    rw [List.map_map]; rfl
  rw [← h2] at h
  exact List.Nodup.of_map _ h

/-- In a store with distinct encoded keys, two entries with the same encoded key are the
same entry. -/
theorem entry_eq_of_encoded {α : Type} (bets : List (PeerlessBetKey × α))
    (h : (bets.map (fun e => DbTypeToBytes e.1)).Nodup) (a b : PeerlessBetKey × α)
    (ha : a ∈ bets) (hb : b ∈ bets) (hab : DbTypeToBytes a.1 = DbTypeToBytes b.1) : a = b :=
  List.inj_on_of_nodup_map h ha hb hab

theorem cgCandidates_keys (entranceFee : Int) (result : CChainGamesResultDB)
    (es : List (PeerlessBetKey × CChainGamesBetDB)) :
    ((cgCandidates entranceFee result es).map (fun e => e.1)).Sublist (es.map (fun e => e.1)) := by
  unfold cgCandidates
  apply filterMap_keys_sublist
  intro a b hab
  by_cases hcond : a.2.completed = true ∨ a.2.nEventId ≠ result.nEventId ∨
      a.2.betAmount ≠ entranceFee
  · rw [if_pos hcond] at hab; cases hab
  · rw [if_neg hcond] at hab
    rw [← Option.some.inj hab]

theorem cgCandidatesOf_keys_nodup (env : Env) (view : CBettingsView) (H : Int)
    (cgEvent : CChainGamesEventDB) (result : CChainGamesResultDB)
    (h : (view.chainGamesLottoBets.map (fun e => DbTypeToBytes e.1)).Nodup) :
    ((cgCandidatesOf env view H cgEvent result).map (fun e => e.1)).Nodup := by
  unfold cgCandidatesOf
  exact ((cgCandidates_keys _ _ _).trans (Seek_keys_sublist _ _)).nodup (nodup_keys_of_encoded _ h)

theorem cgWinnerNr_lt (hash N : Nat) (hN : 0 < N) : cgWinnerNr hash N < N := by
  unfold cgWinnerNr
  have hsub : hash - hash / N * N = hash % N := by
    have := Nat.div_add_mod hash N
    rw [Nat.mul_comm] at this
    omega
  rw [hsub]
  exact lt_of_le_of_lt (Nat.mod_le _ _) (Nat.mod_lt _ hN)

/-- With distinct keys the assignment to `candidates[winnerNr]` changes the record with
the winner's key and no other. -/
theorem setWinnerPayout_eq_map (p : Int) (d : PeerlessBetKey × CChainGamesBetDB) :
    ∀ (l : List (PeerlessBetKey × CChainGamesBetDB)) (w : Nat),
      (l.map (fun e => e.1)).Nodup → w < l.length →
      setWinnerPayout l w p = l.map (cgQueuedEntry (l.getD w d).1 p) := by
  intro l
  induction l with
  | nil => intro w _ hw; simp at hw
  | cons c cs ih =>
    intro w hnd hw
    rw [List.map_cons, List.nodup_cons] at hnd
    cases w with
    | zero =>
      simp only [setWinnerPayout, List.getD_cons_zero, List.map_cons]
      congr 1
      · simp only [cgQueuedEntry, if_true]
      · symm
        have hid : cs.map (cgQueuedEntry c.1 p) = cs.map id := by
          apply List.map_congr_left
          intro x hx
          have hne : x.1 ≠ c.1 := by
            intro hxc
            exact hnd.1 (hxc ▸ List.mem_map_of_mem (fun e => e.1) hx)
          simp only [cgQueuedEntry, hne, if_false, id]
        rw [hid, List.map_id]
    | succ w =>
      have hw2 : w < cs.length := by simpa using hw
      simp only [setWinnerPayout, List.getD_cons_succ, List.map_cons]
      congr 1
      · have hmem : cs.getD w d ∈ cs := by
          rw [List.getD_eq_getElem _ _ hw2]
          exact List.getElem_mem _
        have hne : c.1 ≠ (cs.getD w d).1 := by
          intro hxc
          exact hnd.1 (hxc ▸ List.mem_map_of_mem (fun e => e.1) hmem)
        simp only [cgQueuedEntry, hne, if_false]
      · exact ih w hnd.2 hw2

theorem cgResultStep_queue (env : Env) (view : CBettingsView) (H : Int) (st : CGState)
    (result : CChainGamesResultDB) :
    (cgResultStep env view H st result).vEntriesToUpdate =
      st.vEntriesToUpdate ++ cgQueueOf env view H result := by
  unfold cgQueueOf
  cases hr : view.ReadCGEvent result.nEventId with
  | none => simp [cgResultStep, hr, cgStart]
  | some cgEvent =>
    cases hc : cgCandidatesOf env view H cgEvent result with
    | nil => simp [cgResultStep, hr, hc, cgStart]
    | cons c0 rest =>
      cases rest with
      | nil =>
        by_cases hp : (cgEvent.nEntryFee : Int) * COIN > 0
        · simp only [cgResultStep, hr, hc, if_pos hp, cgStart, List.append_nil]
        · simp only [cgResultStep, hr, hc, if_neg hp, cgStart, List.append_nil]
      | cons c1 cs =>
        by_cases hp : cgWinnerPayout (cgTotalPot (cgHash env (H - 1)) (c0 :: c1 :: cs).length
            ((cgEvent.nEntryFee : Int) * COIN)) > 0
        · cases hs : env.GetFeePayoutScripts (u32OfInt H) with
          | none => simp only [cgResultStep, hr, hc, if_pos hp, hs, cgStart, List.append_nil]
          | some p =>
            simp only [cgResultStep, hr, hc, if_pos hp, hs, cgStart, List.nil_append]
        · simp only [cgResultStep, hr, hc, if_neg hp, cgStart, List.nil_append]

theorem cg_fold_queue (env : Env) (view : CBettingsView) (H : Int)
    (rs : List CChainGamesResultDB) :
    ∀ st : CGState, (rs.foldl (cgResultStep env view H) st).vEntriesToUpdate =
      st.vEntriesToUpdate ++ rs.flatMap (cgQueueOf env view H) := by
  induction rs with
  | nil => intro st; simp
  | cons r rs ih =>
    intro st
    rw [List.foldl_cons, ih, cgResultStep_queue, List.flatMap_cons, List.append_assoc]

/-- Whatever a result queues is the candidate list of a lottery with two or more
candidates, after the assignment of the winner's payout. -/
theorem cgQueueOf_mem (env : Env) (view : CBettingsView) (H : Int)
    (result : CChainGamesResultDB) (q : PeerlessBetKey × CChainGamesBetDB)
    (hq : q ∈ cgQueueOf env view H result) :
    ∃ cgEvent c0 c1 cs, view.ReadCGEvent result.nEventId = some cgEvent ∧
      cgCandidatesOf env view H cgEvent result = c0 :: c1 :: cs ∧
      q ∈ setWinnerPayout (c0 :: c1 :: cs)
        (cgWinnerNr (cgHash env (H - 1)) (c0 :: c1 :: cs).length)
        (cgWinnerPayout (cgTotalPot (cgHash env (H - 1)) (c0 :: c1 :: cs).length
          ((cgEvent.nEntryFee : Int) * COIN))) := by
  unfold cgQueueOf at hq
  cases hr : view.ReadCGEvent result.nEventId with
  | none => simp [cgResultStep, hr, cgStart] at hq
  | some cgEvent =>
    cases hc : cgCandidatesOf env view H cgEvent result with
    | nil => simp [cgResultStep, hr, hc, cgStart] at hq
    | cons c0 rest =>
      cases rest with
      | nil =>
        by_cases hp : (cgEvent.nEntryFee : Int) * COIN > 0
        · simp [cgResultStep, hr, hc, hp, cgStart] at hq
        · simp [cgResultStep, hr, hc, hp, cgStart] at hq
      | cons c1 cs =>
        refine ⟨cgEvent, c0, c1, cs, rfl, hc, ?_⟩
        by_cases hp : cgWinnerPayout (cgTotalPot (cgHash env (H - 1)) (c0 :: c1 :: cs).length
            ((cgEvent.nEntryFee : Int) * COIN)) > 0
        · cases hs : env.GetFeePayoutScripts (u32OfInt H) with
          | none =>
            simp only [cgResultStep, hr, hc, if_pos hp, hs, cgStart, List.not_mem_nil] at hq
          | some p =>
            simpa only [cgResultStep, hr, hc, if_pos hp, hs, cgStart, List.nil_append] using hq
        · simpa only [cgResultStep, hr, hc, if_neg hp, cgStart, List.nil_append] using hq

theorem cgQueueOf_eq (env : Env) (view : CBettingsView) (H : Int)
    (result : CChainGamesResultDB) (cgEvent : CChainGamesEventDB)
    (c0 c1 : PeerlessBetKey × CChainGamesBetDB) (cs : List (PeerlessBetKey × CChainGamesBetDB))
    (scripts : CScript × CScript)
    (hev : view.ReadCGEvent result.nEventId = some cgEvent)
    (hc : cgCandidatesOf env view H cgEvent result = c0 :: c1 :: cs)
    (hs : env.GetFeePayoutScripts (u32OfInt H) = some scripts) :
    cgQueueOf env view H result =
      setWinnerPayout (c0 :: c1 :: cs)
        (cgWinnerNr (cgHash env (H - 1)) (c0 :: c1 :: cs).length)
        (cgWinnerPayout (cgTotalPot (cgHash env (H - 1)) (c0 :: c1 :: cs).length
          ((cgEvent.nEntryFee : Int) * COIN))) := by
  unfold cgQueueOf
  by_cases hp : cgWinnerPayout (cgTotalPot (cgHash env (H - 1)) (c0 :: c1 :: cs).length
      ((cgEvent.nEntryFee : Int) * COIN)) > 0
  · simp only [cgResultStep, hev, hc, if_pos hp, hs, cgStart, List.nil_append]
  · simp only [cgResultStep, hev, hc, if_neg hp, cgStart, List.nil_append]

theorem cgQueuedEntry_key (k : PeerlessBetKey) (p : Int)
    (c : PeerlessBetKey × CChainGamesBetDB) : (cgQueuedEntry k p c).1 = c.1 := by
  unfold cgQueuedEntry
  split <;> rfl

/-- In a store with distinct encoded keys, whatever a result queues is the completed copy
of an uncompleted entry on the result's event, with the payout set when it is the winner. -/
theorem cgQueueOf_entry (env : Env) (view : CBettingsView) (H : Int)
    (hkeys : (view.chainGamesLottoBets.map (fun e => DbTypeToBytes e.1)).Nodup)
    (result : CChainGamesResultDB) (q : PeerlessBetKey × CChainGamesBetDB)
    (hq : q ∈ cgQueueOf env view H result) :
    ∃ cgEvent c0 c1 cs e, view.ReadCGEvent result.nEventId = some cgEvent ∧
      cgCandidatesOf env view H cgEvent result = c0 :: c1 :: cs ∧
      e ∈ view.chainGamesLottoBets ∧ e.2.completed = false ∧
      e.2.nEventId = result.nEventId ∧
      (e.1, { e.2 with completed := true }) ∈ c0 :: c1 :: cs ∧
      q = cgQueuedEntry
        ((c0 :: c1 :: cs).getD (cgWinnerNr (cgHash env (H - 1)) (c0 :: c1 :: cs).length) c0).1
        (cgWinnerPayout (cgTotalPot (cgHash env (H - 1)) (c0 :: c1 :: cs).length
          ((cgEvent.nEntryFee : Int) * COIN)))
        (e.1, { e.2 with completed := true }) := by
  obtain ⟨cgEvent, c0, c1, cs, hev, hc, hmem⟩ := cgQueueOf_mem env view H result q hq
  have hnd := cgCandidatesOf_keys_nodup env view H cgEvent result hkeys
  rw [hc] at hnd
  rw [setWinnerPayout_eq_map _ c0 _ _ hnd (cgWinnerNr_lt _ _ (by simp))] at hmem
  obtain ⟨c, hcmem, hcq⟩ := List.mem_map.mp hmem
  have hcc : c ∈ cgCandidatesOf env view H cgEvent result := by rw [hc]; exact hcmem
  unfold cgCandidatesOf at hcc
  obtain ⟨e, he, hce, hcomp, hid, _⟩ := cgCandidates_mem _ _ _ _ hcc
  refine ⟨cgEvent, c0, c1, cs, e, hev, hc, mem_of_mem_Seek _ _ _ he, hcomp, hid, ?_, ?_⟩
  · rw [← hce]; exact hcmem
  · rw [← hce]; exact hcq.symm

/-- C16: in a store whose entries have distinct encoded keys, for every chain-games result
of the previous block with N >= 2 candidate bets, when the fee payout scripts are found:
after GetCGLottoBetPayoutsV3 every candidate is stored under its key with completed = true,
the winner with the winner payout (the value of the winner output, which is appended when
that value is positive) and every other candidate with its former payout, all other fields
as before; an entry that is a candidate of no result is stored as it was; the keys of the
table and the rest of the view are unchanged. -/
theorem C16_lotto_candidates_stored (env : Env) (view : CBettingsView) (H : Int)
    (vE : List CBetOut) (vI : List CPayoutInfoDB)
    (result : CChainGamesResultDB) (cgEvent : CChainGamesEventDB)
    (c0 c1 : PeerlessBetKey × CChainGamesBetDB) (cs : List (PeerlessBetKey × CChainGamesBetDB))
    (scripts : CScript × CScript)
    (hkeys : (view.chainGamesLottoBets.map (fun e => DbTypeToBytes e.1)).Nodup)
    (hres : result ∈ env.GetCGLottoEventResults (H - 1))
    (hev : view.ReadCGEvent result.nEventId = some cgEvent)
    (hc : cgCandidatesOf env view H cgEvent result = c0 :: c1 :: cs)
    (hs : env.GetFeePayoutScripts (u32OfInt H) = some scripts) :
    (∀ c ∈ c0 :: c1 :: cs, ∃ e ∈ view.chainGamesLottoBets,
      e.1 = c.1 ∧ e.2.completed = false ∧
      (c.1, { e.2 with
          completed := true
          payout :=
            if c.1 = ((c0 :: c1 :: cs).getD
                (cgWinnerNr (cgHash env (H - 1)) (c0 :: c1 :: cs).length) c0).1
            then cgWinnerPayout (cgTotalPot (cgHash env (H - 1)) (c0 :: c1 :: cs).length
              ((cgEvent.nEntryFee : Int) * COIN))
            else e.2.payout }) ∈
        (GetCGLottoBetPayoutsV3 env view H vE vI).1.chainGamesLottoBets) ∧
    (0 < cgWinnerPayout (cgTotalPot (cgHash env (H - 1)) (c0 :: c1 :: cs).length
        ((cgEvent.nEntryFee : Int) * COIN)) →
      ∀ st : CGState, (cgResultStep env view H st result).vExpectedPayouts =
        st.vExpectedPayouts ++
          [⟨cgWinnerPayout (cgTotalPot (cgHash env (H - 1)) (c0 :: c1 :: cs).length
              ((cgEvent.nEntryFee : Int) * COIN)),
            env.GetScriptForDestination ((c0 :: c1 :: cs).getD
              (cgWinnerNr (cgHash env (H - 1)) (c0 :: c1 :: cs).length) c0).2.playerAddress,
            (cgEvent.nEntryFee : Int) * COIN, result.nEventId⟩,
           ⟨cgFee (cgTotalPot (cgHash env (H - 1)) (c0 :: c1 :: cs).length
              ((cgEvent.nEntryFee : Int) * COIN)), scripts.2, 0, 0⟩]) ∧
    (∀ e ∈ view.chainGamesLottoBets,
      (∀ r ∈ env.GetCGLottoEventResults (H - 1), ∀ ev, view.ReadCGEvent r.nEventId = some ev →
        e.1 ∉ (cgCandidatesOf env view H ev r).map (fun c => c.1)) →
      e ∈ (GetCGLottoBetPayoutsV3 env view H vE vI).1.chainGamesLottoBets) ∧
    (GetCGLottoBetPayoutsV3 env view H vE vI).1.chainGamesLottoBets.map (fun e => e.1) =
      view.chainGamesLottoBets.map (fun e => e.1) ∧
    (GetCGLottoBetPayoutsV3 env view H vE vI).1 =
      { view with chainGamesLottoBets :=
          (GetCGLottoBetPayoutsV3 env view H vE vI).1.chainGamesLottoBets } := by
  have hout : (GetCGLottoBetPayoutsV3 env view H vE vI).1.chainGamesLottoBets =
      view.chainGamesLottoBets.map
        (finalOf ((env.GetCGLottoEventResults (H - 1)).flatMap (cgQueueOf env view H))) := by
    unfold GetCGLottoBetPayoutsV3 cgLoops
    simp only [cg_fold_queue, List.nil_append, UpdateAll_eq_map]
  have hQ : ∀ q ∈ (env.GetCGLottoEventResults (H - 1)).flatMap (cgQueueOf env view H),
      ∃ r ∈ env.GetCGLottoEventResults (H - 1), q ∈ cgQueueOf env view H r := by
    intro q hq
    exact List.mem_flatMap.mp hq
  have hnd := cgCandidatesOf_keys_nodup env view H cgEvent result hkeys
  rw [hc] at hnd
  have hqueue := cgQueueOf_eq env view H result cgEvent c0 c1 cs scripts hev hc hs
  rw [setWinnerPayout_eq_map _ c0 _ _ hnd (cgWinnerNr_lt _ _ (by simp))] at hqueue
  refine ⟨?_, ?_, ?_, ?_, rfl⟩
  · intro c hcm
    have hcc : c ∈ cgCandidatesOf env view H cgEvent result := by rw [hc]; exact hcm
    unfold cgCandidatesOf at hcc
    obtain ⟨e, he, hce, hcomp, hid, _⟩ := cgCandidates_mem _ _ _ _ hcc
    have hes : e ∈ view.chainGamesLottoBets := mem_of_mem_Seek _ _ _ he
    have hc1 : c.1 = e.1 := by rw [hce]
    refine ⟨e, hes, hc1.symm, hcomp, ?_⟩
    rw [hout]
    have hfin := finalOf_const
      ((env.GetCGLottoEventResults (H - 1)).flatMap (cgQueueOf env view H)) e
      (cgQueuedEntry ((c0 :: c1 :: cs).getD
          (cgWinnerNr (cgHash env (H - 1)) (c0 :: c1 :: cs).length) c0).1
        (cgWinnerPayout (cgTotalPot (cgHash env (H - 1)) (c0 :: c1 :: cs).length
          ((cgEvent.nEntryFee : Int) * COIN))) c).2
      (by
        refine ⟨cgQueuedEntry ((c0 :: c1 :: cs).getD
            (cgWinnerNr (cgHash env (H - 1)) (c0 :: c1 :: cs).length) c0).1
          (cgWinnerPayout (cgTotalPot (cgHash env (H - 1)) (c0 :: c1 :: cs).length
            ((cgEvent.nEntryFee : Int) * COIN))) c, ?_, ?_⟩
        · apply List.mem_flatMap.mpr
          refine ⟨result, hres, ?_⟩
          rw [hqueue]
          exact List.mem_map_of_mem _ hcm
        · rw [cgQueuedEntry_key, hc1])
      (by
        intro q hq hm
        obtain ⟨r, _, hqr⟩ := hQ q hq
        obtain ⟨ev2, d0, d1, ds, e2, hev2, hc2, he2, _, hid2, _, hq2⟩ :=
          cgQueueOf_entry env view H hkeys r q hqr
        have hqk : q.1 = e2.1 := by rw [hq2, cgQueuedEntry_key]
        have hee : e2 = e := entry_eq_of_encoded _ hkeys e2 e he2 hes (by rw [← hqk, hm])
        subst hee
        have hrr : r = result := by
          cases r; cases result
          simp only [CChainGamesResultDB.mk.injEq]
          simp only at hid hid2
          rw [← hid2, hid]
        subst hrr
        rw [hev] at hev2
        cases hev2
        rw [hc] at hc2
        cases hc2
        rw [hq2, hce])
    have hmem := List.mem_map_of_mem
      (finalOf ((env.GetCGLottoEventResults (H - 1)).flatMap (cgQueueOf env view H))) hes
    rw [hfin] at hmem
    have hval : (c.1, ({ e.2 with
          completed := true
          payout :=
            if c.1 = ((c0 :: c1 :: cs).getD
                (cgWinnerNr (cgHash env (H - 1)) (c0 :: c1 :: cs).length) c0).1
            then cgWinnerPayout (cgTotalPot (cgHash env (H - 1)) (c0 :: c1 :: cs).length
              ((cgEvent.nEntryFee : Int) * COIN))
            else e.2.payout } : CChainGamesBetDB)) =
        (e.1, (cgQueuedEntry ((c0 :: c1 :: cs).getD
          (cgWinnerNr (cgHash env (H - 1)) (c0 :: c1 :: cs).length) c0).1
        (cgWinnerPayout (cgTotalPot (cgHash env (H - 1)) (c0 :: c1 :: cs).length
          ((cgEvent.nEntryFee : Int) * COIN))) c).2) := by
      unfold cgQueuedEntry
      by_cases hw : c.1 = ((c0 :: c1 :: cs).getD
          (cgWinnerNr (cgHash env (H - 1)) (c0 :: c1 :: cs).length) c0).1
      · rw [if_pos hw, if_pos hw, hc1, hce]
      · rw [if_neg hw, if_neg hw, hc1, hce]
    rw [hval]
    exact hmem
  · intro hp st
    obtain ⟨dev, omno⟩ := scripts
    simp only [cgResultStep, hev, hc, if_pos hp, hs]
  · intro e hes hno
    rw [hout]
    have hfin := finalOf_unmatched
      ((env.GetCGLottoEventResults (H - 1)).flatMap (cgQueueOf env view H)) e
      (by
        intro q hq hm
        obtain ⟨r, hr, hqr⟩ := hQ q hq
        obtain ⟨ev2, d0, d1, ds, e2, hev2, hc2, he2, _, _, hmem2, hq2⟩ :=
          cgQueueOf_entry env view H hkeys r q hqr
        have hqk : q.1 = e2.1 := by rw [hq2, cgQueuedEntry_key]
        have hee : e2 = e := entry_eq_of_encoded _ hkeys e2 e he2 hes (by rw [← hqk, hm])
        subst hee
        apply hno r hr ev2 hev2
        rw [hc2]
        exact List.mem_map_of_mem (fun c => c.1) hmem2)
    have hmem := List.mem_map_of_mem
      (finalOf ((env.GetCGLottoEventResults (H - 1)).flatMap (cgQueueOf env view H))) hes
    rw [hfin] at hmem
    exact hmem
  · rw [hout, List.map_map]
    apply List.map_congr_left
    intro e _
    exact finalOf_key _ e

/-- C16, witness: the lottery of event 7 with the entries A and B at new height 601 (hash
12345, winner B): B is stored completed with the payout of 16 coins, A is stored completed
with its payout of 0, and the keys of the table are as before. -/
theorem C16_lotto_candidates_stored_witness :
    ((⟨411, ⟨32, 0⟩⟩, { cgBetB with completed := true, payout := 1600000000 }) :
        PeerlessBetKey × CChainGamesBetDB) ∈
      (GetCGLottoBetPayoutsV3 exEnv cgView 601 [] []).1.chainGamesLottoBets ∧
    ((⟨410, ⟨31, 0⟩⟩, { cgBetA with completed := true }) :
        PeerlessBetKey × CChainGamesBetDB) ∈
      (GetCGLottoBetPayoutsV3 exEnv cgView 601 [] []).1.chainGamesLottoBets ∧
    (GetCGLottoBetPayoutsV3 exEnv cgView 601 [] []).1.chainGamesLottoBets.map (fun e => e.1) =
      [⟨410, ⟨31, 0⟩⟩, ⟨411, ⟨32, 0⟩⟩] := by
  have h := C16_lotto_candidates_stored exEnv cgView 601 [] [] ⟨7⟩ cgEvent7
    (⟨410, ⟨31, 0⟩⟩, { cgBetA with completed := true })
    (⟨411, ⟨32, 0⟩⟩, { cgBetB with completed := true }) [] ([1], [2])
    (by decide) (by decide) (by decide) (by decide) (by decide)
  refine ⟨?_, ?_, h.2.2.2.1⟩
  · obtain ⟨e, he, hk, _, hmem⟩ := h.1 (⟨411, ⟨32, 0⟩⟩, { cgBetB with completed := true })
      (by decide)
    have hcases : e = (⟨410, ⟨31, 0⟩⟩, cgBetA) ∨ e = (⟨411, ⟨32, 0⟩⟩, cgBetB) := by
      simpa [cgView] using he
    rcases hcases with he | he
    · subst he
      exact absurd hk (by decide)
    · subst he
      exact hmem
  · obtain ⟨e, he, hk, _, hmem⟩ := h.1 (⟨410, ⟨31, 0⟩⟩, { cgBetA with completed := true })
      (by decide)
    have hcases : e = (⟨410, ⟨31, 0⟩⟩, cgBetA) ∨ e = (⟨411, ⟨32, 0⟩⟩, cgBetB) := by
      simpa [cgView] using he
    rcases hcases with he | he
    · subst he
      exact hmem
    · subst he
      exact absurd hk (by decide)

/-! ## The scan of one result, as a list of handled bets -/

theorem scan_eq (env : Env) (H : Int) (result : CPeerlessResultDB)
    (es : List (PeerlessBetKey × CPeerlessBetDB)) :
    ∀ acc : PLState × List (PeerlessBetKey × CPeerlessBetDB),
      (es.foldl (betStep env H result) acc).1.view = acc.1.view ∧
      (es.foldl (betStep env H result) acc).1.vExpectedPayouts =
        acc.1.vExpectedPayouts ++ (scanHandled env acc.1.view H result es).flatMap (fun h => h.outs) ∧
      (es.foldl (betStep env H result) acc).1.vPayoutsInfo =
        acc.1.vPayoutsInfo ++ (scanHandled env acc.1.view H result es).flatMap (fun h => h.infos) ∧
      (es.foldl (betStep env H result) acc).1.handled =
        acc.1.handled ++ scanHandled env acc.1.view H result es ∧
      (es.foldl (betStep env H result) acc).2 =
        acc.2 ++ (scanHandled env acc.1.view H result es).map (fun h => (h.key, h.bet)) := by
  induction es with
  | nil => intro acc; simp [scanHandled]
  | cons e es ih =>
    intro acc
    rw [List.foldl_cons]
    have hv := betStep_view env H result acc e
    obtain ⟨i1, i2, i3, i4, i5⟩ := ih (betStep env H result acc e)
    rw [hv] at i1 i2 i3 i4 i5
    cases hh : handleBet env acc.1.view H result e.1 e.2 with
    | none =>
      have hb : betStep env H result acc e = acc := by
        unfold betStep
        simp only [hh]
      have hs : scanHandled env acc.1.view H result (e :: es) =
          scanHandled env acc.1.view H result es := by
        unfold scanHandled
        exact List.filterMap_cons_none hh
      rw [hs]
      rw [hb] at i2 i3 i4 i5
      rw [hb]
      exact ⟨scan_view env H result es acc, i2, i3, i4, i5⟩
    | some h =>
      obtain ⟨b1, b2, b3, b4⟩ := betStep_some env H result acc e h hh
      have hs : scanHandled env acc.1.view H result (e :: es) =
          h :: scanHandled env acc.1.view H result es := by
        unfold scanHandled
        exact List.filterMap_cons_some hh
      rw [hs]
      refine ⟨i1, ?_, ?_, ?_, ?_⟩
      · rw [i2, b1, List.flatMap_cons, List.append_assoc]
      · rw [i3, b2, List.flatMap_cons, List.append_assoc]
      · rw [i4, b3, List.append_assoc]; rfl
      · rw [i5, b4, List.map_cons, List.append_assoc]; rfl

/-- The body of the results loop: the handled bets of `scanOf` are logged, their outputs
and records appended, and their records written back; nothing else in the view changes. -/
theorem resultStep_eq (env : Env) (H : Int) (st : PLState) (result : CPeerlessResultDB) :
    (resultStep env H st result).view =
      { st.view with bets := (UpdateAll st.view.bets
          ((scanOf env H st result).map (fun h => (h.key, h.bet)))) } ∧
    (resultStep env H st result).vExpectedPayouts =
      st.vExpectedPayouts ++ (scanOf env H st result).flatMap (fun h => h.outs) ∧
    (resultStep env H st result).vPayoutsInfo =
      st.vPayoutsInfo ++ (scanOf env H st result).flatMap (fun h => h.infos) ∧
    (resultStep env H st result).handled = st.handled ++ scanOf env H st result := by
  unfold resultStep scanOf
  by_cases hc : result.nResultType = env.eventClosed
  · simp only [hc, if_true, UpdateAll, List.map_nil, List.foldl_nil, List.flatMap_nil,
      List.append_nil, and_self, and_true]
  · simp only [hc, if_false]
    obtain ⟨s1, s2, s3, s4, s5⟩ := scan_eq env H result
      (Seek ⟨u32 (GetBetSearchStartHeight env (H - 1)), COutPoint.null⟩ st.view.bets) (st, [])
    simp only [List.nil_append] at s5
    simp only at s1 s2 s3 s4
    rw [s5]
    refine ⟨?_, s2, s3, s4⟩
    simp only [s1]

theorem scanHandled_mem (env : Env) (view : CBettingsView) (H : Int)
    (result : CPeerlessResultDB) (es : List (PeerlessBetKey × CPeerlessBetDB))
    (h : HandledBet) (hh : h ∈ scanHandled env view H result es) :
    ∃ e ∈ es, handleBet env view H result e.1 e.2 = some h := by
  unfold scanHandled at hh
  exact List.mem_filterMap.mp hh

theorem handleBet_key (env : Env) (view : CBettingsView) (H : Int)
    (result : CPeerlessResultDB) (k : PeerlessBetKey) (b : CPeerlessBetDB) (h : HandledBet)
    (hh : handleBet env view H result k b = some h) : h.key = k := by
  obtain ⟨o, fl, hs⟩ := handleBet_settle env view H result k b h hh
  rw [hs, settleBet_key]

theorem scanHandled_keys (env : Env) (view : CBettingsView) (H : Int)
    (result : CPeerlessResultDB) (es : List (PeerlessBetKey × CPeerlessBetDB)) :
    ((scanHandled env view H result es).map (fun h => h.key)).Sublist
      (es.map (fun e => e.1)) := by
  unfold scanHandled
  apply filterMap_keys_sublist
  intro a b hab
  exact handleBet_key env view H result a.1 a.2 b hab

theorem scanOf_keys (env : Env) (H : Int) (st : PLState) (result : CPeerlessResultDB) :
    ((scanOf env H st result).map (fun h => h.key)).Sublist
      (st.view.bets.map (fun e => e.1)) := by
  unfold scanOf
  by_cases hc : result.nResultType = env.eventClosed
  · simp only [hc, if_true, List.map_nil, List.nil_sublist]
  · simp only [hc, if_false]
    exact (scanHandled_keys _ _ _ _ _).trans (Seek_keys_sublist _ _)

theorem scanOf_mem (env : Env) (H : Int) (st : PLState) (result : CPeerlessResultDB)
    (h : HandledBet) (hh : h ∈ scanOf env H st result) :
    result.nResultType ≠ env.eventClosed ∧
    ∃ e ∈ Seek ⟨u32 (GetBetSearchStartHeight env (H - 1)), COutPoint.null⟩ st.view.bets,
      handleBet env st.view H result e.1 e.2 = some h := by
  unfold scanOf at hh
  by_cases hc : result.nResultType = env.eventClosed
  · simp only [hc, if_true, List.not_mem_nil] at hh
  · simp only [hc, if_false] at hh
    exact ⟨hc, scanHandled_mem _ _ _ _ _ _ hh⟩

/-! ## Order of the peerless outputs -/

theorem settleBet_shape (env : Env) (f : Bool) (H : Int) (k : PeerlessBetKey)
    (b : CPeerlessBetDB) (o : Nat × Nat) (fl : LegFlags) :
    ((settleBet env f H k b o fl).outs = [] ∧ (settleBet env f H k b o fl).infos = []) ∨
    ∃ v ty, (settleBet env f H k b o fl).outs = [v] ∧
      (settleBet env f H k b o fl).infos = [⟨k, ty⟩] ∧
      (ty = PayoutType.bettingRefund ∨ ty = PayoutType.bettingPayout) := by
  by_cases hp : effectivePayoutOf env f b.betAmount (clampOdds env f b.betAmount o) > 0
  · right
    unfold settleBet
    simp only [hp, if_true]
    refine ⟨_, _, rfl, rfl, ?_⟩
    split
    · exact Or.inl rfl
    · exact Or.inr rfl
  · left
    unfold settleBet
    simp only [hp, if_false, and_self]

/-- A handled bet has no output and no record, or one output and one record under its key,
of kind refund or payout. -/
theorem handleBet_shape (env : Env) (view : CBettingsView) (H : Int)
    (result : CPeerlessResultDB) (k : PeerlessBetKey) (b : CPeerlessBetDB) (h : HandledBet)
    (hh : handleBet env view H result k b = some h) :
    (h.outs = [] ∧ h.infos = []) ∨
    ∃ v ty, h.outs = [v] ∧ h.infos = [⟨h.key, ty⟩] ∧
      (ty = PayoutType.bettingRefund ∨ ty = PayoutType.bettingPayout) := by
  obtain ⟨o, fl, hs⟩ := handleBet_settle env view H result k b h hh
  rw [hs, settleBet_key]
  exact settleBet_shape env (isV3 env H) H k b o fl

theorem infos_keys_sublist (hs : List HandledBet)
    (hshape : ∀ h ∈ hs, (h.outs = [] ∧ h.infos = []) ∨
      ∃ v ty, h.outs = [v] ∧ h.infos = [⟨h.key, ty⟩] ∧
        (ty = PayoutType.bettingRefund ∨ ty = PayoutType.bettingPayout)) :
    ((hs.flatMap (fun h => h.infos)).map (fun i => i.betKey)).Sublist
        (hs.map (fun h => h.key)) ∧
    (hs.flatMap (fun h => h.outs)).length = (hs.flatMap (fun h => h.infos)).length ∧
    ∀ i ∈ hs.flatMap (fun h => h.infos),
      i.payoutType = PayoutType.bettingRefund ∨ i.payoutType = PayoutType.bettingPayout := by
  induction hs with
  | nil => simp
  | cons h hs ih =>
    obtain ⟨i1, i2, i3⟩ := ih (fun x hx => hshape x (List.mem_cons_of_mem _ hx))
    rcases hshape h (List.mem_cons_self _ _) with ⟨ho, hi⟩ | ⟨v, ty, ho, hi, hty⟩
    · simp only [List.flatMap_cons, ho, hi, List.nil_append, List.map_cons]
      exact ⟨List.Sublist.cons _ i1, i2, i3⟩
    · simp only [List.flatMap_cons, ho, hi, List.singleton_append, List.map_cons,
        List.length_cons]
      refine ⟨List.Sublist.cons₂ _ i1, by rw [i2], ?_⟩
      intro i hmem
      rcases List.mem_cons.mp hmem with hmem | hmem
      · rw [hmem]; exact hty
      · exact i3 i hmem

theorem scanOf_shape (env : Env) (H : Int) (st : PLState) (result : CPeerlessResultDB) :
    ∀ h ∈ scanOf env H st result, (h.outs = [] ∧ h.infos = []) ∨
      ∃ v ty, h.outs = [v] ∧ h.infos = [⟨h.key, ty⟩] ∧
        (ty = PayoutType.bettingRefund ∨ ty = PayoutType.bettingPayout) := by
  intro h hh
  obtain ⟨_, e, _, he⟩ := scanOf_mem env H st result h hh
  exact handleBet_shape env st.view H result e.1 e.2 h he

theorem resultStep_keys (env : Env) (H : Int) (st : PLState) (result : CPeerlessResultDB) :
    (resultStep env H st result).view.bets.map (fun e => e.1) =
      st.view.bets.map (fun e => e.1) := by
  rw [(resultStep_eq env H st result).1]
  exact UpdateAll_keys _ _

/-- The results loop appends one block per result, in result order; the keys of the
records of a block are a sublist of the keys of the store. -/
theorem results_loop_blocks (env : Env) (H : Int) (rs : List CPeerlessResultDB) :
    ∀ st : PLState, ∃ blocks : List (List CBetOut × List CPayoutInfoDB),
      blocks.length = rs.length ∧
      (rs.foldl (resultStep env H) st).vExpectedPayouts =
        st.vExpectedPayouts ++ (blocks.map (fun b => b.1)).flatten ∧
      (rs.foldl (resultStep env H) st).vPayoutsInfo =
        st.vPayoutsInfo ++ (blocks.map (fun b => b.2)).flatten ∧
      ∀ b ∈ blocks,
        (b.2.map (fun i => i.betKey)).Sublist (st.view.bets.map (fun e => e.1)) ∧
        b.1.length = b.2.length ∧
        ∀ i ∈ b.2, i.payoutType = PayoutType.bettingRefund ∨
          i.payoutType = PayoutType.bettingPayout := by
  induction rs with
  | nil => intro st; exact ⟨[], rfl, by simp, by simp, by simp⟩
  | cons r rs ih =>
    intro st
    obtain ⟨blocks, hl, hE, hI, hb⟩ := ih (resultStep env H st r)
    obtain ⟨_, e2, e3, _⟩ := resultStep_eq env H st r
    obtain ⟨k1, k2, k3⟩ := infos_keys_sublist (scanOf env H st r) (scanOf_shape env H st r)
    refine ⟨((scanOf env H st r).flatMap (fun h => h.outs),
        (scanOf env H st r).flatMap (fun h => h.infos)) :: blocks, ?_, ?_, ?_, ?_⟩
    · simp only [List.length_cons, hl]
    · rw [List.foldl_cons, hE, e2, List.map_cons, List.flatten_cons, List.append_assoc]
    · rw [List.foldl_cons, hI, e3, List.map_cons, List.flatten_cons, List.append_assoc]
    · intro b hbm
      rcases List.mem_cons.mp hbm with hbm | hbm
      · rw [hbm]
        exact ⟨k1.trans (scanOf_keys env H st r), k2, k3⟩
      · have := hb b hbm
        rw [resultStep_keys] at this
        exact this

theorem GetPLRewardPayoutsV3_append (env : Env) (n : Nat) (fee : Int)
    (e : List CBetOut) (i : List CPayoutInfoDB) :
    GetPLRewardPayoutsV3 env n fee e i =
      (e ++ (GetPLRewardPayoutsV3 env n fee [] []).1,
       i ++ (GetPLRewardPayoutsV3 env n fee [] []).2) := by
  unfold GetPLRewardPayoutsV3
  cases env.GetFeePayoutScripts n with
  | none => simp
  | some p =>
    obtain ⟨dev, omno⟩ := p
    simp only
    by_cases h1 : Int.tdiv (i64 (fee * 1000)) BET_ODDSDIVISOR > 0 <;>
      by_cases h2 : Int.tdiv (i64 (fee * 4000)) BET_ODDSDIVISOR > 0 <;>
      simp [h1, h2]

/-- C17, counterexample: the store holds, in key order, a bet on event 101 keyed at block
450 and a bet on event 100 keyed at block 500; the results of event 100 and of event 101
are posted, in this order, at height 600. The call for height 601 appends the payout of
the bet keyed at block 500 before the payout of the bet keyed at block 450. -/
theorem C17_counterexample :
    (c17View.bets.map (fun e => e.1)).Pairwise (fun a b => a.lt b = true) ∧
    (GetPLBetPayoutsV3 c17Env c17View 601 [] []).2.2.map (fun i => (i.betKey, i.payoutType)) =
      [(⟨500, ⟨11, 0⟩⟩, PayoutType.bettingPayout), (⟨450, ⟨10, 0⟩⟩, PayoutType.bettingPayout),
       (⟨601, COutPoint.null⟩, PayoutType.bettingReward),
       (⟨601, COutPoint.null⟩, PayoutType.bettingReward)] ∧
    PeerlessBetKey.lt ⟨500, ⟨11, 0⟩⟩ ⟨450, ⟨10, 0⟩⟩ = false := by
  decide

/-- C17, amended: one call of GetPLBetPayoutsV3 appends, after what the vectors held, one
block of bet outputs per result of the previous block, in the order of the results, and
after all blocks the reward outputs. Within each block the outputs (payouts and refunds,
one record each) are in the order in which the bets table lists their bets' keys; across
blocks they need not be. -/
theorem C17_outputs_ordered_per_result (env : Env) (view : CBettingsView) (H : Int)
    (vE : List CBetOut) (vI : List CPayoutInfoDB)
    (R : PeerlessBetKey → PeerlessBetKey → Prop)
    (hsorted : (view.bets.map (fun e => e.1)).Pairwise R) :
    ∃ blocks : List (List CBetOut × List CPayoutInfoDB),
      blocks.length = (env.GetPLResults (H - 1)).length ∧
      (GetPLBetPayoutsV3 env view H vE vI).2.1 =
        vE ++ (blocks.map (fun b => b.1)).flatten ++
          (if H - 1 ≥ env.WagerrProtocolV3StartHeight
           then GetPLRewardPayoutsV3 env (u32OfInt H) (feePool (plLoops env view H vE vI)) [] []
           else env.GetPLRewardPayoutsV2 H).1 ∧
      (GetPLBetPayoutsV3 env view H vE vI).2.2 =
        vI ++ (blocks.map (fun b => b.2)).flatten ++
          (if H - 1 ≥ env.WagerrProtocolV3StartHeight
           then GetPLRewardPayoutsV3 env (u32OfInt H) (feePool (plLoops env view H vE vI)) [] []
           else env.GetPLRewardPayoutsV2 H).2 ∧
      ∀ b ∈ blocks,
        (b.2.map (fun i => i.betKey)).Pairwise R ∧
        b.1.length = b.2.length ∧
        ∀ i ∈ b.2, i.payoutType = PayoutType.bettingRefund ∨
          i.payoutType = PayoutType.bettingPayout := by
  obtain ⟨blocks, hl, hE, hI, hb⟩ := results_loop_blocks env H (env.GetPLResults (H - 1))
    { view := view, vExpectedPayouts := vE, vPayoutsInfo := vI,
      effectivePayoutsSum := 0, grossPayoutsSum := 0, handled := [] }
  have hE2 : (plLoops env view H vE vI).vExpectedPayouts =
      vE ++ (blocks.map (fun b => b.1)).flatten := hE
  have hI2 : (plLoops env view H vE vI).vPayoutsInfo =
      vI ++ (blocks.map (fun b => b.2)).flatten := hI
  refine ⟨blocks, hl, ?_, ?_, ?_⟩
  · unfold GetPLBetPayoutsV3
    by_cases hv : H - 1 ≥ env.WagerrProtocolV3StartHeight
    · simp only [hv, if_true]
      rw [GetPLRewardPayoutsV3_append, hE2]
    · simp only [hv, if_false]
      rw [hE2]
  · unfold GetPLBetPayoutsV3
    by_cases hv : H - 1 ≥ env.WagerrProtocolV3StartHeight
    · simp only [hv, if_true]
      rw [GetPLRewardPayoutsV3_append, hI2]
    · simp only [hv, if_false]
      rw [hI2]
  · intro b hbm
    obtain ⟨h1, h2, h3⟩ := hb b hbm
    exact ⟨List.Pairwise.sublist h1 hsorted, h2, h3⟩

/-- C17, amended, witness: the two results of `c17Env` on the store `c17View`, whose keys
are in ascending (height, outpoint) order, give two blocks. -/
theorem C17_outputs_ordered_per_result_witness :
    ∃ blocks : List (List CBetOut × List CPayoutInfoDB),
      blocks.length = (c17Env.GetPLResults (601 - 1)).length ∧
      (GetPLBetPayoutsV3 c17Env c17View 601 [] []).2.1 =
        [] ++ (blocks.map (fun b => b.1)).flatten ++
          (if (601 : Int) - 1 ≥ c17Env.WagerrProtocolV3StartHeight
           then GetPLRewardPayoutsV3 c17Env (u32OfInt 601)
             (feePool (plLoops c17Env c17View 601 [] [])) [] []
           else c17Env.GetPLRewardPayoutsV2 601).1 ∧
      (GetPLBetPayoutsV3 c17Env c17View 601 [] []).2.2 =
        [] ++ (blocks.map (fun b => b.2)).flatten ++
          (if (601 : Int) - 1 ≥ c17Env.WagerrProtocolV3StartHeight
           then GetPLRewardPayoutsV3 c17Env (u32OfInt 601)
             (feePool (plLoops c17Env c17View 601 [] [])) [] []
           else c17Env.GetPLRewardPayoutsV2 601).2 ∧
      ∀ b ∈ blocks,
        (b.2.map (fun i => i.betKey)).Pairwise (fun a b => a.lt b = true) ∧
        b.1.length = b.2.length ∧
        ∀ i ∈ b.2, i.payoutType = PayoutType.bettingRefund ∨
          i.payoutType = PayoutType.bettingPayout :=
  C17_outputs_ordered_per_result c17Env c17View 601 [] [] (fun a b => a.lt b = true)
    (by decide)

/-! ## The search window -/

theorem DbTypeToBytes_bytes (k : PeerlessBetKey) (hk : k.blockHeight < 4294967296) :
    DbTypeToBytes k = [k.blockHeight / 16777216 % 256, k.blockHeight / 65536 % 256,
      k.blockHeight / 256 % 256, k.blockHeight % 256] := by
  have h1 := htonl_bytes (k.blockHeight % 256) (k.blockHeight / 256 % 256)
    (k.blockHeight / 65536 % 256) (k.blockHeight / 16777216 % 256)
    (Nat.mod_lt _ (by decide)) (Nat.mod_lt _ (by decide)) (Nat.mod_lt _ (by decide))
    (Nat.mod_lt _ (by decide))
  rw [← word_bytes k.blockHeight hk] at h1
  unfold DbTypeToBytes PeerlessBetKey.Serialize ser_writedata32
  rw [h1, List.nil_append]
  have ha : k.blockHeight % 256 < 256 := Nat.mod_lt _ (by decide)
  have hb : k.blockHeight / 256 % 256 < 256 := Nat.mod_lt _ (by decide)
  have hc : k.blockHeight / 65536 % 256 < 256 := Nat.mod_lt _ (by decide)
  have hd : k.blockHeight / 16777216 % 256 < 256 := Nat.mod_lt _ (by decide)
  generalize k.blockHeight % 256 = a at ha ⊢
  generalize k.blockHeight / 256 % 256 = b at hb ⊢
  generalize k.blockHeight / 65536 % 256 = c at hc ⊢
  generalize k.blockHeight / 16777216 % 256 = d at hd ⊢
  have e1 : (d + 256 * c + 65536 * b + 16777216 * a) % 256 = d := by omega
  have e2 : (d + 256 * c + 65536 * b + 16777216 * a) / 256 % 256 = c := by omega
  have e3 : (d + 256 * c + 65536 * b + 16777216 * a) / 65536 % 256 = b := by omega
  have e4 : (d + 256 * c + 65536 * b + 16777216 * a) / 16777216 % 256 = a := by omega
  rw [e1, e2, e3, e4]

/-- The encoding is big-endian: encoded keys compare as their block heights do. -/
theorem bytesLt_height (a b : PeerlessBetKey) (ha : a.blockHeight < 4294967296)
    (hb : b.blockHeight < 4294967296) :
    bytesLt (DbTypeToBytes a) (DbTypeToBytes b) = decide (a.blockHeight < b.blockHeight) := by
  rw [DbTypeToBytes_bytes a ha, DbTypeToBytes_bytes b hb]
  have wa := word_bytes a.blockHeight ha
  have wb := word_bytes b.blockHeight hb
  have a0 : a.blockHeight % 256 < 256 := Nat.mod_lt _ (by decide)
  have a1 : a.blockHeight / 256 % 256 < 256 := Nat.mod_lt _ (by decide)
  have a2 : a.blockHeight / 65536 % 256 < 256 := Nat.mod_lt _ (by decide)
  have a3 : a.blockHeight / 16777216 % 256 < 256 := Nat.mod_lt _ (by decide)
  have b0 : b.blockHeight % 256 < 256 := Nat.mod_lt _ (by decide)
  have b1 : b.blockHeight / 256 % 256 < 256 := Nat.mod_lt _ (by decide)
  have b2 : b.blockHeight / 65536 % 256 < 256 := Nat.mod_lt _ (by decide)
  have b3 : b.blockHeight / 16777216 % 256 < 256 := Nat.mod_lt _ (by decide)
  generalize a.blockHeight % 256 = x0 at wa a0 ⊢
  generalize a.blockHeight / 256 % 256 = x1 at wa a1 ⊢
  generalize a.blockHeight / 65536 % 256 = x2 at wa a2 ⊢
  generalize a.blockHeight / 16777216 % 256 = x3 at wa a3 ⊢
  generalize b.blockHeight % 256 = y0 at wb b0 ⊢
  generalize b.blockHeight / 256 % 256 = y1 at wb b1 ⊢
  generalize b.blockHeight / 65536 % 256 = y2 at wb b2 ⊢
  generalize b.blockHeight / 16777216 % 256 = y3 at wb b3 ⊢
  rw [wa, wb]
  simp only [bytesLt, Bool.and_false, Bool.or_false]
  rw [Bool.eq_iff_iff]
  simp only [Bool.or_eq_true, Bool.and_eq_true, decide_eq_true_eq]
  omega

theorem Seek_ge {α : Type} (start : PeerlessBetKey) (hs : start.blockHeight < 4294967296) :
    ∀ bets : List (PeerlessBetKey × α),
      (∀ k ∈ bets.map (fun e => e.1), k.blockHeight < 4294967296) →
      ((bets.map (fun e => e.1)).map (fun k => k.blockHeight)).Pairwise (fun a b => a ≤ b) →
      ∀ e ∈ Seek start bets, start.blockHeight ≤ e.1.blockHeight := by
  intro bets
  induction bets with
  | nil => intro _ _ e he; simp [Seek] at he
  | cons x xs ih =>
    intro hb hsorted e he
    have hx : x.1.blockHeight < 4294967296 := hb x.1 (by simp)
    have hxs : ∀ k ∈ xs.map (fun e => e.1), k.blockHeight < 4294967296 :=
      fun k hk => hb k (by rw [List.map_cons]; exact List.mem_cons_of_mem _ hk)
    rw [List.map_cons, List.map_cons, List.pairwise_cons] at hsorted
    unfold Seek at he
    rw [List.dropWhile_cons] at he
    rw [bytesLt_height x.1 start hx hs] at he
    by_cases hlt : x.1.blockHeight < start.blockHeight
    · simp only [hlt, decide_True, if_true] at he
      exact ih hxs hsorted.2 e he
    · simp only [hlt, decide_False, Bool.false_eq_true, if_false] at he
      rcases List.mem_cons.mp he with he | he
      · rw [he]; omega
      · have := hsorted.1 e.1.blockHeight
          (List.mem_map_of_mem (fun k => k.blockHeight) (List.mem_map_of_mem (fun e => e.1) he))
        omega

theorem GetBetSearchStartHeight_lt (env : Env) (h : Int) :
    GetBetSearchStartHeight env h < 4294967296 := by
  have hu : ∀ x : Int, u32OfInt x < 4294967296 := by
    intro x
    unfold u32OfInt
    omega
  unfold GetBetSearchStartHeight
  split
  · exact hu _
  · exact hu _

/-- One result in a store listed by ascending block height: every bet it handles is keyed
at or above the search start height, and every entry keyed below it stays as it is. -/
theorem resultStep_window (env : Env) (H : Int) (st : PLState) (result : CPeerlessResultDB)
    (hb : ∀ k ∈ st.view.bets.map (fun e => e.1), k.blockHeight < 4294967296)
    (hsorted : ((st.view.bets.map (fun e => e.1)).map (fun k => k.blockHeight)).Pairwise
      (fun a b => a ≤ b)) :
    (∀ h ∈ scanOf env H st result, GetBetSearchStartHeight env (H - 1) ≤ h.key.blockHeight) ∧
    (∀ e ∈ st.view.bets, e.1.blockHeight < GetBetSearchStartHeight env (H - 1) →
      e ∈ (resultStep env H st result).view.bets) := by
  have hS := GetBetSearchStartHeight_lt env (H - 1)
  have hu : u32 (GetBetSearchStartHeight env (H - 1)) = GetBetSearchStartHeight env (H - 1) := by
    unfold u32
    exact Nat.mod_eq_of_lt hS
  have hscan : ∀ h ∈ scanOf env H st result,
      GetBetSearchStartHeight env (H - 1) ≤ h.key.blockHeight ∧
      h.key ∈ st.view.bets.map (fun e => e.1) := by
    intro h hh
    obtain ⟨_, e, he, hhe⟩ := scanOf_mem env H st result h hh
    have hge := Seek_ge ⟨u32 (GetBetSearchStartHeight env (H - 1)), COutPoint.null⟩
      (by rw [hu]; exact hS) st.view.bets hb hsorted e he
    rw [handleBet_key env st.view H result e.1 e.2 h hhe]
    simp only [hu] at hge
    exact ⟨hge, List.mem_map_of_mem (fun e => e.1) (mem_of_mem_Seek _ _ _ he)⟩
  refine ⟨fun h hh => (hscan h hh).1, ?_⟩
  intro e he hlt
  rw [(resultStep_eq env H st result).1]
  simp only [UpdateAll_eq_map]
  have hfin := finalOf_unmatched ((scanOf env H st result).map (fun h => (h.key, h.bet))) e
    (by
      intro q hq hm
      obtain ⟨h, hh, hqh⟩ := List.mem_map.mp hq
      obtain ⟨hge, hmem⟩ := hscan h hh
      have hq1 : q.1 = h.key := by rw [← hqh]
      rw [hq1] at hm
      have := DbTypeToBytes_height h.key e.1 (hb _ hmem)
        (hb _ (List.mem_map_of_mem (fun e => e.1) he)) hm
      omega)
  have hmem := List.mem_map_of_mem
    (finalOf ((scanOf env H st result).map (fun h => (h.key, h.bet)))) he
  rw [hfin] at hmem
  exact hmem

theorem results_loop_window (env : Env) (H : Int) (keys : List PeerlessBetKey)
    (vI0 : List CPayoutInfoDB)
    (hb : ∀ k ∈ keys, k.blockHeight < 4294967296)
    (hsorted : (keys.map (fun k => k.blockHeight)).Pairwise (fun a b => a ≤ b))
    (rs : List CPeerlessResultDB) :
    ∀ st : PLState, st.view.bets.map (fun e => e.1) = keys →
      (∀ h ∈ st.handled, GetBetSearchStartHeight env (H - 1) ≤ h.key.blockHeight) →
      (∀ i ∈ st.vPayoutsInfo, i ∈ vI0 ∨
        GetBetSearchStartHeight env (H - 1) ≤ i.betKey.blockHeight) →
      (∀ h ∈ (rs.foldl (resultStep env H) st).handled,
        GetBetSearchStartHeight env (H - 1) ≤ h.key.blockHeight) ∧
      (∀ i ∈ (rs.foldl (resultStep env H) st).vPayoutsInfo, i ∈ vI0 ∨
        GetBetSearchStartHeight env (H - 1) ≤ i.betKey.blockHeight) ∧
      (∀ e ∈ st.view.bets, e.1.blockHeight < GetBetSearchStartHeight env (H - 1) →
        e ∈ (rs.foldl (resultStep env H) st).view.bets) := by
  induction rs with
  | nil => intro st _ h1 h2; exact ⟨h1, h2, fun e he _ => he⟩
  | cons r rs ih =>
    intro st hk h1 h2
    obtain ⟨w1, w2⟩ := resultStep_window env H st r (by rw [hk]; exact hb)
      (by rw [hk]; exact hsorted)
    obtain ⟨_, _, e3, e4⟩ := resultStep_eq env H st r
    have hk2 : (resultStep env H st r).view.bets.map (fun e => e.1) = keys := by
      rw [resultStep_keys, hk]
    obtain ⟨i1, i2, i3⟩ := ih (resultStep env H st r) hk2
      (by
        intro h hh
        rw [e4] at hh
        rcases List.mem_append.mp hh with hh | hh
        · exact h1 h hh
        · exact w1 h hh)
      (by
        intro i hi
        rw [e3] at hi
        rcases List.mem_append.mp hi with hi | hi
        · exact h2 i hi
        · right
          obtain ⟨h, hh, hih⟩ := List.mem_flatMap.mp hi
          rcases scanOf_shape env H st r h hh with ⟨_, hn⟩ | ⟨v, ty, _, hinf, _⟩
          · rw [hn] at hih; cases hih
          · rw [hinf] at hih
            rw [List.mem_singleton.mp hih]
            exact w1 h hh)
    rw [List.foldl_cons]
    exact ⟨i1, i2, fun e he hlt => i3 e (w2 e he hlt) hlt⟩

/-- C19, counterexample: at the v3 payout height H = 601 with W = 200, a bet keyed at
height 400 = H - 1 - W, which is below H - W = 401, is handled: it is paid and marked
completed. -/
theorem C19_counterexample :
    isV3 exEnv 601 = true ∧
    exEnv.BetBlocksIndexTimespanV3 = 200 ∧
    (plLoops exEnv c19View 601 [] []).handled.map
        (fun h => (h.key.blockHeight, h.bet.completed, h.outs.map (fun o => o.nValue))) =
      [(400, true, [25000000000])] ∧
    (GetPLBetPayoutsV3 exEnv c19View 601 [] []).1.bets.map
        (fun e => (e.1.blockHeight, e.2.completed)) = [(400, true)] ∧
    ¬ ((601 : Int) - exEnv.BetBlocksIndexTimespanV3 ≤ 400) := by
  decide

/-- C19, amended: in a bets table that lists its entries in ascending order of their
encoded keys (block heights below 2^32), every bet that GetPLBetPayoutsV3 for new height H
handles (pays or marks completed), and every record it appends, has a key height of at
least S = GetBetSearchStartHeight(H - 1), and every entry keyed below S is left as it is.
S is H - 1 - W when H - 1 >= W, with W = BetBlocksIndexTimespanV3 at v3 heights and
BetBlocksIndexTimespanV2 before: the lower end is H - 1 - W, not H - W. -/
theorem C19_search_window (env : Env) (view : CBettingsView) (H : Int)
    (vE : List CBetOut) (vI : List CPayoutInfoDB)
    (hb : ∀ e ∈ view.bets, e.1.blockHeight < 4294967296)
    (hsorted : (view.bets.map (fun e => DbTypeToBytes e.1)).Pairwise
      (fun a b => bytesLt a b = true)) :
    (∀ h ∈ (plLoops env view H vE vI).handled,
      GetBetSearchStartHeight env (H - 1) ≤ h.key.blockHeight) ∧
    (∀ i ∈ (plLoops env view H vE vI).vPayoutsInfo,
      i ∈ vI ∨ GetBetSearchStartHeight env (H - 1) ≤ i.betKey.blockHeight) ∧
    (∀ e ∈ view.bets, e.1.blockHeight < GetBetSearchStartHeight env (H - 1) →
      e ∈ (GetPLBetPayoutsV3 env view H vE vI).1.bets) ∧
    (env.WagerrProtocolV3StartHeight ≤ H - 1 → env.BetBlocksIndexTimespanV3 ≤ H - 1 →
      H - 1 - env.BetBlocksIndexTimespanV3 < 4294967296 →
      (GetBetSearchStartHeight env (H - 1) : Int) = H - 1 - env.BetBlocksIndexTimespanV3) ∧
    (H - 1 < env.WagerrProtocolV3StartHeight → env.BetBlocksIndexTimespanV2 ≤ H - 1 →
      H - 1 - env.BetBlocksIndexTimespanV2 < 4294967296 →
      (GetBetSearchStartHeight env (H - 1) : Int) = H - 1 - env.BetBlocksIndexTimespanV2) := by
  have hb2 : ∀ k ∈ view.bets.map (fun e => e.1), k.blockHeight < 4294967296 := by
    intro k hk
    obtain ⟨e, he, hek⟩ := List.mem_map.mp hk
    rw [← hek]
    exact hb e he
  have hs2 : ((view.bets.map (fun e => e.1)).map (fun k => k.blockHeight)).Pairwise
      (fun a b => a ≤ b) := by
    rw [List.map_map, List.pairwise_map]
    rw [List.pairwise_map] at hsorted
    refine List.Pairwise.imp_of_mem ?_ hsorted
    intro a b ha hb3 hab
    rw [bytesLt_height a.1 b.1 (hb a ha) (hb b hb3)] at hab
    have := of_decide_eq_true hab
    simp only [Function.comp]
    omega
  obtain ⟨w1, w2, w3⟩ := results_loop_window env H (view.bets.map (fun e => e.1)) vI hb2 hs2
    (env.GetPLResults (H - 1))
    { view := view, vExpectedPayouts := vE, vPayoutsInfo := vI,
      effectivePayoutsSum := 0, grossPayoutsSum := 0, handled := [] }
    rfl (by intro h hh; cases hh) (by intro i hi; exact Or.inl hi)
  have hview : (GetPLBetPayoutsV3 env view H vE vI).1 = (plLoops env view H vE vI).view := by
    unfold GetPLBetPayoutsV3
    by_cases hv : H - 1 ≥ env.WagerrProtocolV3StartHeight
    · simp only [hv, if_true]
    · simp only [hv, if_false]
  have hu : ∀ x : Int, 0 ≤ x → x < 4294967296 → ((u32OfInt x : Nat) : Int) = x := by
    intro x h0 h1
    unfold u32OfInt
    rw [Int.emod_eq_of_lt h0 h1, Int.toNat_of_nonneg h0]
  refine ⟨w1, w2, ?_, ?_, ?_⟩
  · intro e he hlt
    rw [hview]
    exact w3 e he hlt
  · intro h1 h2 h3
    unfold GetBetSearchStartHeight
    rw [if_pos h1, if_pos h2]
    exact hu _ (by omega) h3
  · intro h1 h2 h3
    unfold GetBetSearchStartHeight
    rw [if_neg (by omega), if_pos h2]
    exact hu _ (by omega) h3

/-- C19, amended, witness: at H = 601 with W = 200 the search starts at height 400; of
two uncompleted bets on the event of the result, the one keyed at block 399 stays in the
store as it was. -/
theorem C19_search_window_witness :
    GetBetSearchStartHeight exEnv (601 - 1) = 400 ∧
    ((⟨399, ⟨12, 0⟩⟩, exBet) : PeerlessBetKey × CPeerlessBetDB) ∈
      (GetPLBetPayoutsV3 exEnv c19Sorted 601 [] []).1.bets ∧
    ∀ h ∈ (plLoops exEnv c19Sorted 601 [] []).handled,
      GetBetSearchStartHeight exEnv (601 - 1) ≤ h.key.blockHeight :=
  ⟨by decide,
    (C19_search_window exEnv c19Sorted 601 [] [] (by decide) (by decide)).2.2.1
      (⟨399, ⟨12, 0⟩⟩, exBet) (by decide) (by decide),
    (C19_search_window exEnv c19Sorted 601 [] [] (by decide) (by decide)).1⟩

/-! ## One payout per bet -/

theorem parlayLegs_congr (env : Env) (view1 view2 : CBettingsView) (f : Bool)
    (b : CPeerlessBetDB) (hres : view1.results = view2.results) :
    ∀ (legs : List CPeerlessLegDB) (idx : Nat) (st : ParlayState),
      parlayLegs env view1 f b legs idx st = parlayLegs env view2 f b legs idx st := by
  intro legs
  induction legs with
  | nil => intro idx st; rfl
  | cons leg rest ih =>
    intro idx st
    have hr : view1.ReadResult leg.nEventId = view2.ReadResult leg.nEventId := by
      unfold CBettingsView.ReadResult
      rw [hres]
    unfold parlayLegs
    rw [hr]
    cases view2.ReadResult leg.nEventId with
    | none => rfl
    | some res => exact ih _ _

/-- The loop body reads the view through the results table only. -/
theorem handleBet_congr (env : Env) (view1 view2 : CBettingsView) (H : Int)
    (result : CPeerlessResultDB) (k : PeerlessBetKey) (b : CPeerlessBetDB)
    (hres : view1.results = view2.results) :
    handleBet env view1 H result k b = handleBet env view2 H result k b := by
  unfold handleBet
  simp only [parlayLegs_congr env view1 view2 _ b hres]

theorem handleBet_completed (env : Env) (view : CBettingsView) (H : Int)
    (result : CPeerlessResultDB) (k : PeerlessBetKey) (b : CPeerlessBetDB)
    (hv3 : isV3 env H = true) (hc : b.completed = true) :
    handleBet env view H result k b = none := by
  cases hh : handleBet env view H result k b with
  | none => rfl
  | some h =>
    have := (handleBet_some env view H result k b h hh).1
    rw [hv3, hc] at this
    cases this

/-- At a v3 height a handled bet comes from an entry of the scanned range that was not
completed, keeps its key, and is written back completed. -/
theorem scanOf_entry (env : Env) (H : Int) (st : PLState) (result : CPeerlessResultDB)
    (hv3 : isV3 env H = true) (h : HandledBet) (hh : h ∈ scanOf env H st result) :
    h.bet.completed = true ∧
    ∃ e ∈ st.view.bets, e.1 = h.key ∧ e.2.completed = false := by
  obtain ⟨_, e, he, hhe⟩ := scanOf_mem env H st result h hh
  obtain ⟨o, fl, hs⟩ := handleBet_settle env st.view H result e.1 e.2 h hhe
  have hcomp := (handleBet_some env st.view H result e.1 e.2 h hhe).1
  rw [hv3, Bool.true_and] at hcomp
  refine ⟨?_, e, mem_of_mem_Seek _ _ _ he, ?_, hcomp⟩
  · rw [hs]; exact (settleBet_static env (isV3 env H) H e.1 e.2 o fl).2.2.2.2.2
  · rw [hs, settleBet_key]

/-- The write-back of one result, entry by entry: an entry stays as it is and no handled
bet has its key, or it is stored completed and a handled bet has its key. -/
theorem resultStep_entry (env : Env) (H : Int) (st : PLState) (result : CPeerlessResultDB)
    (hv3 : isV3 env H = true)
    (hkeys : (st.view.bets.map (fun e => DbTypeToBytes e.1)).Nodup)
    (e : PeerlessBetKey × CPeerlessBetDB) (he : e ∈ st.view.bets) :
    (finalOf ((scanOf env H st result).map (fun h => (h.key, h.bet))) e = e ∧
      ∀ h ∈ scanOf env H st result, h.key ≠ e.1) ∨
    ((finalOf ((scanOf env H st result).map (fun h => (h.key, h.bet))) e).2.completed = true ∧
      ∃ h ∈ scanOf env H st result, h.key = e.1) := by
  rcases finalOf_cases ((scanOf env H st result).map (fun h => (h.key, h.bet))) e with
    ⟨hno, hk⟩ | ⟨q, hq, hm, hk⟩
  · left
    refine ⟨hk, ?_⟩
    intro h hh hke
    exact hno (h.key, h.bet) (List.mem_map_of_mem (fun h => (h.key, h.bet)) hh) (by rw [hke])
  · right
    obtain ⟨h, hh, hqh⟩ := List.mem_map.mp hq
    obtain ⟨hc, e2, he2, hk2, _⟩ := scanOf_entry env H st result hv3 h hh
    have hq1 : q.1 = h.key := by rw [← hqh]
    have hq2 : q.2 = h.bet := by rw [← hqh]
    refine ⟨by rw [hk, hq2]; exact hc, h, hh, ?_⟩
    have hee : e2 = e := entry_eq_of_encoded _ hkeys e2 e he2 he (by rw [hk2, ← hq1, hm])
    rw [← hk2, hee]

theorem encoded_keys_congr {α : Type} (bets1 bets2 : List (PeerlessBetKey × α))
    (h : bets1.map (fun e => e.1) = bets2.map (fun e => e.1)) :
    bets1.map (fun e => DbTypeToBytes e.1) = bets2.map (fun e => DbTypeToBytes e.1) := by
  have h1 : ∀ l : List (PeerlessBetKey × α),
      l.map (fun e => DbTypeToBytes e.1) = (l.map (fun e => e.1)).map DbTypeToBytes := by
    intro l
    rw [List.map_map]
    rfl
  rw [h1, h1, h]

/-- The body of the results loop keeps the invariant of the call. -/
theorem CallInv_step (env : Env) (view0 : CBettingsView) (H : Int)
    (hv3 : isV3 env H = true)
    (hkeys0 : (view0.bets.map (fun e => DbTypeToBytes e.1)).Nodup)
    (done : List CPeerlessResultDB) (st : PLState) (r : CPeerlessResultDB)
    (hinv : CallInv env view0 H done st) :
    CallInv env view0 H (done ++ [r]) (resultStep env H st r) := by
  obtain ⟨i1, i2, i3, i4, i5, i6, i7, i8⟩ := hinv
  have hkeys : (st.view.bets.map (fun e => DbTypeToBytes e.1)).Nodup := by
    rw [encoded_keys_congr _ _ i2]; exact hkeys0
  have hnd : (st.view.bets.map (fun e => e.1)).Nodup := nodup_keys_of_encoded _ hkeys
  obtain ⟨e1, _, _, e4⟩ := resultStep_eq env H st r
  have hbets : (resultStep env H st r).view.bets =
      st.view.bets.map (finalOf ((scanOf env H st r).map (fun h => (h.key, h.bet)))) := by
    rw [e1]
    simp only [UpdateAll_eq_map]
  have hent := resultStep_entry env H st r hv3 hkeys
  have hsc := scanOf_entry env H st r hv3
  refine ⟨?_, ?_, ?_, ?_, ?_, ?_, ?_, ?_⟩
  · rw [resultStep_results]; exact i1
  · rw [resultStep_keys]; exact i2
  · intro h hh e' he' hk
    rw [hbets] at he'
    obtain ⟨e, he, hfe⟩ := List.mem_map.mp he'
    have hk1 : e.1 = h.key := by rw [← hk, ← hfe, finalOf_key]
    rcases hent e he with ⟨hsame, hno⟩ | ⟨hcomp, _⟩
    · rw [e4] at hh
      rcases List.mem_append.mp hh with hh | hh
      · rw [← hfe, hsame]
        exact i3 h hh e he hk1
      · exact absurd hk1.symm (hno h hh)
    · rw [← hfe]; exact hcomp
  · rw [e4, List.map_append, List.nodup_append]
    refine ⟨i4, (scanOf_keys env H st r).nodup hnd, ?_⟩
    intro k hk1 hk2
    obtain ⟨h, hh, hhk⟩ := List.mem_map.mp hk1
    obtain ⟨h2, hh2, hhk2⟩ := List.mem_map.mp hk2
    obtain ⟨_, e, he, hek, hec⟩ := hsc h2 hh2
    have := i3 h hh e he (by rw [hek, hhk2, hhk])
    rw [hec] at this
    cases this
  · intro h hh
    rw [e4] at hh
    rcases List.mem_append.mp hh with hh | hh
    · exact i5 h hh
    · obtain ⟨_, e, he, hek, hec⟩ := hsc h hh
      exact ⟨e, i7 e he hec, hek, hec⟩
  · intro e he0 hec
    obtain ⟨he, hno⟩ := i6 e he0 hec
    rcases hent e he with ⟨hsame, hno2⟩ | ⟨_, h, hh, hhk⟩
    · refine ⟨?_, ?_⟩
      · rw [hbets]
        have := List.mem_map_of_mem
          (finalOf ((scanOf env H st r).map (fun h => (h.key, h.bet)))) he
        rw [hsame] at this
        exact this
      · intro h hh
        rw [e4] at hh
        rcases List.mem_append.mp hh with hh | hh
        · exact hno h hh
        · exact hno2 h hh
    · obtain ⟨_, e2, he2, hek2, hec2⟩ := hsc h hh
      have hee : e2 = e := List.inj_on_of_nodup_map hnd he2 he (by rw [hek2, hhk])
      rw [hee, hec] at hec2
      cases hec2
  · intro e' he' hec'
    rw [hbets] at he'
    obtain ⟨e, he, hfe⟩ := List.mem_map.mp he'
    rcases hent e he with ⟨hsame, _⟩ | ⟨hcomp, _⟩
    · rw [← hfe, hsame]
      rw [← hfe, hsame] at hec'
      exact i7 e he hec'
    · rw [← hfe, hcomp] at hec'
      cases hec'
  · intro r' hr' hnc e' he' hec'
    rw [hbets, Seek_map _ _ _ (finalOf_key _)] at he'
    obtain ⟨e, he, hfe⟩ := List.mem_map.mp he'
    have hes : e ∈ st.view.bets := mem_of_mem_Seek _ _ _ he
    rw [handleBet_congr env (resultStep env H st r).view st.view H r' e'.1 e'.2
      (resultStep_results env H st r)]
    rcases hent e hes with ⟨hsame, hno⟩ | ⟨hcomp, _⟩
    · rw [← hfe, hsame]
      rw [← hfe, hsame] at hec'
      rcases List.mem_append.mp hr' with hr' | hr'
      · exact i8 r' hr' hnc e he hec'
      · rw [List.mem_singleton.mp hr'] at hnc ⊢
        cases hh : handleBet env st.view H r e.1 e.2 with
        | none => rfl
        | some h =>
          have hmem : h ∈ scanOf env H st r := by
            unfold scanOf
            rw [if_neg hnc]
            unfold scanHandled
            exact List.mem_filterMap.mpr ⟨e, he, hh⟩
          exact absurd (handleBet_key env st.view H r e.1 e.2 h hh) (hno h hmem)
    · rw [← hfe, hcomp] at hec'
      cases hec'

theorem CallInv_fold (env : Env) (view0 : CBettingsView) (H : Int)
    (hv3 : isV3 env H = true)
    (hkeys0 : (view0.bets.map (fun e => DbTypeToBytes e.1)).Nodup)
    (rs : List CPeerlessResultDB) :
    ∀ (done : List CPeerlessResultDB) (st : PLState), CallInv env view0 H done st →
      CallInv env view0 H (done ++ rs) (rs.foldl (resultStep env H) st) := by
  induction rs with
  | nil => intro done st h; rw [List.append_nil]; exact h
  | cons r rs ih =>
    intro done st h
    have := ih (done ++ [r]) (resultStep env H st r)
      (CallInv_step env view0 H hv3 hkeys0 done st r h)
    rw [List.append_assoc, List.singleton_append] at this
    exact this

/-- The invariant holds when the loops of a call on `view0` are left. -/
theorem plLoops_inv (env : Env) (view0 : CBettingsView) (H : Int)
    (vE : List CBetOut) (vI : List CPayoutInfoDB)
    (hv3 : isV3 env H = true)
    (hkeys0 : (view0.bets.map (fun e => DbTypeToBytes e.1)).Nodup) :
    CallInv env view0 H (env.GetPLResults (H - 1)) (plLoops env view0 H vE vI) := by
  have h := CallInv_fold env view0 H hv3 hkeys0 (env.GetPLResults (H - 1)) []
    { view := view0, vExpectedPayouts := vE, vPayoutsInfo := vI,
      effectivePayoutsSum := 0, grossPayoutsSum := 0, handled := [] }
    (by
      refine ⟨rfl, rfl, ?_, ?_, ?_, ?_, ?_, ?_⟩
      · intro h hh; cases hh
      · exact List.nodup_nil
      · intro h hh; cases hh
      · intro e he _; exact ⟨he, fun h hh => by cases hh⟩
      · intro e he _; exact he
      · intro r hr; cases hr)
  rw [List.nil_append] at h
  exact h

theorem scan_none (env : Env) (H : Int) (result : CPeerlessResultDB)
    (es : List (PeerlessBetKey × CPeerlessBetDB)) :
    ∀ acc : PLState × List (PeerlessBetKey × CPeerlessBetDB),
      (∀ e ∈ es, handleBet env acc.1.view H result e.1 e.2 = none) →
      es.foldl (betStep env H result) acc = acc := by
  induction es with
  | nil => intro acc _; rfl
  | cons e es ih =>
    intro acc hnone
    have hb : betStep env H result acc e = acc := by
      unfold betStep
      simp only [hnone e (List.mem_cons_self _ _)]
    rw [List.foldl_cons, hb]
    exact ih acc (fun x hx => hnone x (List.mem_cons_of_mem _ hx))

/-- A result that handles no entry leaves the state of the loop as it is. -/
theorem resultStep_noop (env : Env) (H : Int) (st : PLState) (result : CPeerlessResultDB)
    (hnone : result.nResultType ≠ env.eventClosed →
      ∀ e ∈ Seek ⟨u32 (GetBetSearchStartHeight env (H - 1)), COutPoint.null⟩ st.view.bets,
        handleBet env st.view H result e.1 e.2 = none) :
    resultStep env H st result = st := by
  unfold resultStep
  by_cases hc : result.nResultType = env.eventClosed
  · rw [if_pos hc]
  · rw [if_neg hc]
    simp only
    rw [scan_none env H result _ (st, []) (hnone hc)]
    simp only [UpdateAll, List.foldl_nil]

theorem GetPLRewardPayoutsV3_zero (env : Env) (n : Nat) (e : List CBetOut)
    (i : List CPayoutInfoDB) : GetPLRewardPayoutsV3 env n 0 e i = (e, i) := by
  unfold GetPLRewardPayoutsV3
  cases env.GetFeePayoutScripts n with
  | none => rfl
  | some p =>
    obtain ⟨dev, omno⟩ := p
    have h1 : ¬ (Int.tdiv (i64 (0 * 1000)) BET_ODDSDIVISOR > 0) := by decide
    have h2 : ¬ (Int.tdiv (i64 (0 * 4000)) BET_ODDSDIVISOR > 0) := by decide
    simp only [h1, h2, if_false]

/-- The outputs and records appended by the results loop are those of the bets it logs as
handled, in the same order. -/
theorem results_loop_outputs (env : Env) (H : Int) (rs : List CPeerlessResultDB) :
    ∀ st : PLState, ∃ new : List HandledBet,
      (rs.foldl (resultStep env H) st).handled = st.handled ++ new ∧
      (rs.foldl (resultStep env H) st).vExpectedPayouts =
        st.vExpectedPayouts ++ new.flatMap (fun h => h.outs) ∧
      (rs.foldl (resultStep env H) st).vPayoutsInfo =
        st.vPayoutsInfo ++ new.flatMap (fun h => h.infos) ∧
      ∀ h ∈ new, (h.outs = [] ∧ h.infos = []) ∨
        ∃ v ty, h.outs = [v] ∧ h.infos = [⟨h.key, ty⟩] ∧
          (ty = PayoutType.bettingRefund ∨ ty = PayoutType.bettingPayout) := by
  induction rs with
  | nil => intro st; exact ⟨[], by simp, by simp, by simp, by simp⟩
  | cons r rs ih =>
    intro st
    obtain ⟨new, n1, n2, n3, n4⟩ := ih (resultStep env H st r)
    obtain ⟨_, e2, e3, e4⟩ := resultStep_eq env H st r
    refine ⟨scanOf env H st r ++ new, ?_, ?_, ?_, ?_⟩
    · rw [List.foldl_cons, n1, e4, List.append_assoc]
    · rw [List.foldl_cons, n2, e2, List.flatMap_append, List.append_assoc]
    · rw [List.foldl_cons, n3, e3, List.flatMap_append, List.append_assoc]
    · intro h hh
      rcases List.mem_append.mp hh with hh | hh
      · exact scanOf_shape env H st r h hh
      · exact n4 h hh

theorem results_loop_noop (env : Env) (H : Int) (st : PLState)
    (rs : List CPeerlessResultDB) (h : ∀ r ∈ rs, resultStep env H st r = st) :
    rs.foldl (resultStep env H) st = st := by
  induction rs with
  | nil => rfl
  | cons r rs ih =>
    rw [List.foldl_cons, h r (List.mem_cons_self _ _)]
    exact ih (fun x hx => h x (List.mem_cons_of_mem _ hx))

/-- C20: for every store whose entries have distinct encoded keys and every v3 payout
height, one call of GetPLBetPayoutsV3 handles no key twice, whatever results were posted
in the previous block; every handled bet is an entry of the store that was not completed
and gets no output or one output with one record under its key; the appended bet outputs
are exactly those of the handled bets, followed by the rewards. An entry that is already
completed is not handled and stays in the store as it is. A second call on the resulting
store appends nothing and leaves the store as it is. -/
theorem C20_one_payout_per_bet (env : Env) (view : CBettingsView) (H : Int)
    (vE : List CBetOut) (vI : List CPayoutInfoDB)
    (hv3 : env.WagerrProtocolV3StartHeight ≤ H - 1)
    (hkeys : (view.bets.map (fun e => DbTypeToBytes e.1)).Nodup) :
    ((plLoops env view H vE vI).handled.map (fun h => h.key)).Nodup ∧
    (∀ h ∈ (plLoops env view H vE vI).handled,
      (∃ e ∈ view.bets, e.1 = h.key ∧ e.2.completed = false) ∧
      ((h.outs = [] ∧ h.infos = []) ∨
        ∃ v ty, h.outs = [v] ∧ h.infos = [⟨h.key, ty⟩] ∧
          (ty = PayoutType.bettingRefund ∨ ty = PayoutType.bettingPayout))) ∧
    (GetPLBetPayoutsV3 env view H vE vI).2.1 =
      vE ++ (plLoops env view H vE vI).handled.flatMap (fun h => h.outs) ++
        (GetPLRewardPayoutsV3 env (u32OfInt H) (feePool (plLoops env view H vE vI)) [] []).1 ∧
    (GetPLBetPayoutsV3 env view H vE vI).2.2 =
      vI ++ (plLoops env view H vE vI).handled.flatMap (fun h => h.infos) ++
        (GetPLRewardPayoutsV3 env (u32OfInt H) (feePool (plLoops env view H vE vI)) [] []).2 ∧
    (∀ e ∈ view.bets, e.2.completed = true →
      e ∈ (GetPLBetPayoutsV3 env view H vE vI).1.bets ∧
      ∀ h ∈ (plLoops env view H vE vI).handled, h.key ≠ e.1) ∧
    (∀ (vE2 : List CBetOut) (vI2 : List CPayoutInfoDB),
      GetPLBetPayoutsV3 env (GetPLBetPayoutsV3 env view H vE vI).1 H vE2 vI2 =
        ((GetPLBetPayoutsV3 env view H vE vI).1, vE2, vI2)) := by
  have hv : isV3 env H = true := by
    unfold isV3
    exact decide_eq_true hv3
  have hge : H - 1 ≥ env.WagerrProtocolV3StartHeight := hv3
  obtain ⟨i1, i2, i3, i4, i5, i6, i7, i8⟩ := plLoops_inv env view H vE vI hv hkeys
  obtain ⟨new, n1, n2, n3, n4⟩ := results_loop_outputs env H (env.GetPLResults (H - 1))
    { view := view, vExpectedPayouts := vE, vPayoutsInfo := vI,
      effectivePayoutsSum := 0, grossPayoutsSum := 0, handled := [] }
  have m1 : (plLoops env view H vE vI).handled = new := by
    have : (plLoops env view H vE vI).handled = [] ++ new := n1
    rw [this, List.nil_append]
  have m2 : (plLoops env view H vE vI).vExpectedPayouts =
      vE ++ new.flatMap (fun h => h.outs) := n2
  have m3 : (plLoops env view H vE vI).vPayoutsInfo =
      vI ++ new.flatMap (fun h => h.infos) := n3
  have hview : (GetPLBetPayoutsV3 env view H vE vI).1 = (plLoops env view H vE vI).view := by
    unfold GetPLBetPayoutsV3
    simp only [hge, if_true]
  refine ⟨i4, ?_, ?_, ?_, ?_, ?_⟩
  · intro h hh
    refine ⟨i5 h hh, ?_⟩
    rw [m1] at hh
    exact n4 h hh
  · unfold GetPLBetPayoutsV3
    simp only [hge, if_true]
    rw [GetPLRewardPayoutsV3_append, m2, m1]
  · unfold GetPLBetPayoutsV3
    simp only [hge, if_true]
    rw [GetPLRewardPayoutsV3_append, m3, m1]
  · intro e he hc
    rw [hview]
    exact i6 e he hc
  · intro vE2 vI2
    rw [hview]
    have hloop : plLoops env (plLoops env view H vE vI).view H vE2 vI2 =
        { view := (plLoops env view H vE vI).view, vExpectedPayouts := vE2,
          vPayoutsInfo := vI2, effectivePayoutsSum := 0, grossPayoutsSum := 0,
          handled := [] } := by
      unfold plLoops
      apply results_loop_noop
      intro r hr
      apply resultStep_noop
      intro hnc e he
      cases hcomp : e.2.completed with
      | true => exact handleBet_completed env _ H r e.1 e.2 hv hcomp
      | false => exact i8 r hr hnc e he hcomp
    unfold GetPLBetPayoutsV3
    simp only [hge, if_true]
    rw [hloop]
    have hfee : feePool
        { view := (plLoops env view H vE vI).view, vExpectedPayouts := vE2,
          vPayoutsInfo := vI2, effectivePayoutsSum := 0, grossPayoutsSum := 0,
          handled := [] } = 0 := by
      have hz : i64 (0 - 0) = 0 := by decide
      unfold feePool
      exact hz
    rw [hfee, GetPLRewardPayoutsV3_zero]

/-- C20, witness: the results of the three legs of one parlay are posted in the same
block; the parlay is handled once, with one output, and a second call on the resulting
store appends nothing. -/
theorem C20_one_payout_per_bet_witness :
    (c20Env.GetPLResults (601 - 1)).length = 3 ∧
    (plLoops c20Env c12View 601 [] []).handled.map (fun h => (h.key, h.outs.length)) =
      [(exKey, 1)] ∧
    ((plLoops c20Env c12View 601 [] []).handled.map (fun h => h.key)).Nodup ∧
    GetPLBetPayoutsV3 c20Env (GetPLBetPayoutsV3 c20Env c12View 601 [] []).1 601 [] [] =
      ((GetPLBetPayoutsV3 c20Env c12View 601 [] []).1, [], []) :=
  ⟨by decide, by decide,
    (C20_one_payout_per_bet c20Env c12View 601 [] [] (by decide) (by decide)).1,
    (C20_one_payout_per_bet c20Env c12View 601 [] [] (by decide) (by decide)).2.2.2.2.2 [] []⟩

/-! ## The protocol generation of a payout -/

theorem settleBet_strip (env : Env) (f : Bool) (H1 H2 : Int) (k1 k2 : PeerlessBetKey)
    (b : CPeerlessBetDB) (o : Nat × Nat) (fl : LegFlags) :
    stripHeightAndKey (settleBet env f H1 k1 b o fl) =
      stripHeightAndKey (settleBet env f H2 k2 b o fl) := by
  by_cases hp : effectivePayoutOf env f b.betAmount (clampOdds env f b.betAmount o) > 0
  · rw [settleBet_pos env f H1 k1 b o fl hp, settleBet_pos env f H2 k2 b o fl hp]
    rfl
  · rw [settleBet_nonpos env f H1 k1 b o fl hp, settleBet_nonpos env f H2 k2 b o fl hp]
    rfl

theorem singleOdds_v3 (env : Env) (n1 n2 : Int) (t : Int) (leg : CPeerlessLegDB)
    (ev : CPeerlessBaseEventDB) (r : CPeerlessResultDB) :
    singleOdds env true n1 t leg ev r = singleOdds env true n2 t leg ev r := by
  unfold singleOdds
  simp only [Bool.not_true, Bool.false_and, Bool.false_eq_true, if_false]

/-- The loop body at two heights and under two keys: when the protocol flag is the same
and the single-bet odds agree, the handled bets agree up to the payout height and the
key. -/
theorem handleBet_strip (env : Env) (view : CBettingsView) (H1 H2 : Int)
    (result : CPeerlessResultDB) (k1 k2 : PeerlessBetKey) (b : CPeerlessBetDB)
    (hf : isV3 env H1 = isV3 env H2)
    (hso : ∀ leg ev, singleOdds env (isV3 env H2) (H1 - 1) b.betTime leg ev result =
      singleOdds env (isV3 env H2) (H2 - 1) b.betTime leg ev result) :
    (handleBet env view H1 result k1 b).map stripHeightAndKey =
      (handleBet env view H2 result k2 b).map stripHeightAndKey := by
  unfold handleBet
  simp only [show decide (H1 - 1 ≥ env.WagerrProtocolV3StartHeight) = isV3 env H1 from rfl,
    show decide (H2 - 1 ≥ env.WagerrProtocolV3StartHeight) = isV3 env H2 from rfl, hf]
  by_cases hc : (isV3 env H2 && b.completed) = true
  · simp only [hc, if_true, Option.map_none']
  · have hc2 : (isV3 env H2 && b.completed) = false := by simpa using hc
    simp only [hc2, Bool.false_eq_true, if_false]
    cases b.legs with
    | nil => rfl
    | cons l0 rest =>
      cases rest with
      | nil =>
        simp only
        by_cases he : l0.nEventId = result.nEventId
        · simp only [he, if_true, Option.map_some', hso]
          rw [settleBet_strip env _ H1 H2 k1 k2]
        · simp only [he, if_false, Option.map_none']
      | cons l1 more =>
        simp only
        by_cases ha : (l0 :: l1 :: more).any (fun leg => leg.nEventId == result.nEventId) = true
        · simp only [ha, if_true]
          by_cases hcb : (parlayLegs env view (isV3 env H2) b (l0 :: l1 :: more) 0
              parlayStart).completedBet = true
          · simp only [hcb, if_true, Option.map_some']
            rw [settleBet_strip env _ H1 H2 k1 k2]
          · simp only [hcb, Bool.false_eq_true, if_false, Option.map_none']
        · simp only [ha, Bool.false_eq_true, if_false, Option.map_none']

/-- C21, counterexample: with the v3 activation at height 550, the bet keyed at block 500
on an event created at height 450 (stake 1 coin, below the payout range) is handled under
the pre-v3 rules when paid at H = 541 (odds (0, 0), no payout, stored as lose) and under
the v3 rules when paid at H = 601 (odds (10000, 10000), the stake paid back, stored as
refund); and the same bet, once completed, is handled again at H = 541 and skipped at
H = 601. -/
theorem C21_counterexample :
    exKey.blockHeight < c21Env.WagerrProtocolV3StartHeight ∧
    exEvent.nEventCreationHeight < c21Env.WagerrProtocolV3StartHeight ∧
    (handleBet c21Env exView 541 exResult exKey smallBet).map
        (fun h => (h.finalOdds, h.effectivePayout, h.bet.resultType, h.outs.length)) =
      some ((0, 0), 0, BetResultType.betResultLose, 0) ∧
    (handleBet c21Env exView 601 exResult exKey smallBet).map
        (fun h => (h.finalOdds, h.effectivePayout, h.bet.resultType, h.outs.length)) =
      some ((10000, 10000), 100000000, BetResultType.betResultRefund, 1) ∧
    (handleBet c21Env exView 541 exResult exKey { smallBet with completed := true }).isSome =
      true ∧
    handleBet c21Env exView 601 exResult exKey { smallBet with completed := true } = none := by
  decide

/-- C21, amended: whether the loop body of GetPLBetPayoutsV3 applies the pre-v3 or the v3
rules is decided by the height being paid out (v3 when H - 1 is at or above the
activation height), not by the height at which the bet was created. The same bet with the
same results is treated alike at any two payout heights that are both v3 heights, and
under any two keys at one payout height: the handled bets agree on everything but the
recorded payout height and the key. A stake outside the payout range gets the odds
(10000, 10000) at a v3 payout height and (0, 0) before, and a completed bet is skipped at
a v3 payout height. -/
theorem C21_generation_by_payout_height (env : Env) (view : CBettingsView) (H1 H2 : Int)
    (result : CPeerlessResultDB) (k1 k2 : PeerlessBetKey) (b : CPeerlessBetDB)
    (hv1 : env.WagerrProtocolV3StartHeight ≤ H1 - 1)
    (hv2 : env.WagerrProtocolV3StartHeight ≤ H2 - 1) :
    (handleBet env view H1 result k1 b).map stripHeightAndKey =
      (handleBet env view H2 result k2 b).map stripHeightAndKey ∧
    (∀ H : Int, (handleBet env view H result k1 b).map stripHeightAndKey =
      (handleBet env view H result k2 b).map stripHeightAndKey) ∧
    (∀ (H : Int) (h : HandledBet), handleBet env view H result k1 b = some h →
      (b.betAmount < env.MinBetPayoutRange * COIN ∨
        b.betAmount > env.MaxBetPayoutRange * COIN) →
      h.finalOdds =
        if env.WagerrProtocolV3StartHeight ≤ H - 1 then (10000, 10000) else (0, 0)) ∧
    (b.completed = true → handleBet env view H1 result k1 b = none) := by
  have h1 : isV3 env H1 = true := by unfold isV3; exact decide_eq_true hv1
  have h2 : isV3 env H2 = true := by unfold isV3; exact decide_eq_true hv2
  refine ⟨?_, ?_, ?_, ?_⟩
  · apply handleBet_strip env view H1 H2 result k1 k2 b (by rw [h1, h2])
    intro leg ev
    rw [h2]
    exact singleOdds_v3 env _ _ _ leg ev result
  · intro H
    exact handleBet_strip env view H H result k1 k2 b rfl (fun _ _ => rfl)
  · intro H h hh hout
    obtain ⟨o, fl, hs⟩ := handleBet_settle env view H result k1 b h hh
    rw [hs, settleBet_finalOdds]
    unfold clampOdds
    rw [if_pos hout]
    unfold isV3
    by_cases hv : env.WagerrProtocolV3StartHeight ≤ H - 1
    · rw [if_pos hv, decide_eq_true hv]
      rfl
    · rw [if_neg hv, decide_eq_false hv]
      rfl
  · intro hc
    exact handleBet_completed env view H1 result k1 b h1 hc

/-- C21, amended, witness: with the activation at height 550, the bet of 1 coin keyed at
block 500 is handled alike at the payout heights 601 and 700, and gets the refund odds
(10000, 10000) at 601. -/
theorem C21_generation_by_payout_height_witness :
    (handleBet c21Env exView 601 exResult exKey smallBet).map stripHeightAndKey =
      (handleBet c21Env exView 700 exResult exKey smallBet).map stripHeightAndKey ∧
    (handleBet c21Env exView 601 exResult exKey smallBet).map (fun h => h.finalOdds) =
      some (10000, 10000) :=
  ⟨(C21_generation_by_payout_height c21Env exView 601 700 exResult exKey exKey smallBet
      (by decide) (by decide)).1,
    by decide⟩

/-! ## The leg codec -/

/-- C23, the code at the failing input and in general: the encoding of a leg is the one
byte of its outcome, and decoding it into any leg object returns that object's event id
with the decoded outcome; the leg (event 100, outcome 1) decoded into a leg object with
event id 0 comes back as (event 0, outcome 1). -/
theorem C23_leg_decode_drops_event_id :
    (∀ leg target : CPeerlessLegDB,
      CPeerlessLegDB.Serialize [] leg = [leg.nOutcome % 256] ∧
      CPeerlessLegDB.Unserialize (CPeerlessLegDB.Serialize [] leg) target =
        some (⟨target.nEventId, leg.nOutcome % 256⟩, [])) ∧
    CPeerlessLegDB.Unserialize (CPeerlessLegDB.Serialize [] ⟨100, 1⟩) ⟨0, 0⟩ =
      some (⟨0, 1⟩, []) ∧
    CPeerlessLegDB.Serialize [] ⟨100, 1⟩ = CPeerlessLegDB.Serialize [] ⟨101, 1⟩ := by
  refine ⟨?_, by decide, by decide⟩
  intro leg target
  unfold CPeerlessLegDB.Serialize CPeerlessLegDB.Unserialize ser_writedata8
  simp only [List.nil_append, ser_readdata8, Nat.mod_mod, and_self]

/-! ## Key encodings of `EventKey` and `MappingKey` -/

theorem write_htonl (s : List Nat) (x : Nat) (hx : x < 4294967296) :
    ser_writedata32 s (htonl x) = s ++ bigEndian32 x := by
  have h1 := htonl_bytes (x % 256) (x / 256 % 256) (x / 65536 % 256) (x / 16777216 % 256)
    (Nat.mod_lt _ (by decide)) (Nat.mod_lt _ (by decide)) (Nat.mod_lt _ (by decide))
    (Nat.mod_lt _ (by decide))
  rw [← word_bytes x hx] at h1
  unfold ser_writedata32 bigEndian32
  rw [h1]
  have ha : x % 256 < 256 := Nat.mod_lt _ (by decide)
  have hb : x / 256 % 256 < 256 := Nat.mod_lt _ (by decide)
  have hc : x / 65536 % 256 < 256 := Nat.mod_lt _ (by decide)
  have hd : x / 16777216 % 256 < 256 := Nat.mod_lt _ (by decide)
  generalize x % 256 = a at ha ⊢
  generalize x / 256 % 256 = b at hb ⊢
  generalize x / 65536 % 256 = c at hc ⊢
  generalize x / 16777216 % 256 = d at hd ⊢
  have e1 : (d + 256 * c + 65536 * b + 16777216 * a) % 256 = d := by omega
  have e2 : (d + 256 * c + 65536 * b + 16777216 * a) / 256 % 256 = c := by omega
  have e3 : (d + 256 * c + 65536 * b + 16777216 * a) / 65536 % 256 = b := by omega
  have e4 : (d + 256 * c + 65536 * b + 16777216 * a) / 16777216 % 256 = a := by omega
  rw [e1, e2, e3, e4]

theorem read_bigEndian32 (x : Nat) (hx : x < 4294967296) (rest : List Nat) :
    (ser_readdata32 (bigEndian32 x ++ rest)).map (fun p => (ntohl p.1, p.2)) =
      some (x, rest) := by
  have h2 := htonl_bytes (x / 16777216 % 256) (x / 65536 % 256) (x / 256 % 256) (x % 256)
    (Nat.mod_lt _ (by decide)) (Nat.mod_lt _ (by decide)) (Nat.mod_lt _ (by decide))
    (Nat.mod_lt _ (by decide))
  unfold bigEndian32
  simp only [List.cons_append, List.nil_append, ser_readdata32, Option.map_some', ntohl]
  rw [h2, ← word_bytes x hx]

theorem bytesLt_bigEndian32 (x y : Nat) (hx : x < 4294967296) (hy : y < 4294967296) :
    bytesLt (bigEndian32 x) (bigEndian32 y) = decide (x < y) := by
  unfold bigEndian32
  have wa := word_bytes x hx
  have wb := word_bytes y hy
  have a0 : x % 256 < 256 := Nat.mod_lt _ (by decide)
  have a1 : x / 256 % 256 < 256 := Nat.mod_lt _ (by decide)
  have a2 : x / 65536 % 256 < 256 := Nat.mod_lt _ (by decide)
  have a3 : x / 16777216 % 256 < 256 := Nat.mod_lt _ (by decide)
  have b0 : y % 256 < 256 := Nat.mod_lt _ (by decide)
  have b1 : y / 256 % 256 < 256 := Nat.mod_lt _ (by decide)
  have b2 : y / 65536 % 256 < 256 := Nat.mod_lt _ (by decide)
  have b3 : y / 16777216 % 256 < 256 := Nat.mod_lt _ (by decide)
  generalize x % 256 = x0 at wa a0 ⊢
  generalize x / 256 % 256 = x1 at wa a1 ⊢
  generalize x / 65536 % 256 = x2 at wa a2 ⊢
  generalize x / 16777216 % 256 = x3 at wa a3 ⊢
  generalize y % 256 = y0 at wb b0 ⊢
  generalize y / 256 % 256 = y1 at wb b1 ⊢
  generalize y / 65536 % 256 = y2 at wb b2 ⊢
  generalize y / 16777216 % 256 = y3 at wb b3 ⊢
  rw [wa, wb]
  simp only [bytesLt, Bool.and_false, Bool.or_false]
  rw [Bool.eq_iff_iff]
  simp only [Bool.or_eq_true, Bool.and_eq_true, decide_eq_true_eq]
  omega

theorem bigEndian32_inj (x y : Nat) (hx : x < 4294967296) (hy : y < 4294967296)
    (h : bigEndian32 x = bigEndian32 y) : x = y := by
  have wa := word_bytes x hx
  have wb := word_bytes y hy
  unfold bigEndian32 at h
  simp only [List.cons.injEq, and_true] at h
  obtain ⟨h3, h2, h1, h0⟩ := h
  rw [wa, wb, h0, h1, h2, h3]

/-- Bytewise comparison of two streams that start with blocks of equal length. -/
theorem bytesLt_append (a a2 : List Nat) (hlen : a.length = a2.length) (b b2 : List Nat) :
    bytesLt (a ++ b) (a2 ++ b2) = (bytesLt a a2 || (decide (a = a2) && bytesLt b b2)) := by
  induction a generalizing a2 with
  | nil =>
    cases a2 with
    | nil => cases b <;> cases b2 <;> simp [bytesLt]
    | cons y ys => simp at hlen
  | cons x xs ih =>
    cases a2 with
    | nil => simp at hlen
    | cons y ys =>
      have hl : xs.length = ys.length := by simpa using hlen
      simp only [List.cons_append, bytesLt, List.cons.injEq]
      by_cases hxy : x = y
      · subst hxy
        simp only [lt_self_iff_false, decide_False, decide_True, Bool.true_and,
          Bool.false_or, true_and]
        exact ih ys hl
      · simp [hxy]

/-- C27: for event ids and mapping-key components below 2^32, the encodings of `EventKey`
and `MappingKey` write every integer as 4 bytes, most significant byte first; the
encodings of two event keys compare bytewise as the event ids do; the encodings of two
mapping keys compare as the pairs (type, id) do in lexicographic order; and decoding an
encoded key returns the key and consumes all bytes. -/
theorem C27_event_and_mapping_keys (a b t1 i1 t2 i2 : Nat)
    (ha : a < 4294967296) (hb : b < 4294967296)
    (ht1 : t1 < 4294967296) (hi1 : i1 < 4294967296)
    (ht2 : t2 < 4294967296) (hi2 : i2 < 4294967296)
    (target : EventKey) (mtarget : MappingKey) :
    EventKey.Serialize [] ⟨a⟩ = bigEndian32 a ∧
    MappingKey.Serialize [] ⟨t1, i1⟩ = bigEndian32 t1 ++ bigEndian32 i1 ∧
    bytesLt (EventKey.Serialize [] ⟨a⟩) (EventKey.Serialize [] ⟨b⟩) = decide (a < b) ∧
    bytesLt (MappingKey.Serialize [] ⟨t1, i1⟩) (MappingKey.Serialize [] ⟨t2, i2⟩) =
      decide (t1 < t2 ∨ (t1 = t2 ∧ i1 < i2)) ∧
    EventKey.Unserialize (EventKey.Serialize [] ⟨a⟩) target = some (⟨a⟩, []) ∧
    MappingKey.Unserialize (MappingKey.Serialize [] ⟨t1, i1⟩) mtarget =
      some (⟨t1, i1⟩, []) := by
  have hu1 : u32 t1 = t1 := Nat.mod_eq_of_lt ht1
  have hu2 : u32 t2 = t2 := Nat.mod_eq_of_lt ht2
  have eA : EventKey.Serialize [] ⟨a⟩ = bigEndian32 a := by
    unfold EventKey.Serialize
    rw [write_htonl _ _ ha, List.nil_append]
  have eB : EventKey.Serialize [] ⟨b⟩ = bigEndian32 b := by
    unfold EventKey.Serialize
    rw [write_htonl _ _ hb, List.nil_append]
  have m1 : MappingKey.Serialize [] ⟨t1, i1⟩ = bigEndian32 t1 ++ bigEndian32 i1 := by
    unfold MappingKey.Serialize
    simp only [hu1]
    rw [write_htonl _ _ ht1, write_htonl _ _ hi1, List.nil_append]
  have m2 : MappingKey.Serialize [] ⟨t2, i2⟩ = bigEndian32 t2 ++ bigEndian32 i2 := by
    unfold MappingKey.Serialize
    simp only [hu2]
    rw [write_htonl _ _ ht2, write_htonl _ _ hi2, List.nil_append]
  have rA := read_bigEndian32 a ha []
  have rT := read_bigEndian32 t1 ht1 (bigEndian32 i1)
  have rI := read_bigEndian32 i1 hi1 []
  rw [List.append_nil] at rA rI
  refine ⟨eA, m1, ?_, ?_, ?_, ?_⟩
  · rw [eA, eB, bytesLt_bigEndian32 a b ha hb]
  · rw [m1, m2, bytesLt_append _ _ (by rfl), bytesLt_bigEndian32 t1 t2 ht1 ht2,
      bytesLt_bigEndian32 i1 i2 hi1 hi2]
    rw [Bool.eq_iff_iff]
    simp only [Bool.or_eq_true, Bool.and_eq_true, decide_eq_true_eq]
    constructor
    · rintro (h | ⟨h1, h2⟩)
      · exact Or.inl h
      · exact Or.inr ⟨bigEndian32_inj t1 t2 ht1 ht2 h1, h2⟩
    · rintro (h | ⟨h1, h2⟩)
      · exact Or.inl h
      · exact Or.inr ⟨by rw [h1], h2⟩
  · rw [eA]
    unfold EventKey.Unserialize
    cases hr : ser_readdata32 (bigEndian32 a) with
    | none => rw [hr] at rA; cases rA
    | some p =>
      rw [hr, Option.map_some'] at rA
      have := Option.some.inj rA
      simp only [Prod.mk.injEq] at this
      simp only [this.1, this.2]
  · rw [m1]
    unfold MappingKey.Unserialize
    cases hr : ser_readdata32 (bigEndian32 t1 ++ bigEndian32 i1) with
    | none => rw [hr] at rT; cases rT
    | some p =>
      rw [hr, Option.map_some'] at rT
      have h1 := Option.some.inj rT
      simp only [Prod.mk.injEq] at h1
      simp only [h1.2]
      cases hr2 : ser_readdata32 (bigEndian32 i1) with
      | none => rw [hr2] at rI; cases rI
      | some q =>
        rw [hr2, Option.map_some'] at rI
        have h2 := Option.some.inj rI
        simp only [Prod.mk.injEq] at h2
        simp only [h1.1, h2.1, h2.2]

/-- C27, witness: event ids 255 < 256 (the low byte alone would order them the other
way) and the mapping keys (1, 300) < (2, 5). -/
theorem C27_event_and_mapping_keys_witness :
    EventKey.Serialize [] ⟨255⟩ = [0, 0, 0, 255] ∧
    bytesLt (EventKey.Serialize [] ⟨255⟩) (EventKey.Serialize [] ⟨256⟩) = true ∧
    bytesLt (MappingKey.Serialize [] ⟨1, 300⟩) (MappingKey.Serialize [] ⟨2, 5⟩) = true ∧
    MappingKey.Unserialize (MappingKey.Serialize [] ⟨1, 300⟩) ⟨0, 0⟩ = some (⟨1, 300⟩, []) :=
  ⟨(C27_event_and_mapping_keys 255 256 1 300 2 5 (by decide) (by decide) (by decide)
      (by decide) (by decide) (by decide) ⟨0⟩ ⟨0, 0⟩).1,
    (C27_event_and_mapping_keys 255 256 1 300 2 5 (by decide) (by decide) (by decide)
      (by decide) (by decide) (by decide) ⟨0⟩ ⟨0, 0⟩).2.2.1,
    (C27_event_and_mapping_keys 255 256 1 300 2 5 (by decide) (by decide) (by decide)
      (by decide) (by decide) (by decide) ⟨0⟩ ⟨0, 0⟩).2.2.2.1,
    (C27_event_and_mapping_keys 255 256 1 300 2 5 (by decide) (by decide) (by decide)
      (by decide) (by decide) (by decide) ⟨0⟩ ⟨0, 0⟩).2.2.2.2.2⟩

/-! ## Reading back what was written -/

theorem ser_writedata32_eq (s : List Nat) (x : Nat) :
    ser_writedata32 s x = s ++ littleEndian32 x := rfl

theorem ser_writedata64_eq (s : List Nat) (x : Nat) :
    ser_writedata64 s x = s ++ littleEndian64 x := rfl

theorem read_littleEndian32 (x : Nat) (hx : x < 4294967296) (rest : List Nat) :
    ser_readdata32 (littleEndian32 x ++ rest) = some (x, rest) := by
  unfold littleEndian32
  simp only [List.cons_append, List.nil_append, ser_readdata32]
  rw [← word_bytes x hx]

theorem read_littleEndian64 (x : Nat) (hx : x < 18446744073709551616) (rest : List Nat) :
    ser_readdata64 (littleEndian64 x ++ rest) = some (x, rest) := by
  unfold littleEndian64
  simp only [List.cons_append, List.nil_append, ser_readdata64]
  have : x % 256 + 256 * (x / 256 % 256) + 65536 * (x / 65536 % 256) +
      16777216 * (x / 16777216 % 256) + 4294967296 * (x / 4294967296 % 256) +
      1099511627776 * (x / 1099511627776 % 256) +
      281474976710656 * (x / 281474976710656 % 256) +
      72057594037927936 * (x / 72057594037927936 % 256) = x := by omega
  rw [this]

theorem u32OfInt_lt (x : Int) : u32OfInt x < 4294967296 := by
  unfold u32OfInt
  omega

theorem i32_u32OfInt (x : Int) (h0 : -2147483648 ≤ x) (h1 : x < 2147483648) :
    i32 (u32OfInt x) = x := by
  unfold i32 u32OfInt
  split <;> omega

theorem readThen_some {α β : Type} (a : α) (s : List Nat) (k : α → List Nat → Option β) :
    readThen (some (a, s)) k = k a s := rfl

theorem UnserializeBool_byte (a : Bool) (rest : List Nat) :
    UnserializeBool ((if a = true then 1 else 0) :: rest) = some (a, rest) := by
  cases a <;> rfl

theorem SerializeBool_eq (s : List Nat) (a : Bool) :
    SerializeBool s a = s ++ [if a = true then 1 else 0] := by
  cases a <;> rfl

/-- Decoding an encoded `CPeerlessBaseEventDB` record into the object `target`: every
field comes back and the stream is left where the encoding ends; the legacy flag comes
back when the creation height is below the v3 activation height and is the flag of
`target` otherwise. -/
theorem BaseEvent_roundtrip (env : Env) (e target : CPeerlessBaseEventDB)
    (he : e.inRange) (rest : List Nat) :
    CPeerlessBaseEventDB.Unserialize env (CPeerlessBaseEventDB.Serialize env [] e ++ rest)
        target =
      some ({ e with fLegacyInitialHomeFavorite :=
          if e.nEventCreationHeight < env.WagerrProtocolV3StartHeight
          then e.fLegacyInitialHomeFavorite else target.fLegacyInitialHomeFavorite }, rest) := by
  obtain ⟨h1, h2, h3, h4, h5, h6, h7, h8, h9, h10, ⟨h11a, h11b⟩, h12, h13, h14, h15, h16,
    ⟨h17a, h17b⟩⟩ := he
  unfold CPeerlessBaseEventDB.Serialize
  by_cases hlt : e.nEventCreationHeight < env.WagerrProtocolV3StartHeight
  · simp only [hlt, if_true, ser_writedata32_eq, ser_writedata64_eq, List.nil_append,
      SerializeBool_eq, List.append_assoc, List.singleton_append]
    unfold CPeerlessBaseEventDB.Unserialize
    rw [read_littleEndian32 _ h1, readThen_some, read_littleEndian64 _ h2, readThen_some,
      read_littleEndian32 _ h3, readThen_some, read_littleEndian32 _ h4, readThen_some,
      read_littleEndian32 _ h5, readThen_some, read_littleEndian32 _ h6, readThen_some,
      read_littleEndian32 _ h7, readThen_some, read_littleEndian32 _ h8, readThen_some,
      read_littleEndian32 _ h9, readThen_some, read_littleEndian32 _ h10, readThen_some,
      read_littleEndian32 _ (u32OfInt_lt e.nSpreadPoints), readThen_some,
      read_littleEndian32 _ h12, readThen_some, read_littleEndian32 _ h13, readThen_some,
      read_littleEndian32 _ h14, readThen_some, read_littleEndian32 _ h15, readThen_some,
      read_littleEndian32 _ h16, readThen_some,
      read_littleEndian32 _ (u32OfInt_lt e.nEventCreationHeight), readThen_some]
    simp only [i32_u32OfInt _ h11a h11b, i32_u32OfInt _ h17a h17b]
    rw [if_pos hlt, UnserializeBool_byte, readThen_some]
  · simp only [hlt, if_false, ser_writedata32_eq, ser_writedata64_eq, List.nil_append,
      List.append_assoc]
    unfold CPeerlessBaseEventDB.Unserialize
    rw [read_littleEndian32 _ h1, readThen_some, read_littleEndian64 _ h2, readThen_some,
      read_littleEndian32 _ h3, readThen_some, read_littleEndian32 _ h4, readThen_some,
      read_littleEndian32 _ h5, readThen_some, read_littleEndian32 _ h6, readThen_some,
      read_littleEndian32 _ h7, readThen_some, read_littleEndian32 _ h8, readThen_some,
      read_littleEndian32 _ h9, readThen_some, read_littleEndian32 _ h10, readThen_some,
      read_littleEndian32 _ (u32OfInt_lt e.nSpreadPoints), readThen_some,
      read_littleEndian32 _ h12, readThen_some, read_littleEndian32 _ h13, readThen_some,
      read_littleEndian32 _ h14, readThen_some, read_littleEndian32 _ h15, readThen_some,
      read_littleEndian32 _ h16, readThen_some,
      read_littleEndian32 _ (u32OfInt_lt e.nEventCreationHeight), readThen_some]
    simp only [i32_u32OfInt _ h11a h11b, i32_u32OfInt _ h17a h17b]
    rw [if_neg hlt]

/-- Decoding an encoded `CPeerlessExtendedEventDB` record into the object `target`: every
field comes back and the stream is left where the encoding ends; the legacy flag comes
back when the creation height is below the v3 activation height and is the flag of
`target` otherwise. -/
theorem ExtendedEvent_roundtrip (env : Env) (e target : CPeerlessExtendedEventDB)
    (he : e.inRange) (rest : List Nat) :
    CPeerlessExtendedEventDB.Unserialize env
        (CPeerlessExtendedEventDB.Serialize env [] e ++ rest) target =
      some ({ e with fLegacyInitialHomeFavorite :=
          if e.nEventCreationHeight < env.WagerrProtocolV3StartHeight
          then e.fLegacyInitialHomeFavorite else target.fLegacyInitialHomeFavorite }, rest) := by
  obtain ⟨⟨h1, h2, h3, h4, h5, h6, h7, h8, h9, h10, ⟨h11a, h11b⟩, h12, h13, h14, h15, h16,
    ⟨h17a, h17b⟩⟩, x1, x2, x3, x4, x5, x6, x7, x8, x9, x10, x11, x12, x13, x14, x15, x16, x17,
    x18⟩ := he
  unfold CPeerlessExtendedEventDB.Serialize
  by_cases hlt : e.nEventCreationHeight < env.WagerrProtocolV3StartHeight
  · simp only [hlt, if_true, ser_writedata32_eq, ser_writedata64_eq, List.nil_append,
      SerializeBool_eq, List.append_assoc, List.singleton_append]
    unfold CPeerlessExtendedEventDB.Unserialize
    rw [read_littleEndian32 _ h1, readThen_some, read_littleEndian64 _ h2, readThen_some,
      read_littleEndian32 _ h3, readThen_some, read_littleEndian32 _ h4, readThen_some,
      read_littleEndian32 _ h5, readThen_some, read_littleEndian32 _ h6, readThen_some,
      read_littleEndian32 _ h7, readThen_some, read_littleEndian32 _ h8, readThen_some,
      read_littleEndian32 _ h9, readThen_some, read_littleEndian32 _ h10, readThen_some,
      read_littleEndian32 _ (u32OfInt_lt e.nSpreadPoints), readThen_some,
      read_littleEndian32 _ h12, readThen_some, read_littleEndian32 _ h13, readThen_some,
      read_littleEndian32 _ h14, readThen_some, read_littleEndian32 _ h15, readThen_some,
      read_littleEndian32 _ h16, readThen_some,
      read_littleEndian32 _ x1, readThen_some, read_littleEndian32 _ x2, readThen_some,
      read_littleEndian32 _ x3, readThen_some, read_littleEndian32 _ x4, readThen_some,
      read_littleEndian32 _ x5, readThen_some, read_littleEndian32 _ x6, readThen_some,
      read_littleEndian32 _ x7, readThen_some, read_littleEndian32 _ x8, readThen_some,
      read_littleEndian32 _ x9, readThen_some, read_littleEndian32 _ x10, readThen_some,
      read_littleEndian32 _ x11, readThen_some, read_littleEndian32 _ x12, readThen_some,
      read_littleEndian32 _ x13, readThen_some, read_littleEndian32 _ x14, readThen_some,
      read_littleEndian32 _ x15, readThen_some, read_littleEndian32 _ x16, readThen_some,
      read_littleEndian32 _ x17, readThen_some, read_littleEndian32 _ x18, readThen_some,
      read_littleEndian32 _ (u32OfInt_lt e.nEventCreationHeight), readThen_some]
    simp only [i32_u32OfInt _ h11a h11b, i32_u32OfInt _ h17a h17b]
    rw [if_pos hlt, UnserializeBool_byte, readThen_some]
  · simp only [hlt, if_false, ser_writedata32_eq, ser_writedata64_eq, List.nil_append,
      List.append_assoc]
    unfold CPeerlessExtendedEventDB.Unserialize
    rw [read_littleEndian32 _ h1, readThen_some, read_littleEndian64 _ h2, readThen_some,
      read_littleEndian32 _ h3, readThen_some, read_littleEndian32 _ h4, readThen_some,
      read_littleEndian32 _ h5, readThen_some, read_littleEndian32 _ h6, readThen_some,
      read_littleEndian32 _ h7, readThen_some, read_littleEndian32 _ h8, readThen_some,
      read_littleEndian32 _ h9, readThen_some, read_littleEndian32 _ h10, readThen_some,
      read_littleEndian32 _ (u32OfInt_lt e.nSpreadPoints), readThen_some,
      read_littleEndian32 _ h12, readThen_some, read_littleEndian32 _ h13, readThen_some,
      read_littleEndian32 _ h14, readThen_some, read_littleEndian32 _ h15, readThen_some,
      read_littleEndian32 _ h16, readThen_some,
      read_littleEndian32 _ x1, readThen_some, read_littleEndian32 _ x2, readThen_some,
      read_littleEndian32 _ x3, readThen_some, read_littleEndian32 _ x4, readThen_some,
      read_littleEndian32 _ x5, readThen_some, read_littleEndian32 _ x6, readThen_some,
      read_littleEndian32 _ x7, readThen_some, read_littleEndian32 _ x8, readThen_some,
      read_littleEndian32 _ x9, readThen_some, read_littleEndian32 _ x10, readThen_some,
      read_littleEndian32 _ x11, readThen_some, read_littleEndian32 _ x12, readThen_some,
      read_littleEndian32 _ x13, readThen_some, read_littleEndian32 _ x14, readThen_some,
      read_littleEndian32 _ x15, readThen_some, read_littleEndian32 _ x16, readThen_some,
      read_littleEndian32 _ x17, readThen_some, read_littleEndian32 _ x18, readThen_some,
      read_littleEndian32 _ (u32OfInt_lt e.nEventCreationHeight), readThen_some]
    simp only [i32_u32OfInt _ h11a h11b, i32_u32OfInt _ h17a h17b]
    rw [if_neg hlt]

theorem BaseEvent_bytes (env : Env) (e : CPeerlessBaseEventDB) :
    CPeerlessBaseEventDB.Serialize env [] e =
      e.fieldBytes ++
        (if e.nEventCreationHeight < env.WagerrProtocolV3StartHeight
         then [if e.fLegacyInitialHomeFavorite = true then 1 else 0] else []) ∧
    e.fieldBytes.length = 72 := by
  constructor
  · unfold CPeerlessBaseEventDB.Serialize CPeerlessBaseEventDB.fieldBytes
    by_cases hlt : e.nEventCreationHeight < env.WagerrProtocolV3StartHeight
    · simp only [hlt, if_true, ser_writedata32_eq, ser_writedata64_eq, List.nil_append,
        SerializeBool_eq, List.append_assoc]
    · simp only [hlt, if_false, ser_writedata32_eq, ser_writedata64_eq, List.nil_append,
        List.append_assoc, List.append_nil]
  · unfold CPeerlessBaseEventDB.fieldBytes
    simp only [List.length_append, littleEndian32, littleEndian64, List.length_cons,
      List.length_nil]

theorem ExtendedEvent_bytes (env : Env) (e : CPeerlessExtendedEventDB) :
    CPeerlessExtendedEventDB.Serialize env [] e =
      e.fieldBytes ++
        (if e.nEventCreationHeight < env.WagerrProtocolV3StartHeight
         then [if e.fLegacyInitialHomeFavorite = true then 1 else 0] else []) ∧
    e.fieldBytes.length = 144 := by
  constructor
  · unfold CPeerlessExtendedEventDB.Serialize CPeerlessExtendedEventDB.fieldBytes
    by_cases hlt : e.nEventCreationHeight < env.WagerrProtocolV3StartHeight
    · simp only [hlt, if_true, ser_writedata32_eq, ser_writedata64_eq, List.nil_append,
        SerializeBool_eq, List.append_assoc]
    · simp only [hlt, if_false, ser_writedata32_eq, ser_writedata64_eq, List.nil_append,
        List.append_assoc, List.append_nil]
  · unfold CPeerlessExtendedEventDB.fieldBytes
    simp only [List.length_append, littleEndian32, littleEndian64, List.length_cons,
      List.length_nil]

theorem BytesToDbType_of_roundtrip {α : Type} (ser : List Nat → α → List Nat)
    (unser : List Nat → α → Option (α × List Nat)) (value target v : α)
    (h : unser (ser [] value ++ []) target = some (v, [])) :
    CBettingDB.BytesToDbType unser (CBettingDB.DbTypeToBytes ser value) target = some v := by
  unfold CBettingDB.BytesToDbType CBettingDB.DbTypeToBytes
  rw [List.append_nil] at h
  rw [h]
  rfl

/-- C24: for every peerless event record, base and extended, the encoding is the bytes of
the unconditional fields (72 bytes, 144 for the extended record) followed by the one byte
of the legacy-initial-home-favorite flag if and only if nEventCreationHeight is below the
v3 activation height; the decoder reads the creation height back and reads the flag byte
under the same condition, so decoding an encoded record consumes exactly the bytes
written, whatever follows them in the stream, and the trailing-bytes assertion of
BytesToDbType holds. -/
theorem C24_legacy_flag_byte (env : Env) (e target : CPeerlessBaseEventDB)
    (x xtarget : CPeerlessExtendedEventDB) (he : e.inRange) (hx : x.inRange)
    (rest : List Nat) :
    (CPeerlessBaseEventDB.Serialize env [] e =
        e.fieldBytes ++
          (if e.nEventCreationHeight < env.WagerrProtocolV3StartHeight
           then [if e.fLegacyInitialHomeFavorite = true then 1 else 0] else []) ∧
      e.fieldBytes.length = 72) ∧
    (∃ v, CPeerlessBaseEventDB.Unserialize env
          (CPeerlessBaseEventDB.Serialize env [] e ++ rest) target = some (v, rest) ∧
        v.nEventCreationHeight = e.nEventCreationHeight ∧
        v.fLegacyInitialHomeFavorite =
          if e.nEventCreationHeight < env.WagerrProtocolV3StartHeight
          then e.fLegacyInitialHomeFavorite else target.fLegacyInitialHomeFavorite) ∧
    (CBettingDB.BytesToDbType (CPeerlessBaseEventDB.Unserialize env)
        (CBettingDB.DbTypeToBytes (CPeerlessBaseEventDB.Serialize env) e) target).isSome =
      true ∧
    (CPeerlessExtendedEventDB.Serialize env [] x =
        x.fieldBytes ++
          (if x.nEventCreationHeight < env.WagerrProtocolV3StartHeight
           then [if x.fLegacyInitialHomeFavorite = true then 1 else 0] else []) ∧
      x.fieldBytes.length = 144) ∧
    (∃ v, CPeerlessExtendedEventDB.Unserialize env
          (CPeerlessExtendedEventDB.Serialize env [] x ++ rest) xtarget = some (v, rest) ∧
        v.nEventCreationHeight = x.nEventCreationHeight ∧
        v.fLegacyInitialHomeFavorite =
          if x.nEventCreationHeight < env.WagerrProtocolV3StartHeight
          then x.fLegacyInitialHomeFavorite else xtarget.fLegacyInitialHomeFavorite) ∧
    (CBettingDB.BytesToDbType (CPeerlessExtendedEventDB.Unserialize env)
        (CBettingDB.DbTypeToBytes (CPeerlessExtendedEventDB.Serialize env) x) xtarget).isSome =
      true := by
  refine ⟨BaseEvent_bytes env e, ⟨_, BaseEvent_roundtrip env e target he rest, rfl, rfl⟩, ?_,
    ExtendedEvent_bytes env x, ⟨_, ExtendedEvent_roundtrip env x xtarget hx rest, rfl, rfl⟩,
    ?_⟩
  · rw [BytesToDbType_of_roundtrip _ _ e target _ (BaseEvent_roundtrip env e target he [])]
    rfl
  · rw [BytesToDbType_of_roundtrip _ _ x xtarget _
      (ExtendedEvent_roundtrip env x xtarget hx [])]
    rfl

/-- C24, witness: on the chain `exEnv` (activation at height 100) the base event created
at height 50 is encoded in 73 bytes, the last one being the flag byte 0, and the extended
event created at height 450 is encoded in 144 bytes. -/
theorem C24_legacy_flag_byte_witness :
    (CPeerlessBaseEventDB.Serialize exEnv [] legacyEvent).length = 73 ∧
    (CPeerlessBaseEventDB.Serialize exEnv [] legacyEvent).getLast? = some 0 ∧
    (CPeerlessExtendedEventDB.Serialize exEnv [] v3Event).length = 144 ∧
    (CBettingDB.BytesToDbType (CPeerlessBaseEventDB.Unserialize exEnv)
        (CBettingDB.DbTypeToBytes (CPeerlessBaseEventDB.Serialize exEnv) legacyEvent)
        {}).isSome = true ∧
    (CBettingDB.BytesToDbType (CPeerlessExtendedEventDB.Unserialize exEnv)
        (CBettingDB.DbTypeToBytes (CPeerlessExtendedEventDB.Serialize exEnv) v3Event)
        {}).isSome = true :=
  ⟨by rfl, by rfl, by rfl,
    (C24_legacy_flag_byte exEnv legacyEvent {} v3Event {} (by decide) (by decide) []).2.2.1,
    (C24_legacy_flag_byte exEnv legacyEvent {} v3Event {} (by decide) (by decide)
      []).2.2.2.2.2⟩

/-- C25, counterexample: the extended event created at height 450, at or above the v3
activation height 100, with the legacy favorite flag false: the flag is not written, and
the record decoded into a fresh object has the flag true. -/
theorem C25_counterexample :
    v3Event.inRange ∧
    v3Event.fLegacyInitialHomeFavorite = false ∧
    ¬ (v3Event.nEventCreationHeight < exEnv.WagerrProtocolV3StartHeight) ∧
    (CBettingDB.BytesToDbType (CPeerlessExtendedEventDB.Unserialize exEnv)
        (CBettingDB.DbTypeToBytes (CPeerlessExtendedEventDB.Serialize exEnv) v3Event)
        {}).map (fun v => (v.fLegacyInitialHomeFavorite, decide (v = v3Event))) =
      some (true, false) := by
  decide

/-- C25, amended: for every CPeerlessExtendedEventDB value e whose members are in the
range of their types, decoding the encoding of e into an object `target` returns e with
the legacy favorite flag of e when the creation height is below the v3 activation height
and with the flag of `target` (true for a fresh object) otherwise; every other field is
that of e. So the decoded record equals e exactly when the creation height is below the
activation height or the flag of e is the flag of `target`. -/
theorem C25_extended_event_roundtrip (env : Env) (e target : CPeerlessExtendedEventDB)
    (he : e.inRange) :
    CBettingDB.BytesToDbType (CPeerlessExtendedEventDB.Unserialize env)
        (CBettingDB.DbTypeToBytes (CPeerlessExtendedEventDB.Serialize env) e) target =
      some { e with fLegacyInitialHomeFavorite :=
          if e.nEventCreationHeight < env.WagerrProtocolV3StartHeight
          then e.fLegacyInitialHomeFavorite else target.fLegacyInitialHomeFavorite } ∧
    (CBettingDB.BytesToDbType (CPeerlessExtendedEventDB.Unserialize env)
        (CBettingDB.DbTypeToBytes (CPeerlessExtendedEventDB.Serialize env) e) target =
      some e ↔
      (e.nEventCreationHeight < env.WagerrProtocolV3StartHeight ∨
        e.fLegacyInitialHomeFavorite = target.fLegacyInitialHomeFavorite)) := by
  have h := BytesToDbType_of_roundtrip _ _ e target _
    (ExtendedEvent_roundtrip env e target he [])
  refine ⟨h, ?_⟩
  rw [h]
  by_cases hlt : e.nEventCreationHeight < env.WagerrProtocolV3StartHeight
  · simp only [hlt, if_true, true_or]
  · simp only [hlt, if_false, false_or, Option.some.injEq]
    constructor
    · intro heq
      have := congrArg (fun v : CPeerlessExtendedEventDB => v.fLegacyInitialHomeFavorite) heq
      exact this.symm
    · intro hf
      rw [← hf]

/-- C25, amended, witness: the extended event created at height 50, below the
activation height of `exEnv`, with the flag false and a bet counter of 4000000000, comes
back equal on every field. -/
theorem C25_extended_event_roundtrip_witness :
    CBettingDB.BytesToDbType (CPeerlessExtendedEventDB.Unserialize exEnv)
        (CBettingDB.DbTypeToBytes (CPeerlessExtendedEventDB.Serialize exEnv)
          legacyExtendedEvent) {} =
      some legacyExtendedEvent :=
  (C25_extended_event_roundtrip exEnv legacyExtendedEvent {} (by decide)).2.mpr
    (Or.inl (by decide))

/-! ## Field events and undo entries -/

theorem ContenderInfo_append (s : List Nat) (c : ContenderInfo) :
    ContenderInfo.Serialize s c = s ++ ContenderInfo.Serialize [] c := by
  unfold ContenderInfo.Serialize
  simp only [ser_writedata32_eq, List.nil_append, List.append_assoc]

theorem ContenderInfo_roundtrip (c : ContenderInfo) (hc : c.inRange) (rest : List Nat) :
    ContenderInfo.Unserialize (ContenderInfo.Serialize [] c ++ rest) = some (c, rest) := by
  obtain ⟨h1, h2, h3, h4, h5, h6, h7, h8, h9, h10, h11⟩ := hc
  unfold ContenderInfo.Serialize
  simp only [ser_writedata32_eq, List.nil_append, List.append_assoc]
  unfold ContenderInfo.Unserialize
  rw [read_littleEndian32 _ h1, readThen_some,
    read_littleEndian32 _ h2, readThen_some,
    read_littleEndian32 _ h3, readThen_some,
    read_littleEndian32 _ h4, readThen_some,
    read_littleEndian32 _ h5, readThen_some,
    read_littleEndian32 _ h6, readThen_some,
    read_littleEndian32 _ h7, readThen_some,
    read_littleEndian32 _ h8, readThen_some,
    read_littleEndian32 _ h9, readThen_some,
    read_littleEndian32 _ h10, readThen_some,
    read_littleEndian32 _ h11, readThen_some]

theorem WriteCompactSize_append (s : List Nat) (n : Nat) :
    WriteCompactSize s n = s ++ WriteCompactSize [] n := by
  unfold WriteCompactSize ser_writedata8 ser_writedata16 ser_writedata32 ser_writedata64
  split
  · simp
  · split
    · simp
    · split <;> simp

theorem ReadCompactSize_WriteCompactSize (n : Nat) (hn : n ≤ 33554432) (rest : List Nat) :
    ReadCompactSize (WriteCompactSize [] n ++ rest) = some (n, rest) := by
  unfold WriteCompactSize
  by_cases h1 : n < 253
  · rw [if_pos h1]
    unfold ReadCompactSize ser_writedata8
    have hm : n % 256 = n := Nat.mod_eq_of_lt (by omega)
    simp only [List.nil_append, List.singleton_append, ser_readdata8, readThen_some, hm, h1,
      if_true]
    rw [if_neg (by omega)]
  · rw [if_neg h1]
    by_cases h2 : n ≤ 65535
    · rw [if_pos h2]
      unfold ReadCompactSize ser_writedata8 ser_writedata16
      have hw : n % 256 + 256 * (n / 256 % 256) = n := by omega
      simp only [List.nil_append, List.cons_append, ser_readdata8, ser_readdata16,
        readThen_some, hw, h1, if_false, if_true, Nat.reduceMod, Nat.lt_irrefl]
      rw [if_neg (by omega)]
    · rw [if_neg h2, if_pos (by omega)]
      unfold ReadCompactSize ser_writedata8
      have hl : ser_writedata32 ([] ++ [254 % 256]) n ++ rest =
          254 :: (littleEndian32 n ++ rest) := by
        rw [ser_writedata32_eq]
        rfl
      rw [hl]
      simp only [ser_readdata8, readThen_some, read_littleEndian32 n (by omega)]
      have h3 : ¬ n < 65536 := by omega
      have h4 : ¬ n > 33554432 := by omega
      simp only [h3, h4, if_false, Nat.reduceLT, Nat.reduceEqDiff, if_true, readThen_some]

theorem mapInsert_append (m : List (Nat × ContenderInfo)) (key : Nat) (info : ContenderInfo)
    (h : ∀ e ∈ m, e.1 < key) : mapInsert m key info = m ++ [(key, info)] := by
  induction m with
  | nil => rfl
  | cons e rest ih =>
    have he := h e (List.mem_cons_self _ _)
    unfold mapInsert
    rw [if_neg (by omega), if_neg (by omega), ih (fun x hx => h x (List.mem_cons_of_mem _ hx))]
    rfl

theorem SerializeContenders_eq (m : List (Nat × ContenderInfo)) :
    ∀ s : List Nat, m.foldl
        (fun s entry => ContenderInfo.Serialize (ser_writedata32 s entry.1) entry.2) s =
      s ++ contenderBytes m := by
  induction m with
  | nil => intro s; simp [contenderBytes]
  | cons e rest ih =>
    intro s
    rw [List.foldl_cons, ih, ContenderInfo_append, ser_writedata32_eq]
    unfold contenderBytes
    simp only [List.flatMap_cons, List.append_assoc]

theorem readContenders_roundtrip (m : List (Nat × ContenderInfo)) (rest : List Nat) :
    ∀ acc : List (Nat × ContenderInfo),
      (∀ entry ∈ m, entry.1 < 4294967296 ∧ entry.2.inRange) →
      ((acc ++ m).map (fun entry => entry.1)).Pairwise (fun a b => a < b) →
      readContenders m.length (contenderBytes m ++ rest) acc = some (acc ++ m, rest) := by
  induction m with
  | nil => intro acc _ _; simp [readContenders, contenderBytes]
  | cons e tail ih =>
    intro acc hr hs
    obtain ⟨hk, hi⟩ := hr e (List.mem_cons_self _ _)
    have hlt : ∀ x ∈ acc, x.1 < e.1 := by
      intro x hx
      rw [List.map_append, List.pairwise_append] at hs
      exact hs.2.2 x.1 (List.mem_map_of_mem (fun entry => entry.1) hx) e.1 (by simp)
    unfold contenderBytes
    rw [List.flatMap_cons, List.length_cons, List.append_assoc, List.append_assoc]
    unfold readContenders
    rw [read_littleEndian32 _ hk, readThen_some, ContenderInfo_roundtrip _ hi, readThen_some,
      mapInsert_append _ _ _ hlt]
    have := ih (acc ++ [(e.1, e.2)]) (fun x hx => hr x (List.mem_cons_of_mem _ hx))
      (by rw [List.append_assoc]; exact hs)
    rw [List.append_assoc] at this
    exact this

theorem read_byte (x : Nat) (hx : x < 256) (rest : List Nat) :
    ser_readdata8 ([x % 256] ++ rest) = some (x, rest) := by
  rw [Nat.mod_eq_of_lt hx]
  rfl

theorem ser_writedata8_eq (s : List Nat) (x : Nat) : ser_writedata8 s x = s ++ [x % 256] := rfl

theorem FieldEvent_bytes (s : List Nat) (e : CFieldEventDB) :
    CFieldEventDB.Serialize s e =
      s ++ (littleEndian32 e.nEventId ++ (littleEndian64 e.nStartTime ++
        ([e.nGroupType % 256] ++ ([e.nMarketType % 256] ++ (littleEndian32 e.nSport ++
          (littleEndian32 e.nTournament ++ (littleEndian32 e.nStage ++
            (littleEndian32 e.nMarginPercent ++
              (WriteCompactSize [] e.contenders.length ++
                contenderBytes e.contenders))))))))) := by
  unfold CFieldEventDB.Serialize SerializeContenders
  simp only []
  rw [SerializeContenders_eq, WriteCompactSize_append]
  simp only [ser_writedata32_eq, ser_writedata64_eq, ser_writedata8_eq, List.append_assoc]

/-- Decoding an encoded `CFieldEventDB` record returns the record and leaves the stream
where the encoding ends. -/
theorem FieldEvent_roundtrip (e : CFieldEventDB) (he : e.inRange) (rest : List Nat) :
    CFieldEventDB.Unserialize (CFieldEventDB.Serialize [] e ++ rest) = some (e, rest) := by
  obtain ⟨h1, h2, h3, h4, h5, h6, h7, h8, hc, hs, hl⟩ := he
  rw [FieldEvent_bytes, List.nil_append]
  simp only [List.append_assoc]
  unfold CFieldEventDB.Unserialize
  rw [read_littleEndian32 _ h1, readThen_some, read_littleEndian64 _ h2, readThen_some,
    read_byte _ h3, readThen_some, read_byte _ h4, readThen_some,
    read_littleEndian32 _ h5, readThen_some, read_littleEndian32 _ h6, readThen_some,
    read_littleEndian32 _ h7, readThen_some, read_littleEndian32 _ h8, readThen_some]
  unfold UnserializeContenders
  rw [ReadCompactSize_WriteCompactSize _ hl, readThen_some,
    readContenders_roundtrip _ _ [] hc (by rw [List.nil_append]; exact hs), readThen_some,
    List.nil_append]

theorem Undo_bytes (env : Env) (u : CBettingUndoDB) :
    CBettingUndoDB.Serialize env [] u =
      littleEndian32 u.height ++
        (match u.undoVariant with
         | BettingUndoVariant.peerlessEvent event =>
           [0, 0, 0, 0] ++ CPeerlessExtendedEventDB.Serialize env [] event
         | BettingUndoVariant.fieldEvent event =>
           [1, 0, 0, 0] ++ CFieldEventDB.Serialize [] event) := by
  unfold CBettingUndoDB.Serialize
  cases hv : u.undoVariant with
  | peerlessEvent event =>
    simp only [BettingUndoVariant.which, ser_writedata32_eq, List.nil_append]
    have hz : littleEndian32 (u32OfInt 0) = [0, 0, 0, 0] := by decide
    rw [hz, (ExtendedEvent_bytes env event).1]
    unfold CPeerlessExtendedEventDB.Serialize
    simp only [ser_writedata32_eq, ser_writedata64_eq, SerializeBool_eq]
    unfold CPeerlessExtendedEventDB.fieldBytes
    split <;> simp only [List.append_assoc, List.append_nil]
  | fieldEvent event =>
    simp only [BettingUndoVariant.which, ser_writedata32_eq, List.nil_append]
    have hz : littleEndian32 (u32OfInt 1) = [1, 0, 0, 0] := by decide
    rw [hz, FieldEvent_bytes, FieldEvent_bytes, List.nil_append, List.append_assoc]

/-- C26, counterexample: the undo entry of height 7 with a field event image is encoded as
the four bytes of the height, then the four bytes 01 00 00 00 of the `int` type tag, then
the encoding of the event record: the record starts at offset 8, not at offset 5. -/
theorem C26_counterexample :
    CBettingUndoDB.Serialize exEnv [] exFieldUndo =
      [7, 0, 0, 0] ++ [1, 0, 0, 0] ++ CFieldEventDB.Serialize [] exFieldEvent ∧
    (CBettingUndoDB.Serialize exEnv [] exFieldUndo).drop 8 =
      CFieldEventDB.Serialize [] exFieldEvent ∧
    (CBettingUndoDB.Serialize exEnv [] exFieldUndo).drop 5 ≠
      CFieldEventDB.Serialize [] exFieldEvent := by
  decide

/-- C26, amended: for every undo entry whose members are in the range of their types, the
encoding consists of the 4 bytes of the height, then the type tag written as a 4-byte
`int`, least significant byte first (00 00 00 00 for a peerless event image, 01 00 00 00
for a field event image), then the encoding of the contained event record; decoding such
an encoding returns the same height and the same variant arm, with an equal record for a
field event image and, for a peerless event image, a record equal on every field except
that the legacy favorite flag is true when the creation height is not below the v3
activation height. -/
theorem C26_undo_entry_codec (env : Env) (u target : CBettingUndoDB) (hu : u.inRange)
    (rest : List Nat) :
    CBettingUndoDB.Serialize env [] u =
      littleEndian32 u.height ++
        (match u.undoVariant with
         | BettingUndoVariant.peerlessEvent event =>
           [0, 0, 0, 0] ++ CPeerlessExtendedEventDB.Serialize env [] event
         | BettingUndoVariant.fieldEvent event =>
           [1, 0, 0, 0] ++ CFieldEventDB.Serialize [] event) ∧
    CBettingUndoDB.Unserialize env (CBettingUndoDB.Serialize env [] u ++ rest) target =
      some ({ height := u.height
              undoVariant :=
                match u.undoVariant with
                | BettingUndoVariant.peerlessEvent event =>
                  BettingUndoVariant.peerlessEvent
                    { event with fLegacyInitialHomeFavorite :=
                        if event.nEventCreationHeight < env.WagerrProtocolV3StartHeight
                        then event.fLegacyInitialHomeFavorite else true }
                | BettingUndoVariant.fieldEvent event =>
                  BettingUndoVariant.fieldEvent event }, rest) := by
  refine ⟨Undo_bytes env u, ?_⟩
  rw [Undo_bytes]
  obtain ⟨hh, hv⟩ := hu
  unfold CBettingUndoDB.Unserialize
  rw [List.append_assoc, read_littleEndian32 _ hh, readThen_some]
  cases hvar : u.undoVariant with
  | peerlessEvent event =>
    rw [hvar] at hv
    have hr : ∀ l : List Nat, ser_readdata32 ([0, 0, 0, 0] ++ l) = some (0, l) := fun _ => rfl
    have hi : i32 0 = 0 := by decide
    simp only [List.append_assoc]
    rw [hr, readThen_some, hi, if_pos rfl, ExtendedEvent_roundtrip env event {} hv,
      readThen_some]
  | fieldEvent event =>
    rw [hvar] at hv
    have hr : ∀ l : List Nat, ser_readdata32 ([1, 0, 0, 0] ++ l) = some (1, l) := fun _ => rfl
    have hi : i32 1 = 1 := by decide
    simp only [List.append_assoc]
    rw [hr, readThen_some, hi, if_neg (by decide), if_pos rfl,
      FieldEvent_roundtrip event hv, readThen_some]

/-- C26, amended, witness: the undo entries of height 7 with the field event of two
contenders and with the extended event created at height 50 are decoded back as they
were. -/
theorem C26_undo_entry_codec_witness :
    CBettingUndoDB.Unserialize exEnv (CBettingUndoDB.Serialize exEnv [] exFieldUndo ++ []) {} =
      some (exFieldUndo, []) ∧
    CBettingUndoDB.Unserialize exEnv (CBettingUndoDB.Serialize exEnv [] exPeerlessUndo ++ [])
        {} =
      some (exPeerlessUndo, []) :=
  ⟨(C26_undo_entry_codec exEnv exFieldUndo {}
      ⟨by decide, (by decide : exFieldEvent.inRange)⟩ []).2,
    (C26_undo_entry_codec exEnv exPeerlessUndo {}
      ⟨by decide, (by decide : legacyExtendedEvent.inRange)⟩ []).2⟩

/-! ## The table operations -/

theorem Exists_eq_isSome (db : CStorageKV) (key : List Nat) :
    CStorageKV.Exists db key = (CStorageKV.Read db key).isSome := by
  unfold CStorageKV.Exists CStorageKV.Read
  induction db with
  | nil => rfl
  | cons e rest ih =>
    by_cases h : e.1 = key
    · simp [List.any_cons, List.find?_cons, h]
    · simp only [List.any_cons, List.find?_cons, h, decide_False, Bool.false_or]
      exact ih

theorem Read_insertKV_same (db : CStorageKV) (key value : List Nat) :
    CStorageKV.Read (insertKV db key value) key = some value := by
  unfold CStorageKV.Read
  induction db with
  | nil => simp [insertKV]
  | cons e rest ih =>
    unfold insertKV
    by_cases h : e.1 = key
    · simp [h]
    · rw [if_neg h]
      by_cases hlt : bytesLt key e.1 = true
      · simp [hlt]
      · rw [if_neg hlt, List.find?_cons]
        simp only [h, decide_False]
        exact ih

theorem Read_insertKV_other (db : CStorageKV) (key value other : List Nat)
    (ho : other ≠ key) :
    CStorageKV.Read (insertKV db key value) other = CStorageKV.Read db other := by
  unfold CStorageKV.Read
  have hko : ¬ key = other := fun h => ho h.symm
  induction db with
  | nil => simp [insertKV, hko]
  | cons e rest ih =>
    unfold insertKV
    by_cases h : e.1 = key
    · rw [if_pos h]
      have heo : ¬ e.1 = other := by rw [h]; exact hko
      simp [List.find?_cons, hko, heo]
    · rw [if_neg h]
      by_cases hlt : bytesLt key e.1 = true
      · rw [if_pos hlt]
        simp [List.find?_cons, hko]
      · rw [if_neg hlt, List.find?_cons, List.find?_cons]
        by_cases heo : e.1 = other
        · simp [heo]
        · simp only [heo, decide_False]
          exact ih

theorem Read_erase_same (db : CStorageKV) (key : List Nat) :
    CStorageKV.Read (db.filter (fun e => decide (e.1 ≠ key))) key = none := by
  unfold CStorageKV.Read
  induction db with
  | nil => rfl
  | cons e rest ih =>
    by_cases h : e.1 = key
    · rw [List.filter_cons_of_neg (by simp [h])]
      exact ih
    · rw [List.filter_cons_of_pos (by simp [h]), List.find?_cons]
      simp only [h, decide_False]
      exact ih

theorem Read_erase_other (db : CStorageKV) (key other : List Nat) (ho : other ≠ key) :
    CStorageKV.Read (db.filter (fun e => decide (e.1 ≠ key))) other =
      CStorageKV.Read db other := by
  unfold CStorageKV.Read
  induction db with
  | nil => rfl
  | cons e rest ih =>
    by_cases h : e.1 = key
    · have heo : ¬ e.1 = other := by rw [h]; exact fun x => ho x.symm
      rw [List.filter_cons_of_neg (by simp [h]), List.find?_cons]
      simp only [heo, decide_False]
      exact ih
    · rw [List.filter_cons_of_pos (by simp [h]), List.find?_cons, List.find?_cons]
      by_cases heo : e.1 = other
      · simp [heo]
      · simp only [heo, decide_False]
        exact ih

/-- C28: for every table, key k and value v (any key and value types with their
`Serialize` and `Unserialize` methods): when the encoded key is present, Write(k, v)
returns false, raises nothing and leaves the table as it is, so the old value stays
readable; when it is absent, Write(k, v) returns true and a following Read(k) yields true
with the decoding of the encoding of v (it raises exactly when that decoding does), every
other key keeping its value. -/
theorem C28_write_if_absent {κ ν : Type} (serK : List Nat → κ → List Nat)
    (serV : List Nat → ν → List Nat) (unserV : List Nat → ν → Option (ν × List Nat))
    (db : CStorageKV) (key : κ) (value out : ν) :
    (CBettingDB.Exists serK db key = true →
      CBettingDB.Write serK serV db key value = (false, db) ∧
      CBettingDB.Read serK unserV (CBettingDB.Write serK serV db key value).2 key out =
        CBettingDB.Read serK unserV db key out) ∧
    (CBettingDB.Exists serK db key = false →
      (CBettingDB.Write serK serV db key value).1 = true ∧
      CBettingDB.Exists serK (CBettingDB.Write serK serV db key value).2 key = true ∧
      CBettingDB.Read serK unserV (CBettingDB.Write serK serV db key value).2 key out =
        (CBettingDB.BytesToDbType unserV (CBettingDB.DbTypeToBytes serV value) out).map
          (fun v => (true, v)) ∧
      ∀ other : List Nat, other ≠ CBettingDB.DbTypeToBytes serK key →
        CStorageKV.Read (CBettingDB.Write serK serV db key value).2 other =
          CStorageKV.Read db other) := by
  constructor
  · intro hex
    unfold CBettingDB.Exists at hex
    have hw : CBettingDB.Write serK serV db key value = (false, db) := by
      unfold CBettingDB.Write
      simp only [hex, if_true]
    exact ⟨hw, by rw [hw]⟩
  · intro hex
    unfold CBettingDB.Exists at hex
    have hw : CBettingDB.Write serK serV db key value =
        (true, insertKV db (CBettingDB.DbTypeToBytes serK key)
          (CBettingDB.DbTypeToBytes serV value)) := by
      unfold CBettingDB.Write
      simp only [hex, Bool.false_eq_true, if_false]
      rfl
    rw [hw]
    refine ⟨rfl, ?_, ?_, ?_⟩
    · unfold CBettingDB.Exists
      rw [Exists_eq_isSome, Read_insertKV_same]
      rfl
    · unfold CBettingDB.Read
      simp only [Read_insertKV_same]
      cases CBettingDB.BytesToDbType unserV (CBettingDB.DbTypeToBytes serV value) out <;> rfl
    · intro other ho
      exact Read_insertKV_other db _ _ other ho

/-- C28, witness: in the empty table the event key 5 is absent: Write stores the value and
Read yields it; a second Write under the key returns false and changes nothing. -/
theorem C28_write_if_absent_witness :
    CBettingDB.Read EventKey.Serialize EventKey.Unserialize
        (CBettingDB.Write EventKey.Serialize EventKey.Serialize [] (⟨5⟩ : EventKey)
          (⟨9⟩ : EventKey)).2 ⟨5⟩ ⟨0⟩ =
      some (true, ⟨9⟩) ∧
    CBettingDB.Write EventKey.Serialize EventKey.Serialize [([0, 0, 0, 5], [0, 0, 0, 9])]
        (⟨5⟩ : EventKey) (⟨11⟩ : EventKey) =
      (false, [([0, 0, 0, 5], [0, 0, 0, 9])]) :=
  ⟨((C28_write_if_absent EventKey.Serialize EventKey.Serialize EventKey.Unserialize []
      (⟨5⟩ : EventKey) (⟨9⟩ : EventKey) ⟨0⟩).2 (by decide)).2.2.1,
    ((C28_write_if_absent EventKey.Serialize EventKey.Serialize EventKey.Unserialize
      [([0, 0, 0, 5], [0, 0, 0, 9])] (⟨5⟩ : EventKey) (⟨11⟩ : EventKey) ⟨0⟩).1
      (by decide)).1⟩

/-- C29: for every table and key k (any key and value types): when the encoded key is
absent, Update(k, v) and Erase(k) return false and leave the table as it is, and
Read(k, out) returns false without raising and without modifying out; when it is present,
Update returns true and replaces the value of k by the encoding of v, Erase returns true
and removes k, and in both cases every other key keeps its value. -/
theorem C29_update_erase_read {κ ν : Type} (serK : List Nat → κ → List Nat)
    (serV : List Nat → ν → List Nat) (unserV : List Nat → ν → Option (ν × List Nat))
    (db : CStorageKV) (key : κ) (value out : ν) :
    (CBettingDB.Exists serK db key = false →
      CBettingDB.Update serK serV db key value = (false, db) ∧
      CBettingDB.Erase serK db key = (false, db) ∧
      CBettingDB.Read serK unserV db key out = some (false, out)) ∧
    (CBettingDB.Exists serK db key = true →
      (CBettingDB.Update serK serV db key value).1 = true ∧
      CStorageKV.Read (CBettingDB.Update serK serV db key value).2
          (CBettingDB.DbTypeToBytes serK key) =
        some (CBettingDB.DbTypeToBytes serV value) ∧
      (∀ other : List Nat, other ≠ CBettingDB.DbTypeToBytes serK key →
        CStorageKV.Read (CBettingDB.Update serK serV db key value).2 other =
          CStorageKV.Read db other) ∧
      (CBettingDB.Erase serK db key).1 = true ∧
      CBettingDB.Exists serK (CBettingDB.Erase serK db key).2 key = false ∧
      (∀ other : List Nat, other ≠ CBettingDB.DbTypeToBytes serK key →
        CStorageKV.Read (CBettingDB.Erase serK db key).2 other =
          CStorageKV.Read db other)) := by
  constructor
  · intro hex
    unfold CBettingDB.Exists at hex
    refine ⟨?_, ?_, ?_⟩
    · unfold CBettingDB.Update
      simp only [hex, Bool.not_false, if_true]
    · unfold CBettingDB.Erase
      simp only [hex, Bool.not_false, if_true]
    · unfold CBettingDB.Read
      rw [Exists_eq_isSome] at hex
      cases hr : CStorageKV.Read db (CBettingDB.DbTypeToBytes serK key) with
      | none => simp only [hr]
      | some v => rw [hr] at hex; cases hex
  · intro hex
    unfold CBettingDB.Exists at hex
    have hu : CBettingDB.Update serK serV db key value =
        (true, insertKV db (CBettingDB.DbTypeToBytes serK key)
          (CBettingDB.DbTypeToBytes serV value)) := by
      unfold CBettingDB.Update
      simp only [hex, Bool.not_true, Bool.false_eq_true, if_false]
      rfl
    have he : CBettingDB.Erase serK db key =
        (true, db.filter (fun e => decide (e.1 ≠ CBettingDB.DbTypeToBytes serK key))) := by
      unfold CBettingDB.Erase
      simp only [hex, Bool.not_true, Bool.false_eq_true, if_false]
      rfl
    rw [hu, he]
    refine ⟨rfl, Read_insertKV_same db _ _, fun other ho => Read_insertKV_other db _ _ other ho,
      rfl, ?_, fun other ho => Read_erase_other db _ other ho⟩
    unfold CBettingDB.Exists
    rw [Exists_eq_isSome, Read_erase_same]
    rfl

/-- C29, witness: in a table with the event keys 5 and 6, Update of key 5 replaces its
value and keeps that of key 6, Erase of key 5 removes it; with key 7, which is absent,
Update returns false and Read returns false with the output object as it was. -/
theorem C29_update_erase_read_witness :
    (CBettingDB.Update EventKey.Serialize EventKey.Serialize
        [([0, 0, 0, 5], [0, 0, 0, 9]), ([0, 0, 0, 6], [0, 0, 0, 10])] (⟨5⟩ : EventKey)
        (⟨11⟩ : EventKey)).1 = true ∧
    CStorageKV.Read (CBettingDB.Erase EventKey.Serialize
        [([0, 0, 0, 5], [0, 0, 0, 9]), ([0, 0, 0, 6], [0, 0, 0, 10])] (⟨5⟩ : EventKey)).2
        [0, 0, 0, 6] = some [0, 0, 0, 10] ∧
    CBettingDB.Read EventKey.Serialize EventKey.Unserialize
        [([0, 0, 0, 5], [0, 0, 0, 9]), ([0, 0, 0, 6], [0, 0, 0, 10])] (⟨7⟩ : EventKey)
        (⟨3⟩ : EventKey) = some (false, ⟨3⟩) :=
  ⟨((C29_update_erase_read EventKey.Serialize EventKey.Serialize EventKey.Unserialize
      [([0, 0, 0, 5], [0, 0, 0, 9]), ([0, 0, 0, 6], [0, 0, 0, 10])] (⟨5⟩ : EventKey)
      (⟨11⟩ : EventKey) ⟨0⟩).2 (by decide)).1,
    ((C29_update_erase_read EventKey.Serialize EventKey.Serialize EventKey.Unserialize
      [([0, 0, 0, 5], [0, 0, 0, 9]), ([0, 0, 0, 6], [0, 0, 0, 10])] (⟨5⟩ : EventKey)
      (⟨11⟩ : EventKey) ⟨0⟩).2 (by decide)).2.2.2.2.2 [0, 0, 0, 6] (by decide),
    ((C29_update_erase_read EventKey.Serialize EventKey.Serialize EventKey.Unserialize
      [([0, 0, 0, 5], [0, 0, 0, 9]), ([0, 0, 0, 6], [0, 0, 0, 10])] (⟨7⟩ : EventKey)
      (⟨11⟩ : EventKey) ⟨3⟩).1 (by decide)).2.2⟩

/-! ## Quick games -/

theorem qgOdds_lt (env : QuickGamesEnv) (H : Int) (g : CQuickGamesView)
    (b : CQuickGamesBetDB) : qgOdds env H g b < 4294967296 := by
  unfold qgOdds u32
  exact Nat.mod_lt _ (by decide)

/-- A bet without positive winnings has payout 0; this is the case of the odds 0. -/
theorem qgPayout_nonpos (g : CQuickGamesView) (a : Int) (o : Nat)
    (h : i64 (a * (o : Int)) ≤ 0) : qgPayout g a o = 0 := by
  unfold qgPayout qgWinningsPermille
  rw [if_neg (not_lt.mpr h)]

/-- Without overflow and with odds that are not below the divisor the payout is
`(a * o - a * (o - D) / 1000 * p) / D`. -/
theorem qgPayout_formula (g : CQuickGamesView) (a : Int) (o : Nat)
    (ha : 0 ≤ a) (ho : 10000 ≤ o) (ho2 : o < 4294967296)
    (hw : a * (o : Int) < 9223372036854775808)
    (hp : g.nFeePermille < 4294967296)
    (hf : Int.tdiv (a * ((o : Int) - 10000)) 1000 * (g.nFeePermille : Int) <
      9223372036854775808) :
    qgPayout g a o =
      Int.tdiv (a * (o : Int) - Int.tdiv (a * ((o : Int) - 10000)) 1000 *
        (g.nFeePermille : Int)) 10000 := by
  have ho0 : (0 : Int) ≤ (o : Int) - 10000 := by omega
  have hcast : ((u32OfInt ((o : Int) - (BET_ODDSDIVISOR : Int)) : Nat) : Int) =
      (o : Int) - 10000 := by
    unfold u32OfInt BET_ODDSDIVISOR
    omega
  have hpc : ((u32 g.nFeePermille : Nat) : Int) = (g.nFeePermille : Int) := by
    unfold u32
    rw [Nat.mod_eq_of_lt hp]
  have hw0 : 0 ≤ a * (o : Int) := mul_nonneg ha (by omega)
  have hm0 : 0 ≤ a * ((o : Int) - 10000) := mul_nonneg ha ho0
  have hmle : a * ((o : Int) - 10000) ≤ a * (o : Int) :=
    mul_le_mul_of_nonneg_left (by omega) ha
  have hq0 : 0 ≤ Int.tdiv (a * ((o : Int) - 10000)) 1000 := by
    rw [Int.tdiv_eq_ediv hm0 (by decide)]
    exact Int.ediv_nonneg hm0 (by decide)
  have hf0 : 0 ≤ Int.tdiv (a * ((o : Int) - 10000)) 1000 * (g.nFeePermille : Int) :=
    mul_nonneg hq0 (by omega)
  have hD : ((BET_ODDSDIVISOR : Nat) : Int) = 10000 := rfl
  unfold qgPayout qgFeePermille qgWinningsPermille
  rw [hcast, hpc, hD, i64_of_range _ (by omega) hw,
    i64_of_range (a * ((o : Int) - 10000)) (by omega) (by omega),
    i64_of_range _ (by omega) hf]
  by_cases hpos : a * (o : Int) > 0
  · rw [if_pos hpos, if_pos hpos, i64_of_range _ (by omega) (by omega)]
  · have hz : a * (o : Int) = 0 := by omega
    have ha0 : a = 0 := by
      rcases mul_eq_zero.mp hz with h | h
      · exact h
      · omega
    rw [if_neg hpos, ha0]
    simp

/-- The loop body on a bet that is not completed and has a valid game index. -/
theorem qgBetStep_eq (env : QuickGamesEnv) (H : Int) (st : QGState)
    (k : PeerlessBetKey) (b : CQuickGamesBetDB) (g : CQuickGamesView)
    (hc : b.completed = false) (hg : env.QuickGamesArr[b.gameType]? = some g) :
    (qgPayout g b.betAmount (qgOdds env H g b) > 0 →
      env.GetFeePayoutAddresses H = none → qgBetStep env H st (k, b) = st) ∧
    (qgPayout g b.betAmount (qgOdds env H g b) > 0 →
      ∀ dev omno, env.GetFeePayoutAddresses H = some (dev, omno) →
      qgBetStep env H st (k, b) =
        { vExpectedPayouts := st.vExpectedPayouts ++
            [⟨qgPayout g b.betAmount (qgOdds env H g b),
              env.GetScriptForDestination b.playerAddress, b.betAmount, 0⟩]
          vPayoutsInfo := st.vPayoutsInfo ++
            [⟨k, if qgOdds env H g b = BET_ODDSDIVISOR then PayoutType.quickGamesRefund
              else PayoutType.quickGamesPayout⟩]
          mExpectedRewards :=
            addReward
              (addReward st.mExpectedRewards g.specialAddress
                (qgReward (qgFeePermille g b.betAmount (qgOdds env H g b))
                  g.nDevRewardPermille))
              omno (qgReward (qgFeePermille g b.betAmount (qgOdds env H g b))
                g.nOMNORewardPermille)
          vEntriesToUpdate := st.vEntriesToUpdate ++
            [(k, qgSettled b
              (if qgOdds env H g b = BET_ODDSDIVISOR then BetResultType.betResultRefund
                else BetResultType.betResultWin)
              (qgPayout g b.betAmount (qgOdds env H g b)))] }) ∧
    (¬ qgPayout g b.betAmount (qgOdds env H g b) > 0 →
      qgBetStep env H st (k, b) =
        { st with
          vEntriesToUpdate := st.vEntriesToUpdate ++
            [(k, qgSettled b BetResultType.betResultLose
              (qgPayout g b.betAmount (qgOdds env H g b)))] }) := by
  refine ⟨?_, ?_, ?_⟩
  · intro hp ha
    unfold qgBetStep
    simp only [hc, hg, Bool.false_eq_true, if_false, hp, if_true, ha]
  · intro hp dev omno ha
    unfold qgBetStep
    simp only [hc, hg, Bool.false_eq_true, if_false, hp, if_true, ha]
  · intro hp
    unfold qgBetStep
    simp only [hc, hg, Bool.false_eq_true, if_false, hp]

/-- A completed bet and a bet with an invalid game index are skipped. -/
theorem qgBetStep_skip (env : QuickGamesEnv) (H : Int) (st : QGState)
    (k : PeerlessBetKey) (b : CQuickGamesBetDB)
    (h : b.completed = true ∨ env.QuickGamesArr[b.gameType]? = none) :
    qgBetStep env H st (k, b) = st := by
  unfold qgBetStep
  by_cases hc : b.completed = true
  · simp only [hc, if_true]
  · rcases h with h | h
    · exact absurd h hc
    · simp only [hc, Bool.false_eq_true, if_false, h]

/-- C22, counterexample: for the losing bet of one coin (handler odds 0, fee permille 10)
the code computes the payout 0 and makes no output, while the formula of section 4.6
gives 1000000; for the winning bet of 123456789 atoms at odds 23500 the code pays
288456787, the formula of section 4.6 gives 288456788; and when the fee payout addresses
are not found
the winning bet has a positive payout but no output is made and nothing is written
back. -/
theorem C22_counterexample :
    qgPayout exGame 100000000 (qgOdds exQGEnv 601 exGame qgLoseBet) = 0 ∧
    specQGPayout 100000000 (qgOdds exQGEnv 601 exGame qgLoseBet) 10 = 1000000 ∧
    (GetQuickGamesBetPayouts exQGEnv qgTable 601 [] []).2.1 = [] ∧
    qgOdds exQGEnv 600 exGame qgWinBet = 23500 ∧
    qgPayout exGame 123456789 23500 = 288456787 ∧
    specQGPayout 123456789 23500 10 = 288456788 ∧
    (GetQuickGamesBetPayouts exQGEnv qgTable 600 [] []).2.1.head? =
      some ⟨288456787, [41], 123456789, 0⟩ ∧
    GetQuickGamesBetPayouts noAddrQGEnv qgTable 600 [] [] = (qgTable, [], []) := by
  refine ⟨by decide, by decide, by decide, by decide, by decide, by decide, by decide,
    by decide⟩

/-- C22 (amended): for every quick-games bet that the loop body of
`GetQuickGamesBetPayouts` handles (not completed, valid game index), with stake a, handler
odds o and game fee permille p: the payout is 0 when the winnings `a * o` are not
positive, as for the odds 0; for `0 ≤ a`, `o ≥ 10000` and without 64-bit overflow it is
`(a * o - a * (o - 10000) / 1000 * p) / 10000`, integer division at each step; the payout
becomes an output exactly when it is positive and the fee payout addresses are found; and
the bet is queued for the write-back with this payout, except when the payout is positive
and the addresses are not found. -/
theorem C22_quick_games_payout (env : QuickGamesEnv) (H : Int) (st : QGState)
    (k : PeerlessBetKey) (b : CQuickGamesBetDB) (g : CQuickGamesView)
    (hc : b.completed = false) (hg : env.QuickGamesArr[b.gameType]? = some g) :
    (i64 (b.betAmount * (qgOdds env H g b : Int)) ≤ 0 →
      qgPayout g b.betAmount (qgOdds env H g b) = 0) ∧
    (0 ≤ b.betAmount → 10000 ≤ qgOdds env H g b →
      b.betAmount * (qgOdds env H g b : Int) < 9223372036854775808 →
      g.nFeePermille < 4294967296 →
      Int.tdiv (b.betAmount * ((qgOdds env H g b : Int) - 10000)) 1000 *
        (g.nFeePermille : Int) < 9223372036854775808 →
      qgPayout g b.betAmount (qgOdds env H g b) =
        Int.tdiv (b.betAmount * (qgOdds env H g b : Int) -
          Int.tdiv (b.betAmount * ((qgOdds env H g b : Int) - 10000)) 1000 *
            (g.nFeePermille : Int)) 10000) ∧
    (qgBetStep env H st (k, b)).vExpectedPayouts = st.vExpectedPayouts ++
      (if qgPayout g b.betAmount (qgOdds env H g b) > 0 ∧
          (env.GetFeePayoutAddresses H).isSome = true then
        [⟨qgPayout g b.betAmount (qgOdds env H g b),
          env.GetScriptForDestination b.playerAddress, b.betAmount, 0⟩]
      else []) ∧
    (qgBetStep env H st (k, b)).vEntriesToUpdate = st.vEntriesToUpdate ++
      (if qgPayout g b.betAmount (qgOdds env H g b) > 0 then
        (if (env.GetFeePayoutAddresses H).isSome = true then
          [(k, qgSettled b
            (if qgOdds env H g b = BET_ODDSDIVISOR then BetResultType.betResultRefund
              else BetResultType.betResultWin)
            (qgPayout g b.betAmount (qgOdds env H g b)))]
        else [])
      else [(k, qgSettled b BetResultType.betResultLose
        (qgPayout g b.betAmount (qgOdds env H g b)))]) := by
  obtain ⟨hnone, hsome, hlose⟩ := qgBetStep_eq env H st k b g hc hg
  refine ⟨qgPayout_nonpos g _ _, ?_, ?_, ?_⟩
  · intro ha ho hw hp hf
    exact qgPayout_formula g _ _ ha ho (qgOdds_lt env H g b) hw hp hf
  · by_cases hp : qgPayout g b.betAmount (qgOdds env H g b) > 0
    · cases ha : env.GetFeePayoutAddresses H with
      | none =>
        rw [hnone hp ha]
        simp
      | some p =>
        rw [hsome hp p.1 p.2 ha]
        simp [hp]
    · rw [hlose hp]
      simp [hp]
  · by_cases hp : qgPayout g b.betAmount (qgOdds env H g b) > 0
    · cases ha : env.GetFeePayoutAddresses H with
      | none =>
        rw [hnone hp ha]
        simp [hp]
      | some p =>
        rw [hsome hp p.1 p.2 ha]
        simp [hp]
    · rw [hlose hp]
      simp [hp]

/-- C22, witness: the winning bet of 123456789 atoms at height 599 is not completed and
plays the game 0; at the odds 23500 with fee permille 10 its payout is 288456787, which
becomes the output of the loop body. -/
theorem C22_quick_games_payout_witness :
    qgWinBet.completed = false ∧
    exQGEnv.QuickGamesArr[qgWinBet.gameType]? = some exGame ∧
    qgPayout exGame qgWinBet.betAmount (qgOdds exQGEnv 600 exGame qgWinBet) = 288456787 ∧
    (qgBetStep exQGEnv 600 ⟨[], [], [], []⟩ (⟨599, ⟨51, 0⟩⟩, qgWinBet)).vExpectedPayouts =
      [⟨288456787, [41], 123456789, 0⟩] :=
  ⟨rfl, rfl,
    ((C22_quick_games_payout exQGEnv 600 ⟨[], [], [], []⟩ ⟨599, ⟨51, 0⟩⟩ qgWinBet exGame
      rfl rfl).2.1 (by decide) (by decide) (by decide) (by decide) (by decide)).trans
      (by decide),
    (C22_quick_games_payout exQGEnv 600 ⟨[], [], [], []⟩ ⟨599, ⟨51, 0⟩⟩ qgWinBet exGame
      rfl rfl).2.2.1.trans (by decide)⟩

/-! ## Records written back with the completion mark -/

theorem classifyPaid_ne_unknown (p a : Int) (o n : Nat) (fl : LegFlags) :
    classifyPaid p a o n fl ≠ BetResultType.betResultUnknown := by
  unfold classifyPaid
  split
  · exact fun h => by cases h
  · split
    · exact fun h => by cases h
    · split
      · exact fun h => by cases h
      · exact fun h => by cases h

/-- The record that the settling block builds: completed, classified, and with the
effective payout as stored payout and as value of its output. -/
theorem settleBet_record (env : Env) (f : Bool) (H : Int) (k : PeerlessBetKey)
    (b : CPeerlessBetDB) (o : Nat × Nat) (fl : LegFlags) :
    (settleBet env f H k b o fl).bet.completed = true ∧
    (settleBet env f H k b o fl).bet.resultType ≠ BetResultType.betResultUnknown ∧
    (settleBet env f H k b o fl).bet.payout = (settleBet env f H k b o fl).effectivePayout ∧
    ∀ out ∈ (settleBet env f H k b o fl).outs,
      out.nValue = (settleBet env f H k b o fl).bet.payout := by
  by_cases hp : effectivePayoutOf env f b.betAmount (clampOdds env f b.betAmount o) > 0
  · rw [settleBet_pos env f H k b o fl hp]
    refine ⟨rfl, classifyPaid_ne_unknown _ _ _ _ _, rfl, ?_⟩
    intro out hout
    rw [List.mem_singleton] at hout
    rw [hout]
  · rw [settleBet_nonpos env f H k b o fl hp]
    refine ⟨rfl, (fun h => by cases h), rfl, ?_⟩
    intro out hout
    cases hout

/-- An entry of the table after the body of the results loop is an entry of the table
before it or carries the record of a bet handled in this body. -/
theorem resultStep_written (env : Env) (H : Int) (st : PLState) (result : CPeerlessResultDB)
    (e : PeerlessBetKey × CPeerlessBetDB) (he : e ∈ (resultStep env H st result).view.bets) :
    e ∈ st.view.bets ∨ ∃ h ∈ scanOf env H st result, e.2 = h.bet := by
  rw [(resultStep_eq env H st result).1] at he
  simp only [UpdateAll_eq_map] at he
  obtain ⟨e0, he0, hfe⟩ := List.mem_map.mp he
  rcases finalOf_cases ((scanOf env H st result).map (fun h => (h.key, h.bet))) e0 with
    ⟨_, hk⟩ | ⟨q, hq, _, hk⟩
  · left
    rw [← hfe, hk]
    exact he0
  · right
    obtain ⟨h, hh, hqh⟩ := List.mem_map.mp hq
    refine ⟨h, hh, ?_⟩
    rw [← hfe, hk, ← hqh]

theorem results_loop_written (env : Env) (H : Int)
    (B : List (PeerlessBetKey × CPeerlessBetDB)) (rs : List CPeerlessResultDB) :
    ∀ st : PLState,
      (∀ e ∈ st.view.bets, e ∈ B ∨ ∃ h ∈ st.handled, e.2 = h.bet) →
      ∀ e ∈ (rs.foldl (resultStep env H) st).view.bets,
        e ∈ B ∨ ∃ h ∈ (rs.foldl (resultStep env H) st).handled, e.2 = h.bet := by
  induction rs with
  | nil => intro st hst; exact hst
  | cons r rs ih =>
    intro st hst
    rw [List.foldl_cons]
    apply ih
    intro e he
    have hhd := (resultStep_eq env H st r).2.2.2
    rcases resultStep_written env H st r e he with h0 | ⟨h, hh, hb⟩
    · rcases hst e h0 with hB | ⟨h, hh, hb⟩
      · exact Or.inl hB
      · exact Or.inr ⟨h, by rw [hhd]; exact List.mem_append_left _ hh, hb⟩
    · exact Or.inr ⟨h, by rw [hhd]; exact List.mem_append_right _ hh, hb⟩

theorem GetPLBetPayoutsV3_view (env : Env) (view : CBettingsView) (H : Int)
    (vE : List CBetOut) (vI : List CPayoutInfoDB) :
    (GetPLBetPayoutsV3 env view H vE vI).1 = (plLoops env view H vE vI).view := by
  unfold GetPLBetPayoutsV3
  simp only []
  split <;> rfl

/-- What one pass of the quick-games loop body adds to the write-back queue: nothing, or
the settled record of the bet, classified and with the computed payout. -/
theorem qgBetStep_queue (env : QuickGamesEnv) (H : Int) (st : QGState)
    (e : PeerlessBetKey × CQuickGamesBetDB) :
    (qgBetStep env H st e).vEntriesToUpdate = st.vEntriesToUpdate ∨
    ∃ g r, env.QuickGamesArr[e.2.gameType]? = some g ∧ e.2.completed = false ∧
      (r = BetResultType.betResultWin ∨ r = BetResultType.betResultRefund ∨
        r = BetResultType.betResultLose) ∧
      (qgBetStep env H st e).vEntriesToUpdate = st.vEntriesToUpdate ++
        [(e.1, qgSettled e.2 r (qgPayout g e.2.betAmount (qgOdds env H g e.2)))] := by
  obtain ⟨k, b⟩ := e
  by_cases hc : b.completed = true
  · left
    rw [qgBetStep_skip env H st k b (Or.inl hc)]
  · have hc2 : b.completed = false := by simpa using hc
    cases hg : env.QuickGamesArr[b.gameType]? with
    | none =>
      left
      rw [qgBetStep_skip env H st k b (Or.inr hg)]
    | some g =>
      obtain ⟨hnone, hsome, hlose⟩ := qgBetStep_eq env H st k b g hc2 hg
      by_cases hp : qgPayout g b.betAmount (qgOdds env H g b) > 0
      · cases ha : env.GetFeePayoutAddresses H with
        | none =>
          left
          rw [hnone hp ha]
        | some p =>
          right
          refine ⟨g, (if qgOdds env H g b = BET_ODDSDIVISOR then BetResultType.betResultRefund
            else BetResultType.betResultWin), rfl, hc2, ?_, ?_⟩
          · by_cases ho : qgOdds env H g b = BET_ODDSDIVISOR
            · right; left; rw [if_pos ho]
            · left; rw [if_neg ho]
          · rw [hsome hp p.1 p.2 ha]
      · right
        refine ⟨g, BetResultType.betResultLose, rfl, hc2, Or.inr (Or.inr rfl), ?_⟩
        rw [hlose hp]

theorem qg_fold_queue (env : QuickGamesEnv) (H : Int)
    (es : List (PeerlessBetKey × CQuickGamesBetDB)) :
    ∀ st : QGState, ∀ q ∈ (es.foldl (qgBetStep env H) st).vEntriesToUpdate,
      q ∈ st.vEntriesToUpdate ∨
      ∃ e ∈ es, ∃ g r, env.QuickGamesArr[e.2.gameType]? = some g ∧ e.2.completed = false ∧
        (r = BetResultType.betResultWin ∨ r = BetResultType.betResultRefund ∨
          r = BetResultType.betResultLose) ∧
        q = (e.1, qgSettled e.2 r (qgPayout g e.2.betAmount (qgOdds env H g e.2))) := by
  induction es with
  | nil => intro st q hq; exact Or.inl hq
  | cons e es ih =>
    intro st q hq
    rw [List.foldl_cons] at hq
    rcases ih (qgBetStep env H st e) q hq with h0 | ⟨e1, he1, g, r, hg, hc, hr, hqe⟩
    · rcases qgBetStep_queue env H st e with hsame | ⟨g, r, hg, hc, hr, hadd⟩
      · left
        rw [hsame] at h0
        exact h0
      · rw [hadd, List.mem_append, List.mem_singleton] at h0
        rcases h0 with h0 | h0
        · exact Or.inl h0
        · exact Or.inr ⟨e, List.mem_cons_self _ _, g, r, hg, hc, hr, h0⟩
    · exact Or.inr ⟨e1, List.mem_cons_of_mem _ he1, g, r, hg, hc, hr, hqe⟩

theorem mem_of_mem_qgVisited (H : Int) (t : List (PeerlessBetKey × CQuickGamesBetDB))
    (e : PeerlessBetKey × CQuickGamesBetDB) (he : e ∈ qgVisited H t) :
    e ∈ t ∧ e.1.blockHeight = u32OfInt (H - 1) := by
  unfold qgVisited at he
  refine ⟨mem_of_mem_Seek _ _ _ ((List.takeWhile_sublist _).subset he), ?_⟩
  have := List.mem_takeWhile_imp he
  simpa using this

/-- Every entry of the write-back queue of the quick-games loop is the settled record of a
visited bet of the table. -/
theorem qgLoop_queue (env : QuickGamesEnv) (t : List (PeerlessBetKey × CQuickGamesBetDB))
    (H : Int) (vE : List CBetOut) (vI : List CPayoutInfoDB)
    (q : PeerlessBetKey × CQuickGamesBetDB)
    (hq : q ∈ (qgLoop env t H vE vI).vEntriesToUpdate) :
    ∃ e ∈ qgVisited H t, ∃ g r, env.QuickGamesArr[e.2.gameType]? = some g ∧
      e.2.completed = false ∧
      (r = BetResultType.betResultWin ∨ r = BetResultType.betResultRefund ∨
        r = BetResultType.betResultLose) ∧
      q = (e.1, qgSettled e.2 r (qgPayout g e.2.betAmount (qgOdds env H g e.2))) := by
  unfold qgLoop at hq
  rcases qg_fold_queue env H (qgVisited H t) _ q hq with h0 | h1
  · cases h0
  · exact h1

/-- An entry of the table after `GetQuickGamesBetPayouts` is an entry of the table before
it or carries a record of the write-back queue. -/
theorem GetQuickGamesBetPayouts_written (env : QuickGamesEnv)
    (t : List (PeerlessBetKey × CQuickGamesBetDB)) (H : Int) (vE : List CBetOut)
    (vI : List CPayoutInfoDB) (e : PeerlessBetKey × CQuickGamesBetDB)
    (he : e ∈ (GetQuickGamesBetPayouts env t H vE vI).1) :
    e ∈ t ∨ ∃ q ∈ (qgLoop env t H vE vI).vEntriesToUpdate, e.2 = q.2 := by
  unfold GetQuickGamesBetPayouts at he
  by_cases hend : H - 1 ≥ env.QuickGamesEndHeight
  · rw [if_pos hend] at he
    exact Or.inl he
  · rw [if_neg hend] at he
    simp only [UpdateAll_eq_map] at he
    obtain ⟨e0, he0, hfe⟩ := List.mem_map.mp he
    rcases finalOf_cases (qgLoop env t H vE vI).vEntriesToUpdate e0 with
      ⟨_, hk⟩ | ⟨q, hq, _, hk⟩
    · left
      rw [← hfe, hk]
      exact he0
    · right
      refine ⟨q, hq, ?_⟩
      rw [← hfe, hk]

/-- C30: every record that `GetPLBetPayoutsV3` queues for the write-back (the record of
each handled bet) is completed, has a result type other than unknown, and stores the
effective payout computed for the bet, which is also the value of its output if it has
one; every record that `GetQuickGamesBetPayouts` queues is completed, has the result type
win, refund or lose, and stores the payout computed from the stake and the handler odds
of a bet of the table under the same key; and an entry of either table after the call is
an entry of the table before the call or carries a queued record. -/
theorem C30_completed_records (env : QuickGamesEnv) (view : CBettingsView)
    (quickGamesBets : List (PeerlessBetKey × CQuickGamesBetDB)) (H : Int)
    (vE : List CBetOut) (vI : List CPayoutInfoDB) :
    (∀ h ∈ (plLoops env.toEnv view H vE vI).handled,
      h.bet.completed = true ∧ h.bet.resultType ≠ BetResultType.betResultUnknown ∧
      h.bet.payout = h.effectivePayout ∧ ∀ out ∈ h.outs, out.nValue = h.bet.payout) ∧
    (∀ e ∈ (GetPLBetPayoutsV3 env.toEnv view H vE vI).1.bets,
      e ∈ view.bets ∨ ∃ h ∈ (plLoops env.toEnv view H vE vI).handled, e.2 = h.bet) ∧
    (∀ q ∈ (qgLoop env quickGamesBets H vE vI).vEntriesToUpdate,
      q.2.completed = true ∧
      (q.2.resultType = BetResultType.betResultWin ∨
        q.2.resultType = BetResultType.betResultRefund ∨
        q.2.resultType = BetResultType.betResultLose) ∧
      ∃ b g, (q.1, b) ∈ quickGamesBets ∧ b.completed = false ∧
        env.QuickGamesArr[b.gameType]? = some g ∧
        q.2.payout = qgPayout g b.betAmount (qgOdds env H g b)) ∧
    (∀ e ∈ (GetQuickGamesBetPayouts env quickGamesBets H vE vI).1,
      e ∈ quickGamesBets ∨
        ∃ q ∈ (qgLoop env quickGamesBets H vE vI).vEntriesToUpdate, e.2 = q.2) := by
  refine ⟨?_, ?_, ?_, ?_⟩
  · apply plLoops_handled env.toEnv view H vE vI
    intro view1 result k b h _ hh
    obtain ⟨o, fl, hs⟩ := handleBet_settle env.toEnv view1 H result k b h hh
    rw [hs]
    exact settleBet_record env.toEnv (isV3 env.toEnv H) H k b o fl
  · intro e he
    rw [GetPLBetPayoutsV3_view] at he
    unfold plLoops at he ⊢
    exact results_loop_written env.toEnv H view.bets _ _
      (fun e he => Or.inl he) e he
  · intro q hq
    obtain ⟨e, he, g, r, hg, hc, hr, hqe⟩ := qgLoop_queue env quickGamesBets H vE vI q hq
    have hmem := (mem_of_mem_qgVisited H quickGamesBets e he).1
    rw [hqe]
    refine ⟨rfl, ?_, e.2, g, hmem, hc, hg, rfl⟩
    rcases hr with hr | hr | hr
    · exact Or.inl hr
    · exact Or.inr (Or.inl hr)
    · exact Or.inr (Or.inr hr)
  · intro e he
    exact GetQuickGamesBetPayouts_written env quickGamesBets H vE vI e he

/-- C30, witness: at height 601 the single bet of the store is handled and queued with
the result type win and the payout 250 coins, its effective payout; the losing quick-games
bet keyed at height 600 is queued completed with the result type lose and the payout
0. -/
theorem C30_completed_records_witness :
    exHandled ∈ (plLoops exQGEnv.toEnv exView 601 [] []).handled ∧
    exHandled.bet.completed = true ∧
    exHandled.bet.resultType ≠ BetResultType.betResultUnknown ∧
    exHandled.bet.payout = exHandled.effectivePayout ∧
    (⟨600, ⟨52, 0⟩⟩, qgSettled qgLoseBet BetResultType.betResultLose 0) ∈
      (qgLoop exQGEnv qgTable 601 [] []).vEntriesToUpdate ∧
    (qgSettled qgLoseBet BetResultType.betResultLose 0).completed = true :=
  ⟨by decide,
    ((C30_completed_records exQGEnv exView qgTable 601 [] []).1 exHandled (by decide)).1,
    ((C30_completed_records exQGEnv exView qgTable 601 [] []).1 exHandled (by decide)).2.1,
    ((C30_completed_records exQGEnv exView qgTable 601 [] []).1 exHandled
      (by decide)).2.2.1,
    by decide,
    ((C30_completed_records exQGEnv exView qgTable 601 [] []).2.2.1
      (⟨600, ⟨52, 0⟩⟩, qgSettled qgLoseBet BetResultType.betResultLose 0) (by decide)).1⟩

/-! ## The search start height -/

/-- C33: for every height h with `0 ≤ h` (an `int`, so below 2^31) and non-negative
consensus parameters v3Height, W2, W3, the start height s = GetBetSearchStartHeight(h)
satisfies `s ≤ h` and `h - s ≤ W`, where W = W3 when `h ≥ v3Height` and W = W2 otherwise;
and `s = h - W` exactly when `h ≥ W`. -/
theorem C33_search_start_bounds (env : Env) (h : Int)
    (h0 : 0 ≤ h) (hint : h < 2147483648)
    (hv : 0 ≤ env.WagerrProtocolV3StartHeight)
    (h2 : 0 ≤ env.BetBlocksIndexTimespanV2) (h3 : 0 ≤ env.BetBlocksIndexTimespanV3) :
    (GetBetSearchStartHeight env h : Int) ≤ h ∧
    h - (GetBetSearchStartHeight env h : Int) ≤
      (if h ≥ env.WagerrProtocolV3StartHeight then env.BetBlocksIndexTimespanV3
        else env.BetBlocksIndexTimespanV2) ∧
    ((GetBetSearchStartHeight env h : Int) =
        h - (if h ≥ env.WagerrProtocolV3StartHeight then env.BetBlocksIndexTimespanV3
          else env.BetBlocksIndexTimespanV2) ↔
      h ≥ (if h ≥ env.WagerrProtocolV3StartHeight then env.BetBlocksIndexTimespanV3
        else env.BetBlocksIndexTimespanV2)) := by
  have hu : ∀ x : Int, 0 ≤ x → x ≤ h → (u32OfInt x : Int) = x := by
    intro x hx0 hxh
    unfold u32OfInt
    omega
  unfold GetBetSearchStartHeight
  by_cases hv3 : h ≥ env.WagerrProtocolV3StartHeight
  · simp only [hv3, if_true]
    by_cases hw : h ≥ env.BetBlocksIndexTimespanV3
    · simp only [hw, if_true]
      rw [hu _ (by omega) (by omega)]
      exact ⟨by omega, by omega, fun _ => trivial, fun _ => rfl⟩
    · simp only [hw, if_false]
      rw [hu _ hv hv3]
      exact ⟨by omega, by omega, fun hs => by omega, fun hf => hf.elim⟩
  · simp only [hv3, if_false]
    by_cases hw : h ≥ env.BetBlocksIndexTimespanV2
    · simp only [hw, if_true]
      rw [hu _ (by omega) (by omega)]
      exact ⟨by omega, by omega, fun _ => trivial, fun _ => rfl⟩
    · simp only [hw, if_false]
      rw [hu 0 (le_refl 0) h0]
      exact ⟨by omega, by omega, fun hs => by omega, fun hf => hf.elim⟩

/-- C33, witness: on the chain `exEnv` (v3 from height 100, W2 = 50, W3 = 200) the
start height for h = 600 is 400 = h - W3, and for h = 150, which is below W3, it is the
activation height 100. -/
theorem C33_search_start_bounds_witness :
    GetBetSearchStartHeight exEnv 600 = 400 ∧ GetBetSearchStartHeight exEnv 150 = 100 ∧
    (GetBetSearchStartHeight exEnv 150 : Int) ≤ 150 ∧
    (150 : Int) - (GetBetSearchStartHeight exEnv 150 : Int) ≤
      (if (150 : Int) ≥ exEnv.WagerrProtocolV3StartHeight then exEnv.BetBlocksIndexTimespanV3
        else exEnv.BetBlocksIndexTimespanV2) :=
  ⟨by decide, by decide,
    (C33_search_start_bounds exEnv 150 (by decide) (by decide) (by decide) (by decide)
      (by decide)).1,
    (C33_search_start_bounds exEnv 150 (by decide) (by decide) (by decide) (by decide)
      (by decide)).2.1⟩

/-! ## The order of the payout records -/

theorem CompareTo_values (ltOut : COutPoint → COutPoint → Bool) (code : PayoutType → Nat)
    (a b : CPayoutInfoDB) :
    CPayoutInfoDB.CompareTo ltOut code a b = -1 ∨
    CPayoutInfoDB.CompareTo ltOut code a b = 0 ∨
    CPayoutInfoDB.CompareTo ltOut code a b = 1 := by
  unfold CPayoutInfoDB.CompareTo
  split_ifs <;> simp

theorem CompareTo_lt_iff (ltOut : COutPoint → COutPoint → Bool) (code : PayoutType → Nat)
    (a b : CPayoutInfoDB) :
    CPayoutInfoDB.CompareTo ltOut code a b < 0 ↔
      (a.betKey.blockHeight < b.betKey.blockHeight ∨
        (a.betKey.blockHeight = b.betKey.blockHeight ∧
          (ltOut a.betKey.outPoint b.betKey.outPoint = true ∨
            (a.betKey.outPoint = b.betKey.outPoint ∧
              code a.payoutType % 256 < code b.payoutType % 256)))) := by
  unfold CPayoutInfoDB.CompareTo
  generalize a.betKey.blockHeight = x
  generalize b.betKey.blockHeight = y
  generalize ltOut a.betKey.outPoint b.betKey.outPoint = p
  generalize code a.payoutType % 256 = m
  generalize code b.payoutType % 256 = n
  generalize a.betKey.outPoint = u
  generalize b.betKey.outPoint = v
  split_ifs <;> simp_all <;> omega

theorem CompareTo_gt_iff (ltOut : COutPoint → COutPoint → Bool) (code : PayoutType → Nat)
    (a b : CPayoutInfoDB) :
    CPayoutInfoDB.CompareTo ltOut code a b > 0 ↔
      (b.betKey.blockHeight < a.betKey.blockHeight ∨
        (a.betKey.blockHeight = b.betKey.blockHeight ∧
          ltOut a.betKey.outPoint b.betKey.outPoint = false ∧
          (a.betKey.outPoint ≠ b.betKey.outPoint ∨
            code b.payoutType % 256 < code a.payoutType % 256))) := by
  unfold CPayoutInfoDB.CompareTo
  generalize a.betKey.blockHeight = x
  generalize b.betKey.blockHeight = y
  generalize ltOut a.betKey.outPoint b.betKey.outPoint = p
  generalize code a.payoutType % 256 = m
  generalize code b.payoutType % 256 = n
  generalize a.betKey.outPoint = u
  generalize b.betKey.outPoint = v
  split_ifs <;> simp_all <;> omega

theorem CompareTo_eq_zero_iff (ltOut : COutPoint → COutPoint → Bool)
    (code : PayoutType → Nat) (a b : CPayoutInfoDB) :
    CPayoutInfoDB.CompareTo ltOut code a b = 0 ↔
      (a.betKey.blockHeight = b.betKey.blockHeight ∧
        ltOut a.betKey.outPoint b.betKey.outPoint = false ∧
        a.betKey.outPoint = b.betKey.outPoint ∧
        code a.payoutType % 256 = code b.payoutType % 256) := by
  unfold CPayoutInfoDB.CompareTo
  generalize a.betKey.blockHeight = x
  generalize b.betKey.blockHeight = y
  generalize ltOut a.betKey.outPoint b.betKey.outPoint = p
  generalize code a.payoutType % 256 = m
  generalize code b.payoutType % 256 = n
  generalize a.betKey.outPoint = u
  generalize b.betKey.outPoint = v
  split_ifs <;> simp_all <;> omega
theorem COutPoint_lt_irrefl (x : COutPoint) : COutPoint.lt x x = false := by
  unfold COutPoint.lt
  simp

theorem COutPoint_lt_trans (x y z : COutPoint) (h1 : COutPoint.lt x y = true)
    (h2 : COutPoint.lt y z = true) : COutPoint.lt x z = true := by
  unfold COutPoint.lt at *
  simp only [Bool.or_eq_true, Bool.and_eq_true, decide_eq_true_eq] at *
  omega

theorem COutPoint_lt_total (x y : COutPoint) :
    COutPoint.lt x y = true ∨ x = y ∨ COutPoint.lt y x = true := by
  obtain ⟨xh, xn⟩ := x
  obtain ⟨yh, yn⟩ := y
  unfold COutPoint.lt
  simp only [Bool.or_eq_true, Bool.and_eq_true, decide_eq_true_eq, COutPoint.mk.injEq]
  omega

theorem exPayoutCode_inj (s t : PayoutType)
    (h : exPayoutCode s % 256 = exPayoutCode t % 256) : s = t := by
  cases s <;> cases t <;> first | rfl | (exact absurd h (by decide))

/-- C40: when `operator<` of outpoints is a strict total order (irreflexive, transitive,
any two different outpoints comparable) and the enumerators of `PayoutType` have
different `uint8_t` values, `CPayoutInfoDB::CompareTo` is a total order on (block height,
outpoint, payout type): it returns -1, 0 or 1; `CompareTo(a, b) = 0` if and only if a and
b have equal height, outpoint and payout type; `CompareTo(a, b) = -CompareTo(b, a)`;
a < b together with b < c imply a < c; and the six relational operators agree with one
another: `==` is equality of the three members, `!=` its negation, `<=` is `<` or `==`,
`>` is `<` with the operands exchanged, `>=` is `<=` with the operands exchanged, and
exactly one of `<`, `==`, `>` holds. -/
theorem C40_compare_total_order (ltOut : COutPoint → COutPoint → Bool)
    (code : PayoutType → Nat)
    (hirr : ∀ x, ltOut x x = false)
    (htrans : ∀ x y z, ltOut x y = true → ltOut y z = true → ltOut x z = true)
    (htot : ∀ x y, ltOut x y = true ∨ x = y ∨ ltOut y x = true)
    (hcode : ∀ s t, code s % 256 = code t % 256 → s = t) :
    (∀ a b, CPayoutInfoDB.CompareTo ltOut code a b = -1 ∨
      CPayoutInfoDB.CompareTo ltOut code a b = 0 ∨
      CPayoutInfoDB.CompareTo ltOut code a b = 1) ∧
    (∀ a b, CPayoutInfoDB.CompareTo ltOut code a b = 0 ↔
      (a.betKey.blockHeight = b.betKey.blockHeight ∧
        a.betKey.outPoint = b.betKey.outPoint ∧ a.payoutType = b.payoutType)) ∧
    (∀ a b, CPayoutInfoDB.CompareTo ltOut code a b =
      -CPayoutInfoDB.CompareTo ltOut code b a) ∧
    (∀ a b c, CPayoutInfoDB.CompareTo ltOut code a b < 0 →
      CPayoutInfoDB.CompareTo ltOut code b c < 0 →
      CPayoutInfoDB.CompareTo ltOut code a c < 0) ∧
    (∀ a b,
      (CPayoutInfoDB.operatorEq ltOut code a b = true ↔ a = b) ∧
      CPayoutInfoDB.operatorNe ltOut code a b = !CPayoutInfoDB.operatorEq ltOut code a b ∧
      CPayoutInfoDB.operatorLe ltOut code a b =
        (CPayoutInfoDB.operatorLt ltOut code a b || CPayoutInfoDB.operatorEq ltOut code a b) ∧
      CPayoutInfoDB.operatorGt ltOut code a b = CPayoutInfoDB.operatorLt ltOut code b a ∧
      CPayoutInfoDB.operatorGe ltOut code a b = CPayoutInfoDB.operatorLe ltOut code b a ∧
      ((CPayoutInfoDB.operatorLt ltOut code a b = true ∧
          CPayoutInfoDB.operatorEq ltOut code a b = false ∧
          CPayoutInfoDB.operatorGt ltOut code a b = false) ∨
        (CPayoutInfoDB.operatorLt ltOut code a b = false ∧
          CPayoutInfoDB.operatorEq ltOut code a b = true ∧
          CPayoutInfoDB.operatorGt ltOut code a b = false) ∨
        (CPayoutInfoDB.operatorLt ltOut code a b = false ∧
          CPayoutInfoDB.operatorEq ltOut code a b = false ∧
          CPayoutInfoDB.operatorGt ltOut code a b = true))) := by
  have hasym : ∀ x y, ltOut x y = true → ltOut y x = false := by
    intro x y hxy
    cases hyx : ltOut y x with
    | false => rfl
    | true =>
      have := htrans x y x hxy hyx
      rw [hirr x] at this
      cases this
  have hne : ∀ x y, ltOut x y = true → x ≠ y := by
    intro x y hxy he
    rw [he, hirr y] at hxy
    cases hxy
  have hzero : ∀ a b, CPayoutInfoDB.CompareTo ltOut code a b = 0 ↔
      (a.betKey.blockHeight = b.betKey.blockHeight ∧
        a.betKey.outPoint = b.betKey.outPoint ∧ a.payoutType = b.payoutType) := by
    intro a b
    rw [CompareTo_eq_zero_iff]
    constructor
    · rintro ⟨h1, _, h3, h4⟩
      exact ⟨h1, h3, hcode _ _ h4⟩
    · rintro ⟨h1, h3, h4⟩
      exact ⟨h1, by rw [h3]; exact hirr _, h3, by rw [h4]⟩
  have hgt : ∀ a b, CPayoutInfoDB.CompareTo ltOut code a b > 0 ↔
      CPayoutInfoDB.CompareTo ltOut code b a < 0 := by
    intro a b
    rw [CompareTo_gt_iff, CompareTo_lt_iff]
    constructor
    · rintro (h | ⟨h1, h2, h3 | h3⟩)
      · exact Or.inl h
      · rcases htot a.betKey.outPoint b.betKey.outPoint with ht | ht | ht
        · rw [h2] at ht; cases ht
        · exact absurd ht h3
        · exact Or.inr ⟨h1.symm, Or.inl ht⟩
      · rcases htot a.betKey.outPoint b.betKey.outPoint with ht | ht | ht
        · rw [h2] at ht; cases ht
        · exact Or.inr ⟨h1.symm, Or.inr ⟨ht.symm, h3⟩⟩
        · exact Or.inr ⟨h1.symm, Or.inl ht⟩
    · rintro (h | ⟨h1, h3 | ⟨h3, h4⟩⟩)
      · exact Or.inl h
      · exact Or.inr ⟨h1.symm, hasym _ _ h3, Or.inl (hne _ _ h3).symm⟩
      · exact Or.inr ⟨h1.symm, by rw [h3]; exact hirr _, Or.inr h4⟩
  have hanti : ∀ a b, CPayoutInfoDB.CompareTo ltOut code a b =
      -CPayoutInfoDB.CompareTo ltOut code b a := by
    intro a b
    have hz := hzero a b
    have hz2 := hzero b a
    have hg := hgt a b
    have hg2 := hgt b a
    have hzz : CPayoutInfoDB.CompareTo ltOut code a b = 0 ↔
        CPayoutInfoDB.CompareTo ltOut code b a = 0 := by
      rw [hz, hz2]
      constructor
      · rintro ⟨h1, h2, h3⟩; exact ⟨h1.symm, h2.symm, h3.symm⟩
      · rintro ⟨h1, h2, h3⟩; exact ⟨h1.symm, h2.symm, h3.symm⟩
    rcases CompareTo_values ltOut code a b with v | v | v <;>
      rcases CompareTo_values ltOut code b a with w | w | w <;>
      simp [v, w] at hg hg2 hzz ⊢
  have htr : ∀ a b c, CPayoutInfoDB.CompareTo ltOut code a b < 0 →
      CPayoutInfoDB.CompareTo ltOut code b c < 0 →
      CPayoutInfoDB.CompareTo ltOut code a c < 0 := by
    intro a b c hab hbc
    rw [CompareTo_lt_iff] at hab hbc ⊢
    rcases hab with h | ⟨h1, h2 | ⟨h2, h3⟩⟩ <;> rcases hbc with k | ⟨k1, k2 | ⟨k2, k3⟩⟩
    · exact Or.inl (by omega)
    · exact Or.inl (by omega)
    · exact Or.inl (by omega)
    · exact Or.inl (by omega)
    · exact Or.inr ⟨by omega, Or.inl (htrans _ _ _ h2 k2)⟩
    · exact Or.inr ⟨by omega, Or.inl (by rw [← k2]; exact h2)⟩
    · exact Or.inl (by omega)
    · exact Or.inr ⟨by omega, Or.inl (by rw [h2]; exact k2)⟩
    · exact Or.inr ⟨by omega, Or.inr ⟨by rw [h2, k2], by omega⟩⟩
  refine ⟨CompareTo_values ltOut code, hzero, hanti, htr, ?_⟩
  intro a b
  have hz := hzero a b
  have ha := hanti a b
  have hv := CompareTo_values ltOut code a b
  have heq : CPayoutInfoDB.CompareTo ltOut code a b = 0 ↔ a = b := by
    rw [hz]
    constructor
    · rintro ⟨h1, h2, h3⟩
      obtain ⟨⟨ah, ao⟩, at1⟩ := a
      obtain ⟨⟨bh, bo⟩, bt1⟩ := b
      simp only at h1 h2 h3
      rw [h1, h2, h3]
    · intro h
      rw [h]
      exact ⟨rfl, rfl, rfl⟩
  unfold CPayoutInfoDB.operatorEq CPayoutInfoDB.operatorNe CPayoutInfoDB.operatorLe
    CPayoutInfoDB.operatorGe CPayoutInfoDB.operatorLt CPayoutInfoDB.operatorGt
  refine ⟨by rw [decide_eq_true_eq]; exact heq, ?_, ?_, ?_, ?_, ?_⟩
  · rcases hv with v | v | v <;> rw [v] <;> decide
  · rcases hv with v | v | v <;> rw [v] <;> decide
  · rw [ha]
    rcases CompareTo_values ltOut code b a with v | v | v <;> rw [v] <;> decide
  · rw [ha]
    rcases CompareTo_values ltOut code b a with v | v | v <;> rw [v] <;> decide
  · rcases hv with v | v | v <;> rw [v] <;> decide

/-- C40, witness: with the order of outpoints by hash, then index, and the enumerators
numbered from 1, the reward record of height 600 and the payout record of the bet keyed at
height 500 compare as -1 and 1 in the two directions. -/
theorem C40_compare_total_order_witness :
    CPayoutInfoDB.CompareTo COutPoint.lt exPayoutCode ⟨exKey, PayoutType.bettingPayout⟩
      ⟨⟨600, COutPoint.null⟩, PayoutType.bettingReward⟩ = -1 ∧
    CPayoutInfoDB.CompareTo COutPoint.lt exPayoutCode
      ⟨⟨600, COutPoint.null⟩, PayoutType.bettingReward⟩ ⟨exKey, PayoutType.bettingPayout⟩ =
      -CPayoutInfoDB.CompareTo COutPoint.lt exPayoutCode ⟨exKey, PayoutType.bettingPayout⟩
        ⟨⟨600, COutPoint.null⟩, PayoutType.bettingReward⟩ :=
  ⟨by decide,
    (C40_compare_total_order COutPoint.lt exPayoutCode COutPoint_lt_irrefl COutPoint_lt_trans
      COutPoint_lt_total exPayoutCode_inj).2.2.1 _ _⟩

/-! ## The code at four failing inputs -/

/-- C37, the code at the failing input: the store `cgViewOne` holds event 7 and its single
entry, not completed; the payout call for height 601 appends the refund of 10 coins and
leaves the store as it was, the entry still not completed; a second payout call on the
resulting store appends the same refund again. -/
theorem C37_single_entrant_not_completed :
    GetCGLottoBetPayoutsV3 exEnv cgViewOne 601 [] [] =
      (cgViewOne, [⟨1000000000, [21], 1000000000, 7⟩],
        [⟨⟨410, ⟨31, 0⟩⟩, PayoutType.chainGamesRefund⟩]) ∧
    (GetCGLottoBetPayoutsV3 exEnv cgViewOne 601 [] []).1.chainGamesLottoBets.map
        (fun e => e.2.completed) = [false] ∧
    (GetCGLottoBetPayoutsV3 exEnv (GetCGLottoBetPayoutsV3 exEnv cgViewOne 601 [] []).1
        601 [] []).2.1 = [⟨1000000000, [21], 1000000000, 7⟩] := by
  refine ⟨by decide, by decide, by decide⟩

/-- C38, the code at the failing input: in the table `qgPaidTable` the bets keyed at the
heights 599 and 600 are completed (win and lose); the payout call that pays the bets of
height 599 visits the key of height 599 only; `UndoQGBetPayouts` for height 599 rewrites
the bet keyed at height 600 as well, which ends not completed with the result type
unknown. -/
theorem C38_undo_runs_past_height :
    qgPaidTable.map (fun e => (e.1.blockHeight, e.2.completed, e.2.resultType)) =
      [(598, false, BetResultType.betResultUnknown), (599, true, BetResultType.betResultWin),
       (600, true, BetResultType.betResultLose)] ∧
    (qgVisited 600 qgPaidTable).map (fun e => e.1.blockHeight) = [599] ∧
    (UndoQGBetPayouts qgPaidTable 599).map
        (fun e => (e.1.blockHeight, e.2.completed, e.2.resultType)) =
      [(598, false, BetResultType.betResultUnknown),
       (599, false, BetResultType.betResultUnknown),
       (600, false, BetResultType.betResultUnknown)] := by
  refine ⟨by decide, by decide, by decide⟩

/-- C39, the code at the failing input: the bytes of the height 7 followed by the type tag
2 are decoded without error, whatever follows them: the result is an undo entry of height
7 that holds the event image the object held before. -/
theorem C39_unknown_tag_is_decoded (env : Env) (rest : List Nat) (obj : CBettingUndoDB) :
    CBettingUndoDB.Unserialize env ([7, 0, 0, 0, 2, 0, 0, 0] ++ rest) obj =
      some ({ height := 7, undoVariant := obj.undoVariant }, rest) := by
  rfl

/-- C36, the code at the failing input: the payout call for height 599 on the table
`qgTable` refunds the bet keyed at height 598 (handler odds 10000, so the fee is 0) and
appends, after the refund of one coin, two reward outputs of value 0. -/
theorem C36_zero_reward_outputs :
    (GetQuickGamesBetPayouts exQGEnv qgTable 599 [] []).2.1 =
      [⟨100000000, [43], 100000000, 0⟩, ⟨0, [68], 0, 0⟩, ⟨0, [79], 0, 0⟩] ∧
    (GetQuickGamesBetPayouts exQGEnv qgTable 599 [] []).2.2 =
      [⟨⟨598, ⟨53, 0⟩⟩, PayoutType.quickGamesRefund⟩,
       ⟨⟨599, COutPoint.null⟩, PayoutType.quickGamesReward⟩,
       ⟨⟨599, COutPoint.null⟩, PayoutType.quickGamesReward⟩] := by
  refine ⟨by decide, by decide⟩

/-! ## The undo of the payout marks -/

/-- One write-back pass over a table with distinct encoded keys, when every queued entry
is `(key, und record)` for an entry of the table that satisfies `P`: each entry stays as
it is or satisfies `P` and becomes `(key, und record)`. -/
theorem undo_pass {α : Type} (bets queue : List (PeerlessBetKey × α)) (und : α → α)
    (P : α → Prop) (hk : (bets.map (fun e => DbTypeToBytes e.1)).Nodup)
    (hq : ∀ q ∈ queue, ∃ e ∈ bets, P e.2 ∧ q = (e.1, und e.2))
    (e : PeerlessBetKey × α) (he : e ∈ bets) :
    finalOf queue e = e ∨ (P e.2 ∧ finalOf queue e = (e.1, und e.2)) := by
  rcases finalOf_cases queue e with ⟨_, hk1⟩ | ⟨q, hqm, hm, hk1⟩
  · exact Or.inl hk1
  · right
    obtain ⟨e0, he0, hP, hqe⟩ := hq q hqm
    have hq1 : q.1 = e0.1 := by rw [hqe]
    have hee : e0 = e := entry_eq_of_encoded bets hk e0 e he0 he (by rw [← hq1, hm])
    rw [hee] at hP hqe
    exact ⟨hP, by rw [hk1, hqe]⟩

/-- Composition of write-back passes: when `a` and `b` are related entry by entry and `F`
keeps the relation, `a` and `b.map F` are related entry by entry. -/
theorem forall2_map_step {α β : Type} (R : α → β → Prop) (F : β → β) (a : List α)
    (b : List β) (h : List.Forall₂ R a b)
    (hF : ∀ c d, d ∈ b → R c d → R c (F d)) : List.Forall₂ R a (b.map F) := by
  induction h with
  | nil => exact List.Forall₂.nil
  | cons hcd _ ih =>
    rw [List.map_cons]
    refine List.Forall₂.cons (hF _ _ (List.mem_cons_self _ _) hcd) (ih ?_)
    intro c d hd hr
    exact hF c d (List.mem_cons_of_mem _ hd) hr

theorem forall2_self {α : Type} (R : α → α → Prop) (a : List α) (h : ∀ x ∈ a, R x x) :
    List.Forall₂ R a a := by
  induction a with
  | nil => exact List.Forall₂.nil
  | cons x xs ih =>
    exact List.Forall₂.cons (h x (List.mem_cons_self _ _))
      (ih (fun y hy => h y (List.mem_cons_of_mem _ hy)))

theorem forall2_keys {α : Type} (R : PeerlessBetKey × α → PeerlessBetKey × α → Prop)
    (a b : List (PeerlessBetKey × α)) (h : List.Forall₂ R a b)
    (hR : ∀ x y, R x y → y.1 = x.1) : b.map (fun e => e.1) = a.map (fun e => e.1) := by
  induction h with
  | nil => rfl
  | cons hxy _ ih =>
    rw [List.map_cons, List.map_cons, ih, hR _ _ hxy]

/-- The queue of one pass of the undo loop of `UndoPLBetPayouts`. -/
theorem undo_fold_mem (view : CBettingsView) (result : CPeerlessResultDB)
    (es : List (PeerlessBetKey × CPeerlessBetDB)) :
    ∀ (init : List (PeerlessBetKey × CPeerlessBetDB)) (q : PeerlessBetKey × CPeerlessBetDB),
      q ∈ es.foldl (undoStep view result) init →
      q ∈ init ∨ ∃ e ∈ es, e.2.completed = true ∧ q = (e.1, plUndone e.2) := by
  induction es with
  | nil => intro init q hq; exact Or.inl hq
  | cons e es ih =>
    intro init q hq
    rw [List.foldl_cons] at hq
    rcases ih _ q hq with h0 | ⟨e1, he1, hc, hqe⟩
    · unfold undoStep at h0
      by_cases hc : e.2.completed = true
      · simp only [hc, Bool.not_true, Bool.false_eq_true, if_false] at h0
        by_cases hn : needUndo view result e.2 = true
        · simp only [hn, if_true, List.mem_append, List.mem_singleton] at h0
          rcases h0 with h0 | h0
          · exact Or.inl h0
          · exact Or.inr ⟨e, List.mem_cons_self _ _, hc, h0⟩
        · simp only [hn, Bool.false_eq_true, if_false] at h0
          exact Or.inl h0
      · have hc2 : e.2.completed = false := by simpa using hc
        simp only [hc2, Bool.not_false, if_true] at h0
        exact Or.inl h0
    · exact Or.inr ⟨e1, List.mem_cons_of_mem _ he1, hc, hqe⟩

/-- The queue of the loop of `UndoQGBetPayouts`. -/
theorem undoQG_fold_mem (es : List (PeerlessBetKey × CQuickGamesBetDB)) :
    ∀ (init : List (PeerlessBetKey × CQuickGamesBetDB))
      (q : PeerlessBetKey × CQuickGamesBetDB),
      q ∈ es.foldl undoQGStep init →
      q ∈ init ∨ ∃ e ∈ es, e.2.completed = true ∧ q = (e.1, qgUndone e.2) := by
  induction es with
  | nil => intro init q hq; exact Or.inl hq
  | cons e es ih =>
    intro init q hq
    rw [List.foldl_cons] at hq
    rcases ih _ q hq with h0 | ⟨e1, he1, hc, hqe⟩
    · unfold undoQGStep at h0
      by_cases hc : e.2.completed = true
      · simp only [hc, Bool.not_true, Bool.false_eq_true, if_false, List.mem_append,
          List.mem_singleton] at h0
        rcases h0 with h0 | h0
        · exact Or.inl h0
        · exact Or.inr ⟨e, List.mem_cons_self _ _, hc, h0⟩
      · have hc2 : e.2.completed = false := by simpa using hc
        simp only [hc2, Bool.not_false, if_true] at h0
        exact Or.inl h0
    · exact Or.inr ⟨e1, List.mem_cons_of_mem _ he1, hc, hqe⟩

/-- The body of the results loop of `UndoPLBetPayouts` maps the bets table entry by
entry: an entry stays or is a completed entry with the three members reset. -/
theorem undoResultStep_map (env : Env) (view : CBettingsView) (result : CPeerlessResultDB)
    (hk : (view.bets.map (fun e => DbTypeToBytes e.1)).Nodup) :
    ∃ F : PeerlessBetKey × CPeerlessBetDB → PeerlessBetKey × CPeerlessBetDB,
      (undoResultStep env view result).bets = view.bets.map F ∧
      ∀ e ∈ view.bets, F e = e ∨ (e.2.completed = true ∧ F e = (e.1, plUndone e.2)) := by
  unfold undoResultStep
  by_cases hc : result.nResultType = env.eventClosed
  · rw [if_pos hc]
    exact ⟨id, (List.map_id _).symm, fun e _ => Or.inl rfl⟩
  · rw [if_neg hc]
    simp only [UpdateAll_eq_map]
    refine ⟨_, rfl, ?_⟩
    intro e he
    apply undo_pass view.bets _ plUndone (fun b => b.completed = true) hk _ e he
    intro q hq
    rcases undo_fold_mem view result _ [] q hq with h0 | ⟨e1, he1, hc1, hqe⟩
    · cases h0
    · exact ⟨e1, mem_of_mem_Seek _ _ _ he1, hc1, hqe⟩

theorem forall2_mem_left {α β : Type} (R : α → β → Prop) (a : List α) (b : List β)
    (h : List.Forall₂ R a b) (x : α) (hx : x ∈ a) : ∃ y ∈ b, R x y := by
  induction h with
  | nil => cases hx
  | cons hcd _ ih =>
    rcases List.mem_cons.mp hx with h1 | h1
    · exact ⟨_, List.mem_cons_self _ _, by rw [h1]; exact hcd⟩
    · obtain ⟨y, hy, hr⟩ := ih h1
      exact ⟨y, List.mem_cons_of_mem _ hy, hr⟩

theorem undo_loop_rel (env : Env) (bets0 : List (PeerlessBetKey × CPeerlessBetDB))
    (rs : List CPeerlessResultDB) :
    ∀ view : CBettingsView, (view.bets.map (fun e => DbTypeToBytes e.1)).Nodup →
      List.Forall₂ (fun e e' => e' = e ∨ (e.2.completed = true ∧ e' = (e.1, plUndone e.2)))
        bets0 view.bets →
      List.Forall₂ (fun e e' => e' = e ∨ (e.2.completed = true ∧ e' = (e.1, plUndone e.2)))
        bets0 (rs.foldl (undoResultStep env) view).bets := by
  induction rs with
  | nil => intro view _ h; exact h
  | cons r rs ih =>
    intro view hk h
    rw [List.foldl_cons]
    obtain ⟨F, hF, hFp⟩ := undoResultStep_map env view r hk
    have hkeys : (undoResultStep env view r).bets.map (fun e => e.1) =
        view.bets.map (fun e => e.1) := by
      rw [hF, List.map_map]
      apply List.map_congr_left
      intro e he
      rcases hFp e he with h1 | ⟨_, h1⟩
      · simp only [Function.comp, h1]
      · simp only [Function.comp, h1]
    apply ih
    · rw [encoded_keys_congr _ _ hkeys]
      exact hk
    · rw [hF]
      apply forall2_map_step _ F bets0 view.bets h
      intro c d hd hcd
      rcases hFp d hd with h1 | ⟨hdc, h1⟩
      · rw [h1]; exact hcd
      · rcases hcd with h2 | ⟨hcc, h2⟩
        · rw [h1, h2]
          exact Or.inr ⟨by rw [← h2]; exact hdc, rfl⟩
        · rw [h2] at hdc
          cases hdc

/-- C31: in a bets table and a quick-games table with distinct encoded keys,
`UndoPLBetPayouts` and `UndoQGBetPayouts` act entry by entry: each entry after the call
has the key, the stake, the player address, the legs, the locked events and the bet time
(for a quick-games bet: the game type, the bet bytes, the stake, the player address and
the bet time) of the entry at its place before the call, and either it is that entry
unchanged or that entry was completed and the new one is not completed, has the result
type unknown and the payout 0.  So a bet that was not completed before the undo is not
rewritten. -/
theorem C31_undo_resets_marks (env : Env) (view : CBettingsView)
    (quickGamesBets : List (PeerlessBetKey × CQuickGamesBetDB)) (height qgHeight : Int)
    (hk : (view.bets.map (fun e => DbTypeToBytes e.1)).Nodup)
    (hq : (quickGamesBets.map (fun e => DbTypeToBytes e.1)).Nodup) :
    List.Forall₂ plUndoRel view.bets (UndoPLBetPayouts env view height).bets ∧
    List.Forall₂ qgUndoRel quickGamesBets (UndoQGBetPayouts quickGamesBets qgHeight) ∧
    (∀ e ∈ view.bets, e.2.completed = false →
      e ∈ (UndoPLBetPayouts env view height).bets) ∧
    (∀ e ∈ quickGamesBets, e.2.completed = false →
      e ∈ UndoQGBetPayouts quickGamesBets qgHeight) := by
  have hpl : List.Forall₂
      (fun e e' => e' = e ∨ (e.2.completed = true ∧ e' = (e.1, plUndone e.2)))
      view.bets (UndoPLBetPayouts env view height).bets := by
    unfold UndoPLBetPayouts
    exact undo_loop_rel env view.bets _ view hk (forall2_self _ _ (fun x _ => Or.inl rfl))
  have hqg : List.Forall₂
      (fun e e' => e' = e ∨ (e.2.completed = true ∧ e' = (e.1, qgUndone e.2)))
      quickGamesBets (UndoQGBetPayouts quickGamesBets qgHeight) := by
    unfold UndoQGBetPayouts
    simp only [UpdateAll_eq_map]
    apply forall2_map_step _ _ quickGamesBets quickGamesBets
      (forall2_self _ _ (fun x _ => Or.inl rfl))
    intro c d hd hcd
    have hp := undo_pass quickGamesBets
      ((Seek ⟨u32OfInt qgHeight, COutPoint.null⟩ quickGamesBets).foldl undoQGStep [])
      qgUndone (fun b => b.completed = true) hq
      (by
        intro q hqm
        rcases undoQG_fold_mem _ [] q hqm with h0 | ⟨e1, he1, hc1, hqe⟩
        · cases h0
        · exact ⟨e1, mem_of_mem_Seek _ _ _ he1, hc1, hqe⟩) d hd
    rcases hp with h1 | ⟨hdc, h1⟩
    · rw [h1]; exact hcd
    · rcases hcd with h2 | ⟨hcc, h2⟩
      · rw [h1, h2]
        exact Or.inr ⟨by rw [← h2]; exact hdc, rfl⟩
      · rw [h2] at hdc
        cases hdc
  refine ⟨?_, ?_, ?_, ?_⟩
  · apply hpl.imp
    rintro e e' (h | ⟨hc, h⟩)
    · rw [h]; exact ⟨rfl, rfl, rfl, rfl, rfl, rfl, Or.inl rfl⟩
    · rw [h]; exact ⟨rfl, rfl, rfl, rfl, rfl, rfl, Or.inr ⟨hc, rfl, rfl, rfl⟩⟩
  · apply hqg.imp
    rintro e e' (h | ⟨hc, h⟩)
    · rw [h]; exact ⟨rfl, rfl, rfl, rfl, rfl, rfl, Or.inl rfl⟩
    · rw [h]; exact ⟨rfl, rfl, rfl, rfl, rfl, rfl, Or.inr ⟨hc, rfl, rfl, rfl⟩⟩
  · intro e he hc
    obtain ⟨e', he', hr⟩ := forall2_mem_left _ _ _ hpl e he
    rcases hr with h | ⟨hc2, _⟩
    · rw [← h]; exact he'
    · rw [hc] at hc2; cases hc2
  · intro e he hc
    obtain ⟨e', he', hr⟩ := forall2_mem_left _ _ _ hqg e he
    rcases hr with h | ⟨hc2, _⟩
    · rw [← h]; exact he'
    · rw [hc] at hc2; cases hc2

/-- C31, witness: in the store after the payout call for height 601 the bet is completed
with the result type win; `UndoPLBetPayouts` for height 601 leaves it not completed, with
the result type unknown and the payout 0, stake and legs as before; in the quick-games
table the bet keyed at height 598, which was not completed, is not rewritten by
`UndoQGBetPayouts`. -/
theorem C31_undo_resets_marks_witness :
    (exPaidView.bets.map (fun e => DbTypeToBytes e.1)).Nodup ∧
    (qgPaidTable.map (fun e => DbTypeToBytes e.1)).Nodup ∧
    exPaidView.bets.map (fun e => (e.2.completed, e.2.resultType)) =
      [(true, BetResultType.betResultWin)] ∧
    List.Forall₂ plUndoRel exPaidView.bets (UndoPLBetPayouts exEnv exPaidView 601).bets ∧
    (UndoPLBetPayouts exEnv exPaidView 601).bets.map
        (fun e => (e.2.completed, e.2.resultType, e.2.payout)) =
      [(false, BetResultType.betResultUnknown, 0)] ∧
    (⟨598, ⟨53, 0⟩⟩, qgRefundBet) ∈ UndoQGBetPayouts qgPaidTable 599 :=
  ⟨by decide, by decide, by decide,
    (C31_undo_resets_marks exEnv exPaidView qgPaidTable 601 599 (by decide) (by decide)).1,
    by decide,
    (C31_undo_resets_marks exEnv exPaidView qgPaidTable 601 599 (by decide)
      (by decide)).2.2.2 (⟨598, ⟨53, 0⟩⟩, qgRefundBet) (by decide) (by decide)⟩

/-! ## The three outcomes of a quick-games bet -/

/-- With a positive stake, a fee permille of at most 1000 and odds that are not below the
divisor, the payout is at least the stake, and it is the stake at the refund odds. -/
theorem qgPayout_ge_stake (g : CQuickGamesView) (a : Int) (o : Nat)
    (ha : 0 < a) (ho : 10000 ≤ o) (ho2 : o < 4294967296)
    (hw : a * (o : Int) < 9223372036854775808) (hp : g.nFeePermille ≤ 1000) :
    a ≤ qgPayout g a o ∧ (o = 10000 → qgPayout g a o = a) := by
  have ho0 : (0 : Int) ≤ (o : Int) - 10000 := by omega
  have hX0 : 0 ≤ a * ((o : Int) - 10000) := mul_nonneg (le_of_lt ha) ho0
  have hXW : a * ((o : Int) - 10000) = a * (o : Int) - a * 10000 := by ring
  have hq0 : 0 ≤ Int.tdiv (a * ((o : Int) - 10000)) 1000 := by
    rw [Int.tdiv_eq_ediv hX0 (by decide)]
    exact Int.ediv_nonneg hX0 (by decide)
  have hq : Int.tdiv (a * ((o : Int) - 10000)) 1000 * 1000 ≤ a * ((o : Int) - 10000) := by
    rw [Int.tdiv_eq_ediv hX0 (by decide)]
    exact Int.ediv_mul_le _ (by decide)
  have hpz : (g.nFeePermille : Int) ≤ 1000 := by exact_mod_cast hp
  have hF : Int.tdiv (a * ((o : Int) - 10000)) 1000 * (g.nFeePermille : Int) ≤
      Int.tdiv (a * ((o : Int) - 10000)) 1000 * 1000 :=
    mul_le_mul_of_nonneg_left hpz hq0
  have hF0 : 0 ≤ Int.tdiv (a * ((o : Int) - 10000)) 1000 * (g.nFeePermille : Int) :=
    mul_nonneg hq0 (by omega)
  have hform := qgPayout_formula g a o (le_of_lt ha) ho ho2 hw (by omega) (by omega)
  rw [hform]
  have hN0 : 0 ≤ a * (o : Int) - Int.tdiv (a * ((o : Int) - 10000)) 1000 *
      (g.nFeePermille : Int) := by omega
  rw [Int.tdiv_eq_ediv hN0 (by decide)]
  constructor
  · omega
  · intro h1
    have hz : a * ((o : Int) - 10000) = 0 := by
      rw [h1]; simp
    rw [hz] at *
    have hao : a * (o : Int) = a * 10000 := by rw [h1]; rfl
    rw [hao]
    simp only [Int.zero_tdiv, zero_mul, sub_zero]
    omega

/-- C35: for every quick-games bet that the loop body handles (not completed, valid game
index) with stake a > 0 and a game whose fee permille is at most 1000, when the fee payout
addresses are found and `a * o` fits a signed 64-bit word: handler odds 0 give payout 0,
no output, no record and the stored result type lose; handler odds equal to 10000 give
payout exactly a, one output of value a, the record kind quickGamesRefund and the stored
result type refund; handler odds above 10000 give a payout of at least a, one output of
that value, the record kind quickGamesPayout and the stored result type win. -/
theorem C35_quick_games_outcomes (env : QuickGamesEnv) (H : Int) (st : QGState)
    (k : PeerlessBetKey) (b : CQuickGamesBetDB) (g : CQuickGamesView) (dev omno : List Nat)
    (hc : b.completed = false) (hg : env.QuickGamesArr[b.gameType]? = some g)
    (ha : 0 < b.betAmount) (hp : g.nFeePermille ≤ 1000)
    (haddr : env.GetFeePayoutAddresses H = some (dev, omno))
    (hfit : b.betAmount * (qgOdds env H g b : Int) < 9223372036854775808) :
    (qgOdds env H g b = 0 →
      qgPayout g b.betAmount (qgOdds env H g b) = 0 ∧
      (qgBetStep env H st (k, b)).vExpectedPayouts = st.vExpectedPayouts ∧
      (qgBetStep env H st (k, b)).vPayoutsInfo = st.vPayoutsInfo ∧
      (qgBetStep env H st (k, b)).vEntriesToUpdate = st.vEntriesToUpdate ++
        [(k, qgSettled b BetResultType.betResultLose 0)]) ∧
    (qgOdds env H g b = 10000 →
      qgPayout g b.betAmount (qgOdds env H g b) = b.betAmount ∧
      (qgBetStep env H st (k, b)).vExpectedPayouts = st.vExpectedPayouts ++
        [⟨b.betAmount, env.GetScriptForDestination b.playerAddress, b.betAmount, 0⟩] ∧
      (qgBetStep env H st (k, b)).vPayoutsInfo = st.vPayoutsInfo ++
        [⟨k, PayoutType.quickGamesRefund⟩] ∧
      (qgBetStep env H st (k, b)).vEntriesToUpdate = st.vEntriesToUpdate ++
        [(k, qgSettled b BetResultType.betResultRefund b.betAmount)]) ∧
    (qgOdds env H g b > 10000 →
      qgPayout g b.betAmount (qgOdds env H g b) ≥ b.betAmount ∧
      (qgBetStep env H st (k, b)).vExpectedPayouts = st.vExpectedPayouts ++
        [⟨qgPayout g b.betAmount (qgOdds env H g b),
          env.GetScriptForDestination b.playerAddress, b.betAmount, 0⟩] ∧
      (qgBetStep env H st (k, b)).vPayoutsInfo = st.vPayoutsInfo ++
        [⟨k, PayoutType.quickGamesPayout⟩] ∧
      (qgBetStep env H st (k, b)).vEntriesToUpdate = st.vEntriesToUpdate ++
        [(k, qgSettled b BetResultType.betResultWin
          (qgPayout g b.betAmount (qgOdds env H g b)))]) := by
  obtain ⟨_, hsome, hlose⟩ := qgBetStep_eq env H st k b g hc hg
  have hD : BET_ODDSDIVISOR = 10000 := rfl
  refine ⟨?_, ?_, ?_⟩
  · intro ho
    have hz : qgPayout g b.betAmount (qgOdds env H g b) = 0 := by
      apply qgPayout_nonpos
      rw [ho]
      simp only [Nat.cast_zero, mul_zero]
      decide
    have hnp : ¬ qgPayout g b.betAmount (qgOdds env H g b) > 0 := by rw [hz]; decide
    rw [hlose hnp, hz]
    exact ⟨rfl, rfl, rfl, rfl⟩
  · intro ho
    obtain ⟨hge, heq⟩ := qgPayout_ge_stake g b.betAmount (qgOdds env H g b) ha
      (by omega) (qgOdds_lt env H g b) hfit hp
    have hpa := heq ho
    have hpos : qgPayout g b.betAmount (qgOdds env H g b) > 0 := by omega
    rw [hsome hpos dev omno haddr, hpa]
    simp only [hD, ho, if_true]
    refine ⟨?_, ?_, ?_, ?_⟩ <;> trivial
  · intro ho
    obtain ⟨hge, _⟩ := qgPayout_ge_stake g b.betAmount (qgOdds env H g b) ha
      (by omega) (qgOdds_lt env H g b) hfit hp
    have hpos : qgPayout g b.betAmount (qgOdds env H g b) > 0 := by omega
    have hne : ¬ qgOdds env H g b = BET_ODDSDIVISOR := by rw [hD]; omega
    rw [hsome hpos dev omno haddr]
    simp only [hne, if_false]
    refine ⟨hge, ?_, ?_, ?_⟩ <;> trivial

/-- C35, witness: on the chain `exQGEnv` (fee permille 10) the bet of one coin with the
handler odds 10000 is refunded with exactly one coin, and the bet of 123456789 atoms with
the handler odds 23500 gets a payout that is not below its stake. -/
theorem C35_quick_games_outcomes_witness :
    qgOdds exQGEnv 599 exGame qgRefundBet = 10000 ∧
    qgPayout exGame qgRefundBet.betAmount (qgOdds exQGEnv 599 exGame qgRefundBet) =
      100000000 ∧
    qgOdds exQGEnv 600 exGame qgWinBet > 10000 ∧
    qgPayout exGame qgWinBet.betAmount (qgOdds exQGEnv 600 exGame qgWinBet) ≥ 123456789 :=
  ⟨by decide,
    ((C35_quick_games_outcomes exQGEnv 599 ⟨[], [], [], []⟩ ⟨598, ⟨53, 0⟩⟩ qgRefundBet exGame
      [68] [79] rfl rfl (by decide) (by decide) rfl (by decide)).2.1 (by decide)).1,
    by decide,
    ((C35_quick_games_outcomes exQGEnv 600 ⟨[], [], [], []⟩ ⟨599, ⟨51, 0⟩⟩ qgWinBet exGame
      [68] [79] rfl rfl (by decide) (by decide) rfl (by decide)).2.2 (by decide)).1⟩

/-! ## A parlay with an unresolved leg -/

/-- The leg loop of a parlay clears `completedBet` when one of the legs it runs over has
no stored result. -/
theorem parlayLegs_unresolved (env : Env) (view : CBettingsView) (f : Bool)
    (bet : CPeerlessBetDB) (legs : List CPeerlessLegDB) :
    ∀ (idx : Nat) (st : ParlayState),
      (∃ leg ∈ legs, view.ReadResult leg.nEventId = none) →
      (parlayLegs env view f bet legs idx st).completedBet = false := by
  induction legs with
  | nil => intro idx st h; obtain ⟨leg, hl, _⟩ := h; cases hl
  | cons leg rest ih =>
    intro idx st h
    cases hr : view.ReadResult leg.nEventId with
    | none =>
      rw [parlayLegs]
      simp only [hr]
    | some res =>
      rw [parlayLegs_cons_some env view f bet leg rest idx st res hr]
      apply ih
      obtain ⟨l, hl, hn⟩ := h
      rcases List.mem_cons.mp hl with h1 | h1
      · rw [h1, hr] at hn; cases hn
      · exact ⟨l, h1, hn⟩

/-- The loop body does not complete a parlay that has a leg without stored result. -/
theorem handleBet_unresolved (env : Env) (view : CBettingsView) (H : Int)
    (result : CPeerlessResultDB) (key : PeerlessBetKey) (bet : CPeerlessBetDB)
    (l0 l1 : CPeerlessLegDB) (more : List CPeerlessLegDB)
    (hlegs : bet.legs = l0 :: l1 :: more)
    (hun : ∃ leg ∈ bet.legs, view.ReadResult leg.nEventId = none) :
    handleBet env view H result key bet = none := by
  cases hh : handleBet env view H result key bet with
  | none => rfl
  | some h =>
    rcases (handleBet_some env view H result key bet h hh).2 with
      ⟨leg, hl, _⟩ | ⟨_, _, _, _, _, hdone, _⟩
    · rw [hlegs] at hl; cases hl
    · rw [parlayLegs_unresolved env view (isV3 env H) bet bet.legs 0 parlayStart hun] at hdone
      cases hdone

/-- An entry that the loop body never completes stays in the table through the results
loop, and no handled bet has its key. -/
theorem results_loop_untouched (env : Env) (H : Int) (results0 : List CPeerlessResultDB)
    (e : PeerlessBetKey × CPeerlessBetDB)
    (hnone : ∀ view1 result, view1.results = results0 →
      handleBet env view1 H result e.1 e.2 = none)
    (rs : List CPeerlessResultDB) :
    ∀ st : PLState, st.view.results = results0 →
      (st.view.bets.map (fun x => DbTypeToBytes x.1)).Nodup → e ∈ st.view.bets →
      (∀ h ∈ st.handled, h.key ≠ e.1) →
      e ∈ (rs.foldl (resultStep env H) st).view.bets ∧
      ∀ h ∈ (rs.foldl (resultStep env H) st).handled, h.key ≠ e.1 := by
  induction rs with
  | nil => intro st _ _ he hh; exact ⟨he, hh⟩
  | cons r rs ih =>
    intro st hres hk he hh
    rw [List.foldl_cons]
    obtain ⟨hview, _, _, hhandled⟩ := resultStep_eq env H st r
    have hscan : ∀ h ∈ scanOf env H st r, DbTypeToBytes h.key ≠ DbTypeToBytes e.1 := by
      intro h hm henc
      obtain ⟨_, e2, he2, hhe⟩ := scanOf_mem env H st r h hm
      have hkey := handleBet_key env st.view H r e2.1 e2.2 h hhe
      have hee : e2 = e := entry_eq_of_encoded st.view.bets hk e2 e
        (mem_of_mem_Seek _ _ _ he2) he (by rw [← hkey]; exact henc)
      rw [hee, hnone st.view r hres] at hhe
      cases hhe
    apply ih
    · rw [resultStep_results]; exact hres
    · rw [encoded_keys_congr _ _ (resultStep_keys env H st r)]; exact hk
    · rw [hview]
      simp only [UpdateAll_eq_map]
      apply List.mem_map.mpr
      refine ⟨e, he, finalOf_unmatched _ e ?_⟩
      intro q hq
      obtain ⟨h, hm, hqh⟩ := List.mem_map.mp hq
      rw [← hqh]
      exact hscan h hm
    · intro h hm
      rw [hhandled] at hm
      rcases List.mem_append.mp hm with h1 | h1
      · exact hh h h1
      · intro hke
        exact hscan h h1 (by rw [hke])

/-- C32: in a bets table with distinct encoded keys, for every parlay bet (two or more
legs) of the table that has at least one leg whose event has no result in the store,
whatever the position of that leg and whatever results were posted: the loop body of
GetPLBetPayoutsV3 does not complete the bet for any result; the stored record is in the
table after the call as it was before; the outputs and payout records that the results
loop appends are those of the handled bets, and no handled bet and no payout record of a
handled bet has the key of this bet. -/
theorem C32_unresolved_parlay_untouched (env : Env) (view : CBettingsView) (H : Int)
    (vE : List CBetOut) (vI : List CPayoutInfoDB) (key : PeerlessBetKey)
    (bet : CPeerlessBetDB) (l0 l1 : CPeerlessLegDB) (more : List CPeerlessLegDB)
    (hk : (view.bets.map (fun e => DbTypeToBytes e.1)).Nodup)
    (hmem : (key, bet) ∈ view.bets)
    (hlegs : bet.legs = l0 :: l1 :: more)
    (hun : ∃ leg ∈ bet.legs, view.ReadResult leg.nEventId = none) :
    (∀ result, handleBet env view H result key bet = none) ∧
    (key, bet) ∈ (GetPLBetPayoutsV3 env view H vE vI).1.bets ∧
    (plLoops env view H vE vI).vExpectedPayouts =
      vE ++ (plLoops env view H vE vI).handled.flatMap (fun h => h.outs) ∧
    (plLoops env view H vE vI).vPayoutsInfo =
      vI ++ (plLoops env view H vE vI).handled.flatMap (fun h => h.infos) ∧
    (∀ h ∈ (plLoops env view H vE vI).handled,
      h.key ≠ key ∧ ∀ i ∈ h.infos, i.betKey ≠ key) := by
  have hnone : ∀ view1 result, view1.results = view.results →
      handleBet env view1 H result (key, bet).1 (key, bet).2 = none := by
    intro view1 result hres
    rw [handleBet_congr env view1 view H result key bet hres]
    exact handleBet_unresolved env view H result key bet l0 l1 more hlegs hun
  have hloop := results_loop_untouched env H view.results (key, bet) hnone
    (env.GetPLResults (H - 1))
    { view := view, vExpectedPayouts := vE, vPayoutsInfo := vI,
      effectivePayoutsSum := 0, grossPayoutsSum := 0, handled := [] }
    rfl hk hmem (by intro h hh; cases hh)
  obtain ⟨new, hnew, hout, hinfo, hshape⟩ := results_loop_outputs env H
    (env.GetPLResults (H - 1))
    { view := view, vExpectedPayouts := vE, vPayoutsInfo := vI,
      effectivePayoutsSum := 0, grossPayoutsSum := 0, handled := [] }
  simp only [List.nil_append] at hnew
  refine ⟨fun result => hnone view result rfl, ?_, ?_, ?_, ?_⟩
  · rw [GetPLBetPayoutsV3_view]
    exact hloop.1
  · unfold plLoops
    rw [hout, hnew]
  · unfold plLoops
    rw [hinfo, hnew]
  · intro h hh
    have hkey : h.key ≠ key := hloop.2 h hh
    refine ⟨hkey, ?_⟩
    intro i hi
    have hh2 : h ∈ new := by rw [← hnew]; exact hh
    rcases hshape h hh2 with ⟨_, hinf⟩ | ⟨v, ty, _, hinf, _⟩
    · rw [hinf] at hi; cases hi
    · rw [hinf, List.mem_singleton] at hi
      rw [hi]
      exact hkey

/-- C32, witness: the store holds the two-leg parlay on events 100 and 101 and the result
of event 100 only, which is the result posted at height 600; the payout call for height
601 leaves the record in the table and appends nothing. -/
theorem C32_unresolved_parlay_untouched_witness :
    (c32View.bets.map (fun e => DbTypeToBytes e.1)).Nodup ∧
    (exKey, c3Bet) ∈ c32View.bets ∧
    (∃ leg ∈ c3Bet.legs, c32View.ReadResult leg.nEventId = none) ∧
    exEnv.GetPLResults (601 - 1) = [exResult] ∧
    handleBet exEnv c32View 601 exResult exKey c3Bet = none ∧
    (exKey, c3Bet) ∈ (GetPLBetPayoutsV3 exEnv c32View 601 [] []).1.bets ∧
    (GetPLBetPayoutsV3 exEnv c32View 601 [] []).2.1 = [] :=
  ⟨by decide, by decide, ⟨⟨101, 4⟩, by decide, by decide⟩, by decide,
    (C32_unresolved_parlay_untouched exEnv c32View 601 [] [] exKey c3Bet ⟨100, 1⟩ ⟨101, 4⟩ []
      (by decide) (by decide) rfl ⟨⟨101, 4⟩, by decide, by decide⟩).1 exResult,
    (C32_unresolved_parlay_untouched exEnv c32View 601 [] [] exKey c3Bet ⟨100, 1⟩ ⟨101, 4⟩ []
      (by decide) (by decide) rfl ⟨⟨101, 4⟩, by decide, by decide⟩).2.1,
    by decide⟩

/-! ## The two vectors grow together -/

theorem getD_mem_or_default {α : Type} (d : α) (l : List α) :
    ∀ n : Nat, l.getD n d ∈ l ∨ l.getD n d = d := by
  induction l with
  | nil => intro n; right; rfl
  | cons x xs ih =>
    intro n
    cases n with
    | zero => left; simp
    | succ m =>
      rcases ih m with h | h
      · left; simp only [List.getD_cons_succ]; exact List.mem_cons_of_mem _ h
      · right; simp only [List.getD_cons_succ]; exact h

theorem map_fst_flatMap_zip {α β γ : Type} (f : α → List β) (g : α → List γ) (l : List α)
    (h : ∀ x ∈ l, (f x).length = (g x).length) :
    (l.flatMap (fun x => (f x).zip (g x))).map (fun p => p.1) = l.flatMap f ∧
    (l.flatMap (fun x => (f x).zip (g x))).map (fun p => p.2) = l.flatMap g := by
  induction l with
  | nil => exact ⟨rfl, rfl⟩
  | cons x xs ih =>
    have hx := h x (List.mem_cons_self _ _)
    obtain ⟨i1, i2⟩ := ih (fun y hy => h y (List.mem_cons_of_mem _ hy))
    simp only [List.flatMap_cons, List.map_append]
    rw [i1, i2]
    constructor
    · congr 1
      exact List.map_fst_zip _ _ (le_of_eq hx)
    · congr 1
      exact List.map_snd_zip _ _ (le_of_eq hx.symm)

/-- The reward call appends pairs of a reward output without stake and a reward record
under the zero-outpoint key. -/
theorem GetPLRewardPayoutsV3_pairs (env : Env) (n : Nat) (fee : Int)
    (e : List CBetOut) (i : List CPayoutInfoDB) :
    ∃ pairs : List (CBetOut × CPayoutInfoDB),
      GetPLRewardPayoutsV3 env n fee e i =
        (e ++ pairs.map (fun p => p.1), i ++ pairs.map (fun p => p.2)) ∧
      ∀ p ∈ pairs, p.2 = ⟨⟨n, COutPoint.null⟩, PayoutType.bettingReward⟩ ∧
        p.1.nBetValue = 0 := by
  unfold GetPLRewardPayoutsV3
  cases hs : env.GetFeePayoutScripts n with
  | none =>
    exact ⟨[], by simp, by intro p hp; cases hp⟩
  | some sc =>
    obtain ⟨dev, omno⟩ := sc
    by_cases hd : Int.tdiv (i64 (fee * 1000)) (BET_ODDSDIVISOR : Int) > 0
    · by_cases ho : Int.tdiv (i64 (fee * 4000)) (BET_ODDSDIVISOR : Int) > 0
      · refine ⟨[(⟨Int.tdiv (i64 (fee * 1000)) (BET_ODDSDIVISOR : Int), dev, 0, 0⟩,
            ⟨⟨n, COutPoint.null⟩, PayoutType.bettingReward⟩),
          (⟨Int.tdiv (i64 (fee * 4000)) (BET_ODDSDIVISOR : Int), omno, 0, 0⟩,
            ⟨⟨n, COutPoint.null⟩, PayoutType.bettingReward⟩)], ?_, ?_⟩
        · simp [hd, ho]
        · intro p hp
          simp only [List.mem_cons, List.mem_singleton, List.not_mem_nil, or_false] at hp
          rcases hp with h | h <;> rw [h] <;> exact ⟨rfl, rfl⟩
      · refine ⟨[(⟨Int.tdiv (i64 (fee * 1000)) (BET_ODDSDIVISOR : Int), dev, 0, 0⟩,
            ⟨⟨n, COutPoint.null⟩, PayoutType.bettingReward⟩)], ?_, ?_⟩
        · simp [hd, ho]
        · intro p hp
          simp only [List.mem_singleton] at hp
          rw [hp]; exact ⟨rfl, rfl⟩
    · by_cases ho : Int.tdiv (i64 (fee * 4000)) (BET_ODDSDIVISOR : Int) > 0
      · refine ⟨[(⟨Int.tdiv (i64 (fee * 4000)) (BET_ODDSDIVISOR : Int), omno, 0, 0⟩,
            ⟨⟨n, COutPoint.null⟩, PayoutType.bettingReward⟩)], ?_, ?_⟩
        · simp [hd, ho]
        · intro p hp
          simp only [List.mem_singleton] at hp
          rw [hp]; exact ⟨rfl, rfl⟩
      · exact ⟨[], by simp [hd, ho], by intro p hp; cases hp⟩

/-- The output and the record of a settled bet: none, or one output to the player with
the stored payout and the stake, and one record under the bet's key that is not a reward
record. -/
theorem settleBet_pair (env : Env) (f : Bool) (H : Int) (k : PeerlessBetKey)
    (b : CPeerlessBetDB) (o : Nat × Nat) (fl : LegFlags) :
    ((settleBet env f H k b o fl).outs = [] ∧ (settleBet env f H k b o fl).infos = []) ∨
    ∃ ty, (settleBet env f H k b o fl).outs =
        [⟨(settleBet env f H k b o fl).bet.payout,
          env.GetScriptForDestination (settleBet env f H k b o fl).bet.playerAddress,
          (settleBet env f H k b o fl).bet.betAmount, 0⟩] ∧
      (settleBet env f H k b o fl).infos = [⟨(settleBet env f H k b o fl).key, ty⟩] ∧
      ty ≠ PayoutType.bettingReward := by
  by_cases hp : effectivePayoutOf env f b.betAmount (clampOdds env f b.betAmount o) > 0
  · right
    rw [settleBet_pos env f H k b o fl hp]
    refine ⟨_, rfl, rfl, ?_⟩
    split
    · exact fun h => by cases h
    · exact fun h => by cases h
  · left
    rw [settleBet_nonpos env f H k b o fl hp]
    exact ⟨rfl, rfl⟩

/-- The results loop of `GetPLBetPayoutsV3` appends pairs of an output and its record,
each from a handled bet. -/
theorem plLoops_pairs (env : Env) (view : CBettingsView) (H : Int)
    (vE : List CBetOut) (vI : List CPayoutInfoDB) :
    ∃ pairs : List (CBetOut × CPayoutInfoDB),
      (plLoops env view H vE vI).vExpectedPayouts = vE ++ pairs.map (fun p => p.1) ∧
      (plLoops env view H vE vI).vPayoutsInfo = vI ++ pairs.map (fun p => p.2) ∧
      ∀ p ∈ pairs, p.2.payoutType ≠ PayoutType.bettingReward ∧
        ∃ h ∈ (plLoops env view H vE vI).handled, h.key = p.2.betKey ∧
          p.1.scriptPubKey = env.GetScriptForDestination h.bet.playerAddress ∧
          p.1.nBetValue = h.bet.betAmount ∧ p.1.nValue = h.bet.payout := by
  have hQ := plLoops_handled env view H vE vI
    (fun h => (h.outs = [] ∧ h.infos = []) ∨
      ∃ ty, h.outs = [⟨h.bet.payout, env.GetScriptForDestination h.bet.playerAddress,
          h.bet.betAmount, 0⟩] ∧
        h.infos = [⟨h.key, ty⟩] ∧ ty ≠ PayoutType.bettingReward)
    (by
      intro view1 result k b h _ hh
      obtain ⟨o, fl, hs⟩ := handleBet_settle env view1 H result k b h hh
      rw [hs]
      exact settleBet_pair env (isV3 env H) H k b o fl)
  obtain ⟨new, hnew, hout, hinfo, _⟩ := results_loop_outputs env H
    (env.GetPLResults (H - 1))
    { view := view, vExpectedPayouts := vE, vPayoutsInfo := vI,
      effectivePayoutsSum := 0, grossPayoutsSum := 0, handled := [] }
  simp only [List.nil_append] at hnew
  have hlen : ∀ h ∈ (plLoops env view H vE vI).handled, h.outs.length = h.infos.length := by
    intro h hh
    rcases hQ h hh with ⟨h1, h2⟩ | ⟨ty, h1, h2, _⟩
    · simp only [h1, h2, List.length_nil]
    · simp only [h1, h2, List.length_singleton]
  obtain ⟨z1, z2⟩ := map_fst_flatMap_zip (fun h : HandledBet => h.outs)
    (fun h : HandledBet => h.infos) (plLoops env view H vE vI).handled hlen
  refine ⟨(plLoops env view H vE vI).handled.flatMap (fun h => h.outs.zip h.infos),
    ?_, ?_, ?_⟩
  · rw [z1]
    unfold plLoops
    rw [hout, hnew]
  · rw [z2]
    unfold plLoops
    rw [hinfo, hnew]
  · intro p hp
    obtain ⟨h, hh, hpz⟩ := List.mem_flatMap.mp hp
    rcases hQ h hh with ⟨h1, h2⟩ | ⟨ty, h1, h2, hty⟩
    · rw [h1] at hpz
      simp at hpz
    · rw [h1, h2] at hpz
      simp only [List.zip_cons_cons, List.zip_nil_right, List.mem_singleton] at hpz
      rw [hpz]
      exact ⟨hty, h, hh, rfl, rfl, rfl, rfl⟩
theorem cgCandidatesOf_stake (env : Env) (view : CBettingsView) (H : Int)
    (cgEvent : CChainGamesEventDB) (result : CChainGamesResultDB)
    (c : PeerlessBetKey × CChainGamesBetDB)
    (hc : c ∈ cgCandidatesOf env view H cgEvent result) :
    (c.1, c.2.playerAddress, (cgEvent.nEntryFee : Int) * COIN) ∈
      view.chainGamesLottoBets.map (fun e => (e.1, e.2.playerAddress, e.2.betAmount)) := by
  unfold cgCandidatesOf at hc
  obtain ⟨e, he, hce, _, _, hfee⟩ := cgCandidates_mem _ result _ c hc
  apply List.mem_map.mpr
  refine ⟨e, mem_of_mem_Seek _ _ _ he, ?_⟩
  rw [hce, hfee]

/-- One chain-games result appends pairs of an output and a record that describes it. -/
theorem cgResultStep_pairs (env : Env) (view : CBettingsView) (H : Int) (st : CGState)
    (result : CChainGamesResultDB) :
    ∃ b : List (CBetOut × CPayoutInfoDB),
      (cgResultStep env view H st result).vExpectedPayouts =
        st.vExpectedPayouts ++ b.map (fun p => p.1) ∧
      (cgResultStep env view H st result).vPayoutsInfo =
        st.vPayoutsInfo ++ b.map (fun p => p.2) ∧
      ∀ p ∈ b, describesOutput env.GetScriptForDestination ⟨u32OfInt H, COutPoint.null⟩
        PayoutType.chainGamesReward
        (view.chainGamesLottoBets.map (fun e => (e.1, e.2.playerAddress, e.2.betAmount))) p := by
  cases hr : view.ReadCGEvent result.nEventId with
  | none =>
    refine ⟨[], ?_, ?_, fun p hp => by cases hp⟩ <;> simp [cgResultStep, hr]
  | some cgEvent =>
    cases hc : cgCandidatesOf env view H cgEvent result with
    | nil =>
      refine ⟨[], ?_, ?_, fun p hp => by cases hp⟩ <;> simp [cgResultStep, hr, hc]
    | cons c0 rest =>
      have hmem : ∀ c ∈ c0 :: rest,
          (c.1, c.2.playerAddress, (cgEvent.nEntryFee : Int) * COIN) ∈
            view.chainGamesLottoBets.map (fun e => (e.1, e.2.playerAddress, e.2.betAmount)) := by
        intro c hcm
        exact cgCandidatesOf_stake env view H cgEvent result c (by rw [hc]; exact hcm)
      cases rest with
      | nil =>
        by_cases hp : (cgEvent.nEntryFee : Int) * COIN > 0
        · refine ⟨[(⟨(cgEvent.nEntryFee : Int) * COIN,
              env.GetScriptForDestination c0.2.playerAddress, (cgEvent.nEntryFee : Int) * COIN,
              result.nEventId⟩, ⟨c0.1, PayoutType.chainGamesRefund⟩)],
            ?_, ?_, ?_⟩
          · simp only [cgResultStep, hr, hc, if_pos hp]; rfl
          · simp only [cgResultStep, hr, hc, if_pos hp]; rfl
          · intro p hpm
            rw [List.mem_singleton] at hpm
            rw [hpm]
            exact Or.inr ⟨(fun h => by cases h), _, hmem c0 (List.mem_cons_self _ _),
              rfl, rfl, rfl⟩
        · refine ⟨[], ?_, ?_, fun p hp => by cases hp⟩ <;>
            simp only [cgResultStep, hr, hc, if_neg hp, List.map_nil, List.append_nil]
      | cons c1 cs =>
        by_cases hp : cgWinnerPayout (cgTotalPot (cgHash env (H - 1)) (c0 :: c1 :: cs).length
            ((cgEvent.nEntryFee : Int) * COIN)) > 0
        · cases hs : env.GetFeePayoutScripts (u32OfInt H) with
          | none =>
            refine ⟨[], ?_, ?_, fun p hp => by cases hp⟩ <;>
              simp only [cgResultStep, hr, hc, if_pos hp, hs, List.map_nil, List.append_nil]
          | some sc =>
            obtain ⟨dev, omno⟩ := sc
            have hw : (c0 :: c1 :: cs).getD
                (cgWinnerNr (cgHash env (H - 1)) (c0 :: c1 :: cs).length) c0 ∈
                c0 :: c1 :: cs := by
              rcases getD_mem_or_default c0 (c0 :: c1 :: cs)
                (cgWinnerNr (cgHash env (H - 1)) (c0 :: c1 :: cs).length) with h | h
              · exact h
              · rw [h]; exact List.mem_cons_self _ _
            refine ⟨[(⟨cgWinnerPayout (cgTotalPot (cgHash env (H - 1)) (c0 :: c1 :: cs).length
                  ((cgEvent.nEntryFee : Int) * COIN)),
                env.GetScriptForDestination
                  ((c0 :: c1 :: cs).getD
                    (cgWinnerNr (cgHash env (H - 1)) (c0 :: c1 :: cs).length) c0).2.playerAddress,
                (cgEvent.nEntryFee : Int) * COIN, result.nEventId⟩,
                ⟨((c0 :: c1 :: cs).getD
                    (cgWinnerNr (cgHash env (H - 1)) (c0 :: c1 :: cs).length) c0).1,
                  PayoutType.chainGamesPayout⟩),
              (⟨cgFee (cgTotalPot (cgHash env (H - 1)) (c0 :: c1 :: cs).length
                  ((cgEvent.nEntryFee : Int) * COIN)), omno, 0, 0⟩,
                ⟨⟨u32OfInt H, COutPoint.null⟩, PayoutType.chainGamesReward⟩)],
              ?_, ?_, ?_⟩
            · simp only [cgResultStep, hr, hc, if_pos hp, hs]; rfl
            · simp only [cgResultStep, hr, hc, if_pos hp, hs]; rfl
            · intro p hpm
              simp only [List.mem_cons, List.mem_singleton, List.not_mem_nil, or_false] at hpm
              rcases hpm with h | h
              · rw [h]
                exact Or.inr ⟨(fun h => by cases h), _, hmem _ hw, rfl, rfl, rfl⟩
              · rw [h]
                exact Or.inl ⟨rfl, rfl, rfl⟩
        · refine ⟨[], ?_, ?_, fun p hp => by cases hp⟩ <;>
            simp only [cgResultStep, hr, hc, if_neg hp, List.map_nil, List.append_nil]

theorem cg_fold_pairs (env : Env) (view : CBettingsView) (H : Int)
    (rs : List CChainGamesResultDB) :
    ∀ st : CGState, ∃ pairs : List (CBetOut × CPayoutInfoDB),
      (rs.foldl (cgResultStep env view H) st).vExpectedPayouts =
        st.vExpectedPayouts ++ pairs.map (fun p => p.1) ∧
      (rs.foldl (cgResultStep env view H) st).vPayoutsInfo =
        st.vPayoutsInfo ++ pairs.map (fun p => p.2) ∧
      ∀ p ∈ pairs, describesOutput env.GetScriptForDestination ⟨u32OfInt H, COutPoint.null⟩
        PayoutType.chainGamesReward
        (view.chainGamesLottoBets.map (fun e => (e.1, e.2.playerAddress, e.2.betAmount))) p := by
  induction rs with
  | nil => intro st; exact ⟨[], by simp, by simp, fun p hp => by cases hp⟩
  | cons r rs ih =>
    intro st
    obtain ⟨b, hb1, hb2, hb3⟩ := cgResultStep_pairs env view H st r
    obtain ⟨ps, hp1, hp2, hp3⟩ := ih (cgResultStep env view H st r)
    refine ⟨b ++ ps, ?_, ?_, ?_⟩
    · rw [List.foldl_cons, hp1, hb1, List.map_append, List.append_assoc]
    · rw [List.foldl_cons, hp2, hb2, List.map_append, List.append_assoc]
    · intro p hp
      rcases List.mem_append.mp hp with h | h
      · exact hb3 p h
      · exact hp3 p h

/-- One pass of the quick-games loop body appends nothing or the pair of the output and
the record of the bet. -/
theorem qgBetStep_pairs (env : QuickGamesEnv) (H : Int) (st : QGState)
    (e : PeerlessBetKey × CQuickGamesBetDB) :
    ∃ b : List (CBetOut × CPayoutInfoDB),
      (qgBetStep env H st e).vExpectedPayouts = st.vExpectedPayouts ++ b.map (fun p => p.1) ∧
      (qgBetStep env H st e).vPayoutsInfo = st.vPayoutsInfo ++ b.map (fun p => p.2) ∧
      ∀ p ∈ b, p.2.payoutType ≠ PayoutType.quickGamesReward ∧ p.2.betKey = e.1 ∧
        p.1.scriptPubKey = env.GetScriptForDestination e.2.playerAddress ∧
        p.1.nBetValue = e.2.betAmount := by
  obtain ⟨k, b⟩ := e
  by_cases hc : b.completed = true
  · rw [qgBetStep_skip env H st k b (Or.inl hc)]
    exact ⟨[], by simp, by simp, fun p hp => by cases hp⟩
  · have hc2 : b.completed = false := by simpa using hc
    cases hg : env.QuickGamesArr[b.gameType]? with
    | none =>
      rw [qgBetStep_skip env H st k b (Or.inr hg)]
      exact ⟨[], by simp, by simp, fun p hp => by cases hp⟩
    | some g =>
      obtain ⟨hnone, hsome, hlose⟩ := qgBetStep_eq env H st k b g hc2 hg
      by_cases hp : qgPayout g b.betAmount (qgOdds env H g b) > 0
      · cases ha : env.GetFeePayoutAddresses H with
        | none =>
          rw [hnone hp ha]
          exact ⟨[], by simp, by simp, fun p hp => by cases hp⟩
        | some ad =>
          rw [hsome hp ad.1 ad.2 ha]
          refine ⟨[(⟨qgPayout g b.betAmount (qgOdds env H g b),
              env.GetScriptForDestination b.playerAddress, b.betAmount, 0⟩,
            ⟨k, if qgOdds env H g b = BET_ODDSDIVISOR then PayoutType.quickGamesRefund
              else PayoutType.quickGamesPayout⟩)], rfl, rfl, ?_⟩
          intro p hpm
          rw [List.mem_singleton] at hpm
          rw [hpm]
          refine ⟨?_, rfl, rfl, rfl⟩
          simp only []
          split
          · exact fun h => by cases h
          · exact fun h => by cases h
      · rw [hlose hp]
        exact ⟨[], by simp, by simp, fun p hp => by cases hp⟩

theorem qg_fold_pairs (env : QuickGamesEnv) (H : Int)
    (es : List (PeerlessBetKey × CQuickGamesBetDB)) :
    ∀ st : QGState, ∃ pairs : List (CBetOut × CPayoutInfoDB),
      (es.foldl (qgBetStep env H) st).vExpectedPayouts =
        st.vExpectedPayouts ++ pairs.map (fun p => p.1) ∧
      (es.foldl (qgBetStep env H) st).vPayoutsInfo =
        st.vPayoutsInfo ++ pairs.map (fun p => p.2) ∧
      ∀ p ∈ pairs, p.2.payoutType ≠ PayoutType.quickGamesReward ∧
        ∃ e ∈ es, p.2.betKey = e.1 ∧
          p.1.scriptPubKey = env.GetScriptForDestination e.2.playerAddress ∧
          p.1.nBetValue = e.2.betAmount := by
  induction es with
  | nil => intro st; exact ⟨[], by simp, by simp, fun p hp => by cases hp⟩
  | cons e es ih =>
    intro st
    obtain ⟨b, hb1, hb2, hb3⟩ := qgBetStep_pairs env H st e
    obtain ⟨ps, hp1, hp2, hp3⟩ := ih (qgBetStep env H st e)
    refine ⟨b ++ ps, ?_, ?_, ?_⟩
    · rw [List.foldl_cons, hp1, hb1, List.map_append, List.append_assoc]
    · rw [List.foldl_cons, hp2, hb2, List.map_append, List.append_assoc]
    · intro p hp
      rcases List.mem_append.mp hp with h | h
      · obtain ⟨h1, h2, h3, h4⟩ := hb3 p h
        exact ⟨h1, e, List.mem_cons_self _ _, h2, h3, h4⟩
      · obtain ⟨h1, e1, he1, h2⟩ := hp3 p h
        exact ⟨h1, e1, List.mem_cons_of_mem _ he1, h2⟩

/-- The call `GetQuickGamesBetPayouts` appends pairs of an output and a record that
describes it: those of the paid bets, then those of the rewards. -/
theorem GetQuickGamesBetPayouts_pairs (env : QuickGamesEnv)
    (t : List (PeerlessBetKey × CQuickGamesBetDB)) (H : Int) (vE : List CBetOut)
    (vI : List CPayoutInfoDB) :
    ∃ pairs : List (CBetOut × CPayoutInfoDB),
      (GetQuickGamesBetPayouts env t H vE vI).2.1 = vE ++ pairs.map (fun p => p.1) ∧
      (GetQuickGamesBetPayouts env t H vE vI).2.2 = vI ++ pairs.map (fun p => p.2) ∧
      ∀ p ∈ pairs, describesOutput env.GetScriptForDestination ⟨u32OfInt H, COutPoint.null⟩
        PayoutType.quickGamesReward
        (t.map (fun e => (e.1, e.2.playerAddress, e.2.betAmount))) p := by
  unfold GetQuickGamesBetPayouts
  by_cases hend : H - 1 ≥ env.QuickGamesEndHeight
  · rw [if_pos hend]
    exact ⟨[], by simp, by simp, fun p hp => by cases hp⟩
  · rw [if_neg hend]
    obtain ⟨ps, hp1, hp2, hp3⟩ := qg_fold_pairs env H (qgVisited H t)
      { vExpectedPayouts := vE, vPayoutsInfo := vI, mExpectedRewards := [],
        vEntriesToUpdate := [] }
    refine ⟨ps ++ (qgLoop env t H vE vI).mExpectedRewards.map (fun reward =>
        ((⟨reward.2, env.GetScriptForDestination (env.DecodeDestination reward.1), 0, 0⟩ :
            CBetOut),
          (⟨⟨u32OfInt H, COutPoint.null⟩, PayoutType.quickGamesReward⟩ : CPayoutInfoDB))),
      ?_, ?_, ?_⟩
    · simp only [List.map_append, List.map_map, ← List.append_assoc]
      congr 1
    · simp only [List.map_append, List.map_map, ← List.append_assoc]
      congr 1
    · intro p hp
      rcases List.mem_append.mp hp with h | h
      · obtain ⟨h1, e, he, h2, h3, h4⟩ := hp3 p h
        refine Or.inr ⟨h1, (e.1, e.2.playerAddress, e.2.betAmount), ?_, h2.symm, h3, h4⟩
        exact List.mem_map.mpr ⟨e, (mem_of_mem_qgVisited H t e he).1, rfl⟩
      · obtain ⟨r, _, hr⟩ := List.mem_map.mp h
        rw [← hr]
        exact Or.inl ⟨rfl, rfl, rfl⟩
/-- C34: each of GetPLRewardPayoutsV3, GetPLBetPayoutsV3, GetCGLottoBetPayoutsV3 and
GetQuickGamesBetPayouts appends to the payout vector and to the payout-info vector the two
components of one list of pairs (output, record), so the same number of entries on every
path, and in each pair the record describes the output: a reward record (zero-outpoint
key of the payout height) goes with an output without stake, and every other record
carries the key of a bet to whose player the output goes and whose stake the output
carries.  Before v3 GetPLBetPayoutsV3 ends with the call of GetPLRewardPayoutsV2, whose
entries follow the pairs.  So when the two vectors have equal length before a call (and
GetPLRewardPayoutsV2 returns as many outputs as records) they have equal length after
it. -/
theorem C34_vectors_grow_together (env : QuickGamesEnv) (view : CBettingsView)
    (quickGamesBets : List (PeerlessBetKey × CQuickGamesBetDB)) (H : Int) (n : Nat)
    (fee : Int) (vE : List CBetOut) (vI : List CPayoutInfoDB) :
    (∃ pairs : List (CBetOut × CPayoutInfoDB),
      GetPLRewardPayoutsV3 env.toEnv n fee vE vI =
        (vE ++ pairs.map (fun p => p.1), vI ++ pairs.map (fun p => p.2)) ∧
      ∀ p ∈ pairs, describesOutput env.GetScriptForDestination ⟨n, COutPoint.null⟩
        PayoutType.bettingReward [] p) ∧
    (∃ pairs : List (CBetOut × CPayoutInfoDB),
      (GetPLBetPayoutsV3 env.toEnv view H vE vI).2.1 =
        vE ++ pairs.map (fun p => p.1) ++
          (if H - 1 ≥ env.WagerrProtocolV3StartHeight then []
            else (env.GetPLRewardPayoutsV2 H).1) ∧
      (GetPLBetPayoutsV3 env.toEnv view H vE vI).2.2 =
        vI ++ pairs.map (fun p => p.2) ++
          (if H - 1 ≥ env.WagerrProtocolV3StartHeight then []
            else (env.GetPLRewardPayoutsV2 H).2) ∧
      ∀ p ∈ pairs, describesOutput env.GetScriptForDestination
        ⟨u32OfInt H, COutPoint.null⟩ PayoutType.bettingReward
        ((plLoops env.toEnv view H vE vI).handled.map
          (fun h => (h.key, h.bet.playerAddress, h.bet.betAmount))) p) ∧
    (∃ pairs : List (CBetOut × CPayoutInfoDB),
      (GetCGLottoBetPayoutsV3 env.toEnv view H vE vI).2.1 = vE ++ pairs.map (fun p => p.1) ∧
      (GetCGLottoBetPayoutsV3 env.toEnv view H vE vI).2.2 = vI ++ pairs.map (fun p => p.2) ∧
      ∀ p ∈ pairs, describesOutput env.GetScriptForDestination
        ⟨u32OfInt H, COutPoint.null⟩ PayoutType.chainGamesReward
        (view.chainGamesLottoBets.map (fun e => (e.1, e.2.playerAddress, e.2.betAmount))) p) ∧
    (∃ pairs : List (CBetOut × CPayoutInfoDB),
      (GetQuickGamesBetPayouts env quickGamesBets H vE vI).2.1 =
        vE ++ pairs.map (fun p => p.1) ∧
      (GetQuickGamesBetPayouts env quickGamesBets H vE vI).2.2 =
        vI ++ pairs.map (fun p => p.2) ∧
      ∀ p ∈ pairs, describesOutput env.GetScriptForDestination
        ⟨u32OfInt H, COutPoint.null⟩ PayoutType.quickGamesReward
        (quickGamesBets.map (fun e => (e.1, e.2.playerAddress, e.2.betAmount))) p) ∧
    (vE.length = vI.length →
      (env.GetPLRewardPayoutsV2 H).1.length = (env.GetPLRewardPayoutsV2 H).2.length →
      (GetPLRewardPayoutsV3 env.toEnv n fee vE vI).1.length =
        (GetPLRewardPayoutsV3 env.toEnv n fee vE vI).2.length ∧
      (GetPLBetPayoutsV3 env.toEnv view H vE vI).2.1.length =
        (GetPLBetPayoutsV3 env.toEnv view H vE vI).2.2.length ∧
      (GetCGLottoBetPayoutsV3 env.toEnv view H vE vI).2.1.length =
        (GetCGLottoBetPayoutsV3 env.toEnv view H vE vI).2.2.length ∧
      (GetQuickGamesBetPayouts env quickGamesBets H vE vI).2.1.length =
        (GetQuickGamesBetPayouts env quickGamesBets H vE vI).2.2.length) := by
  have hrew : ∃ pairs : List (CBetOut × CPayoutInfoDB),
      GetPLRewardPayoutsV3 env.toEnv n fee vE vI =
        (vE ++ pairs.map (fun p => p.1), vI ++ pairs.map (fun p => p.2)) ∧
      ∀ p ∈ pairs, describesOutput env.GetScriptForDestination ⟨n, COutPoint.null⟩
        PayoutType.bettingReward [] p := by
    obtain ⟨ps, h1, h2⟩ := GetPLRewardPayoutsV3_pairs env.toEnv n fee vE vI
    refine ⟨ps, h1, ?_⟩
    intro p hp
    obtain ⟨h3, h4⟩ := h2 p hp
    exact Or.inl ⟨by rw [h3], by rw [h3], h4⟩
  have hpl : ∃ pairs : List (CBetOut × CPayoutInfoDB),
      (GetPLBetPayoutsV3 env.toEnv view H vE vI).2.1 =
        vE ++ pairs.map (fun p => p.1) ++
          (if H - 1 ≥ env.WagerrProtocolV3StartHeight then []
            else (env.GetPLRewardPayoutsV2 H).1) ∧
      (GetPLBetPayoutsV3 env.toEnv view H vE vI).2.2 =
        vI ++ pairs.map (fun p => p.2) ++
          (if H - 1 ≥ env.WagerrProtocolV3StartHeight then []
            else (env.GetPLRewardPayoutsV2 H).2) ∧
      ∀ p ∈ pairs, describesOutput env.GetScriptForDestination
        ⟨u32OfInt H, COutPoint.null⟩ PayoutType.bettingReward
        ((plLoops env.toEnv view H vE vI).handled.map
          (fun h => (h.key, h.bet.playerAddress, h.bet.betAmount))) p := by
    obtain ⟨ps, hp1, hp2, hp3⟩ := plLoops_pairs env.toEnv view H vE vI
    have hdesc : ∀ p ∈ ps, describesOutput env.GetScriptForDestination
        ⟨u32OfInt H, COutPoint.null⟩ PayoutType.bettingReward
        ((plLoops env.toEnv view H vE vI).handled.map
          (fun h => (h.key, h.bet.playerAddress, h.bet.betAmount))) p := by
      intro p hp
      obtain ⟨hty, h, hh, hk, hs, hb, _⟩ := hp3 p hp
      exact Or.inr ⟨hty, (h.key, h.bet.playerAddress, h.bet.betAmount),
        List.mem_map.mpr ⟨h, hh, rfl⟩, hk, hs, hb⟩
    unfold GetPLBetPayoutsV3
    by_cases hv : H - 1 ≥ env.WagerrProtocolV3StartHeight
    · obtain ⟨rs, hr1, hr2⟩ := GetPLRewardPayoutsV3_pairs env.toEnv (u32OfInt H)
        (feePool (plLoops env.toEnv view H vE vI))
        (plLoops env.toEnv view H vE vI).vExpectedPayouts
        (plLoops env.toEnv view H vE vI).vPayoutsInfo
      refine ⟨ps ++ rs, ?_, ?_, ?_⟩
      · simp only [hv, if_true]
        rw [hr1]
        simp only [hp1, List.map_append, List.append_assoc, List.append_nil]
      · simp only [hv, if_true]
        rw [hr1]
        simp only [hp2, List.map_append, List.append_assoc, List.append_nil]
      · intro p hp
        rcases List.mem_append.mp hp with h | h
        · exact hdesc p h
        · obtain ⟨h3, h4⟩ := hr2 p h
          exact Or.inl ⟨by rw [h3], by rw [h3], h4⟩
    · refine ⟨ps, ?_, ?_, hdesc⟩
      · simp only [hv, if_false, hp1]
      · simp only [hv, if_false, hp2]
  have hcg : ∃ pairs : List (CBetOut × CPayoutInfoDB),
      (GetCGLottoBetPayoutsV3 env.toEnv view H vE vI).2.1 = vE ++ pairs.map (fun p => p.1) ∧
      (GetCGLottoBetPayoutsV3 env.toEnv view H vE vI).2.2 = vI ++ pairs.map (fun p => p.2) ∧
      ∀ p ∈ pairs, describesOutput env.GetScriptForDestination
        ⟨u32OfInt H, COutPoint.null⟩ PayoutType.chainGamesReward
        (view.chainGamesLottoBets.map (fun e => (e.1, e.2.playerAddress, e.2.betAmount)))
        p := by
    obtain ⟨ps, hp1, hp2, hp3⟩ := cg_fold_pairs env.toEnv view H
      (env.GetCGLottoEventResults (H - 1))
      { vExpectedPayouts := vE, vPayoutsInfo := vI, vEntriesToUpdate := [] }
    exact ⟨ps, hp1, hp2, hp3⟩
  have hqg := GetQuickGamesBetPayouts_pairs env quickGamesBets H vE vI
  refine ⟨hrew, hpl, hcg, hqg, ?_⟩
  intro hlen hv2
  obtain ⟨p1, h11, _⟩ := hrew
  obtain ⟨p2, h21, h22, _⟩ := hpl
  obtain ⟨p3, h31, h32, _⟩ := hcg
  obtain ⟨p4, h41, h42, _⟩ := hqg
  refine ⟨?_, ?_, ?_, ?_⟩
  · rw [h11]
    simp only [List.length_append, List.length_map, hlen]
  · rw [h21, h22]
    by_cases hv : H - 1 ≥ env.WagerrProtocolV3StartHeight
    · simp only [hv, if_true, List.length_append, List.length_map, List.length_nil, hlen]
    · simp only [hv, if_false, List.length_append, List.length_map, hlen, hv2]
  · rw [h31, h32]
    simp only [List.length_append, List.length_map, hlen]
  · rw [h41, h42]
    simp only [List.length_append, List.length_map, hlen]

/-- C34, witness: the quick-games payout call for height 600 on the table `qgTable`
appends three outputs and three records, and the peerless payout call for height 601 on
`exView`, started with one entry in each vector, returns vectors of equal length. -/
theorem C34_vectors_grow_together_witness :
    (GetQuickGamesBetPayouts exQGEnv qgTable 600 [] []).2.1.length = 3 ∧
    (GetQuickGamesBetPayouts exQGEnv qgTable 600 [] []).2.1.length =
      (GetQuickGamesBetPayouts exQGEnv qgTable 600 [] []).2.2.length ∧
    (GetPLBetPayoutsV3 exQGEnv.toEnv exView 601 [⟨5, [9], 0, 0⟩]
        [⟨⟨601, COutPoint.null⟩, PayoutType.chainGamesReward⟩]).2.1.length =
      (GetPLBetPayoutsV3 exQGEnv.toEnv exView 601 [⟨5, [9], 0, 0⟩]
        [⟨⟨601, COutPoint.null⟩, PayoutType.chainGamesReward⟩]).2.2.length :=
  ⟨by decide,
    ((C34_vectors_grow_together exQGEnv exView qgTable 600 600 0 [] []).2.2.2.2
      rfl rfl).2.2.2,
    ((C34_vectors_grow_together exQGEnv exView qgTable 601 601 0 [⟨5, [9], 0, 0⟩]
      [⟨⟨601, COutPoint.null⟩, PayoutType.chainGamesReward⟩]).2.2.2.2 rfl rfl).2.1⟩

end Wagerr
